import Mathlib

/-!
NetworkDebuggerApp: the DNS wire codec.

A shallow embedding of the byte cursor (`deserializer.js`), the byte writer
(`serializer.js`), the message model (`dnspacket.js`, `dnsrecord*.js`), the name
compression resolver (`responselabelpointmanager.js`) and the message codec
(`dnspacketserializer.js`, `dnspacketdeserializer.js`), followed by the properties
proved about them.

JavaScript numbers are modelled by `JSVal` (an integer, `NaN` or `undefined`),
strings by their list of UTF-16 code units, typed arrays by lists of bytes.
A result `none` of a function that takes `fuel` means that the evaluation did not
finish within that many loop iterations and calls.
-/

namespace ndebug

/-! ## JavaScript values -/

/-- The JavaScript values that the codec computes with: `undefined` (a read
outside a typed array), `NaN`, or an integral number. -/
inductive JSVal where
  | undefined
  | nan
  | num (n : Int)
  deriving DecidableEq, Repr

/-- A JavaScript string, as the list of its UTF-16 code units. -/
abbrev JSString := List Nat

/-- The code units of a string literal (exact for characters of the basic plane). -/
def str (s : String) : JSString := s.toList.map Char.toNat

/-- ECMAScript `ToInt32` on an integer: reduce modulo 2^32 into the signed range. -/
def wrapInt32 (n : Int) : Int :=
  let m := n % 4294967296
  if 2147483648 ≤ m then m - 4294967296 else m

namespace JSVal

/-- ECMAScript `ToInt32`: `NaN` and `undefined` become 0. -/
def toInt32 : JSVal → Int
  | num n => wrapInt32 n
  | _ => 0

/-- The operator `v << k` (for 0 ≤ k < 32). -/
def shl (v : JSVal) (k : Nat) : JSVal := num (wrapInt32 (v.toInt32 * 2 ^ k))

/-- The operator `v >> k` (for 0 ≤ k < 32). -/
def shr (v : JSVal) (k : Nat) : JSVal := num (v.toInt32 / 2 ^ k)

/-- The operator `a & b`: the bitwise and of the two 32-bit two's complement
patterns, read back as a signed 32-bit integer. -/
def band (a b : JSVal) : JSVal :=
  num (wrapInt32 (Nat.land (a.toInt32 % 4294967296).toNat (b.toInt32 % 4294967296).toNat))

/-- The operator `a + b` on numbers; `undefined` converts to `NaN`. -/
def add : JSVal → JSVal → JSVal
  | num a, num b => num (a + b)
  | _, _ => nan

/-- The operator `a - b` on numbers. -/
def sub : JSVal → JSVal → JSVal
  | num a, num b => num (a - b)
  | _, _ => nan

/-- ECMAScript `ToBoolean`. -/
def truthy : JSVal → Bool
  | num n => n != 0
  | _ => false

/-- The relation `a < b` on numbers (false as soon as one side is `NaN`). -/
def lt : JSVal → JSVal → Bool
  | num a, num b => decide (a < b)
  | _, _ => false

/-- The relation `a >= b` on numbers (false as soon as one side is `NaN`). -/
def ge : JSVal → JSVal → Bool
  | num a, num b => decide (b ≤ a)
  | _, _ => false

/-- ECMAScript `ToIntegerOrInfinity` on the values at hand: `NaN` and
`undefined` become 0. -/
def toInteger : JSVal → Int
  | num n => n
  | _ => 0

/-- ECMAScript `ToUint16`. -/
def toUint16 : JSVal → Nat
  | num n => (n % 65536).toNat
  | _ => 0

/-- ECMAScript `ToUint8`, the conversion applied by a store into a `Uint8Array`. -/
def toUint8 : JSVal → Nat
  | num n => (n % 256).toNat
  | _ => 0

/-- The number of times a loop `for (i = 0; i < v; ++i)` runs its body. -/
def iterations : JSVal → Nat
  | num n => n.toNat
  | _ => 0

/-- Number to string conversion: decimal digits, `NaN`, `undefined`. -/
def toStr : JSVal → JSString
  | num n => if n < 0 then 45 :: (Nat.toDigits 10 n.natAbs).map Char.toNat
             else (Nat.toDigits 10 n.natAbs).map Char.toNat
  | nan => [78, 97, 78]
  | undefined => [117, 110, 100, 101, 102, 105, 110, 101, 100]

end JSVal

/-- The function `String.fromCharCode(v)`. -/
def fromCharCode (v : JSVal) : JSString := [v.toUint16]

/-- The method `Array.prototype.join('.')` on an array of strings. -/
def joinDot (parts : List JSString) : JSString := List.intercalate [46] parts

/-- The method `Array.prototype.join('.')` on an array of numbers: `undefined`
elements give the empty string. -/
def joinDotVals (vals : List JSVal) : JSString :=
  joinDot (vals.map fun v => match v with
    | JSVal.undefined => []
    | w => w.toStr)

/-- Clamp a relative index of `subarray` into `0..len`. -/
def clampIndex (len : Nat) (i : Int) : Nat :=
  if i < 0 then (len + i).toNat else min i.toNat len

/-- The method `Uint8Array.prototype.subarray(b, e)`; an `undefined` end stands
for the length of the array. -/
def subarray (view : List Nat) (b e : JSVal) : List Nat :=
  let bi := clampIndex view.length b.toInteger
  let ei := match e with
    | JSVal.undefined => view.length
    | w => clampIndex view.length w.toInteger
  (view.drop bi).take (ei - bi)

/-- The element read `view[i]`: `undefined` outside the array. -/
def elementGet (view : List Nat) : JSVal → JSVal
  | JSVal.num i =>
    if 0 ≤ i then
      match view[i.toNat]? with
      | some b => JSVal.num b
      | none => JSVal.undefined
    else JSVal.undefined
  | _ => JSVal.undefined

/-! ## deserializer.js -/

/-- The class `ndebug.Deserializer`: a typed array and a read position. -/
structure Deserializer where
  view_ : List Nat
  loc_ : JSVal
  deriving DecidableEq, Repr

namespace Deserializer

/-- The constructor `new ndebug.Deserializer(arrBinaryData)`. -/
def new (arrBinaryData : List Nat) : Deserializer := ⟨arrBinaryData, JSVal.num 0⟩

/-- The method `isEOF`: `this.loc_ >= this.view_.byteLength`. -/
def isEOF (d : Deserializer) : Bool := d.loc_.ge (JSVal.num d.view_.length)

/-- The method `slice(length)`. -/
def slice (d : Deserializer) (length : JSVal) : List Nat × Deserializer :=
  let view := subarray d.view_ d.loc_ (d.loc_.add length)
  (view, { d with loc_ := d.loc_.add length })

/-- The method `getByte`. -/
def getByte (d : Deserializer) : JSVal × Deserializer :=
  let d1 := { d with loc_ := d.loc_.add (JSVal.num 1) }
  (elementGet d1.view_ (d1.loc_.sub (JSVal.num 1)), d1)

/-- The method `getShort`: `(this.getByte() << 8) + this.getByte()`. -/
def getShort (d : Deserializer) : JSVal × Deserializer :=
  let (a, d1) := d.getByte
  let (b, d2) := d1.getByte
  ((a.shl 8).add b, d2)

/-- The method `getLong`: `(this.getShort() << 16) + this.getShort()`. -/
def getLong (d : Deserializer) : JSVal × Deserializer :=
  let (a, d1) := d.getShort
  let (b, d2) := d1.getShort
  ((a.shl 16).add b, d2)

/-- The method `getBytesRead`. -/
def getBytesRead (d : Deserializer) : JSVal := d.loc_

/-- The method `getTotalBytes`. -/
def getTotalBytes (d : Deserializer) : Nat := d.view_.length

end Deserializer

/-! ## responselabelpointmanager.js and the name parser -/

/-- The class `ndebug.RespLabelPtManager`: a view of the full response. -/
structure RespLabelPtManager where
  view_ : List Nat
  deriving DecidableEq, Repr

/-- The inner loop of `parseName`: `while (len-- > 0) v += fromCharCode(getByte())`. -/
def parseLabel : Nat → Deserializer → JSString → JSString × Deserializer
  | 0, d, v => (v, d)
  | len + 1, d, v =>
    let (nextByte, d1) := d.getByte
    parseLabel len d1 (v ++ fromCharCode nextByte)

mutual

/-- The loop `for (;;)` of `DNSPacketDeserializer.prototype.parseName`, with the
array `parts` built so far. One unit of fuel is spent per iteration. -/
def parseNameLoop : Nat → RespLabelPtManager → Deserializer → List JSString →
    Option (JSString × Deserializer)
  | 0, _, _, _ => none
  | fuel + 1, lblPtManager, nameDeserializer, parts =>
    let (len, d1) := nameDeserializer.getByte
    if !len.truthy then
      some (joinDot parts, d1)
    else if len = JSVal.num 0xc0 then
      let (ref, d2) := d1.getByte
      match getNameFromReference fuel lblPtManager ref with
      | none => none
      | some nameSubstitution => some (joinDot (parts ++ [nameSubstitution]), d2)
    else
      let (v, d2) := parseLabel len.iterations d1 []
      parseNameLoop fuel lblPtManager d2 (parts ++ [v])

/-- The method `RespLabelPtManager.prototype.getNameFromReference`. One unit of
fuel is spent per call. -/
def getNameFromReference : Nat → RespLabelPtManager → JSVal → Option JSString
  | 0, _, _ => none
  | fuel + 1, mgr, ref =>
    let subArrayBuffer := subarray mgr.view_ ref JSVal.undefined
    let sectionDeserializer := Deserializer.new subArrayBuffer
    match parseNameLoop fuel mgr sectionDeserializer [] with
    | none => none
    | some (subName, _) => some subName

end

/-- The method `DNSPacketDeserializer.prototype.parseName`. -/
def parseName (fuel : Nat) (lblPtManager : RespLabelPtManager)
    (nameDeserializer : Deserializer) : Option (JSString × Deserializer) :=
  parseNameLoop fuel lblPtManager nameDeserializer []

/-! ## serializer.js -/

/-- The class `ndebug.Serializer`: a 512-byte typed array, a write position and
the buffer returned by `getBuffer` (`none` is `null`). -/
structure Serializer where
  view_ : List Nat
  loc_ : Nat
  buffer_ : Option (List Nat)
  deriving DecidableEq, Repr

namespace Serializer

/-- The constructor: `loc_ = 0` and `view_ = new Uint8Array(new ArrayBuffer(512))`. -/
def new : Serializer := ⟨List.replicate 512 0, 0, none⟩

/-- The method `setByte`. A store outside the typed array is ignored
(`List.set` does the same), and `ArrayBuffer.prototype.slice(0, loc_)` stops at
the end of the buffer (`List.take` does the same). -/
def setByte (s : Serializer) (b : JSVal) : Serializer :=
  let view := s.view_.set s.loc_ b.toUint8
  let loc := s.loc_ + 1
  ⟨view, loc, some (view.take loc)⟩

/-- The method `setShort`: `setByte((b >> 8) & 0xff).setByte(b & 0xff)`. -/
def setShort (s : Serializer) (b : JSVal) : Serializer :=
  (s.setByte ((b.shr 8).band (JSVal.num 0xff))).setByte (b.band (JSVal.num 0xff))

/-- The method `getBuffer`. -/
def getBuffer (s : Serializer) : Option (List Nat) := s.buffer_

end Serializer

/-! ## dnsutil.js, dnsrecord*.js, dnspacket.js -/

/-- The enum `ndebug.DNSUtil.PacketSection`. -/
inductive PacketSection where
  | QUESTION
  | ANSWER
  | AUTHORITY
  | ADDITIONAL
  deriving DecidableEq, Repr

namespace RecordNumber

/-- The enum `ndebug.DNSUtil.RecordNumber`, entry A. -/
def A : Int := 1
/-- The enum `ndebug.DNSUtil.RecordNumber`, entry AAAA. -/
def AAAA : Int := 28
/-- The enum `ndebug.DNSUtil.RecordNumber`, entry MX. -/
def MX : Int := 15
/-- The enum `ndebug.DNSUtil.RecordNumber`, entry CNAME. -/
def CNAME : Int := 5
/-- The enum `ndebug.DNSUtil.RecordNumber`, entry TXT. -/
def TXT : Int := 16

end RecordNumber

/-- The constructor that built a record object. -/
inductive RecordKind where
  | DNSRecord
  | DNSRecordA
  | DNSRecordAAAA
  | DNSRecordMX
  | DNSRecordCNAME
  | DNSRecordTXT
  deriving DecidableEq, Repr

/-- The contents of the field `dataTxt_`: `null`, the typed array handed to the
first `setData` call of `deserializePacket`, or a string. -/
inductive DataTxt where
  | null
  | binary (bytes : List Nat)
  | text (s : JSString)
  deriving DecidableEq, Repr

/-- A record object: the fields of `ndebug.DNSRecord` and of its five
subclasses (`none` is `null`; `ttl_` is `undefined` on a question record). -/
structure DNSRecord where
  kind : RecordKind
  name_ : JSString
  type_ : JSVal
  cl_ : JSVal
  ttl_ : JSVal
  data_ : Option (List Nat)
  dataTxt_ : DataTxt
  lblPointManager_ : Option RespLabelPtManager
  ip_ : Option JSString
  cname_ : Option JSString
  txt_ : Option JSString
  mailExchanger_ : Option JSString
  preferenceNumber_ : Option JSVal
  deriving DecidableEq, Repr

namespace DNSRecord

/-- The call `new ndebug.DNSRecord(name, type, cl)`: three arguments, neither
`ttl_` nor `data_` is assigned. -/
def newQuestion (name : JSString) (type cl : JSVal) : DNSRecord :=
  { kind := RecordKind.DNSRecord, name_ := name, type_ := type, cl_ := cl,
    ttl_ := JSVal.undefined, data_ := none, dataTxt_ := DataTxt.null,
    lblPointManager_ := none, ip_ := none, cname_ := none, txt_ := none,
    mailExchanger_ := none, preferenceNumber_ := none }

/-- The call `new ndebug.DNSRecord(name, type, cl, opt_ttl, opt_data)`. -/
def newGeneric (name : JSString) (type cl opt_ttl : JSVal) (opt_data : List Nat) :
    DNSRecord :=
  { newQuestion name type cl with ttl_ := opt_ttl, data_ := some opt_data }

/-- The constructors `new ndebug.DNSRecordA(name, ttl)` and its four siblings:
`type_` is the record number of the subclass and `cl_` is 1. -/
def newTyped (kind : RecordKind) (type : Int) (name : JSString) (ttl : JSVal) :
    DNSRecord :=
  { newQuestion name (JSVal.num type) (JSVal.num 1) with kind := kind, ttl_ := ttl }

/-- The method `setLblPointManager`. -/
def setLblPointManager (r : DNSRecord) (obj : RespLabelPtManager) : DNSRecord :=
  { r with lblPointManager_ := some obj }

/-- The method `getName`. -/
def getName (r : DNSRecord) : JSString := r.name_
/-- The method `getCl`. -/
def getCl (r : DNSRecord) : JSVal := r.cl_
/-- The method `getType`. -/
def getType (r : DNSRecord) : JSVal := r.type_
/-- The method `getDataText`. -/
def getDataText (r : DNSRecord) : DataTxt := r.dataTxt_
/-- The method `getTTL`. -/
def getTTL (r : DNSRecord) : JSVal := r.ttl_
/-- The method `setData`, which assigns `dataTxt_`. -/
def setData (r : DNSRecord) (dataStr : DataTxt) : DNSRecord := { r with dataTxt_ := dataStr }
/-- The method `setIp` of `DNSRecordA` and `DNSRecordAAAA`. -/
def setIp (r : DNSRecord) (ip : JSString) : DNSRecord := { r with ip_ := some ip }
/-- The method `getIp` of `DNSRecordA` and `DNSRecordAAAA`. -/
def getIp (r : DNSRecord) : Option JSString := r.ip_
/-- The method `setCname` of `DNSRecordCNAME`. -/
def setCname (r : DNSRecord) (cname : JSString) : DNSRecord := { r with cname_ := some cname }
/-- The method `getCname` of `DNSRecordCNAME`. -/
def getCname (r : DNSRecord) : Option JSString := r.cname_
/-- The method `setText` of `DNSRecordTXT`. -/
def setText (r : DNSRecord) (txt : JSString) : DNSRecord := { r with txt_ := some txt }
/-- The method `getText` of `DNSRecordTXT`. -/
def getText (r : DNSRecord) : Option JSString := r.txt_
/-- The method `setMailExchanger` of `DNSRecordMX`. -/
def setMailExchanger (r : DNSRecord) (mx : JSString) : DNSRecord :=
  { r with mailExchanger_ := some mx }
/-- The method `getMailExchanger` of `DNSRecordMX`. -/
def getMailExchanger (r : DNSRecord) : Option JSString := r.mailExchanger_
/-- The method `setPreferenceNumber` of `DNSRecordMX`. -/
def setPreferenceNumber (r : DNSRecord) (n : JSVal) : DNSRecord :=
  { r with preferenceNumber_ := some n }
/-- The method `getPreferenceNumber` of `DNSRecordMX`. -/
def getPreferenceNumber (r : DNSRecord) : Option JSVal := r.preferenceNumber_

end DNSRecord

/-- The class `ndebug.DNSPacket`: the flags and the four record arrays
`data_['qd']`, `data_['an']`, `data_['ns']`, `data_['ar']`. -/
structure DNSPacket where
  flags_ : JSVal
  qd : List DNSRecord
  an : List DNSRecord
  ns : List DNSRecord
  ar : List DNSRecord
  deriving DecidableEq, Repr

namespace DNSPacket

/-- The constructor: `this.flags_ = opt_flags || 0` and four empty arrays. -/
def new (opt_flags : JSVal) : DNSPacket :=
  ⟨if opt_flags.truthy then opt_flags else JSVal.num 0, [], [], [], []⟩

/-- The lookup `this.data_[packetSection]`. -/
def data_ (p : DNSPacket) : PacketSection → List DNSRecord
  | PacketSection.QUESTION => p.qd
  | PacketSection.ANSWER => p.an
  | PacketSection.AUTHORITY => p.ns
  | PacketSection.ADDITIONAL => p.ar

/-- The method `getFlags`. -/
def getFlags (p : DNSPacket) : JSVal := p.flags_

/-- The method `getAnswerRecordCount`. -/
def getAnswerRecordCount (p : DNSPacket) : Nat := (p.data_ PacketSection.ANSWER).length

/-- The method `push`: append the record to the array of the section. -/
def push (p : DNSPacket) (packetSection : PacketSection) (dnsRecord : DNSRecord) :
    DNSPacket :=
  match packetSection with
  | PacketSection.QUESTION => { p with qd := p.qd ++ [dnsRecord] }
  | PacketSection.ANSWER => { p with an := p.an ++ [dnsRecord] }
  | PacketSection.AUTHORITY => { p with ns := p.ns ++ [dnsRecord] }
  | PacketSection.ADDITIONAL => { p with ar := p.ar ++ [dnsRecord] }

/-- The method `eachRecord`:
`this.data_[packetSection].forEach(function(rec) { callbackFunction(rec); })`.
The callback acts on a state of type `σ`, which is passed from one call to the
next. -/
def eachRecord {σ : Type} (p : DNSPacket) (packetSection : PacketSection)
    (callbackFunction : σ → DNSRecord → σ) (init : σ) : σ :=
  (p.data_ packetSection).foldl callbackFunction init

end DNSPacket

/-! ## dnspacketserializer.js -/

/-- The method `String.prototype.split('.')`. -/
def splitDot : JSString → List JSString
  | [] => [[]]
  | c :: cs =>
    if c = 46 then [] :: splitDot cs
    else
      match splitDot cs with
      | [] => [[c]]
      | part :: parts => (c :: part) :: parts

/-- The body of `parts.forEach` in `serializeName`: the length of the part,
then `charCodeAt(i)` for every index of the part. -/
def serializePart (dnsSerializer : Serializer) (part : JSString) : Serializer :=
  part.foldl (fun s (c : Nat) => s.setByte (JSVal.num c))
    (dnsSerializer.setByte (JSVal.num part.length))

/-- The method `DNSPacketSerializer.prototype.serializeName`; an absent
`opt_ref` is `undefined`. -/
def serializeName (dnsName : JSString) (dnsSerializer : Serializer) (opt_ref : JSVal) :
    Serializer :=
  let parts := splitDot dnsName
  let s := parts.foldl serializePart dnsSerializer
  if opt_ref.truthy then
    (s.setByte (JSVal.num 0xc0)).setByte opt_ref
  else
    s.setByte (JSVal.num 0)

/-- The array `arrPacketSections` of `serialize`. -/
def arrPacketSections : List PacketSection :=
  [PacketSection.QUESTION, PacketSection.ANSWER, PacketSection.AUTHORITY,
   PacketSection.ADDITIONAL]

/-- The body of the inner `forEach` of `serialize`: name, type, class. -/
def serializeRecord (dataSerializer : Serializer) (dnsRecord : DNSRecord) : Serializer :=
  ((serializeName dnsRecord.name_ dataSerializer JSVal.undefined).setShort
    dnsRecord.getType).setShort dnsRecord.getCl

/-- The method `DNSPacketSerializer.prototype.serialize`. -/
def serialize (dnsPacket : DNSPacket) : Option (List Nat) :=
  let s0 := (Serializer.new.setShort (JSVal.num 0)).setShort dnsPacket.getFlags
  let s1 := arrPacketSections.foldl
    (fun s packetSection => s.setShort (JSVal.num (dnsPacket.data_ packetSection).length)) s0
  let s2 := arrPacketSections.foldl
    (fun s packetSection => (dnsPacket.data_ packetSection).foldl serializeRecord s) s1
  s2.getBuffer

/-! ## dnspacketdeserializer.js -/

/-- The function `ndebug.Util.baseConversion(n, to)`:
`parseInt(n, 10).toString(to)` on a number. -/
def baseConversion (n : JSVal) (toBase : Nat) : JSString :=
  match n with
  | JSVal.num k =>
    if k < 0 then 45 :: (Nat.toDigits toBase k.natAbs).map Char.toNat
    else (Nat.toDigits toBase k.natAbs).map Char.toNat
  | _ => [78, 97, 78]

/-- The loop of case A of `parseDataSection`:
`while (!isEOF()) arrOctect.push(getByte())`. The first argument bounds the
number of iterations; the caller passes the length of the data section. -/
def parseOctets : Nat → Deserializer → List JSVal → List JSVal × Deserializer
  | 0, d, arrOctect => (arrOctect, d)
  | n + 1, d, arrOctect =>
    if d.isEOF then (arrOctect, d)
    else
      let (b, d1) := d.getByte
      parseOctets n d1 (arrOctect ++ [b])

/-- The loop of case AAAA of `parseDataSection`, on the variables `nibbleNum`,
`dataSectionTxt` and the record. The first argument bounds the number of
iterations; the caller passes the length of the data section. -/
def parseNibbles : Nat → Deserializer → Nat → JSString → DNSRecord →
    JSString × DNSRecord × Deserializer
  | 0, d, _, dataSectionTxt, dnsRecord => (dataSectionTxt, dnsRecord, d)
  | n + 1, d, nibbleNum, dataSectionTxt, dnsRecord =>
    if d.isEOF then (dataSectionTxt, dnsRecord, d)
    else
      let (nextByte, d1) := d.getByte
      let nibbleADec := (nextByte.band (JSVal.num 0xf0)).shr 4
      let nibbleAHex := baseConversion nibbleADec 16
      let nibbleNum1 := nibbleNum + 1
      let nibbleBDec := nextByte.band (JSVal.num 0x0f)
      let nibbleBHex := baseConversion nibbleBDec 16
      let nibbleNum2 := nibbleNum1 + 1
      let txt1 := dataSectionTxt ++ (nibbleAHex ++ nibbleBHex)
      let txt2 := if nibbleNum2 % 4 = 0 ∧ nibbleNum2 < 32 then txt1 ++ [58] else txt1
      parseNibbles n d1 nibbleNum2 txt2 (dnsRecord.setIp txt2)

/-- The loop of case TXT of `parseDataSection`:
`while (!isEOF()) dataSectionTxt += String.fromCharCode(getByte())`. The first
argument bounds the number of iterations; the caller passes the length of the
data section. -/
def parseChars : Nat → Deserializer → JSString → JSString × Deserializer
  | 0, d, dataSectionTxt => (dataSectionTxt, d)
  | n + 1, d, dataSectionTxt =>
    if d.isEOF then (dataSectionTxt, d)
    else
      let (nextByte, d1) := d.getByte
      parseChars n d1 (dataSectionTxt ++ fromCharCode nextByte)

/-- The method `DNSPacketDeserializer.prototype.parseDataSection`; the result
is the record after the setter calls. -/
def parseDataSection (fuel : Nat) (lblPointManager_ : RespLabelPtManager)
    (recordTypeNum : JSVal) (dataSectionBinary : List Nat) (dnsRecord : DNSRecord) :
    Option DNSRecord :=
  let dataSectionDeserializer := Deserializer.new dataSectionBinary
  if recordTypeNum = JSVal.num RecordNumber.A then
    let (arrOctect, _) := parseOctets dataSectionBinary.length dataSectionDeserializer []
    let dataSectionTxt := joinDotVals arrOctect
    some ((dnsRecord.setIp dataSectionTxt).setData (DataTxt.text dataSectionTxt))
  else if recordTypeNum = JSVal.num RecordNumber.AAAA then
    let (dataSectionTxt, dnsRecord1, _) :=
      parseNibbles dataSectionBinary.length dataSectionDeserializer 0 [] dnsRecord
    some (dnsRecord1.setData (DataTxt.text dataSectionTxt))
  else if recordTypeNum = JSVal.num RecordNumber.CNAME then
    match parseName fuel lblPointManager_ dataSectionDeserializer with
    | none => none
    | some (name, _) =>
      some ((dnsRecord.setCname name).setData (DataTxt.text name))
  else if recordTypeNum = JSVal.num RecordNumber.TXT then
    let (dataSectionTxt, _) := parseChars dataSectionBinary.length dataSectionDeserializer []
    some ((dnsRecord.setText dataSectionTxt).setData (DataTxt.text dataSectionTxt))
  else if recordTypeNum = JSVal.num RecordNumber.MX then
    let (preferenceNum, d1) := dataSectionDeserializer.getShort
    match parseName fuel lblPointManager_ d1 with
    | none => none
    | some (mailExchanger, _) =>
      let dataSectionTxt :=
        str "Pref #: " ++ preferenceNum.toStr ++ (str "; Value: " ++ mailExchanger)
      some (((dnsRecord.setPreferenceNumber preferenceNum).setMailExchanger
        mailExchanger).setData (DataTxt.text dataSectionTxt))
  else
    some (dnsRecord.setData (DataTxt.text []))

/-- The `switch (recType)` of `deserializePacket` that creates the record. -/
def newRecordOfType (recType : JSVal) (recName : JSString) (recClass recTTL : JSVal)
    (dtSectBinary : List Nat) : DNSRecord :=
  if recType = JSVal.num RecordNumber.A then
    DNSRecord.newTyped RecordKind.DNSRecordA RecordNumber.A recName recTTL
  else if recType = JSVal.num RecordNumber.MX then
    DNSRecord.newTyped RecordKind.DNSRecordMX RecordNumber.MX recName recTTL
  else if recType = JSVal.num RecordNumber.AAAA then
    DNSRecord.newTyped RecordKind.DNSRecordAAAA RecordNumber.AAAA recName recTTL
  else if recType = JSVal.num RecordNumber.TXT then
    DNSRecord.newTyped RecordKind.DNSRecordTXT RecordNumber.TXT recName recTTL
  else if recType = JSVal.num RecordNumber.CNAME then
    DNSRecord.newTyped RecordKind.DNSRecordCNAME RecordNumber.CNAME recName recTTL
  else
    DNSRecord.newGeneric recName recType recClass recTTL dtSectBinary

/-- The body of the QUESTION loop of `deserializePacket`: the record read at
the cursor and the cursor after it. -/
def readQuestion (fuel : Nat) (lblPointManager_ : RespLabelPtManager)
    (dataDeserializer_ : Deserializer) : Option (DNSRecord × Deserializer) :=
  match parseName fuel lblPointManager_ dataDeserializer_ with
  | none => none
  | some (name, d1) =>
    let (type, d2) := d1.getShort
    let (cl, d3) := d2.getShort
    some ((DNSRecord.newQuestion name type cl).setLblPointManager lblPointManager_, d3)

/-- The body of the loop over the ANSWER, AUTHORITY and ADDITIONAL records of
`deserializePacket`: the record read at the cursor and the cursor after it. -/
def readRecord (fuel : Nat) (lblPointManager_ : RespLabelPtManager)
    (dataDeserializer_ : Deserializer) : Option (DNSRecord × Deserializer) :=
  match parseName fuel lblPointManager_ dataDeserializer_ with
  | none => none
  | some (recName, d1) =>
    let (recType, d2) := d1.getShort
    let (recClass, d3) := d2.getShort
    let (recTTL, d4) := d3.getLong
    let (dtSectLength, d5) := d4.getShort
    let (dtSectBinary, d6) := d5.slice dtSectLength
    let dnsRecord := newRecordOfType recType recName recClass recTTL dtSectBinary
    let dnsRecord1 := dnsRecord.setLblPointManager lblPointManager_
    let dnsRecord2 := dnsRecord1.setData (DataTxt.binary dtSectBinary)
    match parseDataSection fuel lblPointManager_ recType dtSectBinary dnsRecord2 with
    | none => none
    | some dnsRecord3 => some (dnsRecord3, d6)

/-- The loop `for (qI = 0; qI < sectionCount[QUESTION]; ++qI)`: the first
argument is the number of iterations left. -/
def questionLoop (fuel : Nat) (lblPointManager_ : RespLabelPtManager) :
    Nat → Deserializer → DNSPacket → Option (DNSPacket × Deserializer)
  | 0, d, packet => some (packet, d)
  | n + 1, d, packet =>
    match readQuestion fuel lblPointManager_ d with
    | none => none
    | some (dnsRecord, d1) =>
      questionLoop fuel lblPointManager_ n d1 (packet.push PacketSection.QUESTION dnsRecord)

/-- The loop `for (aI = 0; aI < sectionCount[section]; ++aI)`: the first
argument after the section is the number of iterations left. -/
def sectionLoop (fuel : Nat) (lblPointManager_ : RespLabelPtManager)
    (section_ : PacketSection) :
    Nat → Deserializer → DNSPacket → Option (DNSPacket × Deserializer)
  | 0, d, packet => some (packet, d)
  | n + 1, d, packet =>
    match readRecord fuel lblPointManager_ d with
    | none => none
    | some (dnsRecord, d1) =>
      sectionLoop fuel lblPointManager_ section_ n d1 (packet.push section_ dnsRecord)

/-- The state of a `ndebug.DNSPacketDeserializer` after `deserializePacket`:
the cursor and the field `deserializedPacket_`. -/
structure DNSPacketDeserializer where
  dataDeserializer_ : Deserializer
  lblPointManager_ : RespLabelPtManager
  deserializedPacket_ : Option DNSPacket
  deriving DecidableEq, Repr

/-- The constructor `new ndebug.DNSPacketDeserializer(arBuffer, lblPointManager)`. -/
def DNSPacketDeserializer.new (arBuffer : List Nat) (lblPointManager : RespLabelPtManager) :
    DNSPacketDeserializer :=
  ⟨Deserializer.new arBuffer, lblPointManager, none⟩

/-- The method `DNSPacketDeserializer.prototype.deserializePacket` (the two
console warnings apart). -/
def DNSPacketDeserializer.deserializePacket (fuel : Nat) (self : DNSPacketDeserializer) :
    Option DNSPacketDeserializer :=
  let (_firstTwoBytes, d1) := self.dataDeserializer_.getShort
  let (flags, d2) := d1.getShort
  let (countQd, d3) := d2.getShort
  let (countAn, d4) := d3.getShort
  let (countNs, d5) := d4.getShort
  let (countAr, d6) := d5.getShort
  let packet := DNSPacket.new flags
  match questionLoop fuel self.lblPointManager_ countQd.iterations d6 packet with
  | none => none
  | some (packet1, d7) =>
    match sectionLoop fuel self.lblPointManager_ PacketSection.ANSWER
        countAn.iterations d7 packet1 with
    | none => none
    | some (packet2, d8) =>
      match sectionLoop fuel self.lblPointManager_ PacketSection.AUTHORITY
          countNs.iterations d8 packet2 with
      | none => none
      | some (packet3, d9) =>
        match sectionLoop fuel self.lblPointManager_ PacketSection.ADDITIONAL
            countAr.iterations d9 packet3 with
        | none => none
        | some (packet4, d10) =>
          some { self with dataDeserializer_ := d10, deserializedPacket_ := some packet4 }

/-- The method `getDeserializedPacket`. -/
def DNSPacketDeserializer.getDeserializedPacket (self : DNSPacketDeserializer) :
    Option DNSPacket :=
  self.deserializedPacket_

/-! ## dnsquerymanager.js -/

/-- A value that a caller can hand to a method: a boolean, a string, or a
number, `NaN` or `undefined`. -/
inductive JSArg where
  | bool (b : Bool)
  | string (s : JSString)
  | value (v : JSVal)
  deriving DecidableEq, Repr

/-- The fields of `ndebug.DNSQueryManager` that take part in building the query
and in parsing the response. -/
structure DNSQueryManager where
  hostname_ : JSString
  recordTypeNum_ : JSVal
  dnsServer_ : JSString
  dnsPort_ : Nat
  isRecursionDesired_ : Bool
  queryPacket_ : Option DNSPacket
  serializedQueryPacket_ : Option (List Nat)
  serializedResponsePacket_ : Option (List Nat)
  responsePacket_ : Option DNSPacket
  deriving DecidableEq, Repr

namespace DNSQueryManager

/-- The constructor, with the defaults of the prototype: port 53 and
recursion desired. -/
def new (hostname : JSString) (recordTypeNum : JSVal) (dnsServer : JSString) :
    DNSQueryManager :=
  { hostname_ := hostname, recordTypeNum_ := recordTypeNum, dnsServer_ := dnsServer,
    dnsPort_ := 53, isRecursionDesired_ := true, queryPacket_ := none,
    serializedQueryPacket_ := none, serializedResponsePacket_ := none,
    responsePacket_ := none }

/-- The method `setRecursionDesired`:
`this.isRecursionDesired_ = (isDesired === true)`. -/
def setRecursionDesired (q : DNSQueryManager) (isDesired : JSArg) : DNSQueryManager :=
  { q with isRecursionDesired_ := decide (isDesired = JSArg.bool true) }

/-- The method `setSerializedResponsePacket`. -/
def setSerializedResponsePacket (q : DNSQueryManager) (data : List Nat) : DNSQueryManager :=
  { q with serializedResponsePacket_ := some data }

/-- The method `getFormattedHeader_`. -/
def getFormattedHeader_ (q : DNSQueryManager) : JSVal :=
  if q.isRecursionDesired_ then JSVal.num 0x100 else JSVal.num 0

/-- The function `sendData_` of `sendRequest`, up to the call of
`chrome.socket.write`: the packet built and its serialization. -/
def sendData_ (q : DNSQueryManager) : DNSQueryManager :=
  let packetHeader := q.getFormattedHeader_
  let queryPacket := (DNSPacket.new packetHeader).push PacketSection.QUESTION
    (DNSRecord.newQuestion q.hostname_ q.recordTypeNum_ (JSVal.num 1))
  { q with queryPacket_ := some queryPacket, serializedQueryPacket_ := serialize queryPacket }

/-- The method `parsePacketFromSerializedData` (the log entry apart): the label
manager and the packet deserializer are both built on the response buffer. -/
def parsePacketFromSerializedData (fuel : Nat) (q : DNSQueryManager) (data : List Nat) :
    Option DNSQueryManager :=
  let lblNameManager : RespLabelPtManager := ⟨data⟩
  let packetDeserializer := DNSPacketDeserializer.new data lblNameManager
  match packetDeserializer.deserializePacket fuel with
  | none => none
  | some pd => some { q with serializedResponsePacket_ := some data,
                             responsePacket_ := pd.getDeserializedPacket }

end DNSQueryManager

/-- Decode a response buffer the way `parsePacketFromSerializedData` does: the
packet left in `deserializedPacket_`. -/
def decodeResponse (fuel : Nat) (data : List Nat) : Option DNSPacket :=
  match (DNSPacketDeserializer.new data ⟨data⟩).deserializePacket fuel with
  | none => none
  | some pd => pd.getDeserializedPacket

/-! ## The wire format in the words of the specification -/

namespace WireSpec

/-- A 16-bit value as two bytes, most significant first. -/
def be16 (v : Nat) : List Nat := [v / 256, v % 256]

/-- Every label as a length byte followed by its characters. -/
def labels : List JSString → List Nat
  | [] => []
  | l :: ls => l.length :: l ++ labels ls

/-- A name: its length-prefixed labels, ended by a single zero byte. -/
def name (dnsName : JSString) : List Nat := labels (splitDot dnsName) ++ [0]

/-- A record as `serialize` is specified to write it: name, type, class. -/
def record (r : DNSRecord) : List Nat :=
  name r.name_ ++ (be16 r.type_.toInteger.toNat ++ be16 r.cl_.toInteger.toNat)

/-- The records of one section, in order. -/
def records : List DNSRecord → List Nat
  | [] => []
  | r :: rs => record r ++ records rs

/-- A message as `serialize` is specified to write it: two zero bytes, the
flags, the four section counts, the records of the four sections. -/
def packet (p : DNSPacket) : List Nat :=
  [0, 0] ++ be16 p.flags_.toInteger.toNat ++
    (be16 p.qd.length ++ be16 p.an.length ++ be16 p.ns.length ++ be16 p.ar.length) ++
    (records p.qd ++ records p.an ++ records p.ns ++ records p.ar)

/-- The value is a number that fits 16 bits. -/
def IsU16 (v : JSVal) : Prop := ∃ n : Nat, n < 65536 ∧ v = JSVal.num n

/-- Every label of the name has at most 255 characters, each with a code
below 256. -/
def NameFits (dnsName : JSString) : Prop :=
  ∀ part ∈ splitDot dnsName, part.length < 256 ∧ ∀ c ∈ part, c < 256

instance (dnsName : JSString) : Decidable (NameFits dnsName) := by
  unfold NameFits
  infer_instance

/-- The record has a name that fits and a 16-bit type and class. -/
def RecordFits (r : DNSRecord) : Prop :=
  NameFits r.name_ ∧ IsU16 r.type_ ∧ IsU16 r.cl_

/-- The packet has 16-bit flags, fewer than 65536 records in each section
and only records that fit. -/
def PacketFits (p : DNSPacket) : Prop :=
  IsU16 p.flags_ ∧
    (p.qd.length < 65536 ∧ p.an.length < 65536 ∧ p.ns.length < 65536 ∧ p.ar.length < 65536) ∧
    (∀ r ∈ p.qd ++ p.an ++ p.ns ++ p.ar, RecordFits r)

end WireSpec

/-- A label that `parseName` reads back as a label: not empty, at most 255
characters with codes below 256, and a length other than 192 (0xC0). -/
def WireSpec.LabelOk (l : JSString) : Prop :=
  l ≠ [] ∧ l.length ≠ 192 ∧ l.length < 256 ∧ ∀ c ∈ l, c < 256

/-- The serializer has been handed the bytes `bs`, in this order, since its
construction. -/
def Serializer.Wrote (s : Serializer) (bs : List Nat) : Prop :=
  s.loc_ = bs.length ∧
    s.view_ = bs.take 512 ++ List.replicate (512 - bs.length) 0 ∧
    (bs ≠ [] → s.buffer_ = some (bs.take 512))

/-- The query bytes for hostname `h` and record type `t` in the words of the
specification: the fixed header of a recursive one-question query, the
length-prefixed labels, the zero byte, the type and the class 1. -/
def WireSpec.query (h : JSString) (t : Nat) : List Nat :=
  [0, 0, 1, 0, 0, 1, 0, 0, 0, 0, 0, 0] ++ WireSpec.labels (splitDot h) ++ [0] ++
    WireSpec.be16 t ++ [0, 1]

/-! ## Notions used to state the properties of the decoder -/

/-- The number of bytes between the cursor and the end of the view; 0 when the
cursor is not a position inside the view. -/
def Deserializer.remaining (d : Deserializer) : Nat :=
  match d.loc_ with
  | JSVal.num i => if 0 ≤ i then d.view_.length - i.toNat else 0
  | _ => 0

/-- Name resolution ends within `F` steps from every offset of the buffer of
the label manager. -/
def ResolvesWithin (F : Nat) (mgr : RespLabelPtManager) : Prop :=
  ∀ k, k ≤ mgr.view_.length →
    (parseName F mgr (Deserializer.new (mgr.view_.drop k))).isSome = true

instance (F : Nat) (mgr : RespLabelPtManager) : Decidable (ResolvesWithin F mgr) := by
  unfold ResolvesWithin
  infer_instance

/-- The records `rs` are read one after the other by `body`, the first at the
cursor `d`, each next one where the previous one ended, the last one ending at
the cursor `d'`. -/
def ReadChain (body : Deserializer → Option (DNSRecord × Deserializer)) :
    Deserializer → List DNSRecord → Deserializer → Prop
  | d, [], d' => d = d'
  | d, r :: rs, d' => ∃ d1, body d = some (r, d1) ∧ ReadChain body d1 rs d'

/-- The common shape of the two record loops of `deserializePacket`: run `body`
`n` times and push each record to `section_`. -/
def recordLoop (body : Deserializer → Option (DNSRecord × Deserializer))
    (section_ : PacketSection) : Nat → Deserializer → DNSPacket →
    Option (DNSPacket × Deserializer)
  | 0, d, packet => some (packet, d)
  | n + 1, d, packet =>
    match body d with
    | none => none
    | some (dnsRecord, d1) => recordLoop body section_ n d1 (packet.push section_ dnsRecord)

/-! ## The texts of the data sections in the words of the specification -/

namespace WireSpec

/-- The character code of the lowercase hex digit of a nibble. -/
def hexDigit (n : Nat) : Nat := if n < 10 then 48 + n else 87 + n

/-- The two hex digits of a byte, high nibble first. -/
def hexByte (b : Nat) : JSString := [hexDigit (b / 16), hexDigit (b % 16)]

/-- The text built from the bytes `bs` when `k` nibbles were emitted before
them: two hex digits per byte, and a ':' after every fourth nibble as long as
fewer than 32 nibbles were emitted. -/
def hexGroups : Nat → List Nat → JSString
  | _, [] => []
  | k, b :: bs =>
    hexByte b ++
      (if (k + 2) % 4 = 0 ∧ k + 2 < 32 then 58 :: hexGroups (k + 2) bs
       else hexGroups (k + 2) bs)

/-- Groups joined by ':'. -/
def joinColon (groups : List JSString) : JSString := List.intercalate [58] groups

/-- The decimal rendering of a byte. -/
def decimal (b : Nat) : JSString := (Nat.toDigits 10 b).map Char.toNat

end WireSpec

/-! ## Sequences of writes to a Serializer -/

/-- A call of `setByte(b)` or of `setShort(v)`. -/
inductive WriteOp where
  | setByte (b : Nat)
  | setShort (v : Nat)
  deriving DecidableEq, Repr

namespace WriteOp

/-- Run the call on a serializer. -/
def run (s : Serializer) : WriteOp → Serializer
  | setByte b => s.setByte (JSVal.num b)
  | setShort v => s.setShort (JSVal.num v)

/-- The bytes that the call is specified to write: the byte itself, or the two
bytes of the 16-bit value, most significant first. -/
def wire : WriteOp → List Nat
  | setByte b => [b]
  | setShort v => WireSpec.be16 v

/-- The argument is a byte, or a 16-bit value. -/
def Fits : WriteOp → Prop
  | setByte b => b < 256
  | setShort v => v < 65536

/-- The bytes that a sequence of calls is specified to write. -/
def wireAll : List WriteOp → List Nat
  | [] => []
  | op :: ops => op.wire ++ wireAll ops

end WriteOp

/-! ## dnsutil.js: record type names -/

/-- The function `ndebug.DNSUtil.getRecordTypeNameByRecordTypeNum`. -/
def getRecordTypeNameByRecordTypeNum (num : JSVal) : JSString :=
  if num = JSVal.num RecordNumber.AAAA then str "AAAA"
  else if num = JSVal.num RecordNumber.MX then str "MX"
  else if num = JSVal.num RecordNumber.CNAME then str "CNAME"
  else if num = JSVal.num RecordNumber.TXT then str "TXT"
  else str "A"

/-- The method `String.prototype.toUpperCase` on the letters a..z. Code units
outside a..z are left as they are: no character outside ASCII has an upper
case form made of the letters of 'MX', 'AAAA', 'CNAME' and 'TXT' only, so the
`switch` below takes the same branch as with the full Unicode mapping. -/
def toUpperCase (s : JSString) : JSString :=
  s.map fun c => if 97 ≤ c ∧ c ≤ 122 then c - 32 else c

/-- The function `ndebug.DNSUtil.getRecordTypeNumByRecordTypeName`. -/
def getRecordTypeNumByRecordTypeName (name : JSString) : Int :=
  let upper := toUpperCase name
  if upper = str "MX" then RecordNumber.MX
  else if upper = str "AAAA" then RecordNumber.AAAA
  else if upper = str "CNAME" then RecordNumber.CNAME
  else if upper = str "TXT" then RecordNumber.TXT
  else RecordNumber.A

/-! ## dnsresponsepacketanalyzer.js: addresses and CIDR ranges -/

/-- The method `String.prototype.indexOf` for a search string of one
character: the first index of `c`, or -1. -/
def indexOf : JSString → Nat → Int
  | [], _ => -1
  | x :: xs, c => if x = c then 0 else
    let i := indexOf xs c
    if i < 0 then -1 else i + 1

/-- The method `String.prototype.substring(start, finish)`; `none` is an absent
second argument. Both indices are clamped to the string and swapped when the
first is the larger one. -/
def substring (s : JSString) (start : Int) (finish : Option Int) : JSString :=
  let clamp := fun (i : Int) => min i.toNat s.length
  let a := clamp start
  let b := match finish with
    | some e => clamp e
    | none => s.length
  (s.drop (min a b)).take (max a b - min a b)

/-- The method `String.prototype.substr(0, length)`: a length that is `NaN` or
negative gives the empty string. -/
def substr0 (s : JSString) (length : JSVal) : JSString :=
  s.take length.toInteger.toNat

/-- The value of a decimal digit, if the code unit is one. -/
def digitValue (c : Nat) : Option Nat :=
  if 48 ≤ c ∧ c ≤ 57 then some (c - 48) else none

/-- The value of a string of decimal digits read after the digits of value
`acc`; `none` when a code unit is no digit. -/
def digitsValue : JSString → Nat → Option Nat
  | [], acc => some acc
  | c :: cs, acc =>
    match digitValue c with
    | some v => digitsValue cs (10 * acc + v)
    | none => none

/-- The code unit is a `StrWhiteSpaceChar` of the grammar of `Number(s)`: white
space (tab, vertical tab, form feed, the space separators of Unicode, the byte
order mark U+FEFF) or a line terminator (LF, CR, U+2028, U+2029). -/
def isStrWhiteSpaceChar (c : Nat) : Bool :=
  decide (c ∈ [9, 10, 11, 12, 13, 32, 160, 5760, 8232, 8233, 8239, 8287, 12288, 65279]) ||
    decide (8192 ≤ c ∧ c ≤ 8202)

/-- The string without the white space at its two ends. -/
def trimWhiteSpace (s : JSString) : JSString :=
  ((s.dropWhile isStrWhiteSpaceChar).reverse.dropWhile isStrWhiteSpaceChar).reverse

/-- The value of a digit of the radix, if the code unit is one; the letters
'a' to 'f' in either case are the digits 10 to 15. -/
def radixDigitValue (radix c : Nat) : Option Nat :=
  let v :=
    if 48 ≤ c ∧ c ≤ 57 then some (c - 48)
    else if 97 ≤ c ∧ c ≤ 102 then some (c - 87)
    else if 65 ≤ c ∧ c ≤ 70 then some (c - 55)
    else none
  match v with
  | some d => if d < radix then some d else none
  | none => none

/-- The value of a string of digits of the radix read after the digits of
value `acc`; `none` when a code unit is no digit of the radix. -/
def radixDigitsValue (radix : Nat) : JSString → Nat → Option Nat
  | [], acc => some acc
  | c :: cs, acc =>
    match radixDigitValue radix c with
    | some v => radixDigitsValue radix cs (radix * acc + v)
    | none => none

/-- The value of the digits of a `NonDecimalIntegerLiteral` after its prefix:
at least one digit of the radix, `NaN` otherwise. -/
def nonDecimalLiteral (radix : Nat) (digits : JSString) : JSVal :=
  if digits = [] then JSVal.nan
  else
    match radixDigitsValue radix digits 0 with
    | some n => JSVal.num n
    | none => JSVal.nan

/-- The value of an unsigned decimal literal made of digits only: at least one
decimal digit. -/
def decimalLiteral (digits : JSString) : Option Nat :=
  if digits = [] then none else digitsValue digits 0

/-- The function `Number(s)` on a string. The white space at the two ends is
dropped; the empty string is 0; `0x`, `0o` and `0b` (the letter in either
case) followed by digits of the radix are their value; decimal digits after an
optional sign are their value; every other string is `NaN`. A literal with a
fraction or an exponent and `Infinity`, whose values are not integers in
general, are outside `JSVal` and are `NaN` here as well. -/
def toNumber (s : JSString) : JSVal :=
  let t := trimWhiteSpace s
  if t = [] then JSVal.num 0
  else if t.take 2 = [48, 120] ∨ t.take 2 = [48, 88] then nonDecimalLiteral 16 (t.drop 2)
  else if t.take 2 = [48, 111] ∨ t.take 2 = [48, 79] then nonDecimalLiteral 8 (t.drop 2)
  else if t.take 2 = [48, 98] ∨ t.take 2 = [48, 66] then nonDecimalLiteral 2 (t.drop 2)
  else if t.head? = some 43 then
    match decimalLiteral t.tail with
    | some n => JSVal.num n
    | none => JSVal.nan
  else if t.head? = some 45 then
    match decimalLiteral t.tail with
    | some n => JSVal.num (-(n : Int))
    | none => JSVal.nan
  else
    match decimalLiteral t with
    | some n => JSVal.num n
    | none => JSVal.nan

/-- The loop of the function `pad` of `isIp4AddressInCidrBlock`:
`while (strNumber.length < length) strNumber = '0' + strNumber`. The first
argument bounds the number of iterations; `pad` passes `length`. -/
def padLoop : Nat → JSString → Nat → JSString
  | 0, strNumber, _ => strNumber
  | n + 1, strNumber, length =>
    if strNumber.length < length then padLoop n (48 :: strNumber) length else strNumber

/-- The function `pad` of `isIp4AddressInCidrBlock`. -/
def pad (strNumber : JSString) (length : Nat) : JSString := padLoop length strNumber length

/-- Steps 2 and 3 of `isIp4AddressInCidrBlock`: the binary string of a dotted
address, eight padded binary digits for each part of `split('.')`. -/
def binaryAddress (ip : JSString) : JSString :=
  (splitDot ip).foldl
    (fun binaryAddressIp octet =>
      let decimalOctet := toNumber octet
      let binaryOctet := baseConversion decimalOctet 2
      let paddedBinaryOctet := pad binaryOctet 8
      binaryAddressIp ++ paddedBinaryOctet) []

/-- The function `ndebug.DNSResponsePacketAnalyzer.isIp4AddressInCidrBlock`. -/
def isIp4AddressInCidrBlock (testIp cidrRange : JSString) : Bool :=
  let cidrIpAddressBase := substring cidrRange 0 (some (indexOf cidrRange 47))
  let maskBitsNum := toNumber (substring cidrRange (indexOf cidrRange 47 + 1) none)
  let binaryAddressTestIp := binaryAddress testIp
  let binaryAddressCidrIp := binaryAddress cidrIpAddressBase
  let cidrCompare := substr0 binaryAddressCidrIp maskBitsNum
  let testCompare := substr0 binaryAddressTestIp maskBitsNum
  decide (cidrCompare = testCompare)

/-- A dotted address: the decimal renderings of four octets joined by '.'. -/
def WireSpec.dotted (a0 a1 a2 a3 : Nat) : JSString :=
  joinDot [WireSpec.decimal a0, WireSpec.decimal a1, WireSpec.decimal a2, WireSpec.decimal a3]

/-- The 32-bit value of four octets, most significant first. -/
def WireSpec.ip4Value (a0 a1 a2 a3 : Nat) : Nat :=
  a0 * 16777216 + a1 * 65536 + a2 * 256 + a3

/-- The binary digits of `n` as a string of `w` characters, most significant
first. -/
def WireSpec.bits : Nat → Nat → JSString
  | 0, _ => []
  | w + 1, n => WireSpec.bits w (n / 2) ++ [48 + n % 2]

/-! ## dnsquerymanager.js: the life of a query -/

/-- The enum `ndebug.DNSQueryManager.QueryResultStatus`. -/
inductive QueryResultStatus where
  | SUCCESS_PACKET_PARSE
  | FAIL_TIMEOUT
  deriving DecidableEq, Repr

/-- The enum `ndebug.OutputRecord.DetailLevel`. -/
inductive DetailLevel where
  | ERROR
  | WARNING
  | INFO
  | DEBUG
  | TRACE
  deriving DecidableEq, Repr

/-- A call of the `chrome.socket` API made by the query; the callback argument
is left out. -/
inductive SocketCall where
  | create
  | connect (socketId : Option Nat) (address : JSString) (port : Nat)
  | getInfo (socketId : Option Nat)
  | write (socketId : Option Nat) (data : Option (List Nat))
  | read (socketId : Option Nat)
  | destroy (socketId : Option Nat)
  deriving DecidableEq, Repr

/-- A callback of the query run by the browser: the five callbacks handed to
`chrome.socket` (`onCreatedCallback_`, `onConnectedCallback_`, `parseSocketInfo`,
`onDataWritten_`, `dataRead_`) and the timer callback `timeout_`. -/
inductive Event where
  | created (socketId : Nat)
  | connected (result : JSVal)
  | gotInfo (socketType localAddress localPort peerAddress peerPort : JSString)
  | written (bytesWritten : JSVal)
  | dataRead (resultCode : JSVal) (data : List Nat)
  | timeout
  deriving DecidableEq, Repr

/-- The state of one `sendRequest`: the manager fields modelled by
`DNSQueryManager`, its fields `socketId_` and `queryResultStatus_` (`none` is
`null`), the entries of its `outputRecordManager_` (level and message, without
the timestamp), whether the interval `udpTimeoutFunction` is set, the
`chrome.socket` calls made so far and the number of calls of
`finalCallbackFnc_` so far. -/
structure QueryRun where
  manager : DNSQueryManager
  socketId_ : Option Nat
  queryResultStatus_ : Option QueryResultStatus
  outputEntries_ : List (DetailLevel × JSString)
  timerSet : Bool
  socketCalls : List SocketCall
  finalCallbackCalls : Nat
  deriving DecidableEq, Repr

namespace QueryRun

/-- The method `OutputRecordManager.prototype.pushEntry` on the manager of the
query. -/
def pushEntry (s : QueryRun) (level : DetailLevel) (msg : JSString) : QueryRun :=
  { s with outputEntries_ := s.outputEntries_ ++ [(level, msg)] }

/-- Record a call of the `chrome.socket` API. -/
def call (s : QueryRun) (c : SocketCall) : QueryRun :=
  { s with socketCalls := s.socketCalls ++ [c] }

/-- The method `sendRequest` up to its return: the interval is set and
`chrome.socket.create` is called. -/
def sendRequest (q : DNSQueryManager) : QueryRun :=
  { manager := q, socketId_ := none, queryResultStatus_ := none, outputEntries_ := [],
    timerSet := true, socketCalls := [SocketCall.create], finalCallbackCalls := 0 }

/-- The function `cleanUp_` of `sendRequest`. -/
def cleanUp_ (s : QueryRun) : QueryRun :=
  let s1 := s.call (SocketCall.destroy s.socketId_)
  let s2 := s1.pushEntry DetailLevel.DEBUG (str "Socket closed")
  if s2.queryResultStatus_ = some QueryResultStatus.SUCCESS_PACKET_PARSE then
    { s2 with finalCallbackCalls := s2.finalCallbackCalls + 1 }
  else s2

/-- The function `timeout_` of `sendRequest` (`udpTimeoutSec` is 7). -/
def timeout_ (s : QueryRun) : QueryRun :=
  let s1 := s.pushEntry DetailLevel.DEBUG
    (str "Received no response in " ++ (JSVal.num 7).toStr ++ str " seconds, closing socket")
  let s2 := { s1 with timerSet := false }
  let s3 := { s2 with queryResultStatus_ := some QueryResultStatus.FAIL_TIMEOUT }
  s3.cleanUp_

/-- The function `dataRead_` of `sendRequest`. When the parse of the response
does not finish, the handler is left after the assignment of
`serializedResponsePacket_`. -/
def dataRead_ (fuel : Nat) (s : QueryRun) (resultCode : JSVal) (data : List Nat) : QueryRun :=
  let s1 := { s with timerSet := false }
  let s2 := s1.pushEntry DetailLevel.ERROR
    (str "Received " ++ resultCode.toStr ++ str " byte query response")
  match s2.manager.parsePacketFromSerializedData fuel data with
  | none => { s2 with manager := s2.manager.setSerializedResponsePacket data }
  | some m =>
    let count : Nat := match m.responsePacket_ with
      | some packet => packet.getAnswerRecordCount
      | none => 0
    let s3 := { s2 with manager := m }
    let s4 := s3.pushEntry DetailLevel.DEBUG
      (str "Query response contains " ++ (JSVal.num count).toStr ++ str " answer records")
    let s5 := { s4 with queryResultStatus_ := some QueryResultStatus.SUCCESS_PACKET_PARSE }
    s5.cleanUp_

/-- The function `readData_` of `sendRequest`. -/
def readData_ (s : QueryRun) : QueryRun := s.call (SocketCall.read s.socketId_)

/-- The function `onDataWritten_` of `sendRequest`. When no query has been
serialized, reading `byteLength` of `null` leaves the handler at once. -/
def onDataWritten_ (s : QueryRun) (bytesWritten : JSVal) : QueryRun :=
  match s.manager.serializedQueryPacket_ with
  | none => s
  | some bytes =>
    if bytesWritten ≠ JSVal.num bytes.length then
      (s.pushEntry DetailLevel.ERROR (str "Error writing DNS packet.")).call
        (SocketCall.destroy s.socketId_)
    else
      (s.pushEntry DetailLevel.DEBUG
        (str "Successfully sent " ++ bytesWritten.toStr ++ str " bytes in a DNS packet")).readData_

/-- The function `sendData_` of `sendRequest`: the packet is built and
serialized (`DNSQueryManager.sendData_`), the log entry is pushed and
`chrome.socket.write` is called. -/
def sendData_ (s : QueryRun) : QueryRun :=
  let m := s.manager.sendData_
  let infoLog := str "Preparing to query server " ++ m.dnsServer_ ++ str " " ++
    str "for record type " ++ getRecordTypeNameByRecordTypeNum m.recordTypeNum_ ++
    str " with hostname " ++ m.hostname_
  let s1 := { s with manager := m }
  let s2 := s1.pushEntry DetailLevel.DEBUG infoLog
  s2.call (SocketCall.write s2.socketId_ m.serializedQueryPacket_)

/-- The function `onConnectedCallback_` of `sendRequest`: `recordSocketInfo`
calls `chrome.socket.getInfo`, then `sendData_` runs. -/
def onConnectedCallback_ (s : QueryRun) (_result : JSVal) : QueryRun :=
  (s.call (SocketCall.getInfo s.socketId_)).sendData_

/-- The callback `parseSocketInfo` of `SocketInfo.prototype.recordSocketInfo`. -/
def parseSocketInfo (s : QueryRun)
    (socketType localAddress localPort peerAddress peerPort : JSString) : QueryRun :=
  s.pushEntry DetailLevel.DEBUG
    (str "A " ++ socketType ++ str " connection from " ++ localAddress ++ str ":" ++
      localPort ++ str " to " ++ peerAddress ++ str ":" ++ peerPort ++ str " now exists")

/-- The functions `onCreatedCallback_` and `connect_` of `sendRequest`. -/
def onCreatedCallback_ (s : QueryRun) (socketId : Nat) : QueryRun :=
  let s1 := { s with socketId_ := some socketId }
  s1.call (SocketCall.connect s1.socketId_ s1.manager.dnsServer_ s1.manager.dnsPort_)

/-- The effect of one callback. The timer callback runs only while the
interval is set (`clearTimeout` removes it); the socket callbacks run whenever
the browser delivers them. -/
def step (fuel : Nat) (s : QueryRun) : Event → QueryRun
  | Event.created socketId => s.onCreatedCallback_ socketId
  | Event.connected result => s.onConnectedCallback_ result
  | Event.gotInfo socketType localAddress localPort peerAddress peerPort =>
    s.parseSocketInfo socketType localAddress localPort peerAddress peerPort
  | Event.written bytesWritten => s.onDataWritten_ bytesWritten
  | Event.dataRead resultCode data => s.dataRead_ fuel resultCode data
  | Event.timeout => if s.timerSet then s.timeout_ else s

/-- The state after a sequence of callbacks. -/
def run (fuel : Nat) (s : QueryRun) (events : List Event) : QueryRun :=
  events.foldl (step fuel) s

end QueryRun

/-- The event is a read callback. -/
def Event.isDataRead : Event → Bool
  | Event.dataRead _ _ => true
  | _ => false

/-! ## Notions used to state that the first two bytes of a response do not matter -/

mutual

/-- While the name at the cursor is parsed, every offset handed to
`getNameFromReference` is a number of at least 2, also in the names reached
through these references (an offset byte that is missing is read as
`undefined`, and `subarray(undefined)` starts at offset 0). The walk follows
`parseName` for at most `fuel` steps. -/
def nameTargetsOk : Nat → RespLabelPtManager → Deserializer → Bool
  | 0, _, _ => true
  | fuel + 1, lblPtManager, nameDeserializer =>
    let (len, d1) := nameDeserializer.getByte
    if !len.truthy then true
    else if len = JSVal.num 0xc0 then
      let (ref, _) := d1.getByte
      ref.ge (JSVal.num 2) && referenceTargetsOk fuel lblPtManager ref
    else
      let (_, d2) := parseLabel len.iterations d1 []
      nameTargetsOk fuel lblPtManager d2

/-- The same for the name that `getNameFromReference(ref)` parses. -/
def referenceTargetsOk : Nat → RespLabelPtManager → JSVal → Bool
  | 0, _, _ => true
  | fuel + 1, mgr, ref =>
    nameTargetsOk fuel mgr (Deserializer.new (subarray mgr.view_ ref JSVal.undefined))

end

/-- The same for the names of the non-question record at the cursor: its own
name and, for the types CNAME and MX, the name in its data section. -/
def recordTargetsOk (fuel : Nat) (mgr : RespLabelPtManager) (d : Deserializer) : Bool :=
  nameTargetsOk fuel mgr d &&
    match parseName fuel mgr d with
    | none => true
    | some (_, d1) =>
      let (recType, d2) := d1.getShort
      let (_, d3) := d2.getShort
      let (_, d4) := d3.getLong
      let (dtSectLength, d5) := d4.getShort
      let (dtSectBinary, _) := d5.slice dtSectLength
      if recType = JSVal.num RecordNumber.CNAME then
        nameTargetsOk fuel mgr (Deserializer.new dtSectBinary)
      else if recType = JSVal.num RecordNumber.MX then
        nameTargetsOk fuel mgr (Deserializer.new dtSectBinary).getShort.2
      else true

/-- The check `ok` holds at the cursor of each of the `n` records that `body`
reads one after the other. -/
def chainTargetsOk (ok : Deserializer → Bool)
    (body : Deserializer → Option (DNSRecord × Deserializer)) : Nat → Deserializer → Bool
  | 0, _ => true
  | n + 1, d =>
    ok d &&
      match body d with
      | none => true
      | some (_, d1) => chainTargetsOk ok body n d1

/-- No compression pointer met while `deserializePacket` decodes `data` (with
the label manager on the same buffer) targets offset 0 or 1: the walk follows
`deserializePacket` through the four sections. -/
def packetTargetsOk (fuel : Nat) (data : List Nat) : Bool :=
  let mgr : RespLabelPtManager := ⟨data⟩
  let (_, d1) := (Deserializer.new data).getShort
  let (flags, d2) := d1.getShort
  let (countQd, d3) := d2.getShort
  let (countAn, d4) := d3.getShort
  let (countNs, d5) := d4.getShort
  let (countAr, d6) := d5.getShort
  let packet := DNSPacket.new flags
  chainTargetsOk (nameTargetsOk fuel mgr) (readQuestion fuel mgr) countQd.iterations d6 &&
    match questionLoop fuel mgr countQd.iterations d6 packet with
    | none => true
    | some (packet1, d7) =>
      chainTargetsOk (recordTargetsOk fuel mgr) (readRecord fuel mgr) countAn.iterations d7 &&
        match sectionLoop fuel mgr PacketSection.ANSWER countAn.iterations d7 packet1 with
        | none => true
        | some (packet2, d8) =>
          chainTargetsOk (recordTargetsOk fuel mgr) (readRecord fuel mgr)
              countNs.iterations d8 &&
            match sectionLoop fuel mgr PacketSection.AUTHORITY countNs.iterations d8
                packet2 with
            | none => true
            | some (_, d9) =>
              chainTargetsOk (recordTargetsOk fuel mgr) (readRecord fuel mgr)
                countAr.iterations d9

/-- The record without its reference to the label manager object. -/
def DNSRecord.content (r : DNSRecord) : DNSRecord := { r with lblPointManager_ := none }

/-- The flags and the records of the four sections, each without its
reference to the label manager object. -/
def DNSPacket.content (p : DNSPacket) : DNSPacket :=
  ⟨p.flags_, p.qd.map DNSRecord.content, p.an.map DNSRecord.content,
    p.ns.map DNSRecord.content, p.ar.map DNSRecord.content⟩

/-- The two buffers have the same length and the same bytes from offset 2 on. -/
def SameFromTwo (v v' : List Nat) : Prop := v.length = v'.length ∧ v.drop 2 = v'.drop 2

/-- The cursor position, when it is a number, is at least 2. -/
def BeyondTwo (loc : JSVal) : Prop := ∀ i : Int, loc = JSVal.num i → 2 ≤ i

/-- Two views read in step: the same view, or the two buffers at a position
of at least 2. -/
def Agree (v v' w w' : List Nat) (loc : JSVal) : Prop :=
  w = w' ∨ (w = v ∧ w' = v' ∧ BeyondTwo loc)

/-- The packet in which every record refers to the label manager `m`. -/
def DNSPacket.withManager (p : DNSPacket) (m : RespLabelPtManager) : DNSPacket :=
  ⟨p.flags_, p.qd.map (fun r => r.setLblPointManager m),
    p.an.map (fun r => r.setLblPointManager m), p.ns.map (fun r => r.setLblPointManager m),
    p.ar.map (fun r => r.setLblPointManager m)⟩

/-! ## dnsresponsepacketanalyzer.js: the netblocks -/

/-- The array `ndebug.DNSResponsePacketAnalyzer.googleIp4Netblock`. -/
def googleIp4Netblock : List JSString :=
  [str "216.239.32.0/19", str "64.233.160.0/19", str "66.249.80.0/20", str "72.14.192.0/18",
   str "209.85.128.0/17", str "66.102.0.0/20", str "74.125.0.0/16", str "64.18.0.0/20",
   str "207.126.144.0/20", str "173.194.0.0/16"]

/-- The loop `for (var i = 0; i < numNetblocks; i++)` of `isGoogleIp4Address`
over the netblocks that are left: `return true` at the first range that holds
the address, `return false` after the last one. -/
def isGoogleIp4AddressLoop (addressToTest : JSString) : List JSString → Bool
  | [] => false
  | netblock :: rest =>
    if isIp4AddressInCidrBlock addressToTest netblock then true
    else isGoogleIp4AddressLoop addressToTest rest

/-- The function `ndebug.DNSResponsePacketAnalyzer.isGoogleIp4Address`. -/
def isGoogleIp4Address (addressToTest : JSString) : Bool :=
  isGoogleIp4AddressLoop addressToTest googleIp4Netblock

/-! ## Notions used to state which names end in a pointer -/

/-- The walk of `parseName` over the length bytes of the name at the cursor,
for at most the given number of length bytes: the offset byte of the pointer
that ends the name, or `none` when the name ends with a zero byte or at the end
of the view. -/
def pointerOfName : Nat → Deserializer → Option JSVal
  | 0, _ => none
  | k + 1, nameDeserializer =>
    let (len, d1) := nameDeserializer.getByte
    if !len.truthy then none
    else if len = JSVal.num 0xc0 then some d1.getByte.1
    else pointerOfName k (parseLabel len.iterations d1 []).2

/-- The offset byte of the pointer that ends the name at the cursor, if there
is one. Every label takes at least two bytes, so the walk is over after one
length byte more than there are bytes left in the view. -/
def namePointer (d : Deserializer) : Option JSVal := pointerOfName (d.remaining + 1) d

/-- The offset at which `getNameFromReference(ref)` starts to parse: the start
of `subarray(ref)`. -/
def targetOffset (view : List Nat) (ref : JSVal) : Nat := clampIndex view.length ref.toInteger

/-- The offset byte of the pointer that ends the name which
`getNameFromReference(ref)` parses, if that name ends in a pointer. -/
def nextTarget (view : List Nat) (ref : JSVal) : Option JSVal :=
  namePointer (Deserializer.new (subarray view ref JSVal.undefined))

/-- Along the first `n` steps of the chain of targets that
`getNameFromReference(ref)` follows, each pointer refers to a strictly smaller
offset than the target whose name it ends. -/
def decreasingChain (view : List Nat) : Nat → JSVal → Bool
  | 0, _ => true
  | n + 1, ref =>
    match nextTarget view ref with
    | none => true
    | some next =>
      decide (targetOffset view next < targetOffset view ref) && decreasingChain view n next

/-- No name of the non-question record at the cursor ends in a pointer: its
own name and, for the types CNAME and MX, the name in its data section. -/
def recordPointerFree (fuel : Nat) (mgr : RespLabelPtManager) (d : Deserializer) : Bool :=
  (namePointer d).isNone &&
    match parseName fuel mgr d with
    | none => true
    | some (_, d1) =>
      let (recType, d2) := d1.getShort
      let (_, d3) := d2.getShort
      let (_, d4) := d3.getLong
      let (dtSectLength, d5) := d4.getShort
      let (dtSectBinary, _) := d5.slice dtSectLength
      if recType = JSVal.num RecordNumber.CNAME then
        (namePointer (Deserializer.new dtSectBinary)).isNone
      else if recType = JSVal.num RecordNumber.MX then
        (namePointer (Deserializer.new dtSectBinary).getShort.2).isNone
      else true

/-- The walk of `deserializePacket` through the four sections of `data` (with
the label manager on the same buffer): the check `okQuestion` holds at the
cursor of every question and the check `okRecord` at the cursor of every other
record. -/
def packetChecks (okQuestion okRecord : Deserializer → Bool) (fuel : Nat) (data : List Nat) :
    Bool :=
  let mgr : RespLabelPtManager := ⟨data⟩
  let (_, d1) := (Deserializer.new data).getShort
  let (flags, d2) := d1.getShort
  let (countQd, d3) := d2.getShort
  let (countAn, d4) := d3.getShort
  let (countNs, d5) := d4.getShort
  let (countAr, d6) := d5.getShort
  let packet := DNSPacket.new flags
  chainTargetsOk okQuestion (readQuestion fuel mgr) countQd.iterations d6 &&
    match questionLoop fuel mgr countQd.iterations d6 packet with
    | none => true
    | some (packet1, d7) =>
      chainTargetsOk okRecord (readRecord fuel mgr) countAn.iterations d7 &&
        match sectionLoop fuel mgr PacketSection.ANSWER countAn.iterations d7 packet1 with
        | none => true
        | some (packet2, d8) =>
          chainTargetsOk okRecord (readRecord fuel mgr) countNs.iterations d8 &&
            match sectionLoop fuel mgr PacketSection.AUTHORITY countNs.iterations d8
                packet2 with
            | none => true
            | some (_, d9) =>
              chainTargetsOk okRecord (readRecord fuel mgr) countAr.iterations d9

/-- No name that `deserializePacket` parses while it decodes `data` ends in a
compression pointer. -/
def packetPointerFree (fuel : Nat) (data : List Nat) : Bool :=
  packetChecks (fun d => (namePointer d).isNone) (recordPointerFree fuel ⟨data⟩) fuel data

/-! ## Notions used to state that a decode stays inside the buffer -/

/-- The cursor has not passed the end of its view: every byte consumed so far
by reads that moved it forward was a byte of the view. -/
def Deserializer.inside (d : Deserializer) : Bool := (JSVal.num d.view_.length).ge d.loc_

mutual

/-- While the name at the cursor is parsed, no byte is read past the end of
the response, here and in the names reached through references. `toEnd` tells
that the view of the cursor runs to the end of the response (the response
itself, or the sub-array of `getNameFromReference`), so that a read past the
end of the view is a read past the end of the response; a data section is a
view that ends where the section ends, and a read past its end is `undefined`
whatever follows in the response. The walk follows `parseName` for at most
`fuel` steps. -/
def nameInside : Nat → Bool → RespLabelPtManager → Deserializer → Bool
  | 0, _, _, _ => true
  | fuel + 1, toEnd, lblPtManager, nameDeserializer =>
    let (len, d1) := nameDeserializer.getByte
    (!toEnd || d1.inside) &&
      (if !len.truthy then true
      else if len = JSVal.num 0xc0 then
        let (ref, d2) := d1.getByte
        (!toEnd || d2.inside) && referenceInside fuel lblPtManager ref
      else
        let (_, d2) := parseLabel len.iterations d1 []
        (!toEnd || d2.inside) && nameInside fuel toEnd lblPtManager d2)

/-- The same for the name that `getNameFromReference(ref)` parses. -/
def referenceInside : Nat → RespLabelPtManager → JSVal → Bool
  | 0, _, _ => true
  | fuel + 1, mgr, ref =>
    nameInside fuel true mgr (Deserializer.new (subarray mgr.view_ ref JSVal.undefined))

end

/-- The question at the cursor is read without a read past the end of the
response: its name, its type and its class. -/
def questionInside (fuel : Nat) (mgr : RespLabelPtManager) (d : Deserializer) : Bool :=
  nameInside fuel true mgr d &&
    match parseName fuel mgr d with
    | none => true
    | some (_, d1) => d1.getShort.2.getShort.2.inside

/-- The non-question record at the cursor is read without a read past the end
of the response: its name, the ten bytes of type, class, ttl and data length,
the data section of the announced length, and the names that a CNAME or MX
data section refers to. -/
def recordInside (fuel : Nat) (mgr : RespLabelPtManager) (d : Deserializer) : Bool :=
  nameInside fuel true mgr d &&
    match parseName fuel mgr d with
    | none => true
    | some (_, d1) =>
      let (recType, d2) := d1.getShort
      let (_, d3) := d2.getShort
      let (_, d4) := d3.getLong
      let (dtSectLength, d5) := d4.getShort
      let (dtSectBinary, d6) := d5.slice dtSectLength
      d5.inside && d6.inside &&
        (if recType = JSVal.num RecordNumber.CNAME then
          nameInside fuel false mgr (Deserializer.new dtSectBinary)
        else if recType = JSVal.num RecordNumber.MX then
          nameInside fuel false mgr (Deserializer.new dtSectBinary).getShort.2
        else true)

/-- The decode of `data` by `deserializePacket` (with the label manager on the
same buffer) reads no byte past the end of `data`: the twelve bytes of the
header, every question and every other record. -/
def packetInside (fuel : Nat) (data : List Nat) : Bool :=
  decide (12 ≤ data.length) &&
    packetChecks (questionInside fuel ⟨data⟩) (recordInside fuel ⟨data⟩) fuel data

/-! ## Inputs of the examples -/

/-- The packet of one hundred questions for the name 'a'. -/
def hundredQuestions : DNSPacket :=
  ⟨JSVal.num 0x100,
    List.replicate 100 (DNSRecord.newQuestion [97] (JSVal.num 1) (JSVal.num 1)), [], [], []⟩

/-- The packet with a question for 'ab.c', an answer and an additional record. -/
def smallPacket : DNSPacket :=
  ⟨JSVal.num 0x8180, [DNSRecord.newQuestion [97, 98, 46, 99] (JSVal.num 1) (JSVal.num 1)],
    [DNSRecord.newQuestion [97, 98, 46, 99] (JSVal.num 5) (JSVal.num 1)], [],
    [DNSRecord.newQuestion [99] (JSVal.num 28) (JSVal.num 1)]⟩

/-- A hostname of nine labels, each of 63 letters 'a'. -/
def nineLabels : JSString := joinDot (List.replicate 9 (List.replicate 63 97))

/-- A response that announces one question and one answer and ends after the
twelve bytes of the header. -/
def headerOnly : List Nat := [0, 0, 0x81, 0x80, 0, 1, 0, 1, 0, 0, 0, 0]

/-- A response with two answers of type 1 for the root name: the first has a
data section of two bytes (8 8), the second one of four bytes (1 2 3 4). -/
def shortAResponse : List Nat :=
  [0, 0, 0x81, 0x80, 0, 0, 0, 2, 0, 0, 0, 0,
   0, 0, 1, 0, 1, 0, 0, 0, 60, 0, 2, 8, 8,
   0, 0, 1, 0, 1, 0, 0, 0, 60, 0, 4, 1, 2, 3, 4]

/-- An answer record for the name 'a' of type 28 whose data section is eight
times the bytes 0x20 0x01. -/
def aaaaRecordBytes : List Nat :=
  [1, 97, 0, 0, 28, 0, 1, 0, 0, 0, 60, 0, 16,
   0x20, 1, 0x20, 1, 0x20, 1, 0x20, 1, 0x20, 1, 0x20, 1, 0x20, 1, 0x20, 1]

/-- An answer record for the name 'a' of type 15 with preference 10 and the
mail exchanger 'mx.b'. -/
def mxRecordBytes : List Nat :=
  [1, 97, 0, 0, 15, 0, 1, 0, 0, 0, 60, 0, 8, 0, 10, 2, 109, 120, 1, 98, 0]

/-- An answer record for the name 'a' of type 16 whose data section is the
length byte 2 followed by 'hi'. -/
def txtRecordBytes : List Nat :=
  [1, 97, 0, 0, 16, 0, 1, 0, 0, 0, 60, 0, 3, 2, 104, 105]

/-- An answer record for the name 'a' of type 2, class 3, with a data section
of three bytes. -/
def nsRecordBytes : List Nat :=
  [1, 97, 0, 0, 2, 0, 3, 0, 0, 0, 60, 0, 3, 7, 8, 9]

/-- An answer record for the root name of type 1 that announces a data
section of five bytes (1 2 3 4 5). -/
def fiveOctetRecordBytes : List Nat :=
  [0, 0, 1, 0, 1, 0, 0, 0, 60, 0, 5, 1, 2, 3, 4, 5]

/-- An answer record for the root name of type 28 that announces a data
section of two bytes (0x20 0x01). -/
def twoByteAAAARecordBytes : List Nat :=
  [0, 0, 28, 0, 1, 0, 0, 0, 60, 0, 2, 0x20, 1]

/-- The query manager of a type-1 query for the hostname 'a' to the server
'8.8.8.8'; its serialized query has 19 bytes. -/
def exampleQuery : DNSQueryManager :=
  DNSQueryManager.new (str "a") (JSVal.num 1) (str "8.8.8.8")

/-- A response to `exampleQuery`: the question, and one answer of type 1 with
the address 1.2.3.4 whose name is a pointer to offset 12. -/
def aResponse : List Nat :=
  [0, 0, 0x81, 0x80, 0, 1, 0, 1, 0, 0, 0, 0,
   1, 97, 0, 0, 1, 0, 1,
   0xc0, 12, 0, 1, 0, 1, 0, 0, 0, 60, 0, 4, 1, 2, 3, 4]

/-- The callbacks of a query that gets no response: the socket is created
and connected, the 19 bytes are written, then the timer fires. -/
def timeoutRun : List Event :=
  [Event.created 3, Event.connected (JSVal.num 0), Event.written (JSVal.num 19), Event.timeout]

/-- The callbacks of `timeoutRun` followed by a read callback that delivers
`aResponse`. -/
def lateReadRun : List Event :=
  timeoutRun ++ [Event.dataRead (JSVal.num 35) aResponse]

/-- Callbacks delivered after the timer has fired: the socket information,
and a second timer event. -/
def afterTimeout : List Event :=
  [Event.gotInfo (str "udp") (str "10.0.0.2") (str "5000") (str "8.8.8.8") (str "53"),
    Event.timeout]

/-- The callbacks of a query whose timer fires before the creation callback:
the timer, then the socket 3 is created and connected and the 19 bytes are
written. -/
def earlyTimerRun : List Event :=
  [Event.timeout, Event.created 3, Event.connected (JSVal.num 0), Event.written (JSVal.num 19)]

/-- The callbacks of a query up to the connection: the socket 3 is created
and connected. -/
def connectedRun : List Event :=
  [Event.created 3, Event.connected (JSVal.num 0)]

/-- A name whose first length byte is 0xC1: 193 times the letter 'a', then
the zero byte. -/
def longLabelName : List Nat := 193 :: (List.replicate 193 97 ++ [0])

/-- A response with one question whose name, at offset 12, is the pointer
0xC0 12 to itself. -/
def selfPointerResponse : List Nat :=
  [0, 0, 0x81, 0x80, 0, 1, 0, 0, 0, 0, 0, 0, 0xc0, 12, 0, 1, 0, 1]

/-- A response whose answer name is a pointer to the question name at offset
12, with an address record 192.0.2.1. -/
def pointerResponse : List Nat :=
  [0, 0, 0x81, 0x80, 0, 1, 0, 1, 0, 0, 0, 0,
   1, 97, 0, 0, 1, 0, 1,
   0xc0, 12, 0, 1, 0, 1, 0, 0, 0, 60, 0, 4, 192, 0, 2, 1]

/-- A response to a CNAME question for 'a.b': the answer name is a pointer to
offset 12, and the data section of the answer is the label 'x' followed by a
pointer to offset 14 of the response. -/
def cnameResponse : List Nat :=
  [0, 0, 0x81, 0x80, 0, 1, 0, 1, 0, 0, 0, 0,
   1, 97, 1, 98, 0, 0, 5, 0, 1,
   0xc0, 12, 0, 5, 0, 1, 0, 0, 0, 60, 0, 4, 1, 120, 0xc0, 14]

/-- A response that announces one question and one answer: the question for
'a', and an answer for 'a' of type 1 that announces four data bytes, of which
the buffer holds the first two, 192 (0xC0) and 0. -/
def cutResponse : List Nat :=
  [0, 0, 0x81, 0x80, 0, 1, 0, 1, 0, 0, 0, 0,
   1, 97, 0, 0, 1, 0, 1,
   1, 97, 0, 0, 1, 0, 1, 0, 0, 0, 60, 0, 4, 192, 0]

/-- A response to a type-1 question for 'a' whose answer, at offset 19, has
the class 3 on the wire (bytes 0 3 at offset 23). -/
def classThreeResponse : List Nat :=
  [0, 0, 0x81, 0x80, 0, 1, 0, 1, 0, 0, 0, 0,
   1, 97, 0, 0, 1, 0, 1,
   0xc0, 12, 0, 1, 0, 3, 0, 0, 0, 60, 0, 4, 1, 2, 3, 4]

/-- A packet with two questions, for 'a.b' (type 1) and for 'c' (type 28), and
the flags 0x100. -/
def twoQuestions : List DNSRecord :=
  [DNSRecord.newQuestion (str "a.b") (JSVal.num 1) (JSVal.num 1),
   DNSRecord.newQuestion (str "c") (JSVal.num 28) (JSVal.num 1)]

/-! ## Reading inside and outside the buffer -/

@[simp] theorem elementGet_nat (view : List Nat) (n : Nat) :
    elementGet view (JSVal.num (n : Int)) =
      match view[n]? with
      | some b => JSVal.num b
      | none => JSVal.undefined := by
  simp [elementGet]

theorem getByte_num (view : List Nat) (n : Nat) :
    Deserializer.getByte ⟨view, JSVal.num n⟩ =
      (elementGet view (JSVal.num n), ⟨view, JSVal.num ((n + 1 : Nat) : Int)⟩) := by
  simp [Deserializer.getByte, JSVal.add, JSVal.sub]

theorem getByte_nan (view : List Nat) :
    Deserializer.getByte ⟨view, JSVal.nan⟩ = (JSVal.undefined, ⟨view, JSVal.nan⟩) := by
  simp [Deserializer.getByte, JSVal.add, JSVal.sub, elementGet]

theorem head_of_drop {view : List Nat} {n b : Nat} {rest : List Nat}
    (h : view.drop n = b :: rest) : view[n]? = some b := by
  have := congrArg (fun l => l[0]?) h
  simpa [List.getElem?_drop] using this

theorem drop_succ_of_drop {view : List Nat} {n b : Nat} {rest : List Nat}
    (h : view.drop n = b :: rest) : view.drop (n + 1) = rest := by
  have := congrArg (List.drop 1) h
  simpa [List.drop_drop, Nat.add_comm] using this

theorem drop_add_of_drop {view : List Nat} {n : Nat} {l rest : List Nat}
    (h : view.drop n = l ++ rest) : view.drop (n + l.length) = rest := by
  have := congrArg (List.drop l.length) h
  simpa [List.drop_drop, Nat.add_comm] using this

theorem getByte_of_drop {view : List Nat} {n b : Nat} {rest : List Nat}
    (h : view.drop n = b :: rest) :
    Deserializer.getByte ⟨view, JSVal.num n⟩ =
      (JSVal.num b, ⟨view, JSVal.num ((n + 1 : Nat) : Int)⟩) := by
  rw [getByte_num, elementGet_nat, head_of_drop h]

theorem getByte_past_end {view : List Nat} {n : Nat} (h : view.length ≤ n) :
    Deserializer.getByte ⟨view, JSVal.num n⟩ =
      (JSVal.undefined, ⟨view, JSVal.num ((n + 1 : Nat) : Int)⟩) := by
  rw [getByte_num, elementGet_nat, List.getElem?_eq_none h]

theorem wrapInt32_of_lt {x : Int} (h0 : 0 ≤ x) (h1 : x < 2147483648) : wrapInt32 x = x := by
  unfold wrapInt32
  simp only
  split <;> omega

theorem shl8_byte {b : Nat} (hb : b < 256) :
    (JSVal.num (b : Int)).shl 8 = JSVal.num ((b * 256 : Nat) : Int) := by
  have h1 : wrapInt32 (b : Int) = b := wrapInt32_of_lt (by omega) (by omega)
  have h2 : wrapInt32 ((b : Int) * 2 ^ 8) = (b : Int) * 256 := by
    rw [wrapInt32_of_lt (by positivity) (by omega)]
    norm_num
  simp only [JSVal.shl, JSVal.toInt32, h1, h2]
  push_cast
  rfl

theorem getShort_of_drop {view : List Nat} {n b0 b1 : Nat} {rest : List Nat}
    (h : view.drop n = b0 :: b1 :: rest) (h0 : b0 < 256) :
    Deserializer.getShort ⟨view, JSVal.num n⟩ =
      (JSVal.num ((b0 * 256 + b1 : Nat) : Int), ⟨view, JSVal.num ((n + 2 : Nat) : Int)⟩) := by
  simp only [Deserializer.getShort]
  rw [getByte_of_drop h, getByte_of_drop (drop_succ_of_drop h), shl8_byte h0]
  simp only [JSVal.add]
  push_cast
  rfl

theorem getByte_loc (view : List Nat) (n : Nat) :
    (Deserializer.getByte ⟨view, JSVal.num n⟩).2 = ⟨view, JSVal.num ((n + 1 : Nat) : Int)⟩ := by
  rw [getByte_num]

theorem getShort_loc (view : List Nat) (n : Nat) :
    (Deserializer.getShort ⟨view, JSVal.num n⟩).2 = ⟨view, JSVal.num ((n + 2 : Nat) : Int)⟩ := by
  simp only [Deserializer.getShort, getByte_num]

theorem getLong_loc (view : List Nat) (n : Nat) :
    (Deserializer.getLong ⟨view, JSVal.num n⟩).2 = ⟨view, JSVal.num ((n + 4 : Nat) : Int)⟩ := by
  simp only [Deserializer.getLong, Deserializer.getShort, getByte_num]

theorem shl16_short {x : Nat} (hx : x < 65536) :
    (JSVal.num (x : Int)).shl 16 = JSVal.num (wrapInt32 ((x : Int) * 65536)) := by
  have h1 : wrapInt32 (x : Int) = x := wrapInt32_of_lt (by omega) (by omega)
  simp only [JSVal.shl, JSVal.toInt32, h1]
  norm_num

theorem getLong_of_drop {view : List Nat} {n b0 b1 b2 b3 : Nat} {rest : List Nat}
    (h : view.drop n = b0 :: b1 :: b2 :: b3 :: rest)
    (h0 : b0 < 256) (h1 : b1 < 256) (h2 : b2 < 256) :
    Deserializer.getLong ⟨view, JSVal.num n⟩ =
      (JSVal.num (wrapInt32 (((b0 * 256 + b1 : Nat) : Int) * 65536) + ((b2 * 256 + b3 : Nat) : Int)),
        ⟨view, JSVal.num ((n + 4 : Nat) : Int)⟩) := by
  have h' : view.drop (n + 2) = b2 :: b3 :: rest :=
    drop_succ_of_drop (drop_succ_of_drop h)
  simp only [Deserializer.getLong]
  rw [getShort_of_drop h h0, getShort_of_drop h' h2, shl16_short (by omega)]
  simp only [JSVal.add]

theorem clampIndex_nat (len n : Nat) : clampIndex len (n : Int) = min n len := by
  simp [clampIndex]

theorem slice_of_drop {view : List Nat} {n : Nat} {data rest : List Nat}
    (h : view.drop n = data ++ rest) :
    Deserializer.slice ⟨view, JSVal.num n⟩ (JSVal.num data.length) =
      (data, ⟨view, JSVal.num ((n + data.length : Nat) : Int)⟩) := by
  have hlen : view.length - n = data.length + rest.length := by
    have := congrArg List.length h
    simpa using this
  have e : (JSVal.num (n : Int)).add (JSVal.num (data.length : Int)) =
      JSVal.num ((n + data.length : Nat) : Int) := by
    simp [JSVal.add]
  simp only [Deserializer.slice, e, subarray, JSVal.toInteger, clampIndex_nat]
  congr 1
  by_cases hn : n ≤ view.length
  · rw [Nat.min_eq_left hn, Nat.min_eq_left (by omega), h]
    simp
  · have hd : data = [] := by
      have : data.length = 0 := by omega
      exact List.length_eq_zero.mp this
    subst hd
    simp

theorem getLong_unsigned {view : List Nat} {n b0 b1 b2 b3 : Nat} {rest : List Nat}
    (h : view.drop n = b0 :: b1 :: b2 :: b3 :: rest)
    (h0 : b0 < 128) (h1 : b1 < 256) (h2 : b2 < 256) :
    Deserializer.getLong ⟨view, JSVal.num n⟩ =
      (JSVal.num ((b0 * 16777216 + b1 * 65536 + b2 * 256 + b3 : Nat) : Int),
        ⟨view, JSVal.num ((n + 4 : Nat) : Int)⟩) := by
  have hw : wrapInt32 (((b0 * 256 + b1 : Nat) : Int) * 65536) =
      ((b0 * 256 + b1 : Nat) : Int) * 65536 := by
    apply wrapInt32_of_lt
    · positivity
    · push_cast
      omega
  have e : ((b0 * 256 + b1 : Nat) : Int) * 65536 + ((b2 * 256 + b3 : Nat) : Int) =
      ((b0 * 16777216 + b1 * 65536 + b2 * 256 + b3 : Nat) : Int) := by
    push_cast
    ring
  rw [getLong_of_drop h (by omega) h1 h2, hw, e]

theorem getLong_high_bit {view : List Nat} {n b0 b1 b2 b3 : Nat} {rest : List Nat}
    (h : view.drop n = b0 :: b1 :: b2 :: b3 :: rest)
    (h0 : 128 ≤ b0) (h0' : b0 < 256) (h1 : b1 < 256) (h2 : b2 < 256) :
    Deserializer.getLong ⟨view, JSVal.num n⟩ =
      (JSVal.num (((b0 * 16777216 + b1 * 65536 + b2 * 256 + b3 : Nat) : Int) - 4294967296),
        ⟨view, JSVal.num ((n + 4 : Nat) : Int)⟩) := by
  have hw : wrapInt32 (((b0 * 256 + b1 : Nat) : Int) * 65536) =
      ((b0 * 256 + b1 : Nat) : Int) * 65536 - 4294967296 := by
    unfold wrapInt32
    simp only
    push_cast
    split <;> omega
  have e : ((b0 * 256 + b1 : Nat) : Int) * 65536 - 4294967296 + ((b2 * 256 + b3 : Nat) : Int) =
      ((b0 * 16777216 + b1 * 65536 + b2 * 256 + b3 : Nat) : Int) - 4294967296 := by
    push_cast
    ring
  rw [getLong_of_drop h h0' h1 h2, hw, e]

/-! ## Reads past the end of the buffer (C7) -/

/-- C7, counterexample: on a buffer with fewer bytes than the operation needs,
`getByte` returns `undefined`, `getShort` and `getLong` return `NaN` and
`slice(5)` returns the three bytes that are left; every call returns a value
and moves the cursor, none fails. -/
theorem read_past_end_returns_value :
    (Deserializer.new []).getByte = (JSVal.undefined, ⟨[], JSVal.num 1⟩) ∧
    (Deserializer.new [7]).getShort = (JSVal.nan, ⟨[7], JSVal.num 2⟩) ∧
    (Deserializer.new [1, 2, 3]).getLong = (JSVal.nan, ⟨[1, 2, 3], JSVal.num 4⟩) ∧
    (Deserializer.new [1, 2, 3]).slice (JSVal.num 5) =
      ([1, 2, 3], ⟨[1, 2, 3], JSVal.num 5⟩) := by
  decide

/-- C7 (amended): for every Deserializer state with cursor `n`, a call that
needs more bytes than remain does not fail: `getByte` returns `undefined`,
`getShort` and `getLong` return `NaN`, `slice(k)` returns exactly the bytes
that remain, and each call advances the cursor by 1, 2, 4 and `k`. -/
theorem read_past_end (view : List Nat) (n : Nat) :
    (view.length < n + 1 →
      Deserializer.getByte ⟨view, JSVal.num n⟩ =
        (JSVal.undefined, ⟨view, JSVal.num ((n + 1 : Nat) : Int)⟩)) ∧
    (view.length < n + 2 →
      Deserializer.getShort ⟨view, JSVal.num n⟩ =
        (JSVal.nan, ⟨view, JSVal.num ((n + 2 : Nat) : Int)⟩)) ∧
    (view.length < n + 4 →
      Deserializer.getLong ⟨view, JSVal.num n⟩ =
        (JSVal.nan, ⟨view, JSVal.num ((n + 4 : Nat) : Int)⟩)) ∧
    (∀ k : Nat, view.length < n + k →
      Deserializer.slice ⟨view, JSVal.num n⟩ (JSVal.num k) =
        (view.drop n, ⟨view, JSVal.num ((n + k : Nat) : Int)⟩)) := by
  have short : ∀ m : Nat, view.length < m + 2 →
      Deserializer.getShort ⟨view, JSVal.num m⟩ =
        (JSVal.nan, ⟨view, JSVal.num ((m + 2 : Nat) : Int)⟩) := by
    intro m h
    simp only [Deserializer.getShort]
    rw [getByte_num, getByte_past_end (by omega)]
    cases elementGet view (JSVal.num (m : Int)) <;> simp [JSVal.shl, JSVal.add] <;> omega
  refine ⟨fun h => getByte_past_end (by omega), short n, ?_, ?_⟩
  · intro h
    have e := getShort_loc view n
    simp only [Deserializer.getLong]
    cases hs : Deserializer.getShort ⟨view, JSVal.num n⟩ with
    | mk a d1 =>
      rw [hs] at e
      simp only at e
      subst e
      simp only [short (n + 2) (by omega)]
      cases a <;> simp [JSVal.shl, JSVal.add] <;> omega
  · intro k h
    simp only [Deserializer.slice, subarray, JSVal.add, JSVal.toInteger]
    have e : ((n : Int) + (k : Int)) = ((n + k : Nat) : Int) := by push_cast; rfl
    rw [e, clampIndex_nat, clampIndex_nat, Nat.min_eq_right (by omega)]
    congr 1
    by_cases hn : n ≤ view.length
    · rw [Nat.min_eq_left hn]
      simp
    · rw [Nat.min_eq_right (by omega)]
      simp
      omega

/-- C7 (amended) on the one-byte buffer [7]: `getByte` behind the byte,
`getShort`, `getLong` and `slice(5)` at the byte. -/
theorem read_past_end_witness :
    Deserializer.getByte ⟨[7], JSVal.num (1 : Nat)⟩ =
      (JSVal.undefined, ⟨[7], JSVal.num ((1 + 1 : Nat) : Int)⟩) ∧
    Deserializer.getShort ⟨[7], JSVal.num (0 : Nat)⟩ =
      (JSVal.nan, ⟨[7], JSVal.num ((0 + 2 : Nat) : Int)⟩) ∧
    Deserializer.getLong ⟨[7], JSVal.num (0 : Nat)⟩ =
      (JSVal.nan, ⟨[7], JSVal.num ((0 + 4 : Nat) : Int)⟩) ∧
    Deserializer.slice ⟨[7], JSVal.num (0 : Nat)⟩ (JSVal.num (5 : Nat)) =
      ([7], ⟨[7], JSVal.num ((0 + 5 : Nat) : Int)⟩) :=
  ⟨(read_past_end [7] 1).1 (by decide), (read_past_end [7] 0).2.1 (by decide),
    (read_past_end [7] 0).2.2.1 (by decide), (read_past_end [7] 0).2.2.2 5 (by decide)⟩

/-! ## The 32-bit read (C9) -/

/-- C9, the code at the failing input: on the wire bytes 80 00 00 00 `getLong`
returns -2147483648, and a decoded answer record with these ttl bytes has
`getTTL() = -2147483648`, where the claim has 2147483648. -/
theorem getLong_wraps_to_negative :
    (Deserializer.new [0x80, 0, 0, 0]).getLong =
      (JSVal.num (-2147483648), ⟨[0x80, 0, 0, 0], JSVal.num 4⟩) ∧
    (decodeResponse 2 [0, 0, 0x81, 0x80, 0, 0, 0, 1, 0, 0, 0, 0,
        1, 97, 0, 0, 1, 0, 1, 0x80, 0, 0, 0, 0, 4, 8, 8, 8, 8]).map
      (fun p => p.an.map DNSRecord.getTTL) = some [JSVal.num (-2147483648)] := by
  decide

/-! ## A records (C10) -/

theorem parseDataSection_A (fuel : Nat) (mgr : RespLabelPtManager) (b0 b1 b2 b3 : Nat)
    (r : DNSRecord) :
    parseDataSection fuel mgr (JSVal.num 1) [b0, b1, b2, b3] r =
      some ((r.setIp (joinDotVals [JSVal.num b0, JSVal.num b1, JSVal.num b2, JSVal.num b3])).setData
        (DataTxt.text (joinDotVals [JSVal.num b0, JSVal.num b1, JSVal.num b2, JSVal.num b3]))) := by
  simp [parseDataSection, RecordNumber.A, parseOctets, Deserializer.isEOF, Deserializer.new,
    JSVal.ge, Deserializer.getByte, JSVal.add, JSVal.sub, elementGet]

/-- C10: a non-question record whose type is 1 and whose data section is the
four bytes b0 b1 b2 b3 is decoded as a `DNSRecordA` with `getType() = 1` whose
`getIp()` and `getDataText()` are both the decimal renderings of b0, b1, b2, b3
joined by '.'; the cursor ends behind the data section. -/
theorem readRecord_A (fuel : Nat) (mgr : RespLabelPtManager) (d : Deserializer)
    (recName : JSString) (view : List Nat) (n c0 c1 t0 t1 t2 t3 b0 b1 b2 b3 : Nat)
    (rest : List Nat)
    (hname : parseName fuel mgr d = some (recName, ⟨view, JSVal.num n⟩))
    (hwire : view.drop n = [0, 1, c0, c1, t0, t1, t2, t3, 0, 4, b0, b1, b2, b3] ++ rest) :
    ∃ r, readRecord fuel mgr d = some (r, ⟨view, JSVal.num ((n + 14 : Nat) : Int)⟩) ∧
      r.kind = RecordKind.DNSRecordA ∧ r.getName = recName ∧ r.getType = JSVal.num 1 ∧
      r.getIp = some (joinDot [(JSVal.num b0).toStr, (JSVal.num b1).toStr,
        (JSVal.num b2).toStr, (JSVal.num b3).toStr]) ∧
      r.getDataText = DataTxt.text (joinDot [(JSVal.num b0).toStr, (JSVal.num b1).toStr,
        (JSVal.num b2).toStr, (JSVal.num b3).toStr]) := by
  have h8 : view.drop (n + 8) = [0, 4, b0, b1, b2, b3] ++ rest :=
    drop_add_of_drop (l := [0, 1, c0, c1, t0, t1, t2, t3]) hwire
  have h10 : view.drop (n + 10) = [b0, b1, b2, b3] ++ rest :=
    drop_succ_of_drop (drop_succ_of_drop h8)
  have eType : Deserializer.getShort ⟨view, JSVal.num n⟩ =
      (JSVal.num 1, ⟨view, JSVal.num ((n + 2 : Nat) : Int)⟩) :=
    @getShort_of_drop view n 0 1 _ hwire (by omega)
  obtain ⟨recClass, hc⟩ : ∃ v, Deserializer.getShort ⟨view, JSVal.num ((n + 2 : Nat) : Int)⟩ =
      (v, ⟨view, JSVal.num ((n + 4 : Nat) : Int)⟩) :=
    ⟨_, Prod.ext rfl (getShort_loc view (n + 2))⟩
  obtain ⟨recTTL, ht⟩ : ∃ v, Deserializer.getLong ⟨view, JSVal.num ((n + 4 : Nat) : Int)⟩ =
      (v, ⟨view, JSVal.num ((n + 8 : Nat) : Int)⟩) :=
    ⟨_, Prod.ext rfl (getLong_loc view (n + 4))⟩
  have eLen : Deserializer.getShort ⟨view, JSVal.num ((n + 8 : Nat) : Int)⟩ =
      (JSVal.num 4, ⟨view, JSVal.num ((n + 10 : Nat) : Int)⟩) :=
    @getShort_of_drop view (n + 8) 0 4 _ h8 (by omega)
  have eData : Deserializer.slice ⟨view, JSVal.num ((n + 10 : Nat) : Int)⟩ (JSVal.num 4) =
      ([b0, b1, b2, b3], ⟨view, JSVal.num ((n + 14 : Nat) : Int)⟩) :=
    slice_of_drop h10
  simp only [readRecord, hname, eType, hc, ht, eLen, eData, parseDataSection_A]
  refine ⟨_, rfl, ?_⟩
  simp [newRecordOfType, RecordNumber.A, DNSRecord.newTyped, DNSRecord.newQuestion,
    DNSRecord.setLblPointManager, DNSRecord.setData, DNSRecord.setIp, DNSRecord.getName,
    DNSRecord.getType, DNSRecord.getIp, DNSRecord.getDataText, joinDotVals]

/-- C10 at the data section 8 8 8 8: the decoded record is the A record of
'8.8.8.8'. -/
theorem readRecord_A_witness :
    parseName 2 ⟨[]⟩ (Deserializer.new [1, 97, 0, 0, 1, 0, 1, 0, 0, 0, 60, 0, 4, 8, 8, 8, 8]) =
      some (str "a", ⟨[1, 97, 0, 0, 1, 0, 1, 0, 0, 0, 60, 0, 4, 8, 8, 8, 8], JSVal.num (3 : Nat)⟩) ∧
    ∃ r, readRecord 2 ⟨[]⟩
        (Deserializer.new [1, 97, 0, 0, 1, 0, 1, 0, 0, 0, 60, 0, 4, 8, 8, 8, 8]) =
        some (r, ⟨[1, 97, 0, 0, 1, 0, 1, 0, 0, 0, 60, 0, 4, 8, 8, 8, 8],
          JSVal.num ((3 + 14 : Nat) : Int)⟩) ∧
      r.kind = RecordKind.DNSRecordA ∧ r.getName = str "a" ∧ r.getType = JSVal.num 1 ∧
      r.getIp = some (str "8.8.8.8") ∧ r.getDataText = DataTxt.text (str "8.8.8.8") :=
  ⟨by decide,
   readRecord_A 2 ⟨[]⟩ (Deserializer.new [1, 97, 0, 0, 1, 0, 1, 0, 0, 0, 60, 0, 4, 8, 8, 8, 8])
     (str "a") [1, 97, 0, 0, 1, 0, 1, 0, 0, 0, 60, 0, 4, 8, 8, 8, 8] 3 0 1 0 0 0 60 8 8 8 8 []
     (by decide) (by decide)⟩

/-! ## The byte writer -/

theorem Serializer.wrote_new : Serializer.new.Wrote [] :=
  ⟨rfl, rfl, fun h => absurd rfl h⟩

theorem Serializer.wrote_setByte {s : Serializer} {bs : List Nat} (h : s.Wrote bs)
    (v : JSVal) : (s.setByte v).Wrote (bs ++ [v.toUint8]) := by
  obtain ⟨hloc, hview, _⟩ := h
  have hv : (s.view_.set bs.length v.toUint8) =
      (bs ++ [v.toUint8]).take 512 ++ List.replicate (512 - (bs.length + 1)) 0 := by
    rw [hview]
    by_cases hlt : bs.length < 512
    · obtain ⟨k, hk⟩ : ∃ k, 512 - bs.length = k + 1 := ⟨511 - bs.length, by omega⟩
      have hk' : 512 - (bs.length + 1) = k := by omega
      rw [List.take_of_length_le (by omega), hk, hk',
        List.take_of_length_le (by simp; omega),
        List.set_append_right _ _ (Nat.le_refl _)]
      simp [List.replicate_succ]
    · have h0 : 512 - bs.length = 0 := by omega
      have h1 : 512 - (bs.length + 1) = 0 := by omega
      rw [h0, h1, List.take_append_of_le_length (by omega)]
      simp only [List.replicate_zero, List.append_nil]
      exact List.set_eq_of_length_le (by simp)
  refine ⟨?_, ?_, ?_⟩
  · simp [Serializer.setByte, hloc]
  · simp only [Serializer.setByte, hloc, hv, List.length_append, List.length_singleton]
  · intro _
    simp only [Serializer.setByte, hloc, hv]
    congr 1
    by_cases hlt : bs.length < 512
    · rw [List.take_of_length_le (l := bs ++ [v.toUint8]) (by simp; omega)]
      exact List.take_left' (by simp)
    · have h1 : 512 - (bs.length + 1) = 0 := by omega
      rw [h1]
      simp only [List.replicate_zero, List.append_nil]
      rw [List.take_take, Nat.min_eq_right (by omega)]

theorem land_255 (n : Nat) : Nat.land n 255 = n % 256 := by
  have := Nat.and_pow_two_sub_one_eq_mod n 8
  norm_num at this
  exact this

theorem band_255_of_lt {k : Nat} (hk : k < 65536) :
    ((JSVal.num (k : Int)).band (JSVal.num 0xff)).toUint8 = k % 256 := by
  have h1 : wrapInt32 (k : Int) = k := wrapInt32_of_lt (by omega) (by omega)
  have h4 : wrapInt32 255 = 255 := by decide
  have h5 : ((k : Int) % 4294967296).toNat = k := by omega
  have h6 : ((255 : Int) % 4294967296).toNat = 255 := by decide
  have h7 : wrapInt32 ((k % 256 : Nat) : Int) = ((k % 256 : Nat) : Int) :=
    wrapInt32_of_lt (by omega) (by omega)
  simp only [JSVal.band, JSVal.toInt32, JSVal.toUint8, h1, h4, h5, h6, land_255, h7]
  omega

theorem setShort_high {x : Nat} (hx : x < 65536) :
    (((JSVal.num (x : Int)).shr 8).band (JSVal.num 0xff)).toUint8 = x / 256 := by
  have h1 : wrapInt32 (x : Int) = x := wrapInt32_of_lt (by omega) (by omega)
  have h2 : (x : Int) / 2 ^ 8 = ((x / 256 : Nat) : Int) := by
    norm_num
  have e : (JSVal.num (x : Int)).shr 8 = JSVal.num ((x / 256 : Nat) : Int) := by
    simp only [JSVal.shr, JSVal.toInt32, h1, h2]
  rw [e, band_255_of_lt (by omega)]
  omega

theorem setShort_low {x : Nat} (hx : x < 65536) :
    ((JSVal.num (x : Int)).band (JSVal.num 0xff)).toUint8 = x % 256 :=
  band_255_of_lt hx

theorem Serializer.wrote_setShort_any {s : Serializer} {bs : List Nat} (h : s.Wrote bs)
    (v : JSVal) : ∃ x y, (s.setShort v).Wrote (bs ++ [x, y]) := by
  have := Serializer.wrote_setByte (Serializer.wrote_setByte h ((v.shr 8).band (JSVal.num 0xff)))
    (v.band (JSVal.num 0xff))
  rw [List.append_assoc] at this
  exact ⟨_, _, this⟩

theorem Serializer.wrote_setShort {s : Serializer} {bs : List Nat} (h : s.Wrote bs)
    {x : Nat} (hx : x < 65536) :
    (s.setShort (JSVal.num x)).Wrote (bs ++ WireSpec.be16 x) := by
  have := Serializer.wrote_setByte
    (Serializer.wrote_setByte h (((JSVal.num (x : Int)).shr 8).band (JSVal.num 0xff)))
    ((JSVal.num (x : Int)).band (JSVal.num 0xff))
  rw [setShort_high hx, setShort_low hx] at this
  simpa [Serializer.setShort, WireSpec.be16, List.append_assoc] using this

theorem Serializer.wrote_chars {part : JSString} :
    ∀ {s : Serializer} {bs : List Nat}, s.Wrote bs → (∀ c ∈ part, c < 256) →
      (part.foldl (fun s (c : Nat) => s.setByte (JSVal.num c)) s).Wrote (bs ++ part) := by
  induction part with
  | nil => intro s bs h _; simpa using h
  | cons c cs ih =>
    intro s bs h hc
    have hc0 : c < 256 := hc c (List.mem_cons_self _ _)
    have h1 := Serializer.wrote_setByte h (JSVal.num c)
    have e : (JSVal.num (c : Int)).toUint8 = c := by
      simp only [JSVal.toUint8]
      omega
    rw [e] at h1
    have := ih h1 (fun c' hc' => hc c' (List.mem_cons_of_mem _ hc'))
    simpa [List.foldl_cons, List.append_assoc] using this

theorem Serializer.wrote_part {s : Serializer} {bs : List Nat} (h : s.Wrote bs)
    {part : JSString} (hlen : part.length < 256) (hc : ∀ c ∈ part, c < 256) :
    (serializePart s part).Wrote (bs ++ (part.length :: part)) := by
  have h1 := Serializer.wrote_setByte h (JSVal.num part.length)
  have e : (JSVal.num (part.length : Int)).toUint8 = part.length := by
    simp only [JSVal.toUint8]
    omega
  rw [e] at h1
  have := Serializer.wrote_chars h1 hc
  rw [List.append_assoc] at this
  exact this

theorem Serializer.wrote_parts {parts : List JSString} :
    ∀ {s : Serializer} {bs : List Nat}, s.Wrote bs →
      (∀ part ∈ parts, part.length < 256 ∧ ∀ c ∈ part, c < 256) →
      (parts.foldl serializePart s).Wrote (bs ++ WireSpec.labels parts) := by
  induction parts with
  | nil => intro s bs h _; simpa [WireSpec.labels] using h
  | cons part ps ih =>
    intro s bs h hp
    have hp0 := hp part (List.mem_cons_self _ _)
    have h1 := Serializer.wrote_part h hp0.1 hp0.2
    have := ih h1 (fun q hq => hp q (List.mem_cons_of_mem _ hq))
    simpa [List.foldl_cons, WireSpec.labels, List.append_assoc] using this

theorem Serializer.wrote_name {s : Serializer} {bs : List Nat} (h : s.Wrote bs)
    {dnsName : JSString} (hn : WireSpec.NameFits dnsName) :
    (serializeName dnsName s JSVal.undefined).Wrote (bs ++ WireSpec.name dnsName) := by
  have h1 := Serializer.wrote_parts h hn
  have := Serializer.wrote_setByte h1 (JSVal.num 0)
  simpa [serializeName, JSVal.truthy, WireSpec.name, JSVal.toUint8, List.append_assoc] using this

theorem Serializer.wrote_record {s : Serializer} {bs : List Nat} (h : s.Wrote bs)
    {r : DNSRecord} (hr : WireSpec.RecordFits r) :
    (serializeRecord s r).Wrote (bs ++ WireSpec.record r) := by
  obtain ⟨hn, ⟨t, ht, et⟩, ⟨c, hc, ec⟩⟩ := hr
  have h1 := Serializer.wrote_name h hn
  have h2 := Serializer.wrote_setShort h1 ht
  have h3 := Serializer.wrote_setShort h2 hc
  simpa [serializeRecord, WireSpec.record, DNSRecord.getType, DNSRecord.getCl, et, ec,
    JSVal.toInteger, List.append_assoc] using h3

theorem Serializer.wrote_records {rs : List DNSRecord} :
    ∀ {s : Serializer} {bs : List Nat}, s.Wrote bs → (∀ r ∈ rs, WireSpec.RecordFits r) →
      (rs.foldl serializeRecord s).Wrote (bs ++ WireSpec.records rs) := by
  induction rs with
  | nil => intro s bs h _; simpa [WireSpec.records] using h
  | cons r rs ih =>
    intro s bs h hr
    have h1 := Serializer.wrote_record h (hr r (List.mem_cons_self _ _))
    have := ih h1 (fun q hq => hr q (List.mem_cons_of_mem _ hq))
    simpa [List.foldl_cons, WireSpec.records, List.append_assoc] using this

theorem Serializer.getBuffer_of_wrote {s : Serializer} {bs : List Nat} (h : s.Wrote bs)
    (hne : bs ≠ []) : s.getBuffer = some (bs.take 512) :=
  h.2.2 hne

/-- What `serialize` returns: the first 512 bytes of the specified wire
format, for every packet whose fields fit the widths of the format. -/
theorem serialize_eq_take (p : DNSPacket) (hp : WireSpec.PacketFits p) :
    serialize p = some ((WireSpec.packet p).take 512) := by
  obtain ⟨⟨f, hf, ef⟩, ⟨hq, ha, hn, hr⟩, hrec⟩ := hp
  have h0 := Serializer.wrote_setShort Serializer.wrote_new (x := 0) (by omega)
  have h1 := Serializer.wrote_setShort h0 hf
  have h2 := Serializer.wrote_setShort (Serializer.wrote_setShort (Serializer.wrote_setShort
    (Serializer.wrote_setShort h1 hq) ha) hn) hr
  have g1 := @Serializer.wrote_records p.qd _ _ h2 (fun r hr => hrec r (by simp [hr]))
  have g2 := @Serializer.wrote_records p.an _ _ g1 (fun r hr => hrec r (by simp [hr]))
  have g3 := @Serializer.wrote_records p.ns _ _ g2 (fun r hr => hrec r (by simp [hr]))
  have h3 := @Serializer.wrote_records p.ar _ _ g3 (fun r hr => hrec r (by simp [hr]))
  have h4 := Serializer.getBuffer_of_wrote h3 (by simp [WireSpec.be16])
  simp only [serialize, arrPacketSections, List.foldl_cons, List.foldl_nil, DNSPacket.data_,
    DNSPacket.getFlags, ef]
  rw [show ((0 : Nat) : Int) = 0 from rfl] at h4
  rw [h4]
  simp [WireSpec.packet, WireSpec.be16, ef, JSVal.toInteger, List.append_assoc]

theorem serialize_length_le (p : DNSPacket) (hp : WireSpec.PacketFits p) (bytes : List Nat)
    (h : serialize p = some bytes) : bytes.length ≤ 512 := by
  rw [serialize_eq_take p hp] at h
  injection h with h
  subst h
  simp [List.length_take]

theorem splitDot_ne_nil (dnsName : JSString) : splitDot dnsName ≠ [] := by
  induction dnsName with
  | nil => simp [splitDot]
  | cons c cs ih =>
    unfold splitDot
    split
    · simp
    · split <;> simp

theorem labels_splitDot_length (dnsName : JSString) :
    (WireSpec.labels (splitDot dnsName)).length = dnsName.length + 1 := by
  induction dnsName with
  | nil => simp [splitDot, WireSpec.labels]
  | cons c cs ih =>
    unfold splitDot
    split
    · simp [WireSpec.labels, ih]
    · split
      · rename_i h
        exact absurd h (splitDot_ne_nil cs)
      · rename_i part parts h
        rw [h] at ih
        simp only [WireSpec.labels, List.length_cons, List.length_append] at ih ⊢
        omega

/-! ## The serialized message (C4) -/

theorem records_replicate_length (n : Nat) (r : DNSRecord) :
    (WireSpec.records (List.replicate n r)).length = n * (WireSpec.record r).length := by
  induction n with
  | zero => simp [WireSpec.records]
  | succ n ih =>
    simp only [List.replicate_succ, WireSpec.records, List.length_append, ih]
    ring

theorem hundredQuestions_fits : WireSpec.PacketFits hundredQuestions := by
  refine ⟨⟨256, by omega, rfl⟩, by simp [hundredQuestions], ?_⟩
  intro r hr
  simp only [hundredQuestions, List.append_nil, List.mem_replicate] at hr
  rw [hr.2]
  refine ⟨?_, ⟨1, by omega, rfl⟩, ⟨1, by omega, rfl⟩⟩
  intro part hpart
  simp only [DNSRecord.newQuestion, splitDot] at hpart
  simp at hpart
  subst hpart
  simp

/-- C4, counterexample: the packet of one hundred questions for 'a' has a wire
format of 712 bytes, and `serialize` does not return it (it returns 512 bytes). -/
theorem serialize_hundred_questions :
    (WireSpec.packet hundredQuestions).length = 712 ∧
    serialize hundredQuestions ≠ some (WireSpec.packet hundredQuestions) := by
  have hrec : (WireSpec.record (DNSRecord.newQuestion [97] (JSVal.num 1) (JSVal.num 1))).length
      = 7 := by decide
  have hlen : (WireSpec.packet hundredQuestions).length = 712 := by
    simp [WireSpec.packet, hundredQuestions, records_replicate_length, hrec, WireSpec.records,
      WireSpec.be16]
  refine ⟨hlen, fun h => ?_⟩
  have := serialize_length_le _ hundredQuestions_fits _ h
  omega

/-- C4 (amended): for every DNSPacket whose fields fit the widths of the wire
format, `serialize` returns the first 512 bytes of: two zero bytes, the flags
big-endian, the four list lengths big-endian in the order QUESTION, ANSWER,
AUTHORITY, ADDITIONAL, then per record of the four sections in that order its
length-prefixed labels, one zero byte, type and class big-endian (no ttl, no
rdata); it returns exactly this sequence when the sequence has at most 512
bytes. -/
theorem serialize_wire_format (p : DNSPacket) (hp : WireSpec.PacketFits p) :
    serialize p = some ((WireSpec.packet p).take 512) ∧
    ((WireSpec.packet p).length ≤ 512 → serialize p = some (WireSpec.packet p)) := by
  refine ⟨serialize_eq_take p hp, fun h => ?_⟩
  rw [serialize_eq_take p hp, List.take_of_length_le h]

theorem smallPacket_fits : WireSpec.PacketFits smallPacket := by
  refine ⟨⟨0x8180, by omega, rfl⟩, by simp [smallPacket], ?_⟩
  intro r hr
  simp only [smallPacket, List.append_nil, List.mem_append, List.mem_singleton] at hr
  rcases hr with (hr | hr) | hr <;> subst hr
  · exact ⟨by decide, ⟨1, by omega, rfl⟩, ⟨1, by omega, rfl⟩⟩
  · exact ⟨by decide, ⟨5, by omega, rfl⟩, ⟨1, by omega, rfl⟩⟩
  · exact ⟨by decide, ⟨28, by omega, rfl⟩, ⟨1, by omega, rfl⟩⟩

/-- C4 (amended) at a packet with records in three sections. -/
theorem serialize_wire_format_witness :
    serialize smallPacket = some [0, 0, 0x81, 0x80, 0, 1, 0, 1, 0, 0, 0, 1,
      2, 97, 98, 1, 99, 0, 0, 1, 0, 1,
      2, 97, 98, 1, 99, 0, 0, 5, 0, 1,
      1, 99, 0, 0, 28, 0, 1] :=
  ((serialize_wire_format smallPacket smallPacket_fits).2 (by decide)).trans (by decide)

/-! ## Splitting and joining names -/

theorem splitDot_no_dot {l : JSString} (h : 46 ∉ l) : splitDot l = [l] := by
  induction l with
  | nil => rfl
  | cons c cs ih =>
    have hc : c ≠ 46 := fun e => h (by simp [e])
    have hcs : 46 ∉ cs := fun e => h (List.mem_cons_of_mem _ e)
    simp [splitDot, hc, ih hcs]

theorem splitDot_append_dot {l : JSString} (h : 46 ∉ l) (rest : JSString) :
    splitDot (l ++ 46 :: rest) = l :: splitDot rest := by
  induction l with
  | nil => simp [splitDot]
  | cons c cs ih =>
    have hc : c ≠ 46 := fun e => h (by simp [e])
    have hcs : 46 ∉ cs := fun e => h (List.mem_cons_of_mem _ e)
    simp [splitDot, hc, ih hcs]

theorem joinDot_cons_cons (l l' : JSString) (ls : List JSString) :
    joinDot (l :: l' :: ls) = l ++ 46 :: joinDot (l' :: ls) := by
  simp [joinDot, List.intercalate, List.intersperse]

theorem joinDot_singleton (l : JSString) : joinDot [l] = l := by
  simp [joinDot, List.intercalate, List.intersperse]

theorem splitDot_joinDot {parts : List JSString} (hne : parts ≠ [])
    (h : ∀ l ∈ parts, 46 ∉ l) : splitDot (joinDot parts) = parts := by
  induction parts with
  | nil => exact absurd rfl hne
  | cons l ls ih =>
    cases ls with
    | nil => rw [joinDot_singleton, splitDot_no_dot (h l (List.mem_cons_self _ _))]
    | cons l' ls' =>
      rw [joinDot_cons_cons, splitDot_append_dot (h l (List.mem_cons_self _ _)),
        ih (by simp) (fun q hq => h q (List.mem_cons_of_mem _ hq))]

theorem joinDot_splitDot (dnsName : JSString) : joinDot (splitDot dnsName) = dnsName := by
  induction dnsName with
  | nil => rfl
  | cons c cs ih =>
    unfold splitDot
    split
    · rename_i hc
      subst hc
      cases hs : splitDot cs with
      | nil => exact absurd hs (splitDot_ne_nil cs)
      | cons part parts =>
        rw [hs] at ih
        rw [joinDot_cons_cons, ih]
        rfl
    · split
      · rename_i hs
        exact absurd hs (splitDot_ne_nil cs)
      · rename_i part parts hs
        rw [hs] at ih
        cases parts with
        | nil =>
          rw [joinDot_singleton] at ih ⊢
          rw [ih]
        | cons p2 ps =>
          rw [joinDot_cons_cons] at ih ⊢
          rw [← ih]
          rfl

/-! ## The query bytes (C5) -/

theorem sendData_eq_take (h : JSString) (t : Nat) (dnsServer : JSString)
    (hfit : WireSpec.NameFits h) (ht : t < 65536) :
    ((DNSQueryManager.new h (JSVal.num t) dnsServer).sendData_).serializedQueryPacket_ =
      some ((WireSpec.query h t).take 512) := by
  have hp : WireSpec.PacketFits ((DNSPacket.new (JSVal.num 0x100)).push PacketSection.QUESTION
      (DNSRecord.newQuestion h (JSVal.num t) (JSVal.num 1))) := by
    refine ⟨⟨256, by omega, by simp [DNSPacket.new, DNSPacket.push, JSVal.truthy]⟩,
      by simp [DNSPacket.new, DNSPacket.push], ?_⟩
    intro r hr
    simp only [DNSPacket.new, DNSPacket.push, List.nil_append, List.append_nil,
      List.mem_singleton] at hr
    subst hr
    exact ⟨hfit, ⟨t, ht, rfl⟩, ⟨1, by omega, rfl⟩⟩
  have := serialize_eq_take _ hp
  simp only [DNSQueryManager.sendData_, DNSQueryManager.new, DNSQueryManager.getFormattedHeader_,
    if_true, this]
  congr 2
  simp [WireSpec.packet, WireSpec.query, WireSpec.records, WireSpec.record, WireSpec.name,
    WireSpec.be16, DNSPacket.new, DNSPacket.push, JSVal.truthy, JSVal.toInteger,
    DNSRecord.newQuestion]

theorem labels_replicate_length (n : Nat) (l : JSString) :
    (WireSpec.labels (List.replicate n l)).length = n * (l.length + 1) := by
  induction n with
  | zero => simp [WireSpec.labels]
  | succ n ih =>
    simp only [List.replicate_succ, WireSpec.labels, List.length_cons, List.length_append, ih]
    ring

theorem nineLabels_fits : WireSpec.NameFits nineLabels := by
  have hs : splitDot nineLabels = List.replicate 9 (List.replicate 63 97) := by
    apply splitDot_joinDot (by simp)
    intro l hl
    rw [(List.mem_replicate.mp hl).2]
    simp
  intro part hpart
  rw [hs] at hpart
  rw [(List.mem_replicate.mp hpart).2]
  simp

/-- C5, counterexample: for the hostname of nine labels of 63 letters 'a' and
type 16, the bytes named by the claim are 593, and the query built by
`sendData_` is not this sequence (it is cut after 512 bytes). -/
theorem sendData_nine_labels :
    (∀ part ∈ splitDot nineLabels, part ≠ []) ∧
    (WireSpec.query nineLabels 16).length = 593 ∧
    ((DNSQueryManager.new nineLabels (JSVal.num 16) (str "8.8.8.8")).sendData_).serializedQueryPacket_
      ≠ some (WireSpec.query nineLabels 16) := by
  have hs : splitDot nineLabels = List.replicate 9 (List.replicate 63 97) := by
    apply splitDot_joinDot (by simp)
    intro l hl
    rw [(List.mem_replicate.mp hl).2]
    simp
  have hlen : (WireSpec.query nineLabels 16).length = 593 := by
    have hl := labels_replicate_length 9 (List.replicate 63 97)
    rw [List.length_replicate] at hl
    simp only [WireSpec.query, WireSpec.be16, hs, List.length_append, hl, List.length_cons,
      List.length_nil]
  refine ⟨?_, hlen, fun h => ?_⟩
  · intro part hpart
    rw [hs] at hpart
    rw [(List.mem_replicate.mp hpart).2]
    simp
  · rw [show JSVal.num 16 = JSVal.num ((16 : Nat) : Int) from rfl,
      sendData_eq_take nineLabels 16 _ nineLabels_fits (by omega)] at h
    injection h with h
    have := congrArg List.length h
    rw [List.length_take, hlen] at this
    omega

/-- C5 (amended): for every hostname h whose labels have at most 255
characters with codes below 256 and every 16-bit record type t, the query
bytes built by `sendData_` with default settings are the first 512 bytes of
00 00 01 00 00 01 00 00 00 00 00 00, the length-prefixed labels of h, 00, t as
two big-endian bytes, 00 01; they are exactly this sequence when h has at most
494 characters. -/
theorem sendData_query_bytes (h : JSString) (t : Nat) (dnsServer : JSString)
    (hfit : WireSpec.NameFits h) (ht : t < 65536) :
    ((DNSQueryManager.new h (JSVal.num t) dnsServer).sendData_).serializedQueryPacket_ =
      some ((WireSpec.query h t).take 512) ∧
    (h.length ≤ 494 →
      ((DNSQueryManager.new h (JSVal.num t) dnsServer).sendData_).serializedQueryPacket_ =
        some (WireSpec.query h t)) := by
  refine ⟨sendData_eq_take h t dnsServer hfit ht, fun hlen => ?_⟩
  rw [sendData_eq_take h t dnsServer hfit ht, List.take_of_length_le]
  have := labels_splitDot_length h
  simp only [WireSpec.query, WireSpec.be16, List.length_append, this, List.length_cons,
    List.length_nil]
  omega

/-- C5 (amended) at 'o-o.myaddr.google.com' and type 16: the 39 bytes of the
specification. -/
theorem sendData_query_bytes_witness :
    WireSpec.NameFits (str "o-o.myaddr.google.com") ∧ 16 < 65536 ∧
    ((DNSQueryManager.new (str "o-o.myaddr.google.com") (JSVal.num (16 : Nat))
        (str "8.8.8.8")).sendData_).serializedQueryPacket_ =
      some [0x00, 0x00, 0x01, 0x00, 0x00, 0x01, 0x00, 0x00, 0x00, 0x00, 0x00, 0x00,
        0x03, 0x6f, 0x2d, 0x6f, 0x06, 0x6d, 0x79, 0x61, 0x64, 0x64, 0x72,
        0x06, 0x67, 0x6f, 0x6f, 0x67, 0x6c, 0x65, 0x03, 0x63, 0x6f, 0x6d, 0x00,
        0x00, 0x10, 0x00, 0x01] :=
  ⟨by decide, by decide,
    ((sendData_query_bytes (str "o-o.myaddr.google.com") 16 (str "8.8.8.8") (by decide)
      (by decide)).2 (by decide)).trans (by decide)⟩

/-! ## Parsing names -/

theorem parseLabel_of_drop {view : List Nat} (l : JSString) :
    ∀ (n : Nat) (rest : List Nat) (v : JSString), view.drop n = l ++ rest →
      (∀ c ∈ l, c < 65536) →
      parseLabel l.length ⟨view, JSVal.num n⟩ v =
        (v ++ l, ⟨view, JSVal.num ((n + l.length : Nat) : Int)⟩) := by
  induction l with
  | nil => intro n rest v _ _; simp [parseLabel]
  | cons c cs ih =>
    intro n rest v h hc
    have hc0 : c < 65536 := hc c (List.mem_cons_self _ _)
    have e : fromCharCode (JSVal.num (c : Int)) = [c] := by
      simp only [fromCharCode, JSVal.toUint16]
      congr 1
      omega
    simp only [List.length_cons, parseLabel, getByte_of_drop h, e]
    rw [ih (n + 1) rest (v ++ [c]) (drop_succ_of_drop h)
      (fun c' hc' => hc c' (List.mem_cons_of_mem _ hc'))]
    simp only [List.append_assoc, List.singleton_append]
    congr 3
    omega

theorem parseNameLoop_end {view : List Nat} {n : Nat} {rest : List Nat}
    (h : view.drop n = 0 :: rest) (fuel : Nat) (mgr : RespLabelPtManager)
    (parts : List JSString) :
    parseNameLoop (fuel + 1) mgr ⟨view, JSVal.num n⟩ parts =
      some (joinDot parts, ⟨view, JSVal.num ((n + 1 : Nat) : Int)⟩) := by
  rw [parseNameLoop]
  simp [getByte_of_drop h, JSVal.truthy]

theorem parseNameLoop_past_end {view : List Nat} {n : Nat} (h : view.length ≤ n)
    (fuel : Nat) (mgr : RespLabelPtManager) (parts : List JSString) :
    parseNameLoop (fuel + 1) mgr ⟨view, JSVal.num n⟩ parts =
      some (joinDot parts, ⟨view, JSVal.num ((n + 1 : Nat) : Int)⟩) := by
  rw [parseNameLoop]
  simp [getByte_past_end h, JSVal.truthy]

theorem parseNameLoop_pointer {view : List Nat} {n K : Nat} {rest : List Nat}
    (h : view.drop n = 0xc0 :: K :: rest) (fuel : Nat) (mgr : RespLabelPtManager)
    (parts : List JSString) :
    parseNameLoop (fuel + 1) mgr ⟨view, JSVal.num n⟩ parts =
      match getNameFromReference fuel mgr (JSVal.num K) with
      | none => none
      | some nameSubstitution =>
        some (joinDot (parts ++ [nameSubstitution]), ⟨view, JSVal.num ((n + 2 : Nat) : Int)⟩) := by
  rw [parseNameLoop]
  simp only [getByte_of_drop h, getByte_of_drop (drop_succ_of_drop h), JSVal.truthy]
  simp
  rw [show (n : Int) + 1 + 1 = (n : Int) + 2 by ring]

theorem parseNameLoop_label {view : List Nat} {n : Nat} {l : JSString} {rest : List Nat}
    (h : view.drop n = (l.length :: l) ++ rest) (hl : WireSpec.LabelOk l) (fuel : Nat)
    (mgr : RespLabelPtManager) (parts : List JSString) :
    parseNameLoop (fuel + 1) mgr ⟨view, JSVal.num n⟩ parts =
      parseNameLoop fuel mgr ⟨view, JSVal.num ((n + (l.length + 1) : Nat) : Int)⟩
        (parts ++ [l]) := by
  obtain ⟨hne, h192, _, hc⟩ := hl
  have hpos : l.length ≠ 0 := fun e => hne (List.length_eq_zero.mp e)
  have h1 : view.drop (n + 1) = l ++ rest := drop_succ_of_drop h
  have e1 : JSVal.num (l.length : Int) ≠ JSVal.num 192 := by
    intro e
    injection e with e
    omega
  have e2 : (l.length : Int) ≠ 0 := by omega
  rw [parseNameLoop]
  simp only [getByte_of_drop h, JSVal.truthy, JSVal.iterations, Int.toNat_ofNat]
  rw [parseLabel_of_drop l (n + 1) rest [] h1 (fun c hc' => by have := hc c hc'; omega)]
  simp [e1, e2, Nat.add_assoc, Nat.add_comm 1]

theorem parseNameLoop_labels (mgr : RespLabelPtManager) (fuel : Nat) {view : List Nat}
    (rest : List Nat) (ls : List JSString) :
    ∀ (n : Nat) (parts : List JSString), view.drop n = WireSpec.labels ls ++ rest →
      (∀ l ∈ ls, WireSpec.LabelOk l) →
      parseNameLoop (fuel + ls.length) mgr ⟨view, JSVal.num n⟩ parts =
        parseNameLoop fuel mgr
          ⟨view, JSVal.num ((n + (WireSpec.labels ls).length : Nat) : Int)⟩ (parts ++ ls) := by
  induction ls with
  | nil => intro n parts _ _; simp [WireSpec.labels]
  | cons l ls ih =>
    intro n parts h hl
    have h0 : view.drop n = (l.length :: l) ++ (WireSpec.labels ls ++ rest) := by
      simpa [WireSpec.labels, List.append_assoc] using h
    have h1 : view.drop (n + (l.length + 1)) = WireSpec.labels ls ++ rest := by
      have := drop_add_of_drop h0
      simpa using this
    rw [List.length_cons, ← Nat.add_assoc,
      parseNameLoop_label h0 (hl l (List.mem_cons_self _ _)),
      ih _ _ h1 (fun q hq => hl q (List.mem_cons_of_mem _ hq))]
    simp only [WireSpec.labels, List.length_cons, List.length_append, List.append_assoc,
      List.singleton_append]
    congr 3
    omega

/-! ## More fuel does not change a result -/

theorem fuel_succ (fuel : Nat) :
    (∀ mgr d parts r, parseNameLoop fuel mgr d parts = some r →
      parseNameLoop (fuel + 1) mgr d parts = some r) ∧
    (∀ mgr ref s, getNameFromReference fuel mgr ref = some s →
      getNameFromReference (fuel + 1) mgr ref = some s) := by
  induction fuel with
  | zero =>
    constructor
    · intro mgr d parts r h
      simp [parseNameLoop] at h
    · intro mgr ref s h
      simp [getNameFromReference] at h
  | succ f ih =>
    obtain ⟨ihLoop, ihRef⟩ := ih
    constructor
    · intro mgr d parts r h
      rw [parseNameLoop] at h ⊢
      simp only at h ⊢
      split
      · rename_i hc
        simpa [hc] using h
      · rename_i hc
        rw [if_neg hc] at h
        split
        · rename_i hp
          rw [if_pos hp] at h
          cases hg : getNameFromReference f mgr d.getByte.2.getByte.1 with
          | none => simp [hg] at h
          | some s0 =>
            rw [ihRef _ _ _ hg]
            simpa [hg] using h
        · rename_i hp
          rw [if_neg hp] at h
          exact ihLoop _ _ _ _ h
    · intro mgr ref s h
      rw [getNameFromReference] at h ⊢
      cases hg : parseNameLoop f mgr (Deserializer.new (subarray mgr.view_ ref JSVal.undefined)) []
        with
      | none => simp [hg] at h
      | some r0 =>
        rw [ihLoop _ _ _ _ hg]
        simpa [hg] using h

theorem parseNameLoop_mono {f f' : Nat} (hle : f ≤ f') {mgr : RespLabelPtManager}
    {d : Deserializer} {parts : List JSString} {r : JSString × Deserializer}
    (h : parseNameLoop f mgr d parts = some r) : parseNameLoop f' mgr d parts = some r := by
  induction hle with
  | refl => exact h
  | step _ ih => exact (fuel_succ _).1 _ _ _ _ ih

theorem getNameFromReference_mono {f f' : Nat} (hle : f ≤ f') {mgr : RespLabelPtManager}
    {ref : JSVal} {s : JSString} (h : getNameFromReference f mgr ref = some s) :
    getNameFromReference f' mgr ref = some s := by
  induction hle with
  | refl => exact h
  | step _ ih => exact (fuel_succ _).2 _ _ _ ih

theorem parseName_mono {f f' : Nat} (hle : f ≤ f') {mgr : RespLabelPtManager}
    {d : Deserializer} {r : JSString × Deserializer}
    (h : parseName f mgr d = some r) : parseName f' mgr d = some r :=
  parseNameLoop_mono hle h

theorem subarray_from (view : List Nat) (K : Nat) :
    subarray view (JSVal.num K) JSVal.undefined = view.drop K := by
  simp only [subarray, JSVal.toInteger, clampIndex_nat]
  by_cases h : K ≤ view.length
  · rw [Nat.min_eq_left h]
    exact List.take_of_length_le (by simp)
  · rw [Nat.min_eq_right (by omega), List.drop_eq_nil_of_le (Nat.le_refl _),
      List.drop_eq_nil_of_le (show view.length ≤ K by omega)]
    simp

theorem getNameFromReference_num (fuel : Nat) (mgr : RespLabelPtManager) (K : Nat) :
    getNameFromReference (fuel + 1) mgr (JSVal.num K) =
      (parseName fuel mgr (Deserializer.new (mgr.view_.drop K))).map Prod.fst := by
  rw [getNameFromReference]
  simp only [subarray_from, parseName]
  cases parseNameLoop fuel mgr (Deserializer.new (List.drop K mgr.view_)) [] <;> rfl

/-! ## Names that end in a pointer (C2, C3) -/

theorem Deserializer.new_eq (l : List Nat) :
    Deserializer.new l = ⟨l, JSVal.num ((0 : Nat) : Int)⟩ := rfl

theorem parseNameLoop_to_pointer {fuel : Nat} {mgr : RespLabelPtManager} {view : List Nat}
    {n K : Nat} {ls : List JSString} {rest : List Nat} {s : JSString} {d' : Deserializer}
    (parts : List JSString)
    (hls : ∀ l ∈ ls, WireSpec.LabelOk l)
    (hwire : view.drop n = WireSpec.labels ls ++ 0xc0 :: K :: rest)
    (hres : parseName fuel mgr (Deserializer.new (mgr.view_.drop K)) = some (s, d')) :
    parseNameLoop (fuel + 2 + ls.length) mgr ⟨view, JSVal.num n⟩ parts =
      some (joinDot (parts ++ (ls ++ [s])),
        ⟨view, JSVal.num ((n + (WireSpec.labels ls).length + 2 : Nat) : Int)⟩) := by
  rw [parseNameLoop_labels mgr (fuel + 2) _ ls n parts hwire hls,
    parseNameLoop_pointer (drop_add_of_drop hwire), getNameFromReference_num, hres]
  simp

/-- C2: at every position of every buffer where the labels l1..ln (n ≥ 0,
each label non-empty, of at most 255 bytes and of a length other than 0xC0) are
followed by the pointer bytes 0xC0 K, `parseName` returns the '.'-join of
l1, ..., ln and the name that `getNameFromReference(K)` returns, which is the
name parsed at offset K of the full response buffer, whenever that resolution
terminates (within `fuel` steps); the cursor ends behind the pointer. -/
theorem parseName_pointer (fuel : Nat) (mgr : RespLabelPtManager) (view : List Nat)
    (n K : Nat) (ls : List JSString) (rest : List Nat) (s : JSString) (d' : Deserializer)
    (hls : ∀ l ∈ ls, WireSpec.LabelOk l)
    (hwire : view.drop n = WireSpec.labels ls ++ 0xc0 :: K :: rest)
    (hres : parseName fuel mgr (Deserializer.new (mgr.view_.drop K)) = some (s, d')) :
    getNameFromReference (fuel + 1) mgr (JSVal.num K) = some s ∧
    parseName (fuel + 2 + ls.length) mgr ⟨view, JSVal.num n⟩ =
      some (joinDot (ls ++ [s]),
        ⟨view, JSVal.num ((n + (WireSpec.labels ls).length + 2 : Nat) : Int)⟩) := by
  constructor
  · rw [getNameFromReference_num, hres]
    rfl
  · have := parseNameLoop_to_pointer [] hls hwire hres
    simpa [parseName] using this

/-- C2 on the response `cnameResponse`: the name 'x' + pointer to 14, read at
position 33, is 'x.b'. -/
theorem parseName_pointer_witness :
    (∀ l ∈ [[120]], WireSpec.LabelOk l) ∧
    parseName 2 ⟨cnameResponse⟩ (Deserializer.new (cnameResponse.drop 14)) =
      some (str "b", ⟨cnameResponse.drop 14, JSVal.num 3⟩) ∧
    parseName (2 + 2 + 1) ⟨cnameResponse⟩ ⟨cnameResponse, JSVal.num (33 : Nat)⟩ =
      some (str "x.b", ⟨cnameResponse, JSVal.num ((33 + 2 + 2 : Nat) : Int)⟩) :=
  have hls : ∀ l ∈ [[120]], WireSpec.LabelOk l := by
    intro l hl
    rw [List.mem_singleton.mp hl]
    exact ⟨by decide, by decide, by decide, by decide⟩
  ⟨hls, by decide,
    (parseName_pointer 2 ⟨cnameResponse⟩ cnameResponse 33 14 [[120]] []
      (str "b") ⟨cnameResponse.drop 14, JSVal.num 3⟩ hls (by decide) (by decide)).2⟩

/-- C3: for a CNAME and for an MX record whose data section holds the labels
l1..ln followed by the pointer 0xC0 K, the decoded cname and mail exchanger are
the '.'-join of the labels and the name `s` parsed at offset K of the buffer of
the label manager (the full response), whatever the data section holds; and
when the name at offset K itself ends in a pointer 0xC0 K2, `s` is built from
the name at offset K2 of that same full buffer. -/
theorem parseDataSection_pointer (fuel : Nat) (mgr : RespLabelPtManager)
    (ls : List JSString) (K p0 p1 : Nat) (rest : List Nat) (r : DNSRecord)
    (s : JSString) (d' : Deserializer)
    (hls : ∀ l ∈ ls, WireSpec.LabelOk l)
    (hres : parseName fuel mgr (Deserializer.new (mgr.view_.drop K)) = some (s, d')) :
    (parseDataSection (fuel + 2 + ls.length) mgr (JSVal.num 5)
        (WireSpec.labels ls ++ 0xc0 :: K :: rest) r).map DNSRecord.getCname =
      some (some (joinDot (ls ++ [s]))) ∧
    (parseDataSection (fuel + 2 + ls.length) mgr (JSVal.num 15)
        (p0 :: p1 :: (WireSpec.labels ls ++ 0xc0 :: K :: rest)) r).map
        DNSRecord.getMailExchanger =
      some (some (joinDot (ls ++ [s]))) ∧
    (∀ (ls2 : List JSString) (K2 f2 : Nat) (rest2 : List Nat) (s2 : JSString)
        (d2 : Deserializer), (∀ l ∈ ls2, WireSpec.LabelOk l) →
      mgr.view_.drop K = WireSpec.labels ls2 ++ 0xc0 :: K2 :: rest2 →
      parseName f2 mgr (Deserializer.new (mgr.view_.drop K2)) = some (s2, d2) →
      s = joinDot (ls2 ++ [s2])) := by
  refine ⟨?_, ?_, ?_⟩
  · have hw : (WireSpec.labels ls ++ 0xc0 :: K :: rest).drop 0 =
        WireSpec.labels ls ++ 0xc0 :: K :: rest := rfl
    have := parseNameLoop_to_pointer [] hls hw hres
    simp only [parseDataSection, RecordNumber.A, RecordNumber.AAAA, RecordNumber.CNAME,
      Deserializer.new_eq, parseName, this]
    simp [DNSRecord.getCname, DNSRecord.setCname, DNSRecord.setData]
  · have hw : (p0 :: p1 :: (WireSpec.labels ls ++ 0xc0 :: K :: rest)).drop 2 =
        WireSpec.labels ls ++ 0xc0 :: K :: rest := rfl
    have := parseNameLoop_to_pointer [] hls hw hres
    obtain ⟨pref, hp⟩ : ∃ v, Deserializer.getShort
        ⟨p0 :: p1 :: (WireSpec.labels ls ++ 0xc0 :: K :: rest), JSVal.num ((0 : Nat) : Int)⟩ =
        (v, ⟨p0 :: p1 :: (WireSpec.labels ls ++ 0xc0 :: K :: rest),
          JSVal.num ((2 : Nat) : Int)⟩) :=
      ⟨_, Prod.ext rfl (getShort_loc _ 0)⟩
    simp only [parseDataSection, RecordNumber.A, RecordNumber.AAAA, RecordNumber.CNAME,
      RecordNumber.TXT, RecordNumber.MX, Deserializer.new_eq, parseName, hp, this]
    simp [DNSRecord.getMailExchanger, DNSRecord.setMailExchanger, DNSRecord.setData,
      DNSRecord.setPreferenceNumber]
  · intro ls2 K2 f2 rest2 s2 d2 hls2 hfull hres2
    have hw : (mgr.view_.drop K).drop 0 = WireSpec.labels ls2 ++ 0xc0 :: K2 :: rest2 := hfull
    have h1 := parseNameLoop_to_pointer [] hls2 hw hres2
    rw [← Deserializer.new_eq] at h1
    have h2 := parseName_mono (Nat.le_max_left fuel (f2 + 2 + ls2.length)) hres
    have h3 := parseNameLoop_mono (Nat.le_max_right fuel (f2 + 2 + ls2.length)) h1
    rw [parseName, h3] at h2
    injection h2 with h2
    have := congrArg Prod.fst h2
    simpa using this.symm

/-- C3 on the response `cnameResponse`: the data section of the answer is
'x' + pointer to 14; the decoded cname is 'x.b', with 'b' taken from offset 14
of the whole response (the data section has only four bytes). -/
theorem parseDataSection_pointer_witness :
    (∀ l ∈ [[120]], WireSpec.LabelOk l) ∧
    parseName 2 ⟨cnameResponse⟩ (Deserializer.new (cnameResponse.drop 14)) =
      some (str "b", ⟨cnameResponse.drop 14, JSVal.num 3⟩) ∧
    (parseDataSection (2 + 2 + 1) ⟨cnameResponse⟩ (JSVal.num 5) [1, 120, 0xc0, 14]
        (DNSRecord.newTyped RecordKind.DNSRecordCNAME 5 (str "a.b") (JSVal.num 60))).map
        DNSRecord.getCname = some (some (str "x.b")) ∧
    (decodeResponse 5 cnameResponse).map (fun p => p.an.map DNSRecord.getCname) =
      some [some (str "x.b")] :=
  have hls : ∀ l ∈ [[120]], WireSpec.LabelOk l := by
    intro l hl
    rw [List.mem_singleton.mp hl]
    exact ⟨by decide, by decide, by decide, by decide⟩
  ⟨hls, by decide,
    (parseDataSection_pointer 2 ⟨cnameResponse⟩ [[120]] 14 0 0 []
      (DNSRecord.newTyped RecordKind.DNSRecordCNAME 5 (str "a.b") (JSVal.num 60))
      (str "b") ⟨cnameResponse.drop 14, JSVal.num 3⟩ hls (by decide)).1,
    by decide!⟩

/-! ## The header of a response -/

theorem iterations_nat (k : Nat) : (JSVal.num (k : Int)).iterations = k := by
  simp [JSVal.iterations]

theorem deserializePacket_header (fuel : Nat) (mgr : RespLabelPtManager)
    (a0 a1 f0 f1 q0 q1 n0 n1 s0 s1 r0 r1 : Nat) (rest : List Nat)
    (hq : q0 < 256) (hn : n0 < 256) (hs : s0 < 256) (hr : r0 < 256) :
    (DNSPacketDeserializer.new
        (a0 :: a1 :: f0 :: f1 :: q0 :: q1 :: n0 :: n1 :: s0 :: s1 :: r0 :: r1 :: rest)
        mgr).deserializePacket fuel =
      match questionLoop fuel mgr (q0 * 256 + q1)
          ⟨a0 :: a1 :: f0 :: f1 :: q0 :: q1 :: n0 :: n1 :: s0 :: s1 :: r0 :: r1 :: rest,
            JSVal.num ((12 : Nat) : Int)⟩
          (DNSPacket.new (Deserializer.getShort
            ⟨a0 :: a1 :: f0 :: f1 :: q0 :: q1 :: n0 :: n1 :: s0 :: s1 :: r0 :: r1 :: rest,
              JSVal.num ((2 : Nat) : Int)⟩).1) with
      | none => none
      | some (packet1, d7) =>
        match sectionLoop fuel mgr PacketSection.ANSWER (n0 * 256 + n1) d7 packet1 with
        | none => none
        | some (packet2, d8) =>
          match sectionLoop fuel mgr PacketSection.AUTHORITY (s0 * 256 + s1) d8 packet2 with
          | none => none
          | some (packet3, d9) =>
            match sectionLoop fuel mgr PacketSection.ADDITIONAL (r0 * 256 + r1) d9 packet3 with
            | none => none
            | some (packet4, d10) =>
              some { dataDeserializer_ := d10, lblPointManager_ := mgr,
                     deserializedPacket_ := some packet4 } := by
  generalize hv :
    a0 :: a1 :: f0 :: f1 :: q0 :: q1 :: n0 :: n1 :: s0 :: s1 :: r0 :: r1 :: rest = view
  have h0 : view.drop 0 =
      a0 :: a1 :: f0 :: f1 :: q0 :: q1 :: n0 :: n1 :: s0 :: s1 :: r0 :: r1 :: rest := by
    rw [← hv]
    rfl
  have h2 := drop_succ_of_drop (drop_succ_of_drop h0)
  have h4 := drop_succ_of_drop (drop_succ_of_drop h2)
  have h6 := drop_succ_of_drop (drop_succ_of_drop h4)
  have h8 := drop_succ_of_drop (drop_succ_of_drop h6)
  have h10 := drop_succ_of_drop (drop_succ_of_drop h8)
  have e0 : Deserializer.getShort ⟨view, JSVal.num ((0 : Nat) : Int)⟩ =
      ((Deserializer.getShort ⟨view, JSVal.num ((0 : Nat) : Int)⟩).1,
        ⟨view, JSVal.num ((2 : Nat) : Int)⟩) := Prod.ext rfl (getShort_loc view 0)
  have e2 : Deserializer.getShort ⟨view, JSVal.num ((2 : Nat) : Int)⟩ =
      ((Deserializer.getShort ⟨view, JSVal.num ((2 : Nat) : Int)⟩).1,
        ⟨view, JSVal.num ((4 : Nat) : Int)⟩) := Prod.ext rfl (getShort_loc view 2)
  have e4 : Deserializer.getShort ⟨view, JSVal.num ((4 : Nat) : Int)⟩ = _ :=
    getShort_of_drop h4 hq
  have e6 : Deserializer.getShort ⟨view, JSVal.num ((6 : Nat) : Int)⟩ = _ :=
    getShort_of_drop h6 hn
  have e8 : Deserializer.getShort ⟨view, JSVal.num ((8 : Nat) : Int)⟩ = _ :=
    getShort_of_drop h8 hs
  have e10 : Deserializer.getShort ⟨view, JSVal.num ((10 : Nat) : Int)⟩ = _ :=
    getShort_of_drop h10 hr
  simp only [DNSPacketDeserializer.deserializePacket, DNSPacketDeserializer.new,
    Deserializer.new_eq]
  rw [e0]
  simp only []
  rw [e2]
  simp only []
  rw [e4]
  simp only []
  rw [e6]
  simp only []
  rw [e8]
  simp only []
  rw [e10]
  simp only [iterations_nat]

/-! ## Encoding a question and decoding it back (C1) -/

theorem serialize_question_only (f : JSVal) (h : JSString) (t c : Nat)
    (hfit : WireSpec.NameFits h) (ht : t < 65536) (hc : c < 65536) :
    ∃ x y, serialize ((DNSPacket.new f).push PacketSection.QUESTION
        (DNSRecord.newQuestion h (JSVal.num t) (JSVal.num c))) =
      some ((0 :: 0 :: x :: y :: 0 :: 1 :: 0 :: 0 :: 0 :: 0 :: 0 :: 0 ::
        (WireSpec.labels (splitDot h) ++
          0 :: (t / 256) :: (t % 256) :: (c / 256) :: (c % 256) :: [])).take 512) := by
  have h0 := Serializer.wrote_setShort Serializer.wrote_new (show 0 < 65536 by omega)
  obtain ⟨x, y, h1⟩ := Serializer.wrote_setShort_any h0 (DNSPacket.new f).flags_
  have h2 := Serializer.wrote_setShort (Serializer.wrote_setShort (Serializer.wrote_setShort
    (Serializer.wrote_setShort h1 (show 1 < 65536 by omega)) (show 0 < 65536 by omega))
    (show 0 < 65536 by omega)) (show 0 < 65536 by omega)
  have hr : WireSpec.RecordFits (DNSRecord.newQuestion h (JSVal.num t) (JSVal.num c)) :=
    ⟨hfit, ⟨t, ht, rfl⟩, ⟨c, hc, rfl⟩⟩
  have h3 := Serializer.wrote_record h2 hr
  have h4 := Serializer.getBuffer_of_wrote h3 (by simp [WireSpec.be16])
  refine ⟨x, y, Eq.trans h4 ?_⟩
  simp [WireSpec.record, WireSpec.name, WireSpec.be16, JSVal.toInteger, DNSRecord.newQuestion,
    List.append_assoc]

theorem labelOk_of_short {l : JSString}
    (h : l ≠ [] ∧ l.length ≤ 63 ∧ ∀ ch ∈ l, ch < 256) : WireSpec.LabelOk l :=
  ⟨h.1, by have := h.2.1; omega, by have := h.2.1; omega, h.2.2⟩

theorem readQuestion_of_wire {fuel : Nat} {mgr : RespLabelPtManager} {view : List Nat}
    {n t0 t1 c0 c1 : Nat} {ls : List JSString} {rest : List Nat}
    (hls : ∀ l ∈ ls, WireSpec.LabelOk l)
    (hwire : view.drop n = WireSpec.labels ls ++ 0 :: t0 :: t1 :: c0 :: c1 :: rest)
    (ht : t0 < 256) (hc : c0 < 256) (hfuel : ls.length + 1 ≤ fuel) :
    readQuestion fuel mgr ⟨view, JSVal.num n⟩ =
      some ((DNSRecord.newQuestion (joinDot ls) (JSVal.num ((t0 * 256 + t1 : Nat) : Int))
          (JSVal.num ((c0 * 256 + c1 : Nat) : Int))).setLblPointManager mgr,
        ⟨view, JSVal.num ((n + (WireSpec.labels ls).length + 5 : Nat) : Int)⟩) := by
  have hend : view.drop (n + (WireSpec.labels ls).length) = 0 :: t0 :: t1 :: c0 :: c1 :: rest :=
    drop_add_of_drop hwire
  have hname : parseName fuel mgr ⟨view, JSVal.num n⟩ =
      some (joinDot ls, ⟨view, JSVal.num ((n + (WireSpec.labels ls).length + 1 : Nat) : Int)⟩) := by
    apply parseName_mono (show 0 + 1 + ls.length ≤ fuel by omega)
    rw [parseName, parseNameLoop_labels mgr (0 + 1) _ ls n [] hwire hls, parseNameLoop_end hend]
    simp
  have htype := getShort_of_drop (drop_succ_of_drop hend) ht
  have hcl := getShort_of_drop (drop_succ_of_drop (drop_succ_of_drop (drop_succ_of_drop hend))) hc
  simp only [readQuestion, hname, htype, hcl]

/-- C1: for every question-only message (any flags) whose question has a
hostname made of non-empty labels of at most 63 characters with codes below
256, at most 253 characters in all, and a 16-bit type and class, `serialize`
returns bytes whose decoding (with fuel for one step per label and one more)
is a packet with exactly one QUESTION record, no other record, and the name,
type and class of the original. -/
theorem roundtrip_question (f : JSVal) (h : JSString) (t c fuel : Nat)
    (hlabels : ∀ l ∈ splitDot h, l ≠ [] ∧ l.length ≤ 63 ∧ ∀ ch ∈ l, ch < 256)
    (hlen : h.length ≤ 253) (ht : t < 65536) (hc : c < 65536)
    (hfuel : (splitDot h).length + 1 ≤ fuel) :
    ∃ bytes p r,
      serialize ((DNSPacket.new f).push PacketSection.QUESTION
        (DNSRecord.newQuestion h (JSVal.num t) (JSVal.num c))) = some bytes ∧
      decodeResponse fuel bytes = some p ∧
      p.qd = [r] ∧ p.an = [] ∧ p.ns = [] ∧ p.ar = [] ∧
      r.getName = h ∧ r.getType = JSVal.num t ∧ r.getCl = JSVal.num c := by
  have hfit : WireSpec.NameFits h :=
    fun l hl => ⟨by have := (hlabels l hl).2.1; omega, (hlabels l hl).2.2⟩
  obtain ⟨x, y, hser⟩ := serialize_question_only f h t c hfit ht hc
  have hlab := labels_splitDot_length h
  rw [List.take_of_length_le (by simp; omega)] at hser
  generalize hrest : WireSpec.labels (splitDot h) ++
    0 :: (t / 256) :: (t % 256) :: (c / 256) :: (c % 256) :: [] = rest at hser
  generalize hview : 0 :: 0 :: x :: y :: 0 :: 1 :: 0 :: 0 :: 0 :: 0 :: 0 :: 0 :: rest = view
    at hser
  have hdrop : view.drop 12 = WireSpec.labels (splitDot h) ++
      0 :: (t / 256) :: (t % 256) :: (c / 256) :: (c % 256) :: [] := by
    rw [← hview, hrest]
    rfl
  have hq := @readQuestion_of_wire fuel ⟨view⟩ view 12 (t / 256) (t % 256) (c / 256) (c % 256)
    (splitDot h) [] (fun l hl => labelOk_of_short (hlabels l hl)) hdrop
    (show t / 256 < 256 by omega) (show c / 256 < 256 by omega) hfuel
  rw [joinDot_splitDot, show t / 256 * 256 + t % 256 = t by omega,
    show c / 256 * 256 + c % 256 = c by omega] at hq
  have hdec := deserializePacket_header fuel ⟨view⟩ 0 0 x y 0 1 0 0 0 0 0 0 rest
    (by omega) (by omega) (by omega) (by omega)
  rw [hview] at hdec
  have hloop : ∀ p0 : DNSPacket, questionLoop fuel ⟨view⟩ (0 * 256 + 1)
      ⟨view, JSVal.num ((12 : Nat) : Int)⟩ p0 =
      some (p0.push PacketSection.QUESTION
        ((DNSRecord.newQuestion h (JSVal.num t) (JSVal.num c)).setLblPointManager ⟨view⟩),
        ⟨view, JSVal.num ((12 + (WireSpec.labels (splitDot h)).length + 5 : Nat) : Int)⟩) := by
    intro p0
    show (match readQuestion fuel ⟨view⟩ ⟨view, JSVal.num ((12 : Nat) : Int)⟩ with
      | none => none
      | some (dnsRecord, d1) =>
        questionLoop fuel ⟨view⟩ 0 d1 (p0.push PacketSection.QUESTION dnsRecord)) = _
    rw [hq]
    rfl
  have hsec : ∀ (sec : PacketSection) (d : Deserializer) (p0 : DNSPacket),
      sectionLoop fuel ⟨view⟩ sec (0 * 256 + 0) d p0 = some (p0, d) := fun _ _ _ => rfl
  simp only [hloop, hsec] at hdec
  refine ⟨view,
    (DNSPacket.new (Deserializer.getShort ⟨view, JSVal.num ((2 : Nat) : Int)⟩).1).push
      PacketSection.QUESTION
      ((DNSRecord.newQuestion h (JSVal.num t) (JSVal.num c)).setLblPointManager ⟨view⟩),
    (DNSRecord.newQuestion h (JSVal.num t) (JSVal.num c)).setLblPointManager ⟨view⟩,
    hser, ?_, ?_⟩
  · simp only [decodeResponse, hdec, DNSPacketDeserializer.getDeserializedPacket]
  · simp [DNSPacket.push, DNSPacket.new, DNSRecord.newQuestion, DNSRecord.setLblPointManager,
      DNSRecord.getName, DNSRecord.getType, DNSRecord.getCl]

/-- C1 at the question for 'mail.google.com', type MX (15), class 1, flags
0x100: the decoded question has the same name, type and class. -/
theorem roundtrip_question_witness :
    (∀ l ∈ splitDot (str "mail.google.com"), l ≠ [] ∧ l.length ≤ 63 ∧ ∀ ch ∈ l, ch < 256) ∧
    ∃ bytes p r,
      serialize ((DNSPacket.new (JSVal.num 0x100)).push PacketSection.QUESTION
        (DNSRecord.newQuestion (str "mail.google.com") (JSVal.num (15 : Nat))
          (JSVal.num (1 : Nat)))) = some bytes ∧
      decodeResponse 4 bytes = some p ∧
      p.qd = [r] ∧ p.an = [] ∧ p.ns = [] ∧ p.ar = [] ∧
      r.getName = str "mail.google.com" ∧ r.getType = JSVal.num (15 : Nat) ∧
      r.getCl = JSVal.num (1 : Nat) :=
  ⟨by decide,
    roundtrip_question (JSVal.num 0x100) (str "mail.google.com") 15 1 4 (by decide)
      (by decide) (by decide) (by decide) (by decide)⟩

/-! ## The record loops -/

theorem questionLoop_eq (fuel : Nat) (mgr : RespLabelPtManager) (n : Nat) :
    ∀ (d : Deserializer) (p : DNSPacket), questionLoop fuel mgr n d p =
      recordLoop (readQuestion fuel mgr) PacketSection.QUESTION n d p := by
  induction n with
  | zero => intro d p; rfl
  | succ n ih =>
    intro d p
    simp only [questionLoop, recordLoop]
    cases readQuestion fuel mgr d with
    | none => rfl
    | some r => exact ih _ _

theorem sectionLoop_eq (fuel : Nat) (mgr : RespLabelPtManager) (sec : PacketSection)
    (n : Nat) :
    ∀ (d : Deserializer) (p : DNSPacket), sectionLoop fuel mgr sec n d p =
      recordLoop (readRecord fuel mgr) sec n d p := by
  induction n with
  | zero => intro d p; rfl
  | succ n ih =>
    intro d p
    simp only [sectionLoop, recordLoop]
    cases readRecord fuel mgr d with
    | none => rfl
    | some r => exact ih _ _

theorem recordLoop_shape (body : Deserializer → Option (DNSRecord × Deserializer))
    (sec : PacketSection) (n : Nat) :
    ∀ (d d' : Deserializer) (p p' : DNSPacket), recordLoop body sec n d p = some (p', d') →
      ∃ rs : List DNSRecord, rs.length = n ∧
        p' = rs.foldl (fun q r => q.push sec r) p ∧ ReadChain body d rs d' := by
  induction n with
  | zero =>
    intro d d' p p' h
    simp only [recordLoop, Option.some.injEq, Prod.mk.injEq] at h
    exact ⟨[], rfl, h.1.symm, h.2⟩
  | succ n ih =>
    intro d d' p p' h
    simp only [recordLoop] at h
    cases hb : body d with
    | none => simp [hb] at h
    | some rd =>
      obtain ⟨r, d1⟩ := rd
      simp only [hb] at h
      obtain ⟨rs, hlen, hp, hchain⟩ := ih _ _ _ _ h
      exact ⟨r :: rs, by simp [hlen], by simpa using hp, d1, hb, hchain⟩

theorem recordLoop_isSome (body : Deserializer → Option (DNSRecord × Deserializer))
    (sec : PacketSection) (view : List Nat)
    (hbody : ∀ d : Deserializer, d.view_ = view →
      ∃ r d', body d = some (r, d') ∧ d'.view_ = view) (n : Nat) :
    ∀ (d : Deserializer) (p : DNSPacket), d.view_ = view →
      ∃ p' d', recordLoop body sec n d p = some (p', d') ∧ d'.view_ = view := by
  induction n with
  | zero => intro d p hd; exact ⟨p, d, rfl, hd⟩
  | succ n ih =>
    intro d p hd
    obtain ⟨r, d1, hb, hd1⟩ := hbody d hd
    obtain ⟨p', d', hl, hd'⟩ := ih d1 (p.push sec r) hd1
    exact ⟨p', d', by simp only [recordLoop, hb, hl], hd'⟩

theorem foldl_push_data (sec : PacketSection) (rs : List DNSRecord) :
    ∀ p : DNSPacket, ∀ sec' : PacketSection,
      ((rs.foldl (fun q r => q.push sec r) p).data_ sec' =
        if sec' = sec then p.data_ sec' ++ rs else p.data_ sec') := by
  induction rs with
  | nil => intro p sec'; simp
  | cons r rs ih =>
    intro p sec'
    rw [List.foldl_cons, ih]
    cases sec <;> cases sec' <;> simp [DNSPacket.push, DNSPacket.data_]

/-! ## Every read returns -/

theorem getByte_view (d : Deserializer) : d.getByte.2.view_ = d.view_ := rfl

theorem getShort_view (d : Deserializer) : d.getShort.2.view_ = d.view_ := rfl

theorem getLong_view (d : Deserializer) : d.getLong.2.view_ = d.view_ := rfl

theorem slice_view (d : Deserializer) (len : JSVal) : (d.slice len).2.view_ = d.view_ := rfl

theorem subarray_length_le (view : List Nat) (b e : JSVal) :
    (subarray view b e).length ≤ view.length := by
  simp only [subarray, List.length_take, List.length_drop]
  omega

theorem slice_length_le (d : Deserializer) (len : JSVal) :
    (d.slice len).1.length ≤ d.view_.length :=
  subarray_length_le _ _ _

theorem remaining_le (d : Deserializer) : d.remaining ≤ d.view_.length := by
  unfold Deserializer.remaining
  split
  · split <;> omega
  · omega

theorem getByte_number {d : Deserializer} {b : Int} (h : d.getByte.1 = JSVal.num b) :
    ∃ i : Nat, d.loc_ = JSVal.num i ∧ i < d.view_.length ∧
      d.getByte.2 = ⟨d.view_, JSVal.num ((i + 1 : Nat) : Int)⟩ := by
  obtain ⟨view, loc⟩ := d
  cases loc with
  | undefined => simp [Deserializer.getByte, JSVal.add, JSVal.sub, elementGet] at h
  | nan => simp [Deserializer.getByte, JSVal.add, JSVal.sub, elementGet] at h
  | num i =>
    simp only [Deserializer.getByte, JSVal.add, JSVal.sub, elementGet, add_sub_cancel_right] at h
    by_cases hi : 0 ≤ i
    · rw [if_pos hi] at h
      cases hv : view[i.toNat]? with
      | none => simp [hv] at h
      | some v =>
        have hlt : i.toNat < view.length := by
          by_contra hc
          rw [List.getElem?_eq_none (by omega)] at hv
          exact Option.noConfusion hv
        refine ⟨i.toNat, ?_, hlt, ?_⟩
        · simp only [Int.toNat_of_nonneg hi]
        · simp only [Deserializer.getByte, JSVal.add]
          congr 2
          push_cast
          rw [Int.toNat_of_nonneg hi]
    · rw [if_neg hi] at h
      exact JSVal.noConfusion h

theorem parseLabel_loc (k : Nat) :
    ∀ (view : List Nat) (i : Nat) (v : JSString),
      (parseLabel k ⟨view, JSVal.num i⟩ v).2 = ⟨view, JSVal.num ((i + k : Nat) : Int)⟩ := by
  induction k with
  | zero => intro view i v; rfl
  | succ k ih =>
    intro view i v
    simp only [parseLabel, getByte_num]
    rw [ih]
    congr 3
    omega

theorem remaining_num (view : List Nat) (i : Nat) :
    Deserializer.remaining ⟨view, JSVal.num i⟩ = view.length - i := by
  simp [Deserializer.remaining]

theorem parseNameLoop_view (fuel : Nat) (mgr : RespLabelPtManager) :
    ∀ (d : Deserializer) (parts : List JSString) (r : JSString × Deserializer),
      parseNameLoop fuel mgr d parts = some r → r.2.view_ = d.view_ := by
  induction fuel with
  | zero => intro d parts r h; simp [parseNameLoop] at h
  | succ f ih =>
    intro d parts r h
    rw [parseNameLoop] at h
    simp only at h
    split at h
    · injection h with h
      rw [← h]
      rfl
    · split at h
      · cases hg : getNameFromReference f mgr d.getByte.2.getByte.1 with
        | none => simp [hg] at h
        | some s0 =>
          simp only [hg, Option.some.injEq] at h
          rw [← h]
          rfl
      · rename_i hc _
        cases hl : d.getByte.1 with
        | undefined => simp [hl, JSVal.truthy] at hc
        | nan => simp [hl, JSVal.truthy] at hc
        | num b =>
          obtain ⟨i, hloc, _, hd1⟩ := getByte_number hl
          have := ih _ _ _ h
          rw [this, hd1, parseLabel_loc]

theorem parseNameLoop_total {F : Nat} {mgr : RespLabelPtManager}
    (hres : ∀ ref, ∃ s, getNameFromReference (F + 1) mgr ref = some s) (fuel : Nat) :
    ∀ (d : Deserializer) (parts : List JSString), d.remaining + F + 2 ≤ fuel →
      ∃ r, parseNameLoop fuel mgr d parts = some r := by
  induction fuel with
  | zero => intro d parts h; omega
  | succ f ih =>
    intro d parts h
    rw [parseNameLoop]
    simp only
    split
    · exact ⟨_, rfl⟩
    · split
      · obtain ⟨s, hs⟩ := hres d.getByte.2.getByte.1
        rw [getNameFromReference_mono (show F + 1 ≤ f by omega) hs]
        exact ⟨_, rfl⟩
      · rename_i hc _
        cases hl : d.getByte.1 with
        | undefined => simp [hl, JSVal.truthy] at hc
        | nan => simp [hl, JSVal.truthy] at hc
        | num b =>
          obtain ⟨i, hloc, hlt, hd1⟩ := getByte_number hl
          apply ih
          obtain ⟨view, loc⟩ := d
          simp only at hloc hlt hd1
          subst hloc
          rw [hd1, parseLabel_loc, remaining_num]
          rw [remaining_num] at h
          omega

theorem subarray_suffix (view : List Nat) (ref : JSVal) :
    ∃ k, k ≤ view.length ∧ subarray view ref JSVal.undefined = view.drop k := by
  refine ⟨clampIndex view.length ref.toInteger, ?_, ?_⟩
  · unfold clampIndex
    split <;> omega
  · simp only [subarray]
    exact List.take_of_length_le (by simp)

theorem getNameFromReference_total {F : Nat} {mgr : RespLabelPtManager}
    (hterm : ResolvesWithin F mgr) (ref : JSVal) :
    ∃ s, getNameFromReference (F + 1) mgr ref = some s := by
  obtain ⟨k, hk, hsub⟩ := subarray_suffix mgr.view_ ref
  have := hterm k hk
  rw [getNameFromReference]
  simp only [hsub]
  simp only [parseName] at this
  cases hp : parseNameLoop F mgr (Deserializer.new (List.drop k mgr.view_)) [] with
  | none => simp [hp] at this
  | some r => exact ⟨r.1, rfl⟩

theorem parseName_total {F : Nat} {mgr : RespLabelPtManager} (hterm : ResolvesWithin F mgr)
    {fuel : Nat} (d : Deserializer) (h : d.view_.length + F + 2 ≤ fuel) :
    ∃ name d', parseName fuel mgr d = some (name, d') ∧ d'.view_ = d.view_ := by
  obtain ⟨r, hr⟩ := parseNameLoop_total (getNameFromReference_total hterm) fuel d []
    (by have := remaining_le d; omega)
  exact ⟨r.1, r.2, hr, parseNameLoop_view _ _ _ _ _ hr⟩

theorem parseDataSection_total {F : Nat} {mgr : RespLabelPtManager}
    (hterm : ResolvesWithin F mgr) {fuel : Nat} (recordTypeNum : JSVal) (data : List Nat)
    (r : DNSRecord) (h : data.length + F + 2 ≤ fuel) :
    ∃ r', parseDataSection fuel mgr recordTypeNum data r = some r' := by
  unfold parseDataSection
  simp only
  split_ifs
  · exact ⟨_, rfl⟩
  · exact ⟨_, rfl⟩
  · obtain ⟨name, d', hn, _⟩ := parseName_total hterm (Deserializer.new data) h
    rw [hn]
    exact ⟨_, rfl⟩
  · exact ⟨_, rfl⟩
  · obtain ⟨name, d', hn, _⟩ := parseName_total hterm (Deserializer.new data).getShort.2 h
    rw [hn]
    exact ⟨_, rfl⟩
  · exact ⟨_, rfl⟩

theorem readQuestion_total {F : Nat} {mgr : RespLabelPtManager} (hterm : ResolvesWithin F mgr)
    {fuel : Nat} (d : Deserializer) (h : d.view_.length + F + 2 ≤ fuel) :
    ∃ r d', readQuestion fuel mgr d = some (r, d') ∧ d'.view_ = d.view_ := by
  obtain ⟨name, d1, hn, hv⟩ := parseName_total hterm d h
  simp only [readQuestion, hn]
  exact ⟨_, _, rfl, by rw [getShort_view, getShort_view, hv]⟩

theorem readRecord_total {F : Nat} {mgr : RespLabelPtManager} (hterm : ResolvesWithin F mgr)
    {fuel : Nat} (d : Deserializer) (h : d.view_.length + F + 2 ≤ fuel) :
    ∃ r d', readRecord fuel mgr d = some (r, d') ∧ d'.view_ = d.view_ := by
  obtain ⟨name, d1, hn, hv⟩ := parseName_total hterm d h
  simp only [readRecord, hn]
  have hlen : (d1.getShort.2.getShort.2.getLong.2.getShort.2.slice
      d1.getShort.2.getShort.2.getLong.2.getShort.1).1.length ≤ d.view_.length := by
    have := slice_length_le d1.getShort.2.getShort.2.getLong.2.getShort.2
      d1.getShort.2.getShort.2.getLong.2.getShort.1
    simpa [getShort_view, getLong_view, hv] using this
  obtain ⟨r', hr'⟩ := parseDataSection_total hterm d1.getShort.1
    (d1.getShort.2.getShort.2.getLong.2.getShort.2.slice
      d1.getShort.2.getShort.2.getLong.2.getShort.1).1
    (((newRecordOfType d1.getShort.1 name d1.getShort.2.getShort.1
      d1.getShort.2.getShort.2.getLong.1
      (d1.getShort.2.getShort.2.getLong.2.getShort.2.slice
        d1.getShort.2.getShort.2.getLong.2.getShort.1).1).setLblPointManager mgr).setData
      (DataTxt.binary (d1.getShort.2.getShort.2.getLong.2.getShort.2.slice
        d1.getShort.2.getShort.2.getLong.2.getShort.1).1))
    (show _ + F + 2 ≤ fuel by omega)
  rw [hr']
  exact ⟨_, _, rfl, by simp [slice_view, getShort_view, getLong_view, hv]⟩

/-! ## The decoded sections (C6, C8) -/

theorem assembled_sections (p0 : DNSPacket) (rs1 rs2 rs3 rs4 : List DNSRecord) :
    (rs4.foldl (fun q r => q.push PacketSection.ADDITIONAL r)
      (rs3.foldl (fun q r => q.push PacketSection.AUTHORITY r)
        (rs2.foldl (fun q r => q.push PacketSection.ANSWER r)
          (rs1.foldl (fun q r => q.push PacketSection.QUESTION r) p0)))).qd = p0.qd ++ rs1 ∧
    (rs4.foldl (fun q r => q.push PacketSection.ADDITIONAL r)
      (rs3.foldl (fun q r => q.push PacketSection.AUTHORITY r)
        (rs2.foldl (fun q r => q.push PacketSection.ANSWER r)
          (rs1.foldl (fun q r => q.push PacketSection.QUESTION r) p0)))).an = p0.an ++ rs2 ∧
    (rs4.foldl (fun q r => q.push PacketSection.ADDITIONAL r)
      (rs3.foldl (fun q r => q.push PacketSection.AUTHORITY r)
        (rs2.foldl (fun q r => q.push PacketSection.ANSWER r)
          (rs1.foldl (fun q r => q.push PacketSection.QUESTION r) p0)))).ns = p0.ns ++ rs3 ∧
    (rs4.foldl (fun q r => q.push PacketSection.ADDITIONAL r)
      (rs3.foldl (fun q r => q.push PacketSection.AUTHORITY r)
        (rs2.foldl (fun q r => q.push PacketSection.ANSWER r)
          (rs1.foldl (fun q r => q.push PacketSection.QUESTION r) p0)))).ar = p0.ar ++ rs4 := by
  have h := fun sec' => foldl_push_data PacketSection.ADDITIONAL rs4
    (rs3.foldl (fun q r => q.push PacketSection.AUTHORITY r)
      (rs2.foldl (fun q r => q.push PacketSection.ANSWER r)
        (rs1.foldl (fun q r => q.push PacketSection.QUESTION r) p0))) sec'
  have h3 := fun sec' => foldl_push_data PacketSection.AUTHORITY rs3
    (rs2.foldl (fun q r => q.push PacketSection.ANSWER r)
      (rs1.foldl (fun q r => q.push PacketSection.QUESTION r) p0)) sec'
  have h2 := fun sec' => foldl_push_data PacketSection.ANSWER rs2
    (rs1.foldl (fun q r => q.push PacketSection.QUESTION r) p0) sec'
  have h1 := fun sec' => foldl_push_data PacketSection.QUESTION rs1 p0 sec'
  refine ⟨?_, ?_, ?_, ?_⟩
  · have := h PacketSection.QUESTION
    rw [h3, h2, h1] at this
    simpa [DNSPacket.data_] using this
  · have := h PacketSection.ANSWER
    rw [h3, h2, h1] at this
    simpa [DNSPacket.data_] using this
  · have := h PacketSection.AUTHORITY
    rw [h3, h2, h1] at this
    simpa [DNSPacket.data_] using this
  · have := h PacketSection.ADDITIONAL
    rw [h3, h2, h1] at this
    simpa [DNSPacket.data_] using this

theorem deserializePacket_shape (fuel : Nat) (mgr : RespLabelPtManager)
    (a0 a1 f0 f1 q0 q1 n0 n1 s0 s1 r0 r1 : Nat) (rest : List Nat)
    (hq : q0 < 256) (hn : n0 < 256) (hs : s0 < 256) (hr : r0 < 256)
    (pd : DNSPacketDeserializer)
    (h : (DNSPacketDeserializer.new
        (a0 :: a1 :: f0 :: f1 :: q0 :: q1 :: n0 :: n1 :: s0 :: s1 :: r0 :: r1 :: rest)
        mgr).deserializePacket fuel = some pd) :
    ∃ (p : DNSPacket) (d1 d2 d3 d4 : Deserializer),
      pd = ⟨d4, mgr, some p⟩ ∧
      p.qd.length = q0 * 256 + q1 ∧ p.an.length = n0 * 256 + n1 ∧
      p.ns.length = s0 * 256 + s1 ∧ p.ar.length = r0 * 256 + r1 ∧
      ReadChain (readQuestion fuel mgr)
        ⟨a0 :: a1 :: f0 :: f1 :: q0 :: q1 :: n0 :: n1 :: s0 :: s1 :: r0 :: r1 :: rest,
          JSVal.num ((12 : Nat) : Int)⟩ p.qd d1 ∧
      ReadChain (readRecord fuel mgr) d1 p.an d2 ∧
      ReadChain (readRecord fuel mgr) d2 p.ns d3 ∧
      ReadChain (readRecord fuel mgr) d3 p.ar d4 := by
  rw [deserializePacket_header fuel mgr a0 a1 f0 f1 q0 q1 n0 n1 s0 s1 r0 r1 rest hq hn hs hr]
    at h
  simp only [questionLoop_eq, sectionLoop_eq] at h
  split at h
  · exact Option.noConfusion h
  · rename_i p1 d1 h1
    split at h
    · exact Option.noConfusion h
    · rename_i p2 d2 h2
      split at h
      · exact Option.noConfusion h
      · rename_i p3 d3 h3
        split at h
        · exact Option.noConfusion h
        · rename_i p4 d4 h4
          injection h with h
          obtain ⟨rs1, l1, e1, c1⟩ := recordLoop_shape _ _ _ _ _ _ _ h1
          obtain ⟨rs2, l2, e2, c2⟩ := recordLoop_shape _ _ _ _ _ _ _ h2
          obtain ⟨rs3, l3, e3, c3⟩ := recordLoop_shape _ _ _ _ _ _ _ h3
          obtain ⟨rs4, l4, e4, c4⟩ := recordLoop_shape _ _ _ _ _ _ _ h4
          subst e1 e2 e3 e4
          obtain ⟨g1, g2, g3, g4⟩ := assembled_sections
            (DNSPacket.new (Deserializer.getShort
              ⟨a0 :: a1 :: f0 :: f1 :: q0 :: q1 :: n0 :: n1 :: s0 :: s1 :: r0 :: r1 :: rest,
                JSVal.num ((2 : Nat) : Int)⟩).1) rs1 rs2 rs3 rs4
          simp only [DNSPacket.new, List.nil_append] at g1 g2 g3 g4
          refine ⟨_, d1, d2, d3, d4, h.symm, ?_, ?_, ?_, ?_, ?_, ?_, ?_, ?_⟩
          · simp only [DNSPacket.new, g1, l1]
          · simp only [DNSPacket.new, g2, l2]
          · simp only [DNSPacket.new, g3, l3]
          · simp only [DNSPacket.new, g4, l4]
          · simpa only [DNSPacket.new, g1] using c1
          · simpa only [DNSPacket.new, g2] using c2
          · simpa only [DNSPacket.new, g3] using c3
          · simpa only [DNSPacket.new, g4] using c4

theorem deserializePacket_total {F fuel : Nat} (view : List Nat)
    (hterm : ResolvesWithin F ⟨view⟩) (hfuel : view.length + F + 2 ≤ fuel) :
    ∃ pd, (DNSPacketDeserializer.new view ⟨view⟩).deserializePacket fuel = some pd := by
  have hq := recordLoop_isSome (readQuestion fuel ⟨view⟩) PacketSection.QUESTION view
    (fun d hd => by
      obtain ⟨r, d', h1, h2⟩ := @readQuestion_total F ⟨view⟩ hterm fuel d
        (by rw [hd]; exact hfuel)
      exact ⟨r, d', h1, h2.trans hd⟩)
  have hs := fun sec => recordLoop_isSome (readRecord fuel ⟨view⟩) sec view
    (fun d hd => by
      obtain ⟨r, d', h1, h2⟩ := @readRecord_total F ⟨view⟩ hterm fuel d
        (by rw [hd]; exact hfuel)
      exact ⟨r, d', h1, h2.trans hd⟩)
  have key : ∀ (c1 c2 c3 c4 : Nat) (d0 : Deserializer) (p0 : DNSPacket), d0.view_ = view →
      ∃ pd : DNSPacketDeserializer,
        (match recordLoop (readQuestion fuel ⟨view⟩) PacketSection.QUESTION c1 d0 p0 with
        | none => none
        | some (packet1, d7) =>
          match recordLoop (readRecord fuel ⟨view⟩) PacketSection.ANSWER c2 d7 packet1 with
          | none => none
          | some (packet2, d8) =>
            match recordLoop (readRecord fuel ⟨view⟩) PacketSection.AUTHORITY c3 d8 packet2 with
            | none => none
            | some (packet3, d9) =>
              match recordLoop (readRecord fuel ⟨view⟩) PacketSection.ADDITIONAL c4 d9
                  packet3 with
              | none => none
              | some (packet4, d10) =>
                some { dataDeserializer_ := d10, lblPointManager_ := ⟨view⟩,
                       deserializedPacket_ := some packet4 }) = some pd := by
    intro c1 c2 c3 c4 d0 p0 hd0
    obtain ⟨p1, d1, h1, v1⟩ := hq c1 d0 p0 hd0
    obtain ⟨p2, d2, h2, v2⟩ := hs PacketSection.ANSWER c2 d1 p1 v1
    obtain ⟨p3, d3, h3, v3⟩ := hs PacketSection.AUTHORITY c3 d2 p2 v2
    obtain ⟨p4, d4, h4, _⟩ := hs PacketSection.ADDITIONAL c4 d3 p3 v3
    simp only [h1, h2, h3, h4]
    exact ⟨_, rfl⟩
  simp only [DNSPacketDeserializer.deserializePacket, DNSPacketDeserializer.new,
    questionLoop_eq, sectionLoop_eq]
  exact key _ _ _ _ _ _ rfl

/-- C6: for every response buffer of at least twelve bytes (each below 256), whenever
`deserializePacket` returns, the packet holds in QUESTION, ANSWER, AUTHORITY
and ADDITIONAL exactly as many records as the big-endian counts at header
bytes 4-5, 6-7, 8-9 and 10-11, and the records are in wire order: the first
question is read at offset 12, every further record where the previous one
ended, section after section; and `deserializePacket` does return as soon as
name resolution ends within `F` steps from every offset and the fuel is at
least the length of the buffer plus `F + 2`. -/
theorem decodeResponse_section_counts (a0 a1 f0 f1 q0 q1 n0 n1 s0 s1 r0 r1 : Nat)
    (rest data : List Nat)
    (hdata : data = a0 :: a1 :: f0 :: f1 :: q0 :: q1 :: n0 :: n1 :: s0 :: s1 :: r0 :: r1 :: rest)
    (hbytes : ∀ b ∈ data, b < 256) :
    (∀ (fuel : Nat) (p : DNSPacket), decodeResponse fuel data = some p →
      ∃ d1 d2 d3 d4 : Deserializer,
        p.qd.length = q0 * 256 + q1 ∧ p.an.length = n0 * 256 + n1 ∧
        p.ns.length = s0 * 256 + s1 ∧ p.ar.length = r0 * 256 + r1 ∧
        ReadChain (readQuestion fuel ⟨data⟩) ⟨data, JSVal.num 12⟩ p.qd d1 ∧
        ReadChain (readRecord fuel ⟨data⟩) d1 p.an d2 ∧
        ReadChain (readRecord fuel ⟨data⟩) d2 p.ns d3 ∧
        ReadChain (readRecord fuel ⟨data⟩) d3 p.ar d4) ∧
    (∀ F fuel : Nat, ResolvesWithin F ⟨data⟩ → data.length + F + 2 ≤ fuel →
      ∃ p, decodeResponse fuel data = some p) := by
  have hq : q0 < 256 := hbytes q0 (by simp [hdata])
  have hn : n0 < 256 := hbytes n0 (by simp [hdata])
  have hs : s0 < 256 := hbytes s0 (by simp [hdata])
  have hr : r0 < 256 := hbytes r0 (by simp [hdata])
  constructor
  · intro fuel p h
    simp only [decodeResponse] at h
    cases hpd : (DNSPacketDeserializer.new data ⟨data⟩).deserializePacket fuel with
    | none => simp [hpd] at h
    | some pd =>
      rw [hpd] at h
      simp only [DNSPacketDeserializer.getDeserializedPacket] at h
      subst hdata
      obtain ⟨p', d1, d2, d3, d4, e, c⟩ :=
        deserializePacket_shape fuel _ a0 a1 f0 f1 q0 q1 n0 n1 s0 s1 r0 r1 rest hq hn hs hr pd hpd
      subst e
      simp only [Option.some.injEq] at h
      subst h
      exact ⟨d1, d2, d3, d4, c⟩
  · intro F fuel hterm hfuel
    obtain ⟨pd, hpd⟩ := deserializePacket_total data hterm hfuel
    have hpd' := hpd
    subst hdata
    obtain ⟨p', d1, d2, d3, d4, e, _⟩ :=
      deserializePacket_shape fuel _ a0 a1 f0 f1 q0 q1 n0 n1 s0 s1 r0 r1 rest hq hn hs hr pd hpd
    refine ⟨p', ?_⟩
    simp only [decodeResponse, hpd', e, DNSPacketDeserializer.getDeserializedPacket]

/-- C6 on the response `cnameResponse`, whose header announces one question
and one answer: name resolution ends within 6 steps from every offset, and the
decoded packet has one question, one answer and no other record. -/
theorem decodeResponse_section_counts_witness :
    (∀ b ∈ cnameResponse, b < 256) ∧ ResolvesWithin 6 ⟨cnameResponse⟩ ∧
    ∃ p, decodeResponse 45 cnameResponse = some p ∧
      p.qd.length = 1 ∧ p.an.length = 1 ∧ p.ns.length = 0 ∧ p.ar.length = 0 :=
  have hb : ∀ b ∈ cnameResponse, b < 256 := by decide
  have ht : ResolvesWithin 6 ⟨cnameResponse⟩ := by decide!
  have h := decodeResponse_section_counts 0 0 0x81 0x80 0 1 0 1 0 0 0 0
    [1, 97, 1, 98, 0, 0, 5, 0, 1, 0xc0, 12, 0, 5, 0, 1, 0, 0, 0, 60, 0, 4, 1, 120, 0xc0, 14]
    cnameResponse rfl hb
  ⟨hb, ht, (h.2 6 45 ht (by decide)).elim fun p hp =>
    ⟨p, hp, (h.1 45 p hp).elim fun _ h1 => h1.elim fun _ h2 => h2.elim fun _ h3 =>
      h3.elim fun _ h4 => ⟨h4.1, h4.2.1, h4.2.2.1, h4.2.2.2.1⟩⟩⟩

/-- C8, counterexample: the buffer `headerOnly` announces one question and one
answer and ends after the header; decoding it returns a packet, with one
question and one answer whose names are empty and whose types are `NaN`. -/
theorem decodeResponse_headerOnly :
    decodeResponse 1 headerOnly =
      some ⟨JSVal.num 0x8180,
        [(DNSRecord.newQuestion [] JSVal.nan JSVal.nan).setLblPointManager ⟨headerOnly⟩],
        [((DNSRecord.newGeneric [] JSVal.nan JSVal.nan JSVal.nan []).setLblPointManager
          ⟨headerOnly⟩).setData (DataTxt.text [])], [], []⟩ := by
  decide

/-- C8 (amended): for every buffer of at least twelve bytes, also one that
ends before the records announced by its header section counts,
`deserializePacket` raises nothing: as soon as name resolution ends within `F`
steps from every offset and the fuel is at least the length of the buffer plus
`F + 2`, it leaves a decoded packet whose sections hold the announced numbers
of records (the bytes missing are read as `undefined`). -/
theorem deserializePacket_truncated (a0 a1 f0 f1 q0 q1 n0 n1 s0 s1 r0 r1 : Nat)
    (rest data : List Nat) (F fuel : Nat)
    (hdata : data = a0 :: a1 :: f0 :: f1 :: q0 :: q1 :: n0 :: n1 :: s0 :: s1 :: r0 :: r1 :: rest)
    (hbytes : ∀ b ∈ data, b < 256)
    (hterm : ResolvesWithin F ⟨data⟩) (hfuel : data.length + F + 2 ≤ fuel) :
    ∃ (pd : DNSPacketDeserializer) (p : DNSPacket),
      (DNSPacketDeserializer.new data ⟨data⟩).deserializePacket fuel = some pd ∧
      pd.getDeserializedPacket = some p ∧
      p.qd.length = q0 * 256 + q1 ∧ p.an.length = n0 * 256 + n1 ∧
      p.ns.length = s0 * 256 + s1 ∧ p.ar.length = r0 * 256 + r1 := by
  have hq : q0 < 256 := hbytes q0 (by simp [hdata])
  have hn : n0 < 256 := hbytes n0 (by simp [hdata])
  have hs : s0 < 256 := hbytes s0 (by simp [hdata])
  have hr : r0 < 256 := hbytes r0 (by simp [hdata])
  obtain ⟨pd, hpd⟩ := deserializePacket_total data hterm hfuel
  have hpd' := hpd
  subst hdata
  obtain ⟨p', d1, d2, d3, d4, e, c1, c2, c3, c4, _⟩ :=
    deserializePacket_shape fuel _ a0 a1 f0 f1 q0 q1 n0 n1 s0 s1 r0 r1 rest hq hn hs hr pd hpd
  exact ⟨pd, p', hpd', by rw [e]; rfl, c1, c2, c3, c4⟩

/-- C8 (amended) on `headerOnly`, which ends before the question and the
answer that it announces: a packet with one question and one answer is
produced. -/
theorem deserializePacket_truncated_witness :
    (∀ b ∈ headerOnly, b < 256) ∧ ResolvesWithin 4 ⟨headerOnly⟩ ∧
    ∃ (pd : DNSPacketDeserializer) (p : DNSPacket),
      (DNSPacketDeserializer.new headerOnly ⟨headerOnly⟩).deserializePacket 18 = some pd ∧
      pd.getDeserializedPacket = some p ∧
      p.qd.length = 0 * 256 + 1 ∧ p.an.length = 0 * 256 + 1 ∧
      p.ns.length = 0 * 256 + 0 ∧ p.ar.length = 0 * 256 + 0 :=
  have hb : ∀ b ∈ headerOnly, b < 256 := by decide
  have ht : ResolvesWithin 4 ⟨headerOnly⟩ := by decide!
  ⟨hb, ht, deserializePacket_truncated 0 0 0x81 0x80 0 1 0 1 0 0 0 0 [] headerOnly 4 18 rfl hb ht
    (by decide)⟩

/-! ## The loops of the data sections -/

theorem nibbles_of_byte : ∀ b : Nat, b < 256 →
    baseConversion (((JSVal.num (b : Int)).band (JSVal.num 0xf0)).shr 4) 16 =
        [WireSpec.hexDigit (b / 16)] ∧
      baseConversion ((JSVal.num (b : Int)).band (JSVal.num 0x0f)) 16 =
        [WireSpec.hexDigit (b % 16)] := by
  decide!

theorem isEOF_of_drop_cons {view : List Nat} {i b : Nat} {rest : List Nat}
    (h : view.drop i = b :: rest) : Deserializer.isEOF ⟨view, JSVal.num i⟩ = false := by
  have hlt : i < view.length := by
    by_contra hc
    rw [List.drop_eq_nil_of_le (by omega)] at h
    exact List.noConfusion h
  simp only [Deserializer.isEOF, JSVal.ge, decide_eq_false_iff_not]
  omega

theorem isEOF_of_drop_nil {view : List Nat} {i : Nat} (h : view.drop i = []) :
    Deserializer.isEOF ⟨view, JSVal.num i⟩ = true := by
  have hle : view.length ≤ i := by
    have := congrArg List.length h
    simp at this
    omega
  simp only [Deserializer.isEOF, JSVal.ge, decide_eq_true_eq]
  omega

theorem parseOctets_of_drop (bs : List Nat) :
    ∀ (m i : Nat) (view : List Nat) (arr : List JSVal), view.drop i = bs → bs.length ≤ m →
      parseOctets m ⟨view, JSVal.num i⟩ arr =
        (arr ++ bs.map (fun b : Nat => JSVal.num b),
          ⟨view, JSVal.num ((i + bs.length : Nat) : Int)⟩) := by
  induction bs with
  | nil =>
    intro m i view arr h _
    cases m with
    | zero => simp [parseOctets]
    | succ m => simp [parseOctets, isEOF_of_drop_nil h]
  | cons b bs ih =>
    intro m i view arr h hm
    cases m with
    | zero => simp at hm
    | succ m =>
      simp only [parseOctets, isEOF_of_drop_cons h, getByte_of_drop h]
      rw [ih m (i + 1) view _ (drop_succ_of_drop h) (by simpa using hm)]
      simp only [List.map_cons, List.append_assoc, List.singleton_append, List.length_cons,
        Bool.false_eq_true, if_false]
      rw [show i + 1 + bs.length = i + (bs.length + 1) by omega]

theorem parseChars_of_drop (bs : List Nat) :
    ∀ (m i : Nat) (view : List Nat) (txt : JSString), view.drop i = bs → bs.length ≤ m →
      (∀ b ∈ bs, b < 65536) →
      parseChars m ⟨view, JSVal.num i⟩ txt =
        (txt ++ bs, ⟨view, JSVal.num ((i + bs.length : Nat) : Int)⟩) := by
  induction bs with
  | nil =>
    intro m i view txt h _ _
    cases m with
    | zero => simp [parseChars]
    | succ m => simp [parseChars, isEOF_of_drop_nil h]
  | cons b bs ih =>
    intro m i view txt h hm hb
    have hb0 : b < 65536 := hb b (List.mem_cons_self _ _)
    have e : fromCharCode (JSVal.num (b : Int)) = [b] := by
      simp only [fromCharCode, JSVal.toUint16]
      congr 1
      omega
    cases m with
    | zero => simp at hm
    | succ m =>
      simp only [parseChars, isEOF_of_drop_cons h, getByte_of_drop h, e]
      rw [ih m (i + 1) view _ (drop_succ_of_drop h) (by simpa using hm)
        (fun c hc => hb c (List.mem_cons_of_mem _ hc))]
      simp only [List.append_assoc, List.singleton_append, List.length_cons,
        Bool.false_eq_true, if_false]
      rw [show i + 1 + bs.length = i + (bs.length + 1) by omega]

theorem parseNibbles_of_drop (bs : List Nat) :
    ∀ (m i k : Nat) (view : List Nat) (txt : JSString) (r : DNSRecord), view.drop i = bs →
      bs.length ≤ m → (∀ b ∈ bs, b < 256) →
      parseNibbles m ⟨view, JSVal.num i⟩ k txt r =
        (txt ++ WireSpec.hexGroups k bs,
          if bs = [] then r else r.setIp (txt ++ WireSpec.hexGroups k bs),
          ⟨view, JSVal.num ((i + bs.length : Nat) : Int)⟩) := by
  induction bs with
  | nil =>
    intro m i k view txt r h _ _
    cases m with
    | zero => simp [parseNibbles, WireSpec.hexGroups]
    | succ m => simp [parseNibbles, isEOF_of_drop_nil h, WireSpec.hexGroups]
  | cons b bs ih =>
    intro m i k view txt r h hm hb
    obtain ⟨ea, eb⟩ := nibbles_of_byte b (hb b (List.mem_cons_self _ _))
    cases m with
    | zero => simp at hm
    | succ m =>
      simp only [parseNibbles, isEOF_of_drop_cons h, getByte_of_drop h, ea, eb]
      rw [ih m (i + 1) (k + 1 + 1) view _ _ (drop_succ_of_drop h) (by simpa using hm)
        (fun c hc => hb c (List.mem_cons_of_mem _ hc))]
      have ek : k + 1 + 1 = k + 2 := rfl
      simp only [ek, WireSpec.hexGroups, WireSpec.hexByte, List.length_cons]
      by_cases hcond : (k + 2) % 4 = 0 ∧ k + 2 < 32
      · simp only [hcond, and_self, if_true, List.append_assoc, List.cons_append,
          List.nil_append, reduceCtorEq, if_false]
        refine Prod.ext rfl (Prod.ext ?_ ?_)
        · by_cases hbs : bs = []
          · subst hbs
            simp [WireSpec.hexGroups, DNSRecord.setIp]
          · simp [hbs, DNSRecord.setIp]
        · simp only
          congr 2
          omega
      · simp only [hcond, if_false, List.append_assoc, List.cons_append,
          List.nil_append, reduceCtorEq]
        refine Prod.ext rfl (Prod.ext ?_ ?_)
        · by_cases hbs : bs = []
          · subst hbs
            simp [WireSpec.hexGroups, DNSRecord.setIp]
          · simp [hbs, DNSRecord.setIp]
        · simp only
          congr 2
          omega

/-! ## A record read from the wire -/

theorem readRecord_of_wire {fuel : Nat} {mgr : RespLabelPtManager} {d : Deserializer}
    {recName : JSString} {view : List Nat} {n : Nat}
    (ty0 ty1 c0 c1 t0 t1 t2 t3 l0 l1 : Nat) (data rest : List Nat)
    (hname : parseName fuel mgr d = some (recName, ⟨view, JSVal.num n⟩))
    (hwire : view.drop n = [ty0, ty1, c0, c1, t0, t1, t2, t3, l0, l1] ++ (data ++ rest))
    (hty : ty0 < 256) (hc : c0 < 256) (hl : l0 < 256) (hlen : data.length = l0 * 256 + l1) :
    readRecord fuel mgr d =
      match parseDataSection fuel mgr (JSVal.num ((ty0 * 256 + ty1 : Nat) : Int)) data
          (((newRecordOfType (JSVal.num ((ty0 * 256 + ty1 : Nat) : Int)) recName
              (JSVal.num ((c0 * 256 + c1 : Nat) : Int))
              (Deserializer.getLong ⟨view, JSVal.num ((n + 4 : Nat) : Int)⟩).1
              data).setLblPointManager mgr).setData (DataTxt.binary data)) with
      | none => none
      | some r => some (r, ⟨view, JSVal.num ((n + 10 + data.length : Nat) : Int)⟩) := by
  have h2 : view.drop (n + 2) = [c0, c1, t0, t1, t2, t3, l0, l1] ++ (data ++ rest) :=
    drop_succ_of_drop (drop_succ_of_drop hwire)
  have h8 : view.drop (n + 8) = [l0, l1] ++ (data ++ rest) :=
    drop_add_of_drop (l := [ty0, ty1, c0, c1, t0, t1, t2, t3]) hwire
  have h10 : view.drop (n + 10) = data ++ rest :=
    drop_succ_of_drop (drop_succ_of_drop h8)
  have eType : Deserializer.getShort ⟨view, JSVal.num n⟩ =
      (JSVal.num ((ty0 * 256 + ty1 : Nat) : Int), ⟨view, JSVal.num ((n + 2 : Nat) : Int)⟩) :=
    getShort_of_drop hwire hty
  have eClass : Deserializer.getShort ⟨view, JSVal.num ((n + 2 : Nat) : Int)⟩ =
      (JSVal.num ((c0 * 256 + c1 : Nat) : Int), ⟨view, JSVal.num ((n + 4 : Nat) : Int)⟩) :=
    getShort_of_drop h2 hc
  have eTTL : Deserializer.getLong ⟨view, JSVal.num ((n + 4 : Nat) : Int)⟩ =
      ((Deserializer.getLong ⟨view, JSVal.num ((n + 4 : Nat) : Int)⟩).1,
        ⟨view, JSVal.num ((n + 8 : Nat) : Int)⟩) :=
    Prod.ext rfl (getLong_loc view (n + 4))
  have eLen : Deserializer.getShort ⟨view, JSVal.num ((n + 8 : Nat) : Int)⟩ =
      (JSVal.num ((data.length : Nat) : Int), ⟨view, JSVal.num ((n + 10 : Nat) : Int)⟩) := by
    rw [hlen]
    exact getShort_of_drop h8 hl
  have eData : Deserializer.slice ⟨view, JSVal.num ((n + 10 : Nat) : Int)⟩
      (JSVal.num ((data.length : Nat) : Int)) =
      (data, ⟨view, JSVal.num ((n + 10 + data.length : Nat) : Int)⟩) :=
    slice_of_drop h10
  simp only [readRecord, hname, eType, eClass]
  rw [eTTL]
  simp only [eLen, eData]

theorem joinDotVals_bytes (data : List Nat) :
    joinDotVals (data.map (fun b : Nat => JSVal.num b)) = joinDot (data.map WireSpec.decimal) := by
  simp only [joinDotVals, List.map_map]
  congr 1

theorem parseDataSection_A_any (fuel : Nat) (mgr : RespLabelPtManager) (data : List Nat)
    (r : DNSRecord) :
    parseDataSection fuel mgr (JSVal.num 1) data r =
      some ((r.setIp (joinDot (data.map WireSpec.decimal))).setData
        (DataTxt.text (joinDot (data.map WireSpec.decimal)))) := by
  have h := parseOctets_of_drop data data.length 0 data [] rfl (Nat.le_refl _)
  simp only [parseDataSection, RecordNumber.A, Deserializer.new_eq, if_true, h, List.nil_append,
    joinDotVals_bytes]

theorem parseDataSection_AAAA_any (fuel : Nat) (mgr : RespLabelPtManager) (data : List Nat)
    (r : DNSRecord) (hb : ∀ b ∈ data, b < 256) :
    parseDataSection fuel mgr (JSVal.num 28) data r =
      some ((if data = [] then r else r.setIp (WireSpec.hexGroups 0 data)).setData
        (DataTxt.text (WireSpec.hexGroups 0 data))) := by
  have h := parseNibbles_of_drop data data.length 0 0 data [] r rfl (Nat.le_refl _) hb
  have e1 : (JSVal.num 28 = JSVal.num RecordNumber.A) = False := by
    simp [RecordNumber.A]
  simp only [parseDataSection, RecordNumber.AAAA, Deserializer.new_eq, e1, if_false, if_true, h,
    List.nil_append]

theorem parseDataSection_TXT_any (fuel : Nat) (mgr : RespLabelPtManager) (data : List Nat)
    (r : DNSRecord) (hb : ∀ b ∈ data, b < 256) :
    parseDataSection fuel mgr (JSVal.num 16) data r =
      some ((r.setText data).setData (DataTxt.text data)) := by
  have h := parseChars_of_drop data data.length 0 data [] rfl (Nat.le_refl _)
    (fun b hb' => by have := hb b hb'; omega)
  have e1 : (JSVal.num 16 = JSVal.num RecordNumber.A) = False := by simp [RecordNumber.A]
  have e2 : (JSVal.num 16 = JSVal.num RecordNumber.AAAA) = False := by simp [RecordNumber.AAAA]
  have e3 : (JSVal.num 16 = JSVal.num RecordNumber.CNAME) = False := by
    simp [RecordNumber.CNAME]
  simp only [parseDataSection, RecordNumber.TXT, Deserializer.new_eq, e1, e2, e3, if_false,
    if_true, h, List.nil_append]

theorem parseDataSection_other (fuel : Nat) (mgr : RespLabelPtManager) (ty : Int)
    (data : List Nat) (r : DNSRecord)
    (h1 : ty ≠ 1) (h5 : ty ≠ 5) (h15 : ty ≠ 15) (h16 : ty ≠ 16) (h28 : ty ≠ 28) :
    parseDataSection fuel mgr (JSVal.num ty) data r = some (r.setData (DataTxt.text [])) := by
  simp [parseDataSection, RecordNumber.A, RecordNumber.AAAA, RecordNumber.CNAME,
    RecordNumber.TXT, RecordNumber.MX, h1, h5, h15, h16, h28]

theorem newRecordOfType_other (ty : Int) (recName : JSString) (recClass recTTL : JSVal)
    (data : List Nat)
    (h1 : ty ≠ 1) (h5 : ty ≠ 5) (h15 : ty ≠ 15) (h16 : ty ≠ 16) (h28 : ty ≠ 28) :
    newRecordOfType (JSVal.num ty) recName recClass recTTL data =
      DNSRecord.newGeneric recName (JSVal.num ty) recClass recTTL data := by
  simp [newRecordOfType, RecordNumber.A, RecordNumber.AAAA, RecordNumber.CNAME,
    RecordNumber.TXT, RecordNumber.MX, h1, h5, h15, h16, h28]

theorem byte_of_drop {view : List Nat} (hview : ∀ b ∈ view, b < 256) {n : Nat}
    {l : List Nat} (h : view.drop n = l) {x : Nat} (hx : x ∈ l) : x < 256 :=
  hview x (List.mem_of_mem_drop (h ▸ hx))

theorem toStr_nat (k : Nat) : (JSVal.num (k : Int)).toStr = WireSpec.decimal k := by
  simp [JSVal.toStr, WireSpec.decimal]

/-! ## AAAA records (C11) -/

/-- C11: a non-question record of type 28 whose data section is the sixteen
bytes b0..b15 is decoded as a `DNSRecordAAAA` whose `getIp()` and
`getDataText()` are the same string of 39 characters: the eight groups
hex(b0)hex(b1), ..., hex(b14)hex(b15) of four lowercase hex digits each,
joined by ':'. -/
theorem readRecord_AAAA (fuel : Nat) (mgr : RespLabelPtManager) (d : Deserializer)
    (recName : JSString) (view : List Nat)
    (n c0 c1 t0 t1 t2 t3 b0 b1 b2 b3 b4 b5 b6 b7 b8 b9 b10 b11 b12 b13 b14 b15 : Nat)
    (rest : List Nat) (hview : ∀ b ∈ view, b < 256)
    (hname : parseName fuel mgr d = some (recName, ⟨view, JSVal.num n⟩))
    (hwire : view.drop n = [0, 28, c0, c1, t0, t1, t2, t3, 0, 16] ++
      ([b0, b1, b2, b3, b4, b5, b6, b7, b8, b9, b10, b11, b12, b13, b14, b15] ++ rest)) :
    ∃ (r : DNSRecord) (txt : JSString),
      readRecord fuel mgr d = some (r, ⟨view, JSVal.num ((n + 10 + 16 : Nat) : Int)⟩) ∧
      r.kind = RecordKind.DNSRecordAAAA ∧ r.getName = recName ∧ r.getType = JSVal.num 28 ∧
      r.getIp = some txt ∧ r.getDataText = DataTxt.text txt ∧
      txt = WireSpec.joinColon
        [WireSpec.hexByte b0 ++ WireSpec.hexByte b1, WireSpec.hexByte b2 ++ WireSpec.hexByte b3,
         WireSpec.hexByte b4 ++ WireSpec.hexByte b5, WireSpec.hexByte b6 ++ WireSpec.hexByte b7,
         WireSpec.hexByte b8 ++ WireSpec.hexByte b9, WireSpec.hexByte b10 ++ WireSpec.hexByte b11,
         WireSpec.hexByte b12 ++ WireSpec.hexByte b13,
         WireSpec.hexByte b14 ++ WireSpec.hexByte b15] ∧
      txt.length = 39 := by
  have hb : ∀ b ∈ [b0, b1, b2, b3, b4, b5, b6, b7, b8, b9, b10, b11, b12, b13, b14, b15],
      b < 256 := fun b hb => byte_of_drop hview hwire (by simp only [List.mem_append]; tauto)
  have hrec := readRecord_of_wire 0 28 c0 c1 t0 t1 t2 t3 0 16
    [b0, b1, b2, b3, b4, b5, b6, b7, b8, b9, b10, b11, b12, b13, b14, b15] rest hname hwire
    (by omega) (byte_of_drop hview hwire (by simp)) (by omega) rfl
  rw [show ((0 * 256 + 28 : Nat) : Int) = 28 from rfl, parseDataSection_AAAA_any _ _ _ _ hb]
    at hrec
  have htxt : WireSpec.hexGroups 0
      [b0, b1, b2, b3, b4, b5, b6, b7, b8, b9, b10, b11, b12, b13, b14, b15] =
      WireSpec.joinColon
        [WireSpec.hexByte b0 ++ WireSpec.hexByte b1, WireSpec.hexByte b2 ++ WireSpec.hexByte b3,
         WireSpec.hexByte b4 ++ WireSpec.hexByte b5, WireSpec.hexByte b6 ++ WireSpec.hexByte b7,
         WireSpec.hexByte b8 ++ WireSpec.hexByte b9, WireSpec.hexByte b10 ++ WireSpec.hexByte b11,
         WireSpec.hexByte b12 ++ WireSpec.hexByte b13,
         WireSpec.hexByte b14 ++ WireSpec.hexByte b15] := by
    simp [WireSpec.hexGroups, WireSpec.joinColon, WireSpec.hexByte, List.intercalate,
      List.intersperse]
  have hlen : (WireSpec.hexGroups 0
      [b0, b1, b2, b3, b4, b5, b6, b7, b8, b9, b10, b11, b12, b13, b14, b15]).length = 39 := by
    simp [WireSpec.hexGroups, WireSpec.hexByte]
  refine ⟨_, WireSpec.hexGroups 0
    [b0, b1, b2, b3, b4, b5, b6, b7, b8, b9, b10, b11, b12, b13, b14, b15], hrec, ?_, ?_, ?_,
    ?_, ?_, htxt, hlen⟩ <;>
  simp [newRecordOfType, RecordNumber.A, RecordNumber.MX, RecordNumber.AAAA,
    DNSRecord.newTyped, DNSRecord.newQuestion, DNSRecord.setLblPointManager, DNSRecord.setData,
    DNSRecord.setIp, DNSRecord.getName, DNSRecord.getType, DNSRecord.getIp,
    DNSRecord.getDataText]

/-- C11 on sixteen bytes alternating 0x20 and 0x01: the decoded record is the
AAAA record of '2001:2001:2001:2001:2001:2001:2001:2001'. -/
theorem readRecord_AAAA_witness :
    (∀ b ∈ aaaaRecordBytes, b < 256) ∧
    parseName 2 ⟨[]⟩ (Deserializer.new aaaaRecordBytes) =
      some (str "a", ⟨aaaaRecordBytes, JSVal.num (3 : Nat)⟩) ∧
    ∃ (r : DNSRecord) (txt : JSString),
      readRecord 2 ⟨[]⟩ (Deserializer.new aaaaRecordBytes) =
        some (r, ⟨aaaaRecordBytes, JSVal.num ((3 + 10 + 16 : Nat) : Int)⟩) ∧
      r.kind = RecordKind.DNSRecordAAAA ∧ r.getName = str "a" ∧ r.getType = JSVal.num 28 ∧
      r.getIp = some txt ∧ r.getDataText = DataTxt.text txt ∧
      txt = str "2001:2001:2001:2001:2001:2001:2001:2001" ∧ txt.length = 39 :=
  ⟨by decide, by decide,
    readRecord_AAAA 2 ⟨[]⟩ (Deserializer.new aaaaRecordBytes) (str "a") aaaaRecordBytes
      3 0 1 0 0 0 60 0x20 1 0x20 1 0x20 1 0x20 1 0x20 1 0x20 1 0x20 1 0x20 1 []
      (by decide) (by decide) (by decide)⟩

/-! ## MX records (C12) -/

theorem parseDataSection_MX_of_name {fuel : Nat} {mgr : RespLabelPtManager} {p0 p1 : Nat}
    {nameBytes : List Nat} {mx : JSString} {d' : Deserializer} (r : DNSRecord)
    (hp : p0 < 256)
    (hmx : parseName fuel mgr ⟨p0 :: p1 :: nameBytes, JSVal.num ((2 : Nat) : Int)⟩ =
      some (mx, d')) :
    parseDataSection fuel mgr (JSVal.num 15) (p0 :: p1 :: nameBytes) r =
      some (((r.setPreferenceNumber (JSVal.num ((p0 * 256 + p1 : Nat) : Int))).setMailExchanger
        mx).setData (DataTxt.text (str "Pref #: " ++ WireSpec.decimal (p0 * 256 + p1) ++
          (str "; Value: " ++ mx)))) := by
  have hw : (p0 :: p1 :: nameBytes).drop 0 = p0 :: p1 :: nameBytes := rfl
  have hs := getShort_of_drop hw hp
  have e1 : (JSVal.num 15 = JSVal.num RecordNumber.A) = False := by simp [RecordNumber.A]
  have e2 : (JSVal.num 15 = JSVal.num RecordNumber.AAAA) = False := by simp [RecordNumber.AAAA]
  have e3 : (JSVal.num 15 = JSVal.num RecordNumber.CNAME) = False := by
    simp [RecordNumber.CNAME]
  have e4 : (JSVal.num 15 = JSVal.num RecordNumber.TXT) = False := by simp [RecordNumber.TXT]
  simp only [parseDataSection, RecordNumber.MX, Deserializer.new_eq, e1, e2, e3, e4, if_false,
    if_true, hs, hmx, toStr_nat]

/-- C12: a non-question record of type 15 whose data section is the two bytes
p0 p1 followed by bytes from which `parseName` (at data byte 2) returns the
name `mx` is decoded as a `DNSRecordMX` with `getPreferenceNumber()` =
p0*256 + p1, `getMailExchanger()` = `mx` and `getDataText()` =
'Pref #: ' + preference + '; Value: ' + `mx`. -/
theorem readRecord_MX (fuel : Nat) (mgr : RespLabelPtManager) (d : Deserializer)
    (recName : JSString) (view : List Nat) (n c0 c1 t0 t1 t2 t3 l0 l1 p0 p1 : Nat)
    (nameBytes rest : List Nat) (mx : JSString) (d' : Deserializer)
    (hview : ∀ b ∈ view, b < 256)
    (hname : parseName fuel mgr d = some (recName, ⟨view, JSVal.num n⟩))
    (hwire : view.drop n = [0, 15, c0, c1, t0, t1, t2, t3, l0, l1] ++
      ((p0 :: p1 :: nameBytes) ++ rest))
    (hlen : (p0 :: p1 :: nameBytes).length = l0 * 256 + l1)
    (hmx : parseName fuel mgr ⟨p0 :: p1 :: nameBytes, JSVal.num ((2 : Nat) : Int)⟩ =
      some (mx, d')) :
    ∃ r : DNSRecord,
      readRecord fuel mgr d = some (r,
        ⟨view, JSVal.num ((n + 10 + (p0 :: p1 :: nameBytes).length : Nat) : Int)⟩) ∧
      r.kind = RecordKind.DNSRecordMX ∧ r.getName = recName ∧ r.getType = JSVal.num 15 ∧
      r.getPreferenceNumber = some (JSVal.num ((p0 * 256 + p1 : Nat) : Int)) ∧
      r.getMailExchanger = some mx ∧
      r.getDataText = DataTxt.text
        (str "Pref #: " ++ WireSpec.decimal (p0 * 256 + p1) ++ (str "; Value: " ++ mx)) := by
  have hrec := readRecord_of_wire 0 15 c0 c1 t0 t1 t2 t3 l0 l1 (p0 :: p1 :: nameBytes) rest
    hname hwire (by omega) (byte_of_drop hview hwire (by simp))
    (byte_of_drop hview hwire (by simp)) hlen
  rw [show ((0 * 256 + 15 : Nat) : Int) = 15 from rfl,
    parseDataSection_MX_of_name _ (byte_of_drop hview hwire (by simp)) hmx] at hrec
  refine ⟨_, hrec, ?_, ?_, ?_, ?_, ?_, ?_⟩ <;>
  simp [newRecordOfType, RecordNumber.A, RecordNumber.MX, DNSRecord.newTyped,
    DNSRecord.newQuestion, DNSRecord.setLblPointManager, DNSRecord.setData,
    DNSRecord.setPreferenceNumber, DNSRecord.setMailExchanger, DNSRecord.getName,
    DNSRecord.getType, DNSRecord.getPreferenceNumber, DNSRecord.getMailExchanger,
    DNSRecord.getDataText]

/-- C12 on the record `mxRecordBytes`: preference 10, mail exchanger 'mx.b',
text 'Pref #: 10; Value: mx.b'. -/
theorem readRecord_MX_witness :
    (∀ b ∈ mxRecordBytes, b < 256) ∧
    parseName 3 ⟨[]⟩ (Deserializer.new mxRecordBytes) =
      some (str "a", ⟨mxRecordBytes, JSVal.num (3 : Nat)⟩) ∧
    parseName 3 ⟨[]⟩ ⟨[0, 10, 2, 109, 120, 1, 98, 0], JSVal.num ((2 : Nat) : Int)⟩ =
      some (str "mx.b", ⟨[0, 10, 2, 109, 120, 1, 98, 0], JSVal.num 8⟩) ∧
    ∃ r : DNSRecord,
      readRecord 3 ⟨[]⟩ (Deserializer.new mxRecordBytes) = some (r,
        ⟨mxRecordBytes, JSVal.num ((3 + 10 + 8 : Nat) : Int)⟩) ∧
      r.kind = RecordKind.DNSRecordMX ∧ r.getName = str "a" ∧ r.getType = JSVal.num 15 ∧
      r.getPreferenceNumber = some (JSVal.num 10) ∧
      r.getMailExchanger = some (str "mx.b") ∧
      r.getDataText = DataTxt.text (str "Pref #: 10; Value: mx.b") :=
  ⟨by decide, by decide, by decide,
    readRecord_MX 3 ⟨[]⟩ (Deserializer.new mxRecordBytes) (str "a") mxRecordBytes
      3 0 1 0 0 0 60 0 8 0 10 [2, 109, 120, 1, 98, 0] [] (str "mx.b")
      ⟨[0, 10, 2, 109, 120, 1, 98, 0], JSVal.num 8⟩ (by decide) (by decide) (by decide)
      (by decide) (by decide)⟩

/-! ## TXT records (C13) -/

/-- C13: a non-question record of type 16 with a data section of L bytes is
decoded as a `DNSRecordTXT` whose `getText()` and `getDataText()` are the same
string, which has the data bytes as its character codes: L characters,
character i with the code of data byte i (a leading length byte included). -/
theorem readRecord_TXT (fuel : Nat) (mgr : RespLabelPtManager) (d : Deserializer)
    (recName : JSString) (view : List Nat) (n c0 c1 t0 t1 t2 t3 l0 l1 : Nat)
    (data rest : List Nat) (hview : ∀ b ∈ view, b < 256)
    (hname : parseName fuel mgr d = some (recName, ⟨view, JSVal.num n⟩))
    (hwire : view.drop n = [0, 16, c0, c1, t0, t1, t2, t3, l0, l1] ++ (data ++ rest))
    (hlen : data.length = l0 * 256 + l1) :
    ∃ (r : DNSRecord) (txt : JSString),
      readRecord fuel mgr d = some (r,
        ⟨view, JSVal.num ((n + 10 + data.length : Nat) : Int)⟩) ∧
      r.kind = RecordKind.DNSRecordTXT ∧ r.getName = recName ∧ r.getType = JSVal.num 16 ∧
      r.getText = some txt ∧ r.getDataText = DataTxt.text txt ∧
      txt.length = l0 * 256 + l1 ∧ ∀ i : Nat, txt[i]? = data[i]? := by
  have hb : ∀ b ∈ data, b < 256 :=
    fun b hb => byte_of_drop hview hwire (by simp only [List.mem_append]; tauto)
  have hrec := readRecord_of_wire 0 16 c0 c1 t0 t1 t2 t3 l0 l1 data rest
    hname hwire (by omega) (byte_of_drop hview hwire (by simp))
    (byte_of_drop hview hwire (by simp)) hlen
  rw [show ((0 * 256 + 16 : Nat) : Int) = 16 from rfl,
    parseDataSection_TXT_any _ _ _ _ hb] at hrec
  refine ⟨_, data, hrec, ?_, ?_, ?_, ?_, ?_, hlen, fun _ => rfl⟩ <;>
  simp [newRecordOfType, RecordNumber.A, RecordNumber.MX, RecordNumber.AAAA, RecordNumber.TXT,
    DNSRecord.newTyped, DNSRecord.newQuestion, DNSRecord.setLblPointManager, DNSRecord.setData,
    DNSRecord.setText, DNSRecord.getName, DNSRecord.getType, DNSRecord.getText,
    DNSRecord.getDataText]

/-- C13 on the record `txtRecordBytes`, whose data section is the length byte
2 and 'hi': the text has three characters, the first with code 2. -/
theorem readRecord_TXT_witness :
    (∀ b ∈ txtRecordBytes, b < 256) ∧
    parseName 2 ⟨[]⟩ (Deserializer.new txtRecordBytes) =
      some (str "a", ⟨txtRecordBytes, JSVal.num (3 : Nat)⟩) ∧
    ∃ (r : DNSRecord) (txt : JSString),
      readRecord 2 ⟨[]⟩ (Deserializer.new txtRecordBytes) = some (r,
        ⟨txtRecordBytes, JSVal.num ((3 + 10 + 3 : Nat) : Int)⟩) ∧
      r.kind = RecordKind.DNSRecordTXT ∧ r.getName = str "a" ∧ r.getType = JSVal.num 16 ∧
      r.getText = some txt ∧ r.getDataText = DataTxt.text txt ∧
      txt.length = 0 * 256 + 3 ∧ ∀ i : Nat, txt[i]? = [2, 104, 105][i]? :=
  ⟨by decide, by decide,
    readRecord_TXT 2 ⟨[]⟩ (Deserializer.new txtRecordBytes) (str "a") txtRecordBytes
      3 0 1 0 0 0 60 0 3 [2, 104, 105] [] (by decide) (by decide) (by decide) (by decide)⟩

/-! ## Records of other types (C14) -/

/-- C14: a non-question record whose type number is none of 1, 5, 15, 16, 28
is decoded as a plain `DNSRecord` whose type and class are the 16-bit values on
the wire, whose ttl is the value that `getLong` read at the ttl field (the
32-bit value t0 t1 t2 t3 of the wire whenever t0 < 0x80), whose `data_` is
exactly the data bytes announced by the data length, and whose text rendering
is the empty string. -/
theorem readRecord_generic (fuel : Nat) (mgr : RespLabelPtManager) (d : Deserializer)
    (recName : JSString) (view : List Nat) (n ty0 ty1 c0 c1 t0 t1 t2 t3 l0 l1 : Nat)
    (data rest : List Nat) (hview : ∀ b ∈ view, b < 256)
    (hname : parseName fuel mgr d = some (recName, ⟨view, JSVal.num n⟩))
    (hwire : view.drop n = [ty0, ty1, c0, c1, t0, t1, t2, t3, l0, l1] ++ (data ++ rest))
    (hlen : data.length = l0 * 256 + l1)
    (hty : ty0 * 256 + ty1 ≠ 1 ∧ ty0 * 256 + ty1 ≠ 5 ∧ ty0 * 256 + ty1 ≠ 15 ∧
      ty0 * 256 + ty1 ≠ 16 ∧ ty0 * 256 + ty1 ≠ 28) :
    ∃ r : DNSRecord,
      readRecord fuel mgr d = some (r,
        ⟨view, JSVal.num ((n + 10 + data.length : Nat) : Int)⟩) ∧
      r.kind = RecordKind.DNSRecord ∧ r.getName = recName ∧
      r.getType = JSVal.num ((ty0 * 256 + ty1 : Nat) : Int) ∧
      r.getCl = JSVal.num ((c0 * 256 + c1 : Nat) : Int) ∧
      r.getTTL = (Deserializer.getLong ⟨view, JSVal.num ((n + 4 : Nat) : Int)⟩).1 ∧
      (t0 < 128 → r.getTTL =
        JSVal.num ((t0 * 16777216 + t1 * 65536 + t2 * 256 + t3 : Nat) : Int)) ∧
      r.data_ = some data ∧ r.getDataText = DataTxt.text [] := by
  obtain ⟨h1, h5, h15, h16, h28⟩ := hty
  have h4 : view.drop (n + 4) = t0 :: t1 :: t2 :: t3 :: ([l0, l1] ++ (data ++ rest)) :=
    drop_add_of_drop (l := [ty0, ty1, c0, c1]) hwire
  have hrec := readRecord_of_wire ty0 ty1 c0 c1 t0 t1 t2 t3 l0 l1 data rest
    hname hwire (byte_of_drop hview hwire (by simp)) (byte_of_drop hview hwire (by simp))
    (byte_of_drop hview hwire (by simp)) hlen
  have g1 : ((ty0 * 256 + ty1 : Nat) : Int) ≠ 1 := by omega
  have g5 : ((ty0 * 256 + ty1 : Nat) : Int) ≠ 5 := by omega
  have g15 : ((ty0 * 256 + ty1 : Nat) : Int) ≠ 15 := by omega
  have g16 : ((ty0 * 256 + ty1 : Nat) : Int) ≠ 16 := by omega
  have g28 : ((ty0 * 256 + ty1 : Nat) : Int) ≠ 28 := by omega
  rw [parseDataSection_other _ _ _ _ _ g1 g5 g15 g16 g28,
    newRecordOfType_other _ _ _ _ _ g1 g5 g15 g16 g28] at hrec
  have httl : t0 < 128 → (Deserializer.getLong ⟨view, JSVal.num ((n + 4 : Nat) : Int)⟩).1 =
      JSVal.num ((t0 * 16777216 + t1 * 65536 + t2 * 256 + t3 : Nat) : Int) := by
    intro ht
    rw [getLong_unsigned h4 ht (byte_of_drop hview hwire (by simp))
      (byte_of_drop hview hwire (by simp))]
  refine ⟨_, hrec, ?_, ?_, ?_, ?_, ?_, ?_, ?_, ?_⟩
  case refine_6 =>
    intro ht
    rw [← httl ht]
    simp [DNSRecord.newGeneric, DNSRecord.newQuestion, DNSRecord.setLblPointManager,
      DNSRecord.setData, DNSRecord.getTTL]
  all_goals
    simp [DNSRecord.newGeneric, DNSRecord.newQuestion, DNSRecord.setLblPointManager,
      DNSRecord.setData, DNSRecord.getName, DNSRecord.getType, DNSRecord.getCl,
      DNSRecord.getTTL, DNSRecord.getDataText]

/-- C14 on the record `nsRecordBytes` of type 2 and class 3: the decoded
record is a plain `DNSRecord` with type 2, class 3, ttl 60 and the payload
7 8 9. -/
theorem readRecord_generic_witness :
    (∀ b ∈ nsRecordBytes, b < 256) ∧
    parseName 2 ⟨[]⟩ (Deserializer.new nsRecordBytes) =
      some (str "a", ⟨nsRecordBytes, JSVal.num (3 : Nat)⟩) ∧
    ∃ r : DNSRecord,
      readRecord 2 ⟨[]⟩ (Deserializer.new nsRecordBytes) = some (r,
        ⟨nsRecordBytes, JSVal.num ((3 + 10 + 3 : Nat) : Int)⟩) ∧
      r.kind = RecordKind.DNSRecord ∧ r.getName = str "a" ∧
      r.getType = JSVal.num 2 ∧ r.getCl = JSVal.num 3 ∧ r.getTTL = JSVal.num 60 ∧
      (0 < 128 → r.getTTL = JSVal.num 60) ∧
      r.data_ = some [7, 8, 9] ∧ r.getDataText = DataTxt.text [] :=
  ⟨by decide, by decide,
    readRecord_generic 2 ⟨[]⟩ (Deserializer.new nsRecordBytes) (str "a") nsRecordBytes
      3 0 2 0 3 0 0 0 60 0 3 [7, 8, 9] [] (by decide) (by decide) (by decide) (by decide)
      (by decide)⟩

/-! ## Address records with another data length (C15, C16) -/

theorem decimal_no_dot : ∀ b : Nat, b < 256 → 46 ∉ WireSpec.decimal b := by
  decide!

theorem hexGroups_length (bs : List Nat) :
    ∀ j : Nat, (WireSpec.hexGroups (2 * j) bs).length + min (j / 2) 7 =
      2 * bs.length + min ((j + bs.length) / 2) 7 := by
  induction bs with
  | nil => intro j; simp [WireSpec.hexGroups]
  | cons b bs ih =>
    intro j
    have h := ih (j + 1)
    rw [show 2 * (j + 1) = 2 * j + 2 by ring] at h
    simp only [WireSpec.hexGroups, WireSpec.hexByte, List.length_append, List.length_cons,
      List.length_nil]
    split
    · simp only [List.length_cons]
      omega
    · omega

/-- C15, counterexample: `shortAResponse` holds two answers of type 1, the
first with a data section of two bytes. Both are decoded as `DNSRecordA`, the
first with the address text '8.8'; none is a plain `DNSRecord`. -/
theorem decodeResponse_shortA :
    (decodeResponse 3 shortAResponse).map
        (fun p => p.an.map fun r => (r.kind, r.getDataText)) =
      some [(RecordKind.DNSRecordA, DataTxt.text (str "8.8")),
        (RecordKind.DNSRecordA, DataTxt.text (str "1.2.3.4"))] := by
  decide!

/-- C15 (amended): the record variant is chosen from the type number alone. A
non-question record of type 1 or 28 is decoded as a `DNSRecordA` or a
`DNSRecordAAAA` whatever the length of its data section, with an address text
made of the data bytes that are there ('.'-joined decimal octets, or hex digits
in groups), and the cursor is left behind the data section, where the next
record is read. -/
theorem readRecord_address_any_length (fuel : Nat) (mgr : RespLabelPtManager)
    (d : Deserializer) (recName : JSString) (view : List Nat)
    (n ty c0 c1 t0 t1 t2 t3 l0 l1 : Nat) (data rest : List Nat)
    (hview : ∀ b ∈ view, b < 256)
    (hname : parseName fuel mgr d = some (recName, ⟨view, JSVal.num n⟩))
    (hwire : view.drop n = [0, ty, c0, c1, t0, t1, t2, t3, l0, l1] ++ (data ++ rest))
    (hlen : data.length = l0 * 256 + l1) (hty : ty = 1 ∨ ty = 28) :
    ∃ r : DNSRecord,
      readRecord fuel mgr d = some (r,
        ⟨view, JSVal.num ((n + 10 + data.length : Nat) : Int)⟩) ∧
      r.kind = (if ty = 1 then RecordKind.DNSRecordA else RecordKind.DNSRecordAAAA) ∧
      r.getName = recName ∧ r.getType = JSVal.num ty ∧
      r.getDataText = DataTxt.text
        (if ty = 1 then joinDot (data.map WireSpec.decimal) else WireSpec.hexGroups 0 data) := by
  have hb : ∀ b ∈ data, b < 256 :=
    fun b hb => byte_of_drop hview hwire (by simp only [List.mem_append]; tauto)
  have hrec := readRecord_of_wire 0 ty c0 c1 t0 t1 t2 t3 l0 l1 data rest
    hname hwire (by omega) (byte_of_drop hview hwire (by simp))
    (byte_of_drop hview hwire (by simp)) hlen
  rcases hty with rfl | rfl
  · rw [show ((0 * 256 + 1 : Nat) : Int) = 1 from rfl, parseDataSection_A_any] at hrec
    refine ⟨_, hrec, ?_, ?_, ?_, ?_⟩ <;>
    simp [newRecordOfType, RecordNumber.A, DNSRecord.newTyped, DNSRecord.newQuestion,
      DNSRecord.setLblPointManager, DNSRecord.setData, DNSRecord.setIp, DNSRecord.getName,
      DNSRecord.getType, DNSRecord.getDataText]
  · rw [show ((0 * 256 + 28 : Nat) : Int) = 28 from rfl,
      parseDataSection_AAAA_any _ _ _ _ hb] at hrec
    refine ⟨_, hrec, ?_, ?_, ?_, ?_⟩ <;>
    by_cases hd : data = [] <;>
    simp [hd, newRecordOfType, RecordNumber.A, RecordNumber.AAAA, RecordNumber.MX,
      DNSRecord.newTyped, DNSRecord.newQuestion,
      DNSRecord.setLblPointManager, DNSRecord.setData, DNSRecord.setIp, DNSRecord.getName,
      DNSRecord.getType, DNSRecord.getDataText]

/-- C15 (amended) on the first answer of `shortAResponse`, of type 1 with a
data section of two bytes: it is a `DNSRecordA` with the text '8.8', and the
cursor is left at offset 25, where the second answer starts. -/
theorem readRecord_address_any_length_witness :
    (∀ b ∈ shortAResponse, b < 256) ∧
    parseName 1 ⟨shortAResponse⟩ ⟨shortAResponse, JSVal.num 12⟩ =
      some ([], ⟨shortAResponse, JSVal.num (13 : Nat)⟩) ∧
    ∃ r : DNSRecord,
      readRecord 1 ⟨shortAResponse⟩ ⟨shortAResponse, JSVal.num 12⟩ = some (r,
        ⟨shortAResponse, JSVal.num ((13 + 10 + 2 : Nat) : Int)⟩) ∧
      r.kind = RecordKind.DNSRecordA ∧ r.getName = [] ∧ r.getType = JSVal.num 1 ∧
      r.getDataText = DataTxt.text (str "8.8") :=
  ⟨by decide, by decide,
    readRecord_address_any_length 1 ⟨shortAResponse⟩ ⟨shortAResponse, JSVal.num 12⟩ []
      shortAResponse 13 1 0 1 0 0 0 60 0 2 [8, 8]
      [0, 0, 1, 0, 1, 0, 0, 0, 60, 0, 4, 1, 2, 3, 4] (by decide) (by decide) (by decide)
      (by decide) (by decide)⟩

/-- C16, counterexample: the type-1 record `fiveOctetRecordBytes` announces
five data bytes and is decoded with the five octets '1.2.3.4.5', and the
type-28 record `twoByteAAAARecordBytes` announces two data bytes and is decoded
with the text '2001:'; the cursors end behind the five and the two bytes. -/
theorem readRecord_reads_whole_data_section :
    (readRecord 1 ⟨[]⟩ (Deserializer.new fiveOctetRecordBytes)).map
        (fun x => (x.1.kind, x.1.getDataText, x.2.loc_)) =
      some (RecordKind.DNSRecordA, DataTxt.text (str "1.2.3.4.5"), JSVal.num 16) ∧
    (readRecord 1 ⟨[]⟩ (Deserializer.new twoByteAAAARecordBytes)).map
        (fun x => (x.1.kind, x.1.getDataText, x.2.loc_)) =
      some (RecordKind.DNSRecordAAAA, DataTxt.text (str "2001:"), JSVal.num 13) := by
  decide!

/-- C16 (amended): decoding an A or an AAAA record reads every byte of the
data section, whatever its length L >= 1. The A text is the '.'-joined decimal
octets of the L bytes, so it has L octets; the AAAA text has two hex digits for
each of the L bytes, with a ':' after every fourth digit up to the 28th, so it
has 2*L + min(L/2, 7) characters. Four octets and eight groups of four digits
come out for L = 4 and L = 16 only. -/
theorem parseDataSection_address_length (fuel : Nat) (mgr : RespLabelPtManager)
    (data : List Nat) (r : DNSRecord) (hb : ∀ b ∈ data, b < 256) (hne : data ≠ []) :
    (∃ (rA : DNSRecord) (txt : JSString),
      parseDataSection fuel mgr (JSVal.num 1) data r = some rA ∧
      rA.getIp = some txt ∧ rA.getDataText = DataTxt.text txt ∧
      splitDot txt = data.map WireSpec.decimal ∧ (splitDot txt).length = data.length) ∧
    (∃ (rB : DNSRecord) (txt : JSString),
      parseDataSection fuel mgr (JSVal.num 28) data r = some rB ∧
      rB.getIp = some txt ∧ rB.getDataText = DataTxt.text txt ∧
      txt = WireSpec.hexGroups 0 data ∧
      txt.length = 2 * data.length + min (data.length / 2) 7) := by
  have hsplit : splitDot (joinDot (data.map WireSpec.decimal)) = data.map WireSpec.decimal :=
    splitDot_joinDot (by simpa using hne) (by
      intro l hl
      obtain ⟨b, hbm, rfl⟩ := List.mem_map.1 hl
      exact decimal_no_dot b (hb b hbm))
  have hlen := hexGroups_length data 0
  simp only [Nat.mul_zero, Nat.zero_div, Nat.zero_add] at hlen
  refine ⟨⟨_, joinDot (data.map WireSpec.decimal), parseDataSection_A_any fuel mgr data r,
      ?_, ?_, hsplit, by rw [hsplit, List.length_map]⟩,
    ⟨_, WireSpec.hexGroups 0 data, parseDataSection_AAAA_any fuel mgr data r hb,
      ?_, ?_, rfl, by omega⟩⟩ <;>
  simp [hne, DNSRecord.setIp, DNSRecord.setData, DNSRecord.getIp, DNSRecord.getDataText]

/-- C16 (amended) on a data section of five bytes: five octets for type 1, and
ten hex digits with two ':' for type 28. -/
theorem parseDataSection_address_length_witness :
    (∀ b ∈ [1, 2, 3, 4, 5], b < 256) ∧ [1, 2, 3, 4, 5] ≠ [] ∧
    (∃ (rA : DNSRecord) (txt : JSString),
      parseDataSection 0 ⟨[]⟩ (JSVal.num 1) [1, 2, 3, 4, 5]
        (DNSRecord.newQuestion [] (JSVal.num 1) (JSVal.num 1)) = some rA ∧
      rA.getIp = some txt ∧ rA.getDataText = DataTxt.text txt ∧
      splitDot txt = [1, 2, 3, 4, 5].map WireSpec.decimal ∧
      (splitDot txt).length = [1, 2, 3, 4, 5].length) ∧
    (∃ (rB : DNSRecord) (txt : JSString),
      parseDataSection 0 ⟨[]⟩ (JSVal.num 28) [1, 2, 3, 4, 5]
        (DNSRecord.newQuestion [] (JSVal.num 1) (JSVal.num 1)) = some rB ∧
      rB.getIp = some txt ∧ rB.getDataText = DataTxt.text txt ∧
      txt = WireSpec.hexGroups 0 [1, 2, 3, 4, 5] ∧
      txt.length = 2 * [1, 2, 3, 4, 5].length + min ([1, 2, 3, 4, 5].length / 2) 7) :=
  ⟨by decide, by decide,
    parseDataSection_address_length 0 ⟨[]⟩ [1, 2, 3, 4, 5]
      (DNSRecord.newQuestion [] (JSVal.num 1) (JSVal.num 1)) (by decide) (by decide)⟩

/-! ## Sequences of writes (C17, C18) -/

theorem WriteOp.wrote_run {s : Serializer} {bs : List Nat} (h : s.Wrote bs) (op : WriteOp)
    (hop : op.Fits) : (op.run s).Wrote (bs ++ op.wire) := by
  cases op with
  | setByte b =>
    have hb : b < 256 := hop
    have := Serializer.wrote_setByte h (JSVal.num (b : Int))
    have e : (JSVal.num (b : Int)).toUint8 = b := by
      simp only [JSVal.toUint8]
      omega
    rw [e] at this
    exact this
  | setShort v => exact Serializer.wrote_setShort h hop

theorem WriteOp.wrote_foldl (ops : List WriteOp) :
    ∀ {s : Serializer} {bs : List Nat}, s.Wrote bs → (∀ op ∈ ops, op.Fits) →
      (ops.foldl WriteOp.run s).Wrote (bs ++ WriteOp.wireAll ops) := by
  induction ops with
  | nil => intro s bs h _; simpa [WriteOp.wireAll] using h
  | cons op ops ih =>
    intro s bs h hfit
    have h1 := WriteOp.wrote_run h op (hfit op (List.mem_cons_self _ _))
    have := ih h1 (fun q hq => hfit q (List.mem_cons_of_mem _ hq))
    simpa [List.foldl_cons, WriteOp.wireAll, List.append_assoc] using this

theorem WriteOp.wire_ne_nil (op : WriteOp) : op.wire ≠ [] := by
  cases op <;> simp [WriteOp.wire, WireSpec.be16]

theorem WriteOp.wireAll_ne_nil {ops : List WriteOp} (hne : ops ≠ []) :
    WriteOp.wireAll ops ≠ [] := by
  cases ops with
  | nil => exact absurd rfl hne
  | cons op ops =>
    simp only [WriteOp.wireAll, ne_eq, List.append_eq_nil, not_and]
    intro h
    exact absurd h (WriteOp.wire_ne_nil op)

theorem WriteOp.wireAll_replicate (k b : Nat) :
    WriteOp.wireAll (List.replicate k (WriteOp.setByte b)) = List.replicate k b := by
  induction k with
  | zero => rfl
  | succ k ih => simp [List.replicate_succ, WriteOp.wireAll, WriteOp.wire, ih]

/-- C17, counterexample: after 513 calls of `setByte(7)` on a fresh
`Serializer`, `getBuffer` returns 512 bytes, not the 513 written. -/
theorem getBuffer_after_513_bytes :
    ((List.replicate 513 (WriteOp.setByte 7)).foldl WriteOp.run Serializer.new).getBuffer =
      some (List.replicate 512 7) := by
  have h := WriteOp.wrote_foldl (List.replicate 513 (WriteOp.setByte 7)) Serializer.wrote_new
    (by
      intro op hop
      rw [List.eq_of_mem_replicate hop]
      show 7 < 256
      omega)
  rw [List.nil_append, WriteOp.wireAll_replicate] at h
  have hne : List.replicate 513 7 ≠ [] := by
    intro h0
    have h1 := congrArg List.length h0
    rw [List.length_replicate] at h1
    exact absurd h1 (by decide)
  rw [Serializer.getBuffer_of_wrote h hne, List.take_replicate]
  rfl

/-- C17 (amended): for every non-empty sequence of `setByte` / `setShort`
calls on a fresh `Serializer` (arguments in range), `getBuffer` returns the
first 512 of the bytes written, in write order: exactly the n bytes written
when n <= 512, and only the bytes that fit the 512 allocated at construction
when n is larger (the buffer does not grow). -/
theorem getBuffer_writes (ops : List WriteOp) (hne : ops ≠ [])
    (hfit : ∀ op ∈ ops, op.Fits) :
    (ops.foldl WriteOp.run Serializer.new).getBuffer =
      some ((WriteOp.wireAll ops).take 512) ∧
    ((WriteOp.wireAll ops).length ≤ 512 →
      (ops.foldl WriteOp.run Serializer.new).getBuffer = some (WriteOp.wireAll ops)) ∧
    (512 < (WriteOp.wireAll ops).length →
      ∃ out, (ops.foldl WriteOp.run Serializer.new).getBuffer = some out ∧
        out.length = 512) := by
  have h := WriteOp.wrote_foldl ops Serializer.wrote_new hfit
  rw [List.nil_append] at h
  have hb := Serializer.getBuffer_of_wrote h (WriteOp.wireAll_ne_nil hne)
  refine ⟨hb, fun hle => ?_, fun hlt => ⟨_, hb, ?_⟩⟩
  · rw [hb, List.take_of_length_le hle]
  · rw [List.length_take]
    omega

/-- C17 (amended) on the calls `setByte(1)`, `setShort(258)`: the buffer is
1, 1, 2. -/
theorem getBuffer_writes_witness :
    [WriteOp.setByte 1, WriteOp.setShort 258] ≠ [] ∧
    (∀ op ∈ [WriteOp.setByte 1, WriteOp.setShort 258], op.Fits) ∧
    ([WriteOp.setByte 1, WriteOp.setShort 258].foldl WriteOp.run Serializer.new).getBuffer =
      some ([1, 1, 2].take 512) ∧
    (([1, 1, 2] : List Nat).length ≤ 512 →
      ([WriteOp.setByte 1, WriteOp.setShort 258].foldl WriteOp.run Serializer.new).getBuffer =
        some [1, 1, 2]) ∧
    (512 < ([1, 1, 2] : List Nat).length →
      ∃ out, ([WriteOp.setByte 1, WriteOp.setShort 258].foldl WriteOp.run
          Serializer.new).getBuffer = some out ∧ out.length = 512) :=
  have hfit : ∀ op ∈ [WriteOp.setByte 1, WriteOp.setShort 258], op.Fits := by
    intro op hop
    simp only [List.mem_cons, List.mem_singleton, List.not_mem_nil, or_false] at hop
    rcases hop with rfl | rfl
    · show 1 < 256
      omega
    · show 258 < 65536
      omega
  ⟨by decide, hfit,
    getBuffer_writes [WriteOp.setByte 1, WriteOp.setShort 258] (by decide) hfit⟩

/-- C18: for every integer v with 0 <= v < 65536, `setShort(v)` hands the
serializer exactly the two bytes floor(v/256), v mod 256 after the bytes
written before and moves its offset by 2, so that `getBuffer` ends with these
two bytes while they fit the buffer; and `getShort` on a buffer holding these
two bytes at the cursor returns v and advances the cursor by 2. -/
theorem setShort_getShort_mirror (s : Serializer) (bs : List Nat) (v : Nat)
    (hs : s.Wrote bs) (hv : v < 65536) :
    (s.setShort (JSVal.num v)).Wrote (bs ++ [v / 256, v % 256]) ∧
    (s.setShort (JSVal.num v)).loc_ = s.loc_ + 2 ∧
    (bs.length + 2 ≤ 512 →
      (s.setShort (JSVal.num v)).getBuffer = some (bs ++ [v / 256, v % 256])) ∧
    ∀ (view : List Nat) (n : Nat) (rest : List Nat),
      view.drop n = [v / 256, v % 256] ++ rest →
      Deserializer.getShort ⟨view, JSVal.num n⟩ =
        (JSVal.num v, ⟨view, JSVal.num ((n + 2 : Nat) : Int)⟩) := by
  have hw : (s.setShort (JSVal.num v)).Wrote (bs ++ [v / 256, v % 256]) :=
    Serializer.wrote_setShort hs hv
  refine ⟨hw, ?_, fun hle => ?_, fun view n rest hdrop => ?_⟩
  · rw [hw.1, hs.1, List.length_append]
    rfl
  · have hl : (bs ++ [v / 256, v % 256]).length ≤ 512 := by
      rw [List.length_append]
      exact hle
    rw [Serializer.getBuffer_of_wrote hw (by simp), List.take_of_length_le hl]
  · have h := getShort_of_drop hdrop (by omega)
    rw [h, show v / 256 * 256 + v % 256 = v by omega]

/-- C18 on a fresh serializer and v = 0x1234: the bytes 0x12 0x34 are
written, and `getShort` reads 0x1234 back from them. -/
theorem setShort_getShort_mirror_witness :
    Serializer.new.Wrote [] ∧ 0x1234 < 65536 ∧
    (Serializer.new.setShort (JSVal.num 0x1234)).Wrote [0x12, 0x34] ∧
    (Serializer.new.setShort (JSVal.num 0x1234)).loc_ = 0 + 2 ∧
    (0 + 2 ≤ 512 → (Serializer.new.setShort (JSVal.num 0x1234)).getBuffer = some [0x12, 0x34]) ∧
    ∀ (view : List Nat) (n : Nat) (rest : List Nat),
      view.drop n = [0x12, 0x34] ++ rest →
      Deserializer.getShort ⟨view, JSVal.num n⟩ =
        (JSVal.num 0x1234, ⟨view, JSVal.num ((n + 2 : Nat) : Int)⟩) :=
  ⟨Serializer.wrote_new, by decide,
    setShort_getShort_mirror Serializer.new [] 0x1234 Serializer.wrote_new (by decide)⟩

/-! ## The life of a query (C19, C20) -/

theorem QueryRun.run_append (fuel : Nat) (s : QueryRun) (xs ys : List Event) :
    QueryRun.run fuel s (xs ++ ys) = QueryRun.run fuel (QueryRun.run fuel s xs) ys := by
  simp only [QueryRun.run, List.foldl_append]

theorem QueryRun.run_cons (fuel : Nat) (s : QueryRun) (e : Event) (es : List Event) :
    QueryRun.run fuel s (e :: es) = QueryRun.run fuel (QueryRun.step fuel s e) es := rfl

theorem QueryRun.cleanUp_status (s : QueryRun) :
    s.cleanUp_.queryResultStatus_ = s.queryResultStatus_ := by
  simp only [QueryRun.cleanUp_, QueryRun.call, QueryRun.pushEntry]
  split <;> rfl

theorem QueryRun.cleanUp_timer (s : QueryRun) : s.cleanUp_.timerSet = s.timerSet := by
  simp only [QueryRun.cleanUp_, QueryRun.call, QueryRun.pushEntry]
  split <;> rfl

theorem QueryRun.cleanUp_socketId (s : QueryRun) : s.cleanUp_.socketId_ = s.socketId_ := by
  simp only [QueryRun.cleanUp_, QueryRun.call, QueryRun.pushEntry]
  split <;> rfl

theorem QueryRun.cleanUp_socketCalls (s : QueryRun) :
    s.cleanUp_.socketCalls = s.socketCalls ++ [SocketCall.destroy s.socketId_] := by
  simp only [QueryRun.cleanUp_, QueryRun.call, QueryRun.pushEntry]
  split <;> rfl

theorem QueryRun.cleanUp_calls (s : QueryRun) :
    s.cleanUp_.finalCallbackCalls =
      if s.queryResultStatus_ = some QueryResultStatus.SUCCESS_PACKET_PARSE then
        s.finalCallbackCalls + 1
      else s.finalCallbackCalls := by
  simp only [QueryRun.cleanUp_, QueryRun.call, QueryRun.pushEntry]
  split <;> rfl

theorem QueryRun.step_fail_persists (fuel : Nat) (s : QueryRun) (e : Event)
    (he : e.isDataRead = false)
    (hs : s.queryResultStatus_ = some QueryResultStatus.FAIL_TIMEOUT) :
    (QueryRun.step fuel s e).queryResultStatus_ = some QueryResultStatus.FAIL_TIMEOUT ∧
    (QueryRun.step fuel s e).finalCallbackCalls = s.finalCallbackCalls := by
  cases e with
  | created socketId => exact ⟨hs, rfl⟩
  | connected result => exact ⟨hs, rfl⟩
  | gotInfo a b c d f => exact ⟨hs, rfl⟩
  | written bytesWritten =>
    simp only [QueryRun.step, QueryRun.onDataWritten_]
    split
    · exact ⟨hs, rfl⟩
    · split
      · exact ⟨hs, rfl⟩
      · exact ⟨hs, rfl⟩
  | dataRead resultCode data => simp [Event.isDataRead] at he
  | timeout =>
    simp only [QueryRun.step]
    split
    · refine ⟨?_, ?_⟩
      · simp only [QueryRun.timeout_, QueryRun.cleanUp_status]
      · simp [QueryRun.timeout_, QueryRun.cleanUp_calls, QueryRun.pushEntry]
    · exact ⟨hs, rfl⟩

theorem QueryRun.run_fail_persists (fuel : Nat) (events : List Event) :
    ∀ s : QueryRun, (∀ e ∈ events, e.isDataRead = false) →
      s.queryResultStatus_ = some QueryResultStatus.FAIL_TIMEOUT →
      (QueryRun.run fuel s events).queryResultStatus_ = some QueryResultStatus.FAIL_TIMEOUT ∧
      (QueryRun.run fuel s events).finalCallbackCalls = s.finalCallbackCalls := by
  induction events with
  | nil => intro s _ hs; exact ⟨hs, rfl⟩
  | cons e es ih =>
    intro s hnr hs
    have h1 := QueryRun.step_fail_persists fuel s e (hnr e (List.mem_cons_self _ _)) hs
    have h2 := ih (QueryRun.step fuel s e) (fun x hx => hnr x (List.mem_cons_of_mem _ hx)) h1.1
    rw [QueryRun.run_cons]
    exact ⟨h2.1, h2.2.trans h1.2⟩

theorem QueryRun.step_quiet (fuel : Nat) (s : QueryRun) (e : Event)
    (he : e.isDataRead = false) (hto : e ≠ Event.timeout) :
    (QueryRun.step fuel s e).queryResultStatus_ = s.queryResultStatus_ ∧
    (QueryRun.step fuel s e).finalCallbackCalls = s.finalCallbackCalls ∧
    (QueryRun.step fuel s e).timerSet = s.timerSet := by
  cases e with
  | created socketId => exact ⟨rfl, rfl, rfl⟩
  | connected result => exact ⟨rfl, rfl, rfl⟩
  | gotInfo a b c d f => exact ⟨rfl, rfl, rfl⟩
  | written bytesWritten =>
    simp only [QueryRun.step, QueryRun.onDataWritten_]
    split
    · exact ⟨rfl, rfl, rfl⟩
    · split
      · exact ⟨rfl, rfl, rfl⟩
      · exact ⟨rfl, rfl, rfl⟩
  | dataRead resultCode data => simp [Event.isDataRead] at he
  | timeout => exact absurd rfl hto

theorem QueryRun.run_quiet (fuel : Nat) (events : List Event) :
    ∀ s : QueryRun, (∀ e ∈ events, e.isDataRead = false) → Event.timeout ∉ events →
      (QueryRun.run fuel s events).queryResultStatus_ = s.queryResultStatus_ ∧
      (QueryRun.run fuel s events).finalCallbackCalls = s.finalCallbackCalls ∧
      (QueryRun.run fuel s events).timerSet = s.timerSet := by
  induction events with
  | nil => intro s _ _; exact ⟨rfl, rfl, rfl⟩
  | cons e es ih =>
    intro s hnr hto
    have h1 := QueryRun.step_quiet fuel s e (hnr e (List.mem_cons_self _ _))
      (fun h => hto (h ▸ List.mem_cons_self _ _))
    have h2 := ih (QueryRun.step fuel s e) (fun x hx => hnr x (List.mem_cons_of_mem _ hx))
      (fun h => hto (List.mem_cons_of_mem _ h))
    rw [QueryRun.run_cons]
    exact ⟨h2.1.trans h1.1, h2.2.1.trans h1.2.1, h2.2.2.trans h1.2.2⟩

theorem QueryRun.step_timeout_fires (fuel : Nat) (s : QueryRun) (ht : s.timerSet = true) :
    (QueryRun.step fuel s Event.timeout).queryResultStatus_ =
      some QueryResultStatus.FAIL_TIMEOUT ∧
    (QueryRun.step fuel s Event.timeout).finalCallbackCalls = s.finalCallbackCalls ∧
    (QueryRun.step fuel s Event.timeout).timerSet = false ∧
    SocketCall.destroy s.socketId_ ∈ (QueryRun.step fuel s Event.timeout).socketCalls := by
  simp only [QueryRun.step, ht, if_true]
  refine ⟨?_, ?_, ?_, ?_⟩
  · simp only [QueryRun.timeout_, QueryRun.cleanUp_status]
  · simp [QueryRun.timeout_, QueryRun.cleanUp_calls, QueryRun.pushEntry]
  · simp only [QueryRun.timeout_, QueryRun.cleanUp_timer]
  · simp [QueryRun.timeout_, QueryRun.cleanUp_socketCalls, QueryRun.pushEntry]

theorem QueryRun.step_socketCalls (fuel : Nat) (s : QueryRun) (e : Event) (c : SocketCall)
    (hc : c ∈ s.socketCalls) : c ∈ (QueryRun.step fuel s e).socketCalls := by
  cases e with
  | created socketId => simp [QueryRun.step, QueryRun.onCreatedCallback_, QueryRun.call, hc]
  | connected result =>
    simp [QueryRun.step, QueryRun.onConnectedCallback_, QueryRun.sendData_, QueryRun.call,
      QueryRun.pushEntry, hc]
  | gotInfo a b c d f => exact hc
  | written bytesWritten =>
    simp only [QueryRun.step, QueryRun.onDataWritten_]
    split
    · exact hc
    · split <;> simp [QueryRun.call, QueryRun.pushEntry, QueryRun.readData_, hc]
  | dataRead resultCode data =>
    simp only [QueryRun.step, QueryRun.dataRead_]
    split
    · exact hc
    · simp [QueryRun.cleanUp_socketCalls, QueryRun.pushEntry, hc]
  | timeout =>
    simp only [QueryRun.step]
    split
    · simp [QueryRun.timeout_, QueryRun.cleanUp_socketCalls, QueryRun.pushEntry, hc]
    · exact hc

theorem QueryRun.run_socketCalls (fuel : Nat) (events : List Event) :
    ∀ (s : QueryRun) (c : SocketCall), c ∈ s.socketCalls →
      c ∈ (QueryRun.run fuel s events).socketCalls := by
  induction events with
  | nil => intro s c hc; exact hc
  | cons e es ih =>
    intro s c hc
    rw [QueryRun.run_cons]
    exact ih _ c (QueryRun.step_socketCalls fuel s e c hc)

theorem QueryRun.step_socketId (fuel : Nat) (s : QueryRun) (e : Event) :
    (QueryRun.step fuel s e).socketId_ =
      match e with
      | Event.created socketId => some socketId
      | _ => s.socketId_ := by
  cases e with
  | created socketId => rfl
  | connected result => rfl
  | gotInfo a b c d f => rfl
  | written bytesWritten =>
    simp only [QueryRun.step, QueryRun.onDataWritten_]
    split
    · rfl
    · split <;> rfl
  | dataRead resultCode data =>
    simp only [QueryRun.step, QueryRun.dataRead_]
    split
    · rfl
    · simp [QueryRun.cleanUp_socketId, QueryRun.pushEntry]
  | timeout =>
    simp only [QueryRun.step]
    split
    · simp [QueryRun.timeout_, QueryRun.cleanUp_socketId, QueryRun.pushEntry]
    · rfl

theorem QueryRun.run_socketId_keep (fuel : Nat) (events : List Event) :
    ∀ s : QueryRun, (¬ ∃ id, Event.created id ∈ events) →
      (QueryRun.run fuel s events).socketId_ = s.socketId_ := by
  induction events with
  | nil => intro s _; rfl
  | cons e es ih =>
    intro s hno
    rw [QueryRun.run_cons,
      ih _ (fun ⟨id, h⟩ => hno ⟨id, List.mem_cons_of_mem _ h⟩), QueryRun.step_socketId]
    cases e with
    | created socketId => exact absurd ⟨socketId, List.mem_cons_self _ _⟩ hno
    | connected result => rfl
    | gotInfo a b c d f => rfl
    | written bytesWritten => rfl
    | dataRead resultCode data => rfl
    | timeout => rfl

theorem QueryRun.run_socketId (fuel : Nat) (events : List Event) :
    ∀ s : QueryRun, (∃ id, Event.created id ∈ events) →
      ∃ id, Event.created id ∈ events ∧
        (QueryRun.run fuel s events).socketId_ = some id := by
  induction events with
  | nil => intro s ⟨id, h⟩; simp at h
  | cons e es ih =>
    intro s hex
    rw [QueryRun.run_cons]
    by_cases hes : ∃ id, Event.created id ∈ es
    · obtain ⟨id, hid, h⟩ := ih (QueryRun.step fuel s e) hes
      exact ⟨id, List.mem_cons_of_mem _ hid, h⟩
    · obtain ⟨id, hid⟩ := hex
      rcases List.mem_cons.1 hid with h | h
      · subst h
        exact ⟨id, List.mem_cons_self _ _, by
          rw [QueryRun.run_socketId_keep fuel es _ hes, QueryRun.step_socketId]⟩
      · exact absurd ⟨id, h⟩ hes

theorem QueryRun.step_no_success (fuel : Nat) (s : QueryRun) (e : Event)
    (he : e.isDataRead = false)
    (hs : s.queryResultStatus_ ≠ some QueryResultStatus.SUCCESS_PACKET_PARSE) :
    (QueryRun.step fuel s e).queryResultStatus_ ≠
      some QueryResultStatus.SUCCESS_PACKET_PARSE ∧
    (QueryRun.step fuel s e).finalCallbackCalls = s.finalCallbackCalls := by
  by_cases hto : e = Event.timeout
  · subst hto
    simp only [QueryRun.step]
    split
    · refine ⟨?_, ?_⟩
      · simp [QueryRun.timeout_, QueryRun.cleanUp_status]
      · simp [QueryRun.timeout_, QueryRun.cleanUp_calls, QueryRun.pushEntry]
    · exact ⟨hs, rfl⟩
  · have h := QueryRun.step_quiet fuel s e he hto
    exact ⟨by rw [h.1]; exact hs, h.2.1⟩

theorem QueryRun.run_no_success (fuel : Nat) (events : List Event) :
    ∀ s : QueryRun, (∀ e ∈ events, e.isDataRead = false) →
      s.queryResultStatus_ ≠ some QueryResultStatus.SUCCESS_PACKET_PARSE →
      (QueryRun.run fuel s events).finalCallbackCalls = s.finalCallbackCalls := by
  induction events with
  | nil => intro s _ _; rfl
  | cons e es ih =>
    intro s hnr hs
    have h1 := QueryRun.step_no_success fuel s e (hnr e (List.mem_cons_self _ _)) hs
    rw [QueryRun.run_cons, ih _ (fun x hx => hnr x (List.mem_cons_of_mem _ hx)) h1.1, h1.2]

theorem QueryRun.step_calls_le (fuel : Nat) (s : QueryRun) (e : Event) :
    (QueryRun.step fuel s e).finalCallbackCalls ≤
      s.finalCallbackCalls + (if e.isDataRead then 1 else 0) := by
  cases e with
  | created socketId => exact Nat.le_refl _
  | connected result => exact Nat.le_refl _
  | gotInfo a b c d f => exact Nat.le_refl _
  | written bytesWritten =>
    simp only [QueryRun.step, QueryRun.onDataWritten_]
    split
    · exact Nat.le_add_right _ _
    · split <;> exact Nat.le_add_right _ _
  | dataRead resultCode data =>
    simp only [QueryRun.step, QueryRun.dataRead_, Event.isDataRead, if_true]
    split
    · exact Nat.le_add_right _ _
    · simp [QueryRun.cleanUp_calls, QueryRun.pushEntry]
  | timeout =>
    simp only [QueryRun.step]
    split
    · rw [QueryRun.timeout_, QueryRun.cleanUp_calls]
      split <;> simp_all [QueryRun.pushEntry]
    · exact Nat.le_add_right _ _

theorem QueryRun.run_calls_le (fuel : Nat) (events : List Event) :
    ∀ s : QueryRun, (QueryRun.run fuel s events).finalCallbackCalls ≤
      s.finalCallbackCalls + (events.filter Event.isDataRead).length := by
  induction events with
  | nil => intro s; exact Nat.le_refl _
  | cons e es ih =>
    intro s
    rw [QueryRun.run_cons]
    have h1 := QueryRun.step_calls_le fuel s e
    have h2 := ih (QueryRun.step fuel s e)
    cases he : e.isDataRead <;> simp [List.filter_cons, he] at h1 ⊢ <;> omega

theorem QueryRun.dataRead_parsed (fuel : Nat) (s : QueryRun) (resultCode : JSVal)
    (data : List Nat) (m : DNSQueryManager)
    (hm : s.manager.parsePacketFromSerializedData fuel data = some m) :
    (QueryRun.step fuel s (Event.dataRead resultCode data)).queryResultStatus_ =
      some QueryResultStatus.SUCCESS_PACKET_PARSE ∧
    (QueryRun.step fuel s (Event.dataRead resultCode data)).finalCallbackCalls =
      s.finalCallbackCalls + 1 := by
  simp only [QueryRun.step, QueryRun.dataRead_, QueryRun.pushEntry, hm]
  refine ⟨?_, ?_⟩
  · rw [QueryRun.cleanUp_status]
  · rw [QueryRun.cleanUp_calls]
    simp

theorem QueryRun.cleanUp_manager (s : QueryRun) : s.cleanUp_.manager = s.manager := by
  simp only [QueryRun.cleanUp_, QueryRun.call, QueryRun.pushEntry]
  split <;> rfl

theorem QueryRun.step_manager (fuel : Nat) (q : DNSQueryManager) (s : QueryRun) (e : Event)
    (he : e.isDataRead = false) (hm : s.manager = q ∨ s.manager = q.sendData_) :
    (QueryRun.step fuel s e).manager = q ∨ (QueryRun.step fuel s e).manager = q.sendData_ := by
  cases e with
  | created socketId => exact hm
  | connected result =>
    refine Or.inr ?_
    have h : (QueryRun.step fuel s (Event.connected result)).manager = s.manager.sendData_ := rfl
    rw [h]
    rcases hm with hm | hm <;> rw [hm]
    rfl
  | gotInfo a b c d f => exact hm
  | written bytesWritten =>
    simp only [QueryRun.step, QueryRun.onDataWritten_]
    split
    · exact hm
    · split <;> exact hm
  | dataRead resultCode data => simp [Event.isDataRead] at he
  | timeout =>
    simp only [QueryRun.step]
    split
    · simp only [QueryRun.timeout_, QueryRun.cleanUp_manager, QueryRun.pushEntry]
      exact hm
    · exact hm

theorem QueryRun.run_manager (fuel : Nat) (q : DNSQueryManager) (events : List Event) :
    ∀ s : QueryRun, (∀ e ∈ events, e.isDataRead = false) →
      (s.manager = q ∨ s.manager = q.sendData_) →
      (QueryRun.run fuel s events).manager = q ∨
        (QueryRun.run fuel s events).manager = q.sendData_ := by
  induction events with
  | nil => intro s _ hm; exact hm
  | cons e es ih =>
    intro s hnr hm
    rw [QueryRun.run_cons]
    exact ih _ (fun x hx => hnr x (List.mem_cons_of_mem _ hx))
      (QueryRun.step_manager fuel q s e (hnr e (List.mem_cons_self _ _)) hm)

theorem QueryRun.step_destroy_mem (fuel : Nat) (s : QueryRun) (e : Event) (o : Option Nat)
    (he : e.isDataRead = false)
    (h : SocketCall.destroy o ∈ (QueryRun.step fuel s e).socketCalls) :
    SocketCall.destroy o ∈ s.socketCalls ∨
      (o = s.socketId_ ∧ ((e = Event.timeout ∧ s.timerSet = true) ∨
        ∃ (b : JSVal) (bytes : List Nat), e = Event.written b ∧
          s.manager.serializedQueryPacket_ = some bytes ∧ b ≠ JSVal.num bytes.length)) := by
  cases e with
  | created socketId =>
    simp [QueryRun.step, QueryRun.onCreatedCallback_, QueryRun.call] at h
    exact Or.inl h
  | connected result =>
    simp [QueryRun.step, QueryRun.onConnectedCallback_, QueryRun.sendData_, QueryRun.call,
      QueryRun.pushEntry] at h
    exact Or.inl h
  | gotInfo a b c d f => exact Or.inl h
  | written bytesWritten =>
    simp only [QueryRun.step, QueryRun.onDataWritten_] at h
    split at h
    · exact Or.inl h
    · rename_i bytes hb
      split at h
      · rename_i hne
        simp only [QueryRun.call, QueryRun.pushEntry, List.mem_append, List.mem_singleton,
          SocketCall.destroy.injEq] at h
        rcases h with h | h
        · exact Or.inl h
        · exact Or.inr ⟨h, Or.inr ⟨bytesWritten, bytes, rfl, hb, hne⟩⟩
      · simp [QueryRun.call, QueryRun.pushEntry, QueryRun.readData_] at h
        exact Or.inl h
  | dataRead resultCode data => simp [Event.isDataRead] at he
  | timeout =>
    simp only [QueryRun.step] at h
    split at h
    · rename_i ht
      simp only [QueryRun.timeout_, QueryRun.cleanUp_socketCalls, QueryRun.pushEntry,
        List.mem_append, List.mem_singleton, SocketCall.destroy.injEq] at h
      rcases h with h | h
      · exact Or.inl h
      · exact Or.inr ⟨h, Or.inl ⟨rfl, ht⟩⟩
    · exact Or.inl h

theorem QueryRun.run_destroy_null (fuel : Nat) (events : List Event) :
    ∀ s : QueryRun, s.socketId_ = none → (∀ id, SocketCall.destroy (some id) ∉ s.socketCalls) →
      (¬ ∃ id, Event.created id ∈ events) → (∀ e ∈ events, e.isDataRead = false) →
      ∀ id, SocketCall.destroy (some id) ∉ (QueryRun.run fuel s events).socketCalls := by
  induction events with
  | nil => intro s _ hd _ _; exact hd
  | cons e es ih =>
    intro s hid hd hno hnr
    rw [QueryRun.run_cons]
    have hid1 : (QueryRun.step fuel s e).socketId_ = none := by
      rw [QueryRun.step_socketId]
      cases e with
      | created socketId => exact absurd ⟨socketId, List.mem_cons_self _ _⟩ hno
      | connected result => exact hid
      | gotInfo a b c d f => exact hid
      | written bytesWritten => exact hid
      | dataRead resultCode data => exact hid
      | timeout => exact hid
    refine ih _ hid1 (fun id h => ?_) (fun ⟨id, h⟩ => hno ⟨id, List.mem_cons_of_mem _ h⟩)
      (fun x hx => hnr x (List.mem_cons_of_mem _ hx))
    rcases QueryRun.step_destroy_mem fuel s e (some id) (hnr e (List.mem_cons_self _ _)) h with
      h1 | ⟨h1, _⟩
    · exact hd id h1
    · rw [hid] at h1
      exact Option.noConfusion h1

theorem QueryRun.step_timer_off (fuel : Nat) (s : QueryRun) (e : Event)
    (he : e.isDataRead = false) (ht : s.timerSet = false) :
    (QueryRun.step fuel s e).timerSet = false := by
  by_cases hto : e = Event.timeout
  · subst hto
    simp only [QueryRun.step, ht, Bool.false_eq_true, if_false]
  · rw [(QueryRun.step_quiet fuel s e he hto).2.2, ht]

theorem QueryRun.run_destroy_after (fuel : Nat) (q : DNSQueryManager) (events : List Event) :
    ∀ s : QueryRun, s.timerSet = false → (s.manager = q ∨ s.manager = q.sendData_) →
      (∀ id, SocketCall.destroy (some id) ∉ s.socketCalls) →
      (∀ e ∈ events, e.isDataRead = false) →
      (∀ b, Event.written b ∈ events → ∀ bytes : List Nat,
        (q.serializedQueryPacket_ = some bytes ∨ q.sendData_.serializedQueryPacket_ = some bytes) →
        b = JSVal.num bytes.length) →
      ∀ id, SocketCall.destroy (some id) ∉ (QueryRun.run fuel s events).socketCalls := by
  induction events with
  | nil => intro s _ _ hd _ _; exact hd
  | cons e es ih =>
    intro s ht hm hd hnr hw
    rw [QueryRun.run_cons]
    have he := hnr e (List.mem_cons_self _ _)
    refine ih _ (QueryRun.step_timer_off fuel s e he ht) (QueryRun.step_manager fuel q s e he hm)
      (fun id h => ?_) (fun x hx => hnr x (List.mem_cons_of_mem _ hx))
      (fun b hb => hw b (List.mem_cons_of_mem _ hb))
    rcases QueryRun.step_destroy_mem fuel s e (some id) he h with
      h1 | ⟨_, ⟨_, h2⟩ | ⟨b, bytes, hb, hbytes, hne⟩⟩
    · exact hd id h1
    · rw [ht] at h2
      exact Bool.noConfusion h2
    · refine hne (hw b (hb ▸ List.mem_cons_self _ _) bytes ?_)
      rcases hm with hm | hm
      · exact Or.inl (hm ▸ hbytes)
      · exact Or.inr (hm ▸ hbytes)

/-- C19 (amended): in every sequence of callbacks of one query in which the
timer callback occurs and no read callback (`dataRead_`) occurs, the status
ends as `FAIL_TIMEOUT` and `finalCallbackFnc_` has been invoked after no prefix
of the sequence. The first timer event runs `timeout_`, which adds one call of
`chrome.socket.destroy`, with the `socketId_` held at that moment. When a
creation callback came before, this is the id of a socket created for the
query: the socket is destroyed. When no creation callback came before, it is
`null`; then, as long as every write callback after the timer reports the
length of the serialized query, `chrome.socket.destroy` is called with no
socket id in the whole sequence: a socket that a later creation callback
delivers is left open. -/
theorem timeout_without_read (fuel : Nat) (q : DNSQueryManager) (events : List Event)
    (hto : Event.timeout ∈ events) (hnr : ∀ e ∈ events, e.isDataRead = false) :
    (QueryRun.run fuel (QueryRun.sendRequest q) events).queryResultStatus_ =
      some QueryResultStatus.FAIL_TIMEOUT ∧
    (∀ k : Nat,
      (QueryRun.run fuel (QueryRun.sendRequest q) (events.take k)).finalCallbackCalls = 0) ∧
    ∃ pre post : List Event, events = pre ++ Event.timeout :: post ∧ Event.timeout ∉ pre ∧
      (QueryRun.run fuel (QueryRun.sendRequest q) (pre ++ [Event.timeout])).socketCalls =
        (QueryRun.run fuel (QueryRun.sendRequest q) pre).socketCalls ++
          [SocketCall.destroy (QueryRun.run fuel (QueryRun.sendRequest q) pre).socketId_] ∧
      SocketCall.destroy (QueryRun.run fuel (QueryRun.sendRequest q) pre).socketId_ ∈
        (QueryRun.run fuel (QueryRun.sendRequest q) events).socketCalls ∧
      ((∃ id, Event.created id ∈ pre) → ∃ id, Event.created id ∈ pre ∧
        (QueryRun.run fuel (QueryRun.sendRequest q) pre).socketId_ = some id) ∧
      ((¬ ∃ id, Event.created id ∈ pre) →
        (QueryRun.run fuel (QueryRun.sendRequest q) pre).socketId_ = none ∧
        ((∀ b, Event.written b ∈ post → ∀ bytes : List Nat,
            (q.serializedQueryPacket_ = some bytes ∨
              q.sendData_.serializedQueryPacket_ = some bytes) →
            b = JSVal.num bytes.length) →
          ∀ id, SocketCall.destroy (some id) ∉
            (QueryRun.run fuel (QueryRun.sendRequest q) events).socketCalls)) := by
  obtain ⟨pre, post, hsplit, hpre⟩ := List.eq_append_cons_of_mem hto
  have hnrPre : ∀ e ∈ pre, e.isDataRead = false :=
    fun e he => hnr e (by rw [hsplit]; exact List.mem_append_left _ he)
  have hnrPost : ∀ e ∈ post, e.isDataRead = false :=
    fun e he => hnr e (by
      rw [hsplit]
      exact List.mem_append_right _ (List.mem_cons_of_mem _ he))
  have hq := QueryRun.run_quiet fuel pre (QueryRun.sendRequest q) hnrPre hpre
  have hset : (QueryRun.run fuel (QueryRun.sendRequest q) pre).timerSet = true :=
    hq.2.2.trans rfl
  have hfire := QueryRun.step_timeout_fires fuel
    (QueryRun.run fuel (QueryRun.sendRequest q) pre) hset
  have hrun : QueryRun.run fuel (QueryRun.sendRequest q) events =
      QueryRun.run fuel (QueryRun.step fuel (QueryRun.run fuel (QueryRun.sendRequest q) pre)
        Event.timeout) post := by
    rw [hsplit, QueryRun.run_append, QueryRun.run_cons]
  have hone : QueryRun.run fuel (QueryRun.sendRequest q) (pre ++ [Event.timeout]) =
      QueryRun.step fuel (QueryRun.run fuel (QueryRun.sendRequest q) pre) Event.timeout := by
    rw [QueryRun.run_append]
    rfl
  refine ⟨?_, fun k => ?_, pre, post, hsplit, hpre, ?_, ?_, ?_, fun hno => ⟨?_, fun hw => ?_⟩⟩
  · rw [hrun]
    exact (QueryRun.run_fail_persists fuel post _ hnrPost hfire.1).1
  · exact QueryRun.run_no_success fuel (events.take k) (QueryRun.sendRequest q)
      (fun e he => hnr e (List.mem_of_mem_take he)) (by simp [QueryRun.sendRequest])
  · rw [hone]
    simp only [QueryRun.step, hset, if_true, QueryRun.timeout_, QueryRun.cleanUp_socketCalls,
      QueryRun.pushEntry]
  · rw [hrun]
    exact QueryRun.run_socketCalls fuel post _ _ hfire.2.2.2
  · exact QueryRun.run_socketId fuel pre (QueryRun.sendRequest q)
  · exact QueryRun.run_socketId_keep fuel pre (QueryRun.sendRequest q) hno
  · rw [hrun, ← hone]
    have hnr1 : ∀ e ∈ pre ++ [Event.timeout], e.isDataRead = false := by
      intro e he
      rcases List.mem_append.1 he with h | h
      · exact hnrPre e h
      · rw [List.mem_singleton.1 h]
        rfl
    refine QueryRun.run_destroy_after fuel q post _ (by rw [hone]; exact hfire.2.2.1)
      (QueryRun.run_manager fuel q _ _ hnr1 (Or.inl rfl)) ?_ hnrPost hw
    refine QueryRun.run_destroy_null fuel _ (QueryRun.sendRequest q) rfl ?_ ?_ hnr1
    · intro id h
      simp [QueryRun.sendRequest] at h
    · rintro ⟨id, h⟩
      rcases List.mem_append.1 h with h | h
      · exact hno ⟨id, h⟩
      · simp at h

/-- C19 (amended) on `timeoutRun`, where the creation callback comes before
the timer: the status ends as `FAIL_TIMEOUT`, the callback is never invoked
and `destroy` is called with the id of the created socket. -/
theorem timeout_without_read_witness :
    Event.timeout ∈ timeoutRun ∧ (∀ e ∈ timeoutRun, e.isDataRead = false) ∧
    (QueryRun.run 0 (QueryRun.sendRequest exampleQuery) timeoutRun).queryResultStatus_ =
      some QueryResultStatus.FAIL_TIMEOUT ∧
    (∀ k : Nat, (QueryRun.run 0 (QueryRun.sendRequest exampleQuery)
      (timeoutRun.take k)).finalCallbackCalls = 0) ∧
    ∃ pre post : List Event, timeoutRun = pre ++ Event.timeout :: post ∧
      Event.timeout ∉ pre ∧
      (QueryRun.run 0 (QueryRun.sendRequest exampleQuery) (pre ++ [Event.timeout])).socketCalls =
        (QueryRun.run 0 (QueryRun.sendRequest exampleQuery) pre).socketCalls ++
          [SocketCall.destroy (QueryRun.run 0 (QueryRun.sendRequest exampleQuery) pre).socketId_] ∧
      SocketCall.destroy (QueryRun.run 0 (QueryRun.sendRequest exampleQuery) pre).socketId_ ∈
        (QueryRun.run 0 (QueryRun.sendRequest exampleQuery) timeoutRun).socketCalls ∧
      ((∃ id, Event.created id ∈ pre) → ∃ id, Event.created id ∈ pre ∧
        (QueryRun.run 0 (QueryRun.sendRequest exampleQuery) pre).socketId_ = some id) ∧
      ((¬ ∃ id, Event.created id ∈ pre) →
        (QueryRun.run 0 (QueryRun.sendRequest exampleQuery) pre).socketId_ = none ∧
        ((∀ b, Event.written b ∈ post → ∀ bytes : List Nat,
            (exampleQuery.serializedQueryPacket_ = some bytes ∨
              exampleQuery.sendData_.serializedQueryPacket_ = some bytes) →
            b = JSVal.num bytes.length) →
          ∀ id, SocketCall.destroy (some id) ∉
            (QueryRun.run 0 (QueryRun.sendRequest exampleQuery) timeoutRun).socketCalls)) :=
  ⟨by decide, by decide,
    timeout_without_read 0 exampleQuery timeoutRun (by decide) (by decide)⟩

set_option maxHeartbeats 4000000 in
/-- C19, counterexample: in `earlyTimerRun` the timer fires before the
creation callback. The timer callback occurs and no read callback, the status
ends as `FAIL_TIMEOUT`, and the only call of `chrome.socket.destroy` is the one
of `timeout_`, with `null`; the socket 3 delivered afterwards is connected,
written to and read from, and is not destroyed. -/
theorem early_timer_leaves_socket_open :
    Event.timeout ∈ earlyTimerRun ∧ (∀ e ∈ earlyTimerRun, e.isDataRead = false) ∧
    (QueryRun.run 0 (QueryRun.sendRequest exampleQuery) earlyTimerRun).queryResultStatus_ =
      some QueryResultStatus.FAIL_TIMEOUT ∧
    (QueryRun.run 0 (QueryRun.sendRequest exampleQuery) earlyTimerRun).socketId_ = some 3 ∧
    (QueryRun.run 0 (QueryRun.sendRequest exampleQuery) earlyTimerRun).socketCalls =
      [SocketCall.create, SocketCall.destroy none,
        SocketCall.connect (some 3) (str "8.8.8.8") 53, SocketCall.getInfo (some 3),
        SocketCall.write (some 3) exampleQuery.sendData_.serializedQueryPacket_,
        SocketCall.read (some 3)] ∧
    SocketCall.destroy (some 3) ∉
      (QueryRun.run 0 (QueryRun.sendRequest exampleQuery) earlyTimerRun).socketCalls := by
  decide!

set_option maxHeartbeats 4000000 in
/-- C20, counterexample: in `lateReadRun` the timer fires after the write and
`timeout_` records `FAIL_TIMEOUT` without a call of `finalCallbackFnc_`
(`timeoutRun`); the read callback that follows changes the status to
`SUCCESS_PACKET_PARSE` and invokes `finalCallbackFnc_`. -/
theorem late_read_overrides_timeout :
    (QueryRun.run 10 (QueryRun.sendRequest exampleQuery) timeoutRun).queryResultStatus_ =
      some QueryResultStatus.FAIL_TIMEOUT ∧
    (QueryRun.run 10 (QueryRun.sendRequest exampleQuery) timeoutRun).finalCallbackCalls = 0 ∧
    (QueryRun.run 10 (QueryRun.sendRequest exampleQuery) lateReadRun).queryResultStatus_ =
      some QueryResultStatus.SUCCESS_PACKET_PARSE ∧
    (QueryRun.run 10 (QueryRun.sendRequest exampleQuery) lateReadRun).finalCallbackCalls = 1 := by
  decide!

/-- C20 (amended): once `timeout_` has recorded `FAIL_TIMEOUT`, no later
callback other than a read callback changes the status or invokes
`finalCallbackFnc_`; a late read callback whose response is parsed sets the
status to `SUCCESS_PACKET_PARSE` and invokes `finalCallbackFnc_` (`dataRead_`
does not look at the status). In every sequence of callbacks
`finalCallbackFnc_` is invoked at most once for each read callback. -/
theorem outcome_after_timeout (fuel : Nat) (q : DNSQueryManager) (pre post : List Event)
    (hs : (QueryRun.run fuel (QueryRun.sendRequest q) pre).queryResultStatus_ =
      some QueryResultStatus.FAIL_TIMEOUT)
    (hnr : ∀ e ∈ post, e.isDataRead = false) :
    (QueryRun.run fuel (QueryRun.sendRequest q) (pre ++ post)).queryResultStatus_ =
      some QueryResultStatus.FAIL_TIMEOUT ∧
    (QueryRun.run fuel (QueryRun.sendRequest q) (pre ++ post)).finalCallbackCalls =
      (QueryRun.run fuel (QueryRun.sendRequest q) pre).finalCallbackCalls ∧
    (∀ (resultCode : JSVal) (data : List Nat) (m : DNSQueryManager),
      (QueryRun.run fuel (QueryRun.sendRequest q) pre).manager.parsePacketFromSerializedData
        fuel data = some m →
      (QueryRun.run fuel (QueryRun.sendRequest q)
        (pre ++ [Event.dataRead resultCode data])).queryResultStatus_ =
          some QueryResultStatus.SUCCESS_PACKET_PARSE ∧
      (QueryRun.run fuel (QueryRun.sendRequest q)
        (pre ++ [Event.dataRead resultCode data])).finalCallbackCalls =
          (QueryRun.run fuel (QueryRun.sendRequest q) pre).finalCallbackCalls + 1) ∧
    ∀ events : List Event,
      (QueryRun.run fuel (QueryRun.sendRequest q) events).finalCallbackCalls ≤
        (events.filter Event.isDataRead).length := by
  refine ⟨?_, ?_, fun resultCode data m hm => ?_, fun events => ?_⟩
  · rw [QueryRun.run_append]
    exact (QueryRun.run_fail_persists fuel post _ hnr hs).1
  · rw [QueryRun.run_append]
    exact (QueryRun.run_fail_persists fuel post _ hnr hs).2
  · rw [QueryRun.run_append]
    exact QueryRun.dataRead_parsed fuel _ resultCode data m hm
  · have h := QueryRun.run_calls_le fuel events (QueryRun.sendRequest q)
    simpa [QueryRun.sendRequest] using h

set_option maxHeartbeats 4000000 in
/-- C20 (amended) on `timeoutRun` followed by `afterTimeout`, a socket-info
callback and a second timer event: the status stays `FAIL_TIMEOUT` and the
callback is not invoked. -/
theorem outcome_after_timeout_witness :
    (QueryRun.run 10 (QueryRun.sendRequest exampleQuery) timeoutRun).queryResultStatus_ =
      some QueryResultStatus.FAIL_TIMEOUT ∧
    (∀ e ∈ afterTimeout, e.isDataRead = false) ∧
    (QueryRun.run 10 (QueryRun.sendRequest exampleQuery)
      (timeoutRun ++ afterTimeout)).queryResultStatus_ =
        some QueryResultStatus.FAIL_TIMEOUT ∧
    (QueryRun.run 10 (QueryRun.sendRequest exampleQuery)
      (timeoutRun ++ afterTimeout)).finalCallbackCalls =
        (QueryRun.run 10 (QueryRun.sendRequest exampleQuery) timeoutRun).finalCallbackCalls ∧
    (∀ (resultCode : JSVal) (data : List Nat) (m : DNSQueryManager),
      (QueryRun.run 10 (QueryRun.sendRequest exampleQuery)
        timeoutRun).manager.parsePacketFromSerializedData 10 data = some m →
      (QueryRun.run 10 (QueryRun.sendRequest exampleQuery)
        (timeoutRun ++ [Event.dataRead resultCode data])).queryResultStatus_ =
          some QueryResultStatus.SUCCESS_PACKET_PARSE ∧
      (QueryRun.run 10 (QueryRun.sendRequest exampleQuery)
        (timeoutRun ++ [Event.dataRead resultCode data])).finalCallbackCalls =
          (QueryRun.run 10 (QueryRun.sendRequest exampleQuery)
            timeoutRun).finalCallbackCalls + 1) ∧
    ∀ events : List Event,
      (QueryRun.run 10 (QueryRun.sendRequest exampleQuery) events).finalCallbackCalls ≤
        (events.filter Event.isDataRead).length :=
  have hs : (QueryRun.run 10 (QueryRun.sendRequest exampleQuery) timeoutRun).queryResultStatus_ =
      some QueryResultStatus.FAIL_TIMEOUT := by decide!
  ⟨hs, by decide, outcome_after_timeout 10 exampleQuery timeoutRun afterTimeout hs (by decide)⟩

/-! ## The write callback (C21) -/

/-- C21: when the serialized query has the bytes `bytes`, the write callback
with a `bytesWritten` other than their number appends one ERROR entry and the
call `chrome.socket.destroy(socketId_)` and nothing else: no read is issued,
the status and the number of calls of `finalCallbackFnc_` stay as they were;
with `bytesWritten` equal to their number it appends one DEBUG entry and
exactly one call `chrome.socket.read(socketId_)`. -/
theorem onDataWritten_outcome (fuel : Nat) (s : QueryRun) (bytes : List Nat)
    (bytesWritten : JSVal) (hq : s.manager.serializedQueryPacket_ = some bytes) :
    (bytesWritten ≠ JSVal.num bytes.length →
      (QueryRun.step fuel s (Event.written bytesWritten)).outputEntries_ =
        s.outputEntries_ ++ [(DetailLevel.ERROR, str "Error writing DNS packet.")] ∧
      (QueryRun.step fuel s (Event.written bytesWritten)).socketCalls =
        s.socketCalls ++ [SocketCall.destroy s.socketId_] ∧
      (QueryRun.step fuel s (Event.written bytesWritten)).finalCallbackCalls =
        s.finalCallbackCalls ∧
      (QueryRun.step fuel s (Event.written bytesWritten)).queryResultStatus_ =
        s.queryResultStatus_) ∧
    (bytesWritten = JSVal.num bytes.length →
      (QueryRun.step fuel s (Event.written bytesWritten)).outputEntries_ =
        s.outputEntries_ ++ [(DetailLevel.DEBUG,
          str "Successfully sent " ++ bytesWritten.toStr ++ str " bytes in a DNS packet")] ∧
      (QueryRun.step fuel s (Event.written bytesWritten)).socketCalls =
        s.socketCalls ++ [SocketCall.read s.socketId_] ∧
      (QueryRun.step fuel s (Event.written bytesWritten)).finalCallbackCalls =
        s.finalCallbackCalls) := by
  refine ⟨fun hne => ?_, fun heq => ?_⟩
  · simp [QueryRun.step, QueryRun.onDataWritten_, hq, hne, QueryRun.pushEntry, QueryRun.call]
  · simp [QueryRun.step, QueryRun.onDataWritten_, hq, heq, QueryRun.pushEntry, QueryRun.call,
      QueryRun.readData_]

set_option maxHeartbeats 4000000 in
/-- C21 on the query `exampleQuery` after `connectedRun`, whose serialized
query has 19 bytes, with a write callback that reports 5 bytes and with one
that reports 19. -/
theorem onDataWritten_outcome_witness :
    (QueryRun.run 0 (QueryRun.sendRequest exampleQuery)
      connectedRun).manager.serializedQueryPacket_ = some (WireSpec.query (str "a") 1) ∧
    (QueryRun.run 0 (QueryRun.sendRequest exampleQuery)
      (connectedRun ++ [Event.written (JSVal.num 5)])).socketCalls =
      (QueryRun.run 0 (QueryRun.sendRequest exampleQuery) connectedRun).socketCalls ++
        [SocketCall.destroy (some 3)] ∧
    (QueryRun.run 0 (QueryRun.sendRequest exampleQuery)
      (connectedRun ++ [Event.written (JSVal.num 5)])).finalCallbackCalls = 0 ∧
    (QueryRun.run 0 (QueryRun.sendRequest exampleQuery)
      (connectedRun ++ [Event.written (JSVal.num 19)])).socketCalls =
      (QueryRun.run 0 (QueryRun.sendRequest exampleQuery) connectedRun).socketCalls ++
        [SocketCall.read (some 3)] :=
  have hq : (QueryRun.run 0 (QueryRun.sendRequest exampleQuery)
      connectedRun).manager.serializedQueryPacket_ = some (WireSpec.query (str "a") 1) := by
    decide!
  have h5 := (onDataWritten_outcome 0 _ _ (JSVal.num 5) hq).1 (by decide)
  have h19 := (onDataWritten_outcome 0 _ _ (JSVal.num 19) hq).2 (by decide)
  have hid : (QueryRun.run 0 (QueryRun.sendRequest exampleQuery) connectedRun).socketId_ =
      some 3 := by decide!
  have hc : (QueryRun.run 0 (QueryRun.sendRequest exampleQuery)
      connectedRun).finalCallbackCalls = 0 := by decide!
  ⟨hq, by rw [QueryRun.run_append, ← hid]; exact h5.2.1,
    by rw [QueryRun.run_append]; exact h5.2.2.1.trans hc,
    by rw [QueryRun.run_append, ← hid]; exact h19.2.1⟩

/-! ## The query packet (C22) -/

/-- C22: the packet built by `sendData_` has exactly one QUESTION record, with
the hostname as name, the requested record type and class 1, no record in the
other three sections, and the flags 0x0100 when recursion is desired and 0
otherwise; recursion is desired after the constructor, and after
`setRecursionDesired(v)` it is desired exactly when `v` is the boolean `true`. -/
theorem sendData_query_packet (q : DNSQueryManager) :
    q.sendData_.queryPacket_ =
      some ⟨if q.isRecursionDesired_ then JSVal.num 0x100 else JSVal.num 0,
        [DNSRecord.newQuestion q.hostname_ q.recordTypeNum_ (JSVal.num 1)], [], [], []⟩ ∧
    (∀ (hostname : JSString) (recordTypeNum : JSVal) (dnsServer : JSString),
      (DNSQueryManager.new hostname recordTypeNum dnsServer).isRecursionDesired_ = true) ∧
    (∀ v : JSArg, (q.setRecursionDesired v).isRecursionDesired_ = true ↔ v = JSArg.bool true) ∧
    (∀ v : JSArg, (q.setRecursionDesired v).sendData_.queryPacket_ =
      some ⟨if v = JSArg.bool true then JSVal.num 0x100 else JSVal.num 0,
        [DNSRecord.newQuestion q.hostname_ q.recordTypeNum_ (JSVal.num 1)], [], [], []⟩) := by
  refine ⟨?_, fun _ _ _ => rfl, fun v => ?_, fun v => ?_⟩
  · cases h : q.isRecursionDesired_ <;>
    simp [DNSQueryManager.sendData_, DNSQueryManager.getFormattedHeader_, DNSPacket.new,
      DNSPacket.push, JSVal.truthy, h]
  · simp [DNSQueryManager.setRecursionDesired]
  · by_cases h : v = JSArg.bool true <;>
    simp [DNSQueryManager.setRecursionDesired, DNSQueryManager.sendData_,
      DNSQueryManager.getFormattedHeader_, DNSPacket.new, DNSPacket.push, JSVal.truthy, h]

/-- C22 on `exampleQuery`: by default the flags are 0x0100; after
`setRecursionDesired(1)` (the number, not the boolean) and after
`setRecursionDesired(false)` they are 0. -/
theorem sendData_query_packet_witness :
    exampleQuery.sendData_.queryPacket_ =
      some ⟨JSVal.num 0x100, [DNSRecord.newQuestion (str "a") (JSVal.num 1) (JSVal.num 1)],
        [], [], []⟩ ∧
    (exampleQuery.setRecursionDesired (JSArg.value (JSVal.num 1))).sendData_.queryPacket_ =
      some ⟨JSVal.num 0, [DNSRecord.newQuestion (str "a") (JSVal.num 1) (JSVal.num 1)],
        [], [], []⟩ ∧
    (exampleQuery.setRecursionDesired (JSArg.bool false)).sendData_.queryPacket_ =
      some ⟨JSVal.num 0, [DNSRecord.newQuestion (str "a") (JSVal.num 1) (JSVal.num 1)],
        [], [], []⟩ :=
  ⟨(sendData_query_packet exampleQuery).1,
    (sendData_query_packet exampleQuery).2.2.2 (JSArg.value (JSVal.num 1)),
    (sendData_query_packet exampleQuery).2.2.2 (JSArg.bool false)⟩

/-! ## Record type names and numbers (C23) -/

theorem toUpperCase_idem (name : JSString) : toUpperCase (toUpperCase name) = toUpperCase name := by
  simp only [toUpperCase, List.map_map]
  apply List.map_congr_left
  intro c _
  simp only [Function.comp]
  split_ifs <;> omega

/-- C23: the record type numbers are A=1, CNAME=5, MX=15, TXT=16, AAAA=28; on
each of them the number of the name of the number is the number again; the
number of a name depends on its upper-case form only; a name whose upper-case
form is none of 'MX', 'AAAA', 'CNAME', 'TXT' has the number 1, and a number
that is none of 28, 15, 5, 16 has the name 'A'. -/
theorem recordType_conversions :
    (RecordNumber.A = 1 ∧ RecordNumber.CNAME = 5 ∧ RecordNumber.MX = 15 ∧
      RecordNumber.TXT = 16 ∧ RecordNumber.AAAA = 28) ∧
    (∀ n : Int, n ∈ [1, 5, 15, 16, 28] →
      getRecordTypeNumByRecordTypeName (getRecordTypeNameByRecordTypeNum (JSVal.num n)) = n) ∧
    (getRecordTypeNameByRecordTypeNum (JSVal.num 1) = str "A" ∧
      getRecordTypeNameByRecordTypeNum (JSVal.num 5) = str "CNAME" ∧
      getRecordTypeNameByRecordTypeNum (JSVal.num 15) = str "MX" ∧
      getRecordTypeNameByRecordTypeNum (JSVal.num 16) = str "TXT" ∧
      getRecordTypeNameByRecordTypeNum (JSVal.num 28) = str "AAAA") ∧
    (∀ name name' : JSString, toUpperCase name = toUpperCase name' →
      getRecordTypeNumByRecordTypeName name = getRecordTypeNumByRecordTypeName name') ∧
    (∀ name : JSString,
      getRecordTypeNumByRecordTypeName (toUpperCase name) =
        getRecordTypeNumByRecordTypeName name) ∧
    (∀ name : JSString,
      toUpperCase name ∉ [str "MX", str "AAAA", str "CNAME", str "TXT"] →
      getRecordTypeNumByRecordTypeName name = 1) ∧
    (∀ v : JSVal, v ∉ [JSVal.num 28, JSVal.num 15, JSVal.num 5, JSVal.num 16] →
      getRecordTypeNameByRecordTypeNum v = str "A") := by
  refine ⟨⟨rfl, rfl, rfl, rfl, rfl⟩, ?_, ⟨by decide, by decide, by decide, by decide, by decide⟩,
    ?_, ?_, ?_, ?_⟩
  · intro n hn
    simp only [List.mem_cons, List.mem_singleton, List.not_mem_nil, or_false] at hn
    rcases hn with rfl | rfl | rfl | rfl | rfl <;> decide
  · intro name name' h
    simp only [getRecordTypeNumByRecordTypeName, h]
  · intro name
    simp only [getRecordTypeNumByRecordTypeName, toUpperCase_idem]
  · intro name h
    simp only [List.mem_cons, List.mem_singleton, List.not_mem_nil, or_false, not_or] at h
    simp [getRecordTypeNumByRecordTypeName, h.1, h.2.1, h.2.2.1, h.2.2.2, RecordNumber.A]
  · intro v h
    simp only [List.mem_cons, List.mem_singleton, List.not_mem_nil, or_false, not_or] at h
    simp [getRecordTypeNameByRecordTypeNum, RecordNumber.AAAA, RecordNumber.MX,
      RecordNumber.CNAME, RecordNumber.TXT, h.1, h.2.1, h.2.2.1, h.2.2.2]

/-- C23 on the names 'cName' and 'host' and on the number 2: 'cName' has the
number 5, 'host' the number 1, and 2 the name 'A'. -/
theorem recordType_conversions_witness :
    getRecordTypeNumByRecordTypeName (str "cName") = getRecordTypeNumByRecordTypeName (str "CNAME") ∧
    getRecordTypeNumByRecordTypeName (str "CNAME") = 5 ∧
    getRecordTypeNumByRecordTypeName (str "host") = 1 ∧
    getRecordTypeNameByRecordTypeNum (JSVal.num 2) = str "A" :=
  ⟨recordType_conversions.2.2.2.1 (str "cName") (str "CNAME") (by decide),
    recordType_conversions.2.1 5 (by decide),
    recordType_conversions.2.2.2.2.2.1 (str "host") (by decide),
    recordType_conversions.2.2.2.2.2.2 (JSVal.num 2) (by decide)⟩

/-! ## Pushing and traversing records (C24) -/

theorem DNSPacket.data_push (p : DNSPacket) (sec sec' : PacketSection) (r : DNSRecord) :
    (p.push sec r).data_ sec' = if sec = sec' then p.data_ sec' ++ [r] else p.data_ sec' := by
  cases sec <;> cases sec' <;> simp [DNSPacket.push, DNSPacket.data_]

theorem DNSPacket.flags_push (p : DNSPacket) (sec : PacketSection) (r : DNSRecord) :
    (p.push sec r).flags_ = p.flags_ := by
  cases sec <;> rfl

theorem DNSPacket.data_pushes (pushes : List (PacketSection × DNSRecord)) :
    ∀ (p : DNSPacket) (sec : PacketSection),
      (pushes.foldl (fun acc x => acc.push x.1 x.2) p).data_ sec =
        p.data_ sec ++ (pushes.filter fun x => decide (x.1 = sec)).map Prod.snd := by
  induction pushes with
  | nil => intro p sec; simp
  | cons x xs ih =>
    intro p sec
    rw [List.foldl_cons, ih, DNSPacket.data_push]
    by_cases h : x.1 = sec <;> simp [h, List.filter_cons]

theorem DNSPacket.flags_pushes (pushes : List (PacketSection × DNSRecord)) :
    ∀ p : DNSPacket, (pushes.foldl (fun acc x => acc.push x.1 x.2) p).flags_ = p.flags_ := by
  induction pushes with
  | nil => intro p; rfl
  | cons x xs ih => intro p; rw [List.foldl_cons, ih, DNSPacket.flags_push]

/-- C24: after any sequence of `push` calls on any packet, `eachRecord(section,
fn)` calls `fn` once on each record of the section, first on those that were
there and then on those pushed to that section, in push order; one `push`
leaves the arrays of the other sections and the flags unchanged, and
`getAnswerRecordCount` grows by the number of pushes made to ANSWER (it is that
number on a packet that was new). -/
theorem eachRecord_after_pushes (p : DNSPacket) (pushes : List (PacketSection × DNSRecord))
    (sec : PacketSection) :
    (∀ (σ : Type) (fn : σ → DNSRecord → σ) (init : σ),
      (pushes.foldl (fun acc x => acc.push x.1 x.2) p).eachRecord sec fn init =
        (p.data_ sec ++ (pushes.filter fun x => decide (x.1 = sec)).map Prod.snd).foldl
          fn init) ∧
    (pushes.foldl (fun acc x => acc.push x.1 x.2) p).eachRecord sec
        (fun (calls : List DNSRecord) rec => calls ++ [rec]) [] =
      p.data_ sec ++ (pushes.filter fun x => decide (x.1 = sec)).map Prod.snd ∧
    (∀ (r : DNSRecord) (other : PacketSection), other ≠ sec →
      (p.push sec r).data_ other = p.data_ other) ∧
    (∀ r : DNSRecord, (p.push sec r).data_ sec = p.data_ sec ++ [r] ∧
      (p.push sec r).flags_ = p.flags_) ∧
    (pushes.foldl (fun acc x => acc.push x.1 x.2) p).flags_ = p.flags_ ∧
    (pushes.foldl (fun acc x => acc.push x.1 x.2) p).getAnswerRecordCount =
      p.getAnswerRecordCount +
        (pushes.filter fun x => decide (x.1 = PacketSection.ANSWER)).length ∧
    (∀ flags : JSVal,
      (pushes.foldl (fun acc x => acc.push x.1 x.2) (DNSPacket.new flags)).getAnswerRecordCount =
        (pushes.filter fun x => decide (x.1 = PacketSection.ANSWER)).length) := by
  have hlog : ∀ l : List DNSRecord, ∀ acc : List DNSRecord,
      l.foldl (fun (calls : List DNSRecord) rec => calls ++ [rec]) acc = acc ++ l := by
    intro l
    induction l with
    | nil => intro acc; simp
    | cons x xs ih => intro acc; rw [List.foldl_cons, ih]; simp
  refine ⟨fun σ fn init => ?_, ?_, fun r other hne => ?_, fun r => ⟨?_, ?_⟩, ?_, ?_, fun flags => ?_⟩
  · simp only [DNSPacket.eachRecord, DNSPacket.data_pushes]
  · simp only [DNSPacket.eachRecord, DNSPacket.data_pushes, hlog, List.nil_append]
  · rw [DNSPacket.data_push, if_neg (fun h => hne h.symm)]
  · rw [DNSPacket.data_push, if_pos rfl]
  · exact DNSPacket.flags_push p sec r
  · exact DNSPacket.flags_pushes pushes p
  · simp only [DNSPacket.getAnswerRecordCount, DNSPacket.data_pushes, List.length_append,
      List.length_map]
  · simp only [DNSPacket.getAnswerRecordCount, DNSPacket.data_pushes, List.length_append,
      List.length_map]
    simp [DNSPacket.new, DNSPacket.data_]

/-- C24 on a new packet and the pushes of 'a' to ANSWER, 'b' to QUESTION and
'c' to ANSWER: the traversal of ANSWER calls the function on 'a', then on 'c',
and the answer count is 2. -/
theorem eachRecord_after_pushes_witness :
    ([(PacketSection.ANSWER, DNSRecord.newQuestion (str "a") (JSVal.num 1) (JSVal.num 1)),
      (PacketSection.QUESTION, DNSRecord.newQuestion (str "b") (JSVal.num 1) (JSVal.num 1)),
      (PacketSection.ANSWER, DNSRecord.newQuestion (str "c") (JSVal.num 1) (JSVal.num 1))].foldl
        (fun acc x => acc.push x.1 x.2) (DNSPacket.new (JSVal.num 0))).eachRecord
        PacketSection.ANSWER (fun (calls : List DNSRecord) rec => calls ++ [rec]) [] =
      [DNSRecord.newQuestion (str "a") (JSVal.num 1) (JSVal.num 1),
        DNSRecord.newQuestion (str "c") (JSVal.num 1) (JSVal.num 1)] ∧
    ([(PacketSection.ANSWER, DNSRecord.newQuestion (str "a") (JSVal.num 1) (JSVal.num 1)),
      (PacketSection.QUESTION, DNSRecord.newQuestion (str "b") (JSVal.num 1) (JSVal.num 1)),
      (PacketSection.ANSWER, DNSRecord.newQuestion (str "c") (JSVal.num 1) (JSVal.num 1))].foldl
        (fun acc x => acc.push x.1 x.2) (DNSPacket.new (JSVal.num 0))).getAnswerRecordCount = 2 :=
  ⟨(eachRecord_after_pushes (DNSPacket.new (JSVal.num 0)) _ PacketSection.ANSWER).2.1.trans
      (by decide),
    ((eachRecord_after_pushes (DNSPacket.new (JSVal.num 0)) _
      PacketSection.ANSWER).2.2.2.2.2.2 (JSVal.num 0)).trans (by decide)⟩

/-! ## A reference of zero (C26) -/

/-- C26, at the failing input: `serializeName('a', serializer, 0)` on a fresh
serializer writes 1, 'a' and the zero byte, the same bytes as without
`opt_ref`, and not 1, 'a', 0xC0, 0; with `opt_ref` = 12 it writes 1, 'a',
0xC0, 12. -/
theorem serializeName_ref_zero :
    (serializeName (str "a") Serializer.new (JSVal.num 0)).getBuffer = some [1, 97, 0] ∧
    (serializeName (str "a") Serializer.new JSVal.undefined).getBuffer = some [1, 97, 0] ∧
    (serializeName (str "a") Serializer.new (JSVal.num 12)).getBuffer =
      some [1, 97, 0xc0, 12] := by
  decide!

/-! ## The cursor after a record (C27) -/

/-- C27: for every non-question record that lies inside the buffer (after its
name the bytes of type, class, ttl, the data length L = l0*256 + l1 and L data
bytes), whatever its type and whatever its data bytes: whenever `readRecord`
returns, the main cursor is at the end of the name plus 10 + L, the byte right
after the data section; and it does return as soon as name resolution ends
within `F` steps from every offset of the response (enough fuel). -/
theorem readRecord_cursor (F fuel : Nat) (mgr : RespLabelPtManager) (d : Deserializer)
    (recName : JSString) (view : List Nat) (n ty0 ty1 c0 c1 t0 t1 t2 t3 l0 l1 : Nat)
    (data rest : List Nat) (hview : ∀ b ∈ view, b < 256)
    (hname : parseName fuel mgr d = some (recName, ⟨view, JSVal.num n⟩))
    (hwire : view.drop n = [ty0, ty1, c0, c1, t0, t1, t2, t3, l0, l1] ++ (data ++ rest))
    (hlen : data.length = l0 * 256 + l1) :
    (∀ (r : DNSRecord) (d' : Deserializer), readRecord fuel mgr d = some (r, d') →
      d' = ⟨view, JSVal.num ((n + 10 + (l0 * 256 + l1) : Nat) : Int)⟩ ∧
      view.drop (n + 10 + (l0 * 256 + l1)) = rest) ∧
    (ResolvesWithin F mgr → (l0 * 256 + l1) + F + 2 ≤ fuel →
      ∃ r : DNSRecord, readRecord fuel mgr d =
        some (r, ⟨view, JSVal.num ((n + 10 + (l0 * 256 + l1) : Nat) : Int)⟩)) := by
  have hrec := readRecord_of_wire ty0 ty1 c0 c1 t0 t1 t2 t3 l0 l1 data rest
    hname hwire (byte_of_drop hview hwire (by simp)) (byte_of_drop hview hwire (by simp))
    (byte_of_drop hview hwire (by simp)) hlen
  have hrest : view.drop (n + 10 + (l0 * 256 + l1)) = rest := by
    have h10 : view.drop (n + 10) = data ++ rest :=
      drop_add_of_drop (l := [ty0, ty1, c0, c1, t0, t1, t2, t3, l0, l1]) hwire
    have := drop_add_of_drop h10
    rw [hlen] at this
    exact this
  rw [hlen] at hrec
  refine ⟨fun r d' h => ?_, fun hterm hfuel => ?_⟩
  · rw [hrec] at h
    split at h
    · exact absurd h (by simp)
    · simp only [Option.some.injEq, Prod.mk.injEq] at h
      exact ⟨h.2.symm, hrest⟩
  · obtain ⟨r', hr'⟩ := @parseDataSection_total F mgr hterm fuel
      (JSVal.num ((ty0 * 256 + ty1 : Nat) : Int)) data
      (((newRecordOfType (JSVal.num ((ty0 * 256 + ty1 : Nat) : Int)) recName
        (JSVal.num ((c0 * 256 + c1 : Nat) : Int))
        (Deserializer.getLong ⟨view, JSVal.num ((n + 4 : Nat) : Int)⟩).1
        data).setLblPointManager mgr).setData (DataTxt.binary data)) (by omega)
    rw [hrec, hr']
    exact ⟨r', rfl⟩

/-- C27 on the CNAME answer of `cnameResponse`, read at offset 21: its name
ends at offset 23, its data section has 4 bytes, and the cursor ends at
offset 37. -/
theorem readRecord_cursor_witness :
    (∀ b ∈ cnameResponse, b < 256) ∧
    parseName 12 ⟨cnameResponse⟩ ⟨cnameResponse, JSVal.num 21⟩ =
      some (str "a.b", ⟨cnameResponse, JSVal.num (23 : Nat)⟩) ∧
    ResolvesWithin 6 ⟨cnameResponse⟩ ∧
    ∃ r : DNSRecord, readRecord 12 ⟨cnameResponse⟩ ⟨cnameResponse, JSVal.num 21⟩ =
      some (r, ⟨cnameResponse, JSVal.num ((23 + 10 + (0 * 256 + 4) : Nat) : Int)⟩) :=
  have hb : ∀ b ∈ cnameResponse, b < 256 := by decide
  have hn : parseName 12 ⟨cnameResponse⟩ ⟨cnameResponse, JSVal.num 21⟩ =
      some (str "a.b", ⟨cnameResponse, JSVal.num (23 : Nat)⟩) := by decide!
  have ht : ResolvesWithin 6 ⟨cnameResponse⟩ := by decide!
  ⟨hb, hn, ht,
    (readRecord_cursor 6 12 ⟨cnameResponse⟩ ⟨cnameResponse, JSVal.num 21⟩ (str "a.b")
      cnameResponse 23 0 5 0 1 0 0 0 60 0 4 [1, 120, 0xc0, 14] [] hb hn (by decide)
      (by decide)).2 ht (by decide)⟩

/-! ## Which length bytes start a pointer (C28) -/

/-- C28: in the loop of `parseName`, a length byte equal to 0xC0 is followed by
one byte K and the name ends with the name that `getNameFromReference(K)`
returns, which is parsed at offset K of the response; every other non-zero
length byte b (0xC1..0xFF included) is the length of an ordinary label made of
the next b bytes, after which the loop goes on. -/
theorem parseName_length_byte (fuel : Nat) (mgr : RespLabelPtManager) (view : List Nat)
    (n : Nat) (parts : List JSString) :
    (∀ (K : Nat) (rest : List Nat), view.drop n = 0xc0 :: K :: rest →
      parseNameLoop (fuel + 1) mgr ⟨view, JSVal.num n⟩ parts =
        match getNameFromReference fuel mgr (JSVal.num K) with
        | none => none
        | some nameSubstitution =>
          some (joinDot (parts ++ [nameSubstitution]),
            ⟨view, JSVal.num ((n + 2 : Nat) : Int)⟩)) ∧
    (∀ K : Nat, getNameFromReference (fuel + 1) mgr (JSVal.num K) =
      (parseName fuel mgr (Deserializer.new (mgr.view_.drop K))).map Prod.fst) ∧
    (∀ (b : Nat) (l : JSString) (rest : List Nat), b ≠ 0 → b ≠ 0xc0 → b < 256 →
      l.length = b → (∀ c ∈ l, c < 256) → view.drop n = (b :: l) ++ rest →
      parseNameLoop (fuel + 1) mgr ⟨view, JSVal.num n⟩ parts =
        parseNameLoop fuel mgr ⟨view, JSVal.num ((n + (b + 1) : Nat) : Int)⟩
          (parts ++ [l])) := by
  refine ⟨fun K rest h => parseNameLoop_pointer h fuel mgr parts,
    fun K => getNameFromReference_num fuel mgr K, ?_⟩
  intro b l rest hb0 hbc hb hl hc h
  subst hl
  exact parseNameLoop_label h
    ⟨fun e => hb0 (by rw [e]; rfl), hbc, hb, hc⟩ fuel mgr parts

/-- C28 on `longLabelName`, whose first byte is 0xC1: the 193 bytes after it
are read as one label, and the name is that label. -/
theorem parseName_length_byte_witness :
    (193 ≠ 0 ∧ 193 ≠ 0xc0 ∧ 193 < 256) ∧
    parseNameLoop 2 ⟨[]⟩ ⟨longLabelName, JSVal.num (0 : Nat)⟩ [] =
      parseNameLoop 1 ⟨[]⟩ ⟨longLabelName, JSVal.num ((0 + (193 + 1) : Nat) : Int)⟩
        ([] ++ [List.replicate 193 97]) ∧
    parseName 2 ⟨[]⟩ (Deserializer.new longLabelName) =
      some (List.replicate 193 97, ⟨longLabelName, JSVal.num 195⟩) :=
  have h := (parseName_length_byte 1 ⟨[]⟩ longLabelName 0 []).2.2 193 (List.replicate 193 97)
    [0] (by decide) (by decide) (by decide) (List.length_replicate _ _)
    (fun c hc => by rw [List.eq_of_mem_replicate hc]; decide) rfl
  ⟨by decide, h, by decide!⟩

/-! ## A pointer to itself (C29) -/

theorem self_pointer_none {view : List Nat} {K : Nat} {rest : List Nat}
    (hdrop : view.drop K = 0xc0 :: K :: rest) (fuel : Nat) :
    getNameFromReference fuel ⟨view⟩ (JSVal.num K) = none ∧
    parseNameLoop fuel ⟨view⟩ (Deserializer.new (view.drop K)) [] = none := by
  induction fuel with
  | zero => exact ⟨by rw [getNameFromReference], by rw [parseNameLoop]⟩
  | succ f ih =>
    have hd0 : (view.drop K).drop 0 = 0xc0 :: K :: rest := hdrop
    refine ⟨?_, ?_⟩
    · rw [getNameFromReference_num]
      simp only [parseName]
      rw [ih.2]
      rfl
    · rw [Deserializer.new_eq, parseNameLoop_pointer hd0 f ⟨view⟩ [], ih.1]

theorem parseName_reaches_self_pointer {view : List Nat} {K : Nat}
    (hself : ∀ fuel, getNameFromReference fuel ⟨view⟩ (JSVal.num K) = none)
    {w : List Nat} {n : Nat} {ls : List JSString} {rest : List Nat}
    (hls : ∀ l ∈ ls, WireSpec.LabelOk l)
    (hwire : w.drop n = WireSpec.labels ls ++ 0xc0 :: K :: rest) (fuel : Nat) :
    parseName fuel ⟨view⟩ ⟨w, JSVal.num n⟩ = none := by
  cases h : parseName fuel ⟨view⟩ ⟨w, JSVal.num n⟩ with
  | none => rfl
  | some r =>
    exfalso
    have h1 : parseNameLoop (fuel + 1 + ls.length) ⟨view⟩ ⟨w, JSVal.num n⟩ [] = some r :=
      parseNameLoop_mono (by omega) h
    rw [parseNameLoop_labels ⟨view⟩ (fuel + 1) _ ls n [] hwire hls,
      parseNameLoop_pointer (drop_add_of_drop hwire), hself fuel] at h1
    exact absurd h1 (by simp)

/-- C29: when the bytes at offset K of the response are 0xC0 K,
`getNameFromReference(K)` returns within no number of steps; neither does
`parseName` on a name, in any view, whose labels are followed by the pointer
0xC0 K; and neither does `deserializePacket` on the response when it announces
a question and the name at offset 12 is such a name. -/
theorem self_pointer_never_returns (view : List Nat) (K : Nat) (rest : List Nat)
    (hdrop : view.drop K = 0xc0 :: K :: rest) :
    (∀ fuel : Nat, getNameFromReference fuel ⟨view⟩ (JSVal.num K) = none) ∧
    (∀ (fuel : Nat) (w : List Nat) (n : Nat) (ls : List JSString) (tail : List Nat),
      (∀ l ∈ ls, WireSpec.LabelOk l) →
      w.drop n = WireSpec.labels ls ++ 0xc0 :: K :: tail →
      parseName fuel ⟨view⟩ ⟨w, JSVal.num n⟩ = none) ∧
    (∀ (fuel : Nat) (a0 a1 f0 f1 q0 q1 n0 n1 s0 s1 r0 r1 : Nat) (ls : List JSString)
      (tail : List Nat),
      view = a0 :: a1 :: f0 :: f1 :: q0 :: q1 :: n0 :: n1 :: s0 :: s1 :: r0 :: r1 ::
        (WireSpec.labels ls ++ 0xc0 :: K :: tail) →
      (∀ b ∈ view, b < 256) → (∀ l ∈ ls, WireSpec.LabelOk l) → 1 ≤ q0 * 256 + q1 →
      (DNSPacketDeserializer.new view ⟨view⟩).deserializePacket fuel = none) := by
  have hself : ∀ fuel, getNameFromReference fuel ⟨view⟩ (JSVal.num K) = none :=
    fun fuel => (self_pointer_none hdrop fuel).1
  refine ⟨hself, fun fuel w n ls tail hls hw =>
    parseName_reaches_self_pointer hself hls hw fuel, ?_⟩
  intro fuel a0 a1 f0 f1 q0 q1 n0 n1 s0 s1 r0 r1 ls tail hv hb hls hq
  have hq0 : q0 < 256 := hb q0 (by simp [hv])
  have hn0 : n0 < 256 := hb n0 (by simp [hv])
  have hs0 : s0 < 256 := hb s0 (by simp [hv])
  have hr0 : r0 < 256 := hb r0 (by simp [hv])
  have h12 : view.drop 12 = WireSpec.labels ls ++ 0xc0 :: K :: tail := by
    rw [hv]
    rfl
  have hname := parseName_reaches_self_pointer hself hls h12 fuel
  obtain ⟨c, hc⟩ : ∃ c, q0 * 256 + q1 = c + 1 := ⟨q0 * 256 + q1 - 1, by omega⟩
  have hloop : ∀ p, questionLoop fuel ⟨view⟩ (q0 * 256 + q1)
      ⟨view, JSVal.num ((12 : Nat) : Int)⟩ p = none := by
    intro p
    rw [hc, questionLoop]
    simp only [readQuestion, hname]
  have hh := deserializePacket_header fuel ⟨view⟩ a0 a1 f0 f1 q0 q1 n0 n1 s0 s1 r0 r1
    (WireSpec.labels ls ++ 0xc0 :: K :: tail) hq0 hn0 hs0 hr0
  rw [← hv] at hh
  rw [hh, hloop]

/-- C29 on `selfPointerResponse`, whose question name at offset 12 is the
pointer 0xC0 12: the reference 12 and the whole response are never decoded. -/
theorem self_pointer_never_returns_witness :
    selfPointerResponse.drop 12 = 0xc0 :: 12 :: [0, 1, 0, 1] ∧
    (∀ fuel : Nat, getNameFromReference fuel ⟨selfPointerResponse⟩ (JSVal.num 12) = none) ∧
    (∀ fuel : Nat, (DNSPacketDeserializer.new selfPointerResponse
      ⟨selfPointerResponse⟩).deserializePacket fuel = none) :=
  have h := self_pointer_never_returns selfPointerResponse 12 [0, 1, 0, 1] rfl
  ⟨rfl, h.1, fun fuel => h.2.2 fuel 0 0 0x81 0x80 0 1 0 0 0 0 0 0 [] [0, 1, 0, 1] rfl
    (by decide) (by simp) (by decide)⟩

/-! ## Addresses in a CIDR range (C25) -/

theorem octet_facts : ∀ b : Nat, b < 256 →
    toNumber (WireSpec.decimal b) = JSVal.num b ∧ 47 ∉ WireSpec.decimal b ∧
    pad (baseConversion (JSVal.num b) 2) 8 = WireSpec.bits 8 b := by
  decide!

/-- The function `Number` on strings that are no plain decimal numbers: a
hexadecimal literal, white space at the ends, a sign, the empty string, and
strings that are no numeric literal. -/
theorem toNumber_examples :
    toNumber (str "0xad") = JSVal.num 173 ∧ toNumber (str " 10") = JSVal.num 10 ∧
    toNumber (str "10\n") = JSVal.num 10 ∧ toNumber (str "-5") = JSVal.num (-5) ∧
    toNumber (str "+5") = JSVal.num 5 ∧ toNumber (str "") = JSVal.num 0 ∧
    toNumber (str "0b101") = JSVal.num 5 ∧ toNumber (str "0o17") = JSVal.num 15 ∧
    toNumber (str "0x") = JSVal.nan ∧ toNumber (str "+0x10") = JSVal.nan ∧
    toNumber (str "1 2") = JSVal.nan ∧ toNumber (str "-") = JSVal.nan ∧
    isIp4AddressInCidrBlock (str "0xad.194.1.1") (str "173.194.0.0/16") = true ∧
    isIp4AddressInCidrBlock (str " 10.0.0.1") (str "10.0.0.0/8") = true := by
  decide!

theorem indexOf_append {c : Nat} (l : JSString) (hl : c ∉ l) (rest : JSString) :
    indexOf (l ++ c :: rest) c = l.length := by
  induction l with
  | nil => simp [indexOf]
  | cons x xs ih =>
    have hx : x ≠ c := fun e => hl (e ▸ List.mem_cons_self _ _)
    have h := ih (fun h => hl (List.mem_cons_of_mem _ h))
    have hneg : ¬ ((xs.length : Int) < 0) := by omega
    rw [List.cons_append, indexOf, if_neg hx]
    simp only [h, hneg, if_false, List.length_cons]
    push_cast
    rfl

theorem substring_before (l rest : JSString) (c : Nat) :
    substring (l ++ c :: rest) 0 (some (l.length : Int)) = l := by
  simp [substring]

theorem substring_after (l rest : JSString) (c : Nat) :
    substring (l ++ c :: rest) ((l.length : Int) + 1) none = rest := by
  have e : ((l.length : Int) + 1).toNat = l.length + 1 := by omega
  simp only [substring, e, List.length_append, List.length_cons]
  rw [Nat.min_eq_left (by omega), Nat.min_eq_left (by omega), Nat.max_eq_right (by omega)]
  rw [show l.length + 1 = (l ++ [c]).length by simp,
    show l ++ c :: rest = (l ++ [c]) ++ rest by simp, List.drop_left]
  apply List.take_of_length_le
  simp only [List.length_append, List.length_cons, List.length_nil]
  omega

theorem joinDot_four (d0 d1 d2 d3 : JSString) :
    joinDot [d0, d1, d2, d3] = d0 ++ 46 :: (d1 ++ 46 :: (d2 ++ 46 :: d3)) := by
  simp [joinDot, List.intercalate, List.intersperse]

theorem slash_not_in_dotted {a0 a1 a2 a3 : Nat} (h0 : a0 < 256) (h1 : a1 < 256)
    (h2 : a2 < 256) (h3 : a3 < 256) : 47 ∉ WireSpec.dotted a0 a1 a2 a3 := by
  have f0 := (octet_facts a0 h0).2.1
  have f1 := (octet_facts a1 h1).2.1
  have f2 := (octet_facts a2 h2).2.1
  have f3 := (octet_facts a3 h3).2.1
  simp [WireSpec.dotted, joinDot_four, f0, f1, f2, f3]

theorem bits_length (w : Nat) : ∀ n : Nat, (WireSpec.bits w n).length = w := by
  induction w with
  | zero => intro n; rfl
  | succ w ih => intro n; simp [WireSpec.bits, ih]

theorem bits_take (w : Nat) : ∀ m a b : Nat, m ≤ w → a < 2 ^ w → b < 2 ^ w →
    ((WireSpec.bits w a).take m = (WireSpec.bits w b).take m ↔
      a / 2 ^ (w - m) = b / 2 ^ (w - m)) := by
  induction w with
  | zero =>
    intro m a b hm ha hb
    have ea : a = 0 := by simpa using ha
    have eb : b = 0 := by simpa using hb
    simp [ea, eb]
  | succ w ih =>
    intro m a b hm ha hb
    have ha2 : a / 2 < 2 ^ w := by
      rw [Nat.pow_succ] at ha
      omega
    have hb2 : b / 2 < 2 ^ w := by
      rw [Nat.pow_succ] at hb
      omega
    simp only [WireSpec.bits]
    by_cases hmw : m ≤ w
    · rw [List.take_append_of_le_length (by rw [bits_length]; exact hmw),
        List.take_append_of_le_length (by rw [bits_length]; exact hmw), ih m _ _ hmw ha2 hb2,
        show w + 1 - m = (w - m) + 1 by omega, Nat.pow_succ, Nat.mul_comm,
        ← Nat.div_div_eq_div_mul, ← Nat.div_div_eq_div_mul]
    · have em : m = w + 1 := by omega
      subst em
      rw [List.take_of_length_le (by simp [bits_length]),
        List.take_of_length_le (by simp [bits_length])]
      have hih := ih w (a / 2) (b / 2) (Nat.le_refl _) ha2 hb2
      simp only [Nat.sub_self, Nat.pow_zero, Nat.div_one] at hih ⊢
      rw [List.take_of_length_le (by simp [bits_length]),
        List.take_of_length_le (by simp [bits_length])] at hih
      constructor
      · intro h
        have h1 := List.append_inj h (by simp [bits_length])
        have h2 := hih.1 h1.1
        have h3 : 48 + a % 2 = 48 + b % 2 := by simpa using h1.2
        omega
      · intro h
        rw [h]

theorem bits_octet (w n : Nat) :
    WireSpec.bits (w + 8) n = WireSpec.bits w (n / 256) ++ WireSpec.bits 8 (n % 256) := by
  have e0 : n / (2 * 2 * 2 * 2 * 2 * 2 * 2 * 2) = n / 256 := rfl
  have e1 : n % 256 / (2 * 2 * 2 * 2 * 2 * 2 * 2) % 2 = n / (2 * 2 * 2 * 2 * 2 * 2 * 2) % 2 := by
    omega
  have e2 : n % 256 / (2 * 2 * 2 * 2 * 2 * 2) % 2 = n / (2 * 2 * 2 * 2 * 2 * 2) % 2 := by omega
  have e3 : n % 256 / (2 * 2 * 2 * 2 * 2) % 2 = n / (2 * 2 * 2 * 2 * 2) % 2 := by omega
  have e4 : n % 256 / (2 * 2 * 2 * 2) % 2 = n / (2 * 2 * 2 * 2) % 2 := by omega
  have e5 : n % 256 / (2 * 2 * 2) % 2 = n / (2 * 2 * 2) % 2 := by omega
  have e6 : n % 256 / (2 * 2) % 2 = n / (2 * 2) % 2 := by omega
  have e7 : n % 256 / 2 % 2 = n / 2 % 2 := by omega
  have e8 : n % 256 % 2 = n % 2 := by omega
  simp only [WireSpec.bits, List.nil_append, List.append_assoc, List.singleton_append,
    Nat.div_div_eq_div_mul]
  rw [e0, e1, e2, e3, e4, e5, e6, e7, e8]

theorem binaryAddress_dotted {a0 a1 a2 a3 : Nat} (h0 : a0 < 256) (h1 : a1 < 256)
    (h2 : a2 < 256) (h3 : a3 < 256) :
    binaryAddress (WireSpec.dotted a0 a1 a2 a3) =
      WireSpec.bits 32 (WireSpec.ip4Value a0 a1 a2 a3) := by
  have hs : splitDot (WireSpec.dotted a0 a1 a2 a3) =
      [WireSpec.decimal a0, WireSpec.decimal a1, WireSpec.decimal a2, WireSpec.decimal a3] := by
    apply splitDot_joinDot (by simp)
    intro l hl
    simp only [List.mem_cons, List.mem_singleton, List.not_mem_nil, or_false] at hl
    rcases hl with rfl | rfl | rfl | rfl
    · exact decimal_no_dot a0 h0
    · exact decimal_no_dot a1 h1
    · exact decimal_no_dot a2 h2
    · exact decimal_no_dot a3 h3
  have f0 := octet_facts a0 h0
  have f1 := octet_facts a1 h1
  have f2 := octet_facts a2 h2
  have f3 := octet_facts a3 h3
  have b3 := bits_octet 24 (WireSpec.ip4Value a0 a1 a2 a3)
  have b2 := bits_octet 16 (a0 * 65536 + a1 * 256 + a2)
  have b1 := bits_octet 8 (a0 * 256 + a1)
  have q3 : WireSpec.ip4Value a0 a1 a2 a3 / 256 = a0 * 65536 + a1 * 256 + a2 := by
    simp only [WireSpec.ip4Value]
    omega
  have r3 : WireSpec.ip4Value a0 a1 a2 a3 % 256 = a3 := by
    simp only [WireSpec.ip4Value]
    omega
  have q2 : (a0 * 65536 + a1 * 256 + a2) / 256 = a0 * 256 + a1 := by omega
  have r2 : (a0 * 65536 + a1 * 256 + a2) % 256 = a2 := by omega
  have q1 : (a0 * 256 + a1) / 256 = a0 := by omega
  have r1 : (a0 * 256 + a1) % 256 = a1 := by omega
  rw [q3, r3] at b3
  rw [q2, r2] at b2
  rw [q1, r1] at b1
  simp only [binaryAddress, hs, List.foldl_cons, List.foldl_nil, f0.1, f1.1, f2.1, f3.1,
    f0.2.2, f1.2.2, f2.2.2, f3.2.2, List.nil_append]
  rw [show (32 : Nat) = 24 + 8 from rfl, b3, show (24 : Nat) = 16 + 8 from rfl, b2,
    show (16 : Nat) = 8 + 8 from rfl, b1]

/-- C25: for every address a0.a1.a2.a3 and every range b0.b1.b2.b3/m with
octets in 0..255, written in decimal, and 0 <= m <= 32,
`isIp4AddressInCidrBlock` returns true exactly when the 32-bit values of the
two addresses have the same m most significant bits, that is the same quotient
by 2^(32-m); so for m = 0 it is true for every address and for m = 32 only
when the four octets are the same. -/
theorem isIp4AddressInCidrBlock_mask_bits (a0 a1 a2 a3 b0 b1 b2 b3 m : Nat)
    (ha : a0 < 256 ∧ a1 < 256 ∧ a2 < 256 ∧ a3 < 256)
    (hb : b0 < 256 ∧ b1 < 256 ∧ b2 < 256 ∧ b3 < 256) (hm : m ≤ 32) :
    (isIp4AddressInCidrBlock (WireSpec.dotted a0 a1 a2 a3)
        (WireSpec.dotted b0 b1 b2 b3 ++ 47 :: WireSpec.decimal m) = true ↔
      WireSpec.ip4Value a0 a1 a2 a3 / 2 ^ (32 - m) =
        WireSpec.ip4Value b0 b1 b2 b3 / 2 ^ (32 - m)) ∧
    (m = 0 → isIp4AddressInCidrBlock (WireSpec.dotted a0 a1 a2 a3)
        (WireSpec.dotted b0 b1 b2 b3 ++ 47 :: WireSpec.decimal m) = true) ∧
    (m = 32 → (isIp4AddressInCidrBlock (WireSpec.dotted a0 a1 a2 a3)
        (WireSpec.dotted b0 b1 b2 b3 ++ 47 :: WireSpec.decimal m) = true ↔
      a0 = b0 ∧ a1 = b1 ∧ a2 = b2 ∧ a3 = b3)) := by
  obtain ⟨ha0, ha1, ha2, ha3⟩ := ha
  obtain ⟨hb0, hb1, hb2, hb3⟩ := hb
  have hidx := indexOf_append (WireSpec.dotted b0 b1 b2 b3)
    (slash_not_in_dotted hb0 hb1 hb2 hb3) (WireSpec.decimal m)
  have hmnum := (octet_facts m (by omega)).1
  have hva : WireSpec.ip4Value a0 a1 a2 a3 < 2 ^ 32 := by
    simp only [WireSpec.ip4Value]
    omega
  have hvb : WireSpec.ip4Value b0 b1 b2 b3 < 2 ^ 32 := by
    simp only [WireSpec.ip4Value]
    omega
  have main : isIp4AddressInCidrBlock (WireSpec.dotted a0 a1 a2 a3)
        (WireSpec.dotted b0 b1 b2 b3 ++ 47 :: WireSpec.decimal m) = true ↔
      WireSpec.ip4Value a0 a1 a2 a3 / 2 ^ (32 - m) =
        WireSpec.ip4Value b0 b1 b2 b3 / 2 ^ (32 - m) := by
    simp only [isIp4AddressInCidrBlock, hidx, substring_before, substring_after, hmnum,
      binaryAddress_dotted ha0 ha1 ha2 ha3, binaryAddress_dotted hb0 hb1 hb2 hb3, substr0,
      JSVal.toInteger, Int.toNat_ofNat, decide_eq_true_eq]
    rw [bits_take 32 m _ _ hm hvb hva]
    exact eq_comm
  refine ⟨main, fun h0 => ?_, fun h32 => ?_⟩
  · rw [main, h0]
    have e : 2 ^ (32 - 0) = 4294967296 := by norm_num
    rw [e]
    norm_num at hva hvb
    omega
  · rw [main, h32]
    simp only [Nat.sub_self, Nat.pow_zero, Nat.div_one, WireSpec.ip4Value]
    omega

/-- C25 on the address 173.194.1.2 and the range 173.194.0.0/16. -/
theorem isIp4AddressInCidrBlock_mask_bits_witness :
    (173 < 256 ∧ 194 < 256 ∧ 1 < 256 ∧ 2 < 256) ∧
    (173 < 256 ∧ 194 < 256 ∧ 0 < 256 ∧ 0 < 256) ∧ 16 ≤ 32 ∧
    isIp4AddressInCidrBlock (str "173.194.1.2") (str "173.194.0.0/16") = true ∧
    WireSpec.ip4Value 173 194 1 2 / 2 ^ (32 - 16) =
      WireSpec.ip4Value 173 194 0 0 / 2 ^ (32 - 16) :=
  have h := (isIp4AddressInCidrBlock_mask_bits 173 194 1 2 173 194 0 0 16
    (by decide) (by decide) (by decide)).1
  have e : WireSpec.ip4Value 173 194 1 2 / 2 ^ (32 - 16) =
      WireSpec.ip4Value 173 194 0 0 / 2 ^ (32 - 16) := by decide
  ⟨by decide, by decide, by decide, h.2 e, e⟩

/-! ## Reading two buffers in step (C30) -/

theorem elementGet_same {v v' : List Nat} (h : SameFromTwo v v') {i : Int} (hi : 2 ≤ i) :
    elementGet v (JSVal.num i) = elementGet v' (JSVal.num i) := by
  obtain ⟨k, rfl⟩ : ∃ k : Nat, i = ((k + 2 : Nat) : Int) := ⟨(i - 2).toNat, by omega⟩
  have e : ∀ u : List Nat, u[k + 2]? = (u.drop 2)[k]? := by
    intro u
    rw [List.getElem?_drop, Nat.add_comm]
  simp only [elementGet_nat, e, h.2]

theorem beyondTwo_add_one {loc : JSVal} (h : BeyondTwo loc) :
    BeyondTwo (loc.add (JSVal.num 1)) := by
  intro i hi
  cases loc with
  | undefined => simp [JSVal.add] at hi
  | nan => simp [JSVal.add] at hi
  | num n =>
    simp only [JSVal.add, JSVal.num.injEq] at hi
    have := h n rfl
    omega

theorem agree_add_one {v v' w w' : List Nat} {loc : JSVal} (h : Agree v v' w w' loc) :
    Agree v v' w w' (loc.add (JSVal.num 1)) := by
  rcases h with h | ⟨h1, h2, h3⟩
  · exact Or.inl h
  · exact Or.inr ⟨h1, h2, beyondTwo_add_one h3⟩

theorem getByte_agree {v v' : List Nat} (hs : SameFromTwo v v') {w w' : List Nat}
    {loc : JSVal} (h : Agree v v' w w' loc) :
    Deserializer.getByte ⟨w', loc⟩ =
      ((Deserializer.getByte ⟨w, loc⟩).1, ⟨w', (Deserializer.getByte ⟨w, loc⟩).2.loc_⟩) ∧
    Agree v v' w w' (Deserializer.getByte ⟨w, loc⟩).2.loc_ := by
  refine ⟨?_, agree_add_one h⟩
  rcases h with h | ⟨h1, h2, h3⟩
  · subst h
    rfl
  · subst h1 h2
    simp only [Deserializer.getByte]
    refine Prod.ext ?_ rfl
    cases loc with
    | undefined => rfl
    | nan => rfl
    | num n =>
      have hn := h3 n rfl
      simp only [JSVal.add, JSVal.sub]
      rw [show n + 1 - 1 = n by ring]
      exact (elementGet_same hs hn).symm

theorem getShort_agree {v v' : List Nat} (hs : SameFromTwo v v') {w w' : List Nat}
    {loc : JSVal} (h : Agree v v' w w' loc) :
    Deserializer.getShort ⟨w', loc⟩ =
      ((Deserializer.getShort ⟨w, loc⟩).1, ⟨w', (Deserializer.getShort ⟨w, loc⟩).2.loc_⟩) ∧
    Agree v v' w w' (Deserializer.getShort ⟨w, loc⟩).2.loc_ := by
  have h1 := getByte_agree hs h
  have h2 := getByte_agree hs h1.2
  refine ⟨?_, h2.2⟩
  simp only [Deserializer.getShort]
  rw [h1.1]
  have e : (⟨w, (Deserializer.getByte ⟨w, loc⟩).2.loc_⟩ : Deserializer) =
      (Deserializer.getByte ⟨w, loc⟩).2 := rfl
  rw [e] at h2
  simp only [h2.1]

theorem getLong_agree {v v' : List Nat} (hs : SameFromTwo v v') {w w' : List Nat}
    {loc : JSVal} (h : Agree v v' w w' loc) :
    Deserializer.getLong ⟨w', loc⟩ =
      ((Deserializer.getLong ⟨w, loc⟩).1, ⟨w', (Deserializer.getLong ⟨w, loc⟩).2.loc_⟩) ∧
    Agree v v' w w' (Deserializer.getLong ⟨w, loc⟩).2.loc_ := by
  have h1 := getShort_agree hs h
  have h2 := getShort_agree hs h1.2
  refine ⟨?_, h2.2⟩
  simp only [Deserializer.getLong]
  rw [h1.1]
  have e : (⟨w, (Deserializer.getShort ⟨w, loc⟩).2.loc_⟩ : Deserializer) =
      (Deserializer.getShort ⟨w, loc⟩).2 := rfl
  rw [e] at h2
  simp only [h2.1]

theorem parseLabel_agree {v v' : List Nat} (hs : SameFromTwo v v') {w w' : List Nat}
    (len : Nat) :
    ∀ (loc : JSVal) (acc : JSString), Agree v v' w w' loc →
      parseLabel len ⟨w', loc⟩ acc =
        ((parseLabel len ⟨w, loc⟩ acc).1, ⟨w', (parseLabel len ⟨w, loc⟩ acc).2.loc_⟩) ∧
      Agree v v' w w' (parseLabel len ⟨w, loc⟩ acc).2.loc_ := by
  induction len with
  | zero => intro loc acc h; exact ⟨rfl, h⟩
  | succ k ih =>
    intro loc acc h
    have h1 := getByte_agree hs h
    have e : (⟨w, (Deserializer.getByte ⟨w, loc⟩).2.loc_⟩ : Deserializer) =
        (Deserializer.getByte ⟨w, loc⟩).2 := rfl
    have h2 := ih (Deserializer.getByte ⟨w, loc⟩).2.loc_
      (acc ++ fromCharCode (Deserializer.getByte ⟨w, loc⟩).1) h1.2
    rw [e] at h2
    simp only [parseLabel]
    rw [h1.1]
    exact h2

theorem drop_same {v v' : List Nat} (h : SameFromTwo v v') {k : Nat}
    (hk : 2 ≤ k ∨ v.length ≤ k) : v.drop k = v'.drop k := by
  rcases hk with hk | hk
  · obtain ⟨j, rfl⟩ : ∃ j, k = 2 + j := ⟨k - 2, by omega⟩
    rw [← List.drop_drop, ← List.drop_drop, h.2]
  · rw [List.drop_eq_nil_of_le hk, List.drop_eq_nil_of_le (h.1 ▸ hk)]

theorem subarray_same {v v' : List Nat} (h : SameFromTwo v v') {n : Int} (hn : 2 ≤ n)
    (e : JSVal) : subarray v (JSVal.num n) e = subarray v' (JSVal.num n) e := by
  obtain ⟨k, rfl⟩ : ∃ k : Nat, n = ((k : Nat) : Int) := ⟨n.toNat, by omega⟩
  have hk : 2 ≤ k := by omega
  simp only [subarray, JSVal.toInteger, clampIndex_nat, ← h.1]
  rw [drop_same h (k := min k v.length) (by omega)]

theorem slice_same {v v' : List Nat} (h : SameFromTwo v v') {loc : JSVal}
    (hloc : BeyondTwo loc) (len : JSVal) :
    Deserializer.slice ⟨v', loc⟩ len =
      ((Deserializer.slice ⟨v, loc⟩ len).1, ⟨v', (Deserializer.slice ⟨v, loc⟩ len).2.loc_⟩) := by
  simp only [Deserializer.slice]
  refine Prod.ext ?_ rfl
  cases loc with
  | undefined => simp [subarray, JSVal.add, JSVal.toInteger, clampIndex]
  | nan => simp [subarray, JSVal.add, JSVal.toInteger, clampIndex]
  | num n => exact (subarray_same h (hloc n rfl) _).symm

theorem beyondTwo_add {loc len : JSVal} (hloc : BeyondTwo loc)
    (hlen : ∀ i : Int, len = JSVal.num i → 0 ≤ i) : BeyondTwo (loc.add len) := by
  intro i hi
  cases loc with
  | undefined => simp [JSVal.add] at hi
  | nan => simp [JSVal.add] at hi
  | num n =>
    cases len with
    | undefined => simp [JSVal.add] at hi
    | nan => simp [JSVal.add] at hi
    | num l =>
      simp only [JSVal.add, JSVal.num.injEq] at hi
      have := hloc n rfl
      have := hlen l rfl
      omega

theorem elementGet_byte {v : List Nat} (hb : ∀ b ∈ v.drop 2, b < 256) {i : Int}
    (hi : 2 ≤ i) :
    elementGet v (JSVal.num i) = JSVal.undefined ∨
      ∃ c : Nat, c < 256 ∧ elementGet v (JSVal.num i) = JSVal.num c := by
  obtain ⟨k, rfl⟩ : ∃ k : Nat, i = ((k + 2 : Nat) : Int) := ⟨(i - 2).toNat, by omega⟩
  rw [elementGet_nat]
  cases hc : v[k + 2]? with
  | none => exact Or.inl rfl
  | some c =>
    refine Or.inr ⟨c, hb c ?_, rfl⟩
    have e : (v.drop 2)[k]? = some c := by
      rw [List.getElem?_drop, Nat.add_comm]
      exact hc
    exact List.getElem?_mem e

theorem getShort_nonneg {v : List Nat} (hb : ∀ b ∈ v.drop 2, b < 256) {loc : JSVal}
    (hloc : BeyondTwo loc) :
    ∀ i : Int, (Deserializer.getShort ⟨v, loc⟩).1 = JSVal.num i → 0 ≤ i := by
  intro i hi
  cases loc with
  | undefined => simp [Deserializer.getShort, Deserializer.getByte, JSVal.add, JSVal.sub,
      elementGet, JSVal.shl] at hi
  | nan => simp [Deserializer.getShort, Deserializer.getByte, JSVal.add, JSVal.sub,
      elementGet, JSVal.shl] at hi
  | num n =>
    have hn := hloc n rfl
    simp only [Deserializer.getShort, Deserializer.getByte, JSVal.add, JSVal.sub] at hi
    rw [show n + 1 - 1 = n by ring, show n + 1 + 1 - 1 = n + 1 by ring] at hi
    rcases elementGet_byte hb hn with h0 | ⟨c, hc, h0⟩ <;>
    rcases elementGet_byte hb (show 2 ≤ n + 1 by omega) with h1 | ⟨c', hc', h1⟩ <;>
    rw [h0, h1] at hi
    · simp [JSVal.shl, JSVal.add] at hi
    · simp only [JSVal.shl, JSVal.toInt32, JSVal.add, JSVal.num.injEq] at hi
      have : wrapInt32 (0 * 2 ^ 8) = 0 := by decide
      rw [this] at hi
      omega
    · rw [shl8_byte hc] at hi
      simp [JSVal.add] at hi
    · rw [shl8_byte hc] at hi
      simp only [JSVal.add, JSVal.num.injEq] at hi
      omega

theorem parseLabel_view (k : Nat) :
    ∀ (d : Deserializer) (acc : JSString), (parseLabel k d acc).2.view_ = d.view_ := by
  induction k with
  | zero => intro d acc; rfl
  | succ k ih =>
    intro d acc
    simp only [parseLabel]
    rw [ih]
    rfl

theorem name_agree {v v' : List Nat} (hs : SameFromTwo v v') (fuel : Nat) :
    (∀ (w w' : List Nat) (loc : JSVal) (parts : List JSString), Agree v v' w w' loc →
      nameTargetsOk fuel ⟨v⟩ ⟨w, loc⟩ = true →
      parseNameLoop fuel ⟨v'⟩ ⟨w', loc⟩ parts =
        (parseNameLoop fuel ⟨v⟩ ⟨w, loc⟩ parts).map (fun x => (x.1, ⟨w', x.2.loc_⟩)) ∧
      ∀ r, parseNameLoop fuel ⟨v⟩ ⟨w, loc⟩ parts = some r → Agree v v' w w' r.2.loc_) ∧
    (∀ ref : JSVal, ref.ge (JSVal.num 2) = true → referenceTargetsOk fuel ⟨v⟩ ref = true →
      getNameFromReference fuel ⟨v'⟩ ref = getNameFromReference fuel ⟨v⟩ ref) := by
  induction fuel with
  | zero =>
    refine ⟨fun w w' loc parts _ _ => ⟨?_, ?_⟩, fun ref _ _ => ?_⟩
    · rw [parseNameLoop, parseNameLoop]
      rfl
    · intro r hr
      rw [parseNameLoop] at hr
      exact Option.noConfusion hr
    · rw [getNameFromReference, getNameFromReference]
  | succ f ih =>
    refine ⟨fun w w' loc parts hag hok => ?_, fun ref hge hok => ?_⟩
    · have h1 := getByte_agree hs hag
      have e1 : (⟨w, (Deserializer.getByte ⟨w, loc⟩).2.loc_⟩ : Deserializer) =
          (Deserializer.getByte ⟨w, loc⟩).2 := rfl
      have h2 := getByte_agree hs h1.2
      rw [e1] at h2
      rw [nameTargetsOk] at hok
      rw [parseNameLoop, parseNameLoop]
      simp only [h1.1] at hok ⊢
      by_cases hz : (Deserializer.getByte ⟨w, loc⟩).1.truthy = true
      · simp only [hz, Bool.not_true, Bool.false_eq_true, if_false] at hok ⊢
        by_cases hc : (Deserializer.getByte ⟨w, loc⟩).1 = JSVal.num 0xc0
        · simp only [hc, if_true, Bool.and_eq_true] at hok ⊢
          simp only [h2.1]
          rw [(ih.2 _ hok.1 hok.2)]
          cases hres : getNameFromReference f ⟨v⟩
              (Deserializer.getByte (Deserializer.getByte ⟨w, loc⟩).2).1 with
          | none => exact ⟨rfl, fun r hr => Option.noConfusion hr⟩
          | some s =>
            refine ⟨rfl, fun r hr => ?_⟩
            simp only [Option.some.injEq] at hr
            rw [← hr]
            exact h2.2
        · simp only [hc, if_false] at hok ⊢
          have h3 := parseLabel_agree hs (Deserializer.getByte ⟨w, loc⟩).1.iterations
            (Deserializer.getByte ⟨w, loc⟩).2.loc_ [] h1.2
          rw [e1] at h3
          have e3 : (parseLabel (Deserializer.getByte ⟨w, loc⟩).1.iterations
                (Deserializer.getByte ⟨w, loc⟩).2 []).2 =
              ⟨w, (parseLabel (Deserializer.getByte ⟨w, loc⟩).1.iterations
                (Deserializer.getByte ⟨w, loc⟩).2 []).2.loc_⟩ := by
            have hv := parseLabel_view (Deserializer.getByte ⟨w, loc⟩).1.iterations
              (Deserializer.getByte ⟨w, loc⟩).2 []
            cases hx : (parseLabel (Deserializer.getByte ⟨w, loc⟩).1.iterations
                (Deserializer.getByte ⟨w, loc⟩).2 []).2 with
            | mk xv xl =>
              rw [hx] at hv
              simp only at hv
              rw [hv]
              rfl
          rw [e3] at hok
          have h4 := ih.1 w w' _ (parts ++ [(parseLabel
            (Deserializer.getByte ⟨w, loc⟩).1.iterations
            (Deserializer.getByte ⟨w, loc⟩).2 []).1]) h3.2 hok
          rw [h3.1]
          simp only
          rw [h4.1]
          rw [← e3]
          refine ⟨rfl, fun r hr => ?_⟩
          apply h4.2
          rw [← e3]
          exact hr
      · simp only [hz, Bool.not_false, if_true] at hok ⊢
        refine ⟨rfl, fun r hr => ?_⟩
        simp only [Option.some.injEq] at hr
        rw [← hr]
        exact h1.2
    · obtain ⟨K, hK, rfl⟩ : ∃ K : Int, 2 ≤ K ∧ ref = JSVal.num K := by
        cases ref with
        | undefined => simp [JSVal.ge] at hge
        | nan => simp [JSVal.ge] at hge
        | num K => exact ⟨K, by simpa [JSVal.ge] using hge, rfl⟩
      rw [referenceTargetsOk] at hok
      rw [getNameFromReference, getNameFromReference]
      simp only at hok ⊢
      rw [← subarray_same hs hK JSVal.undefined]
      have h := (ih.1 (subarray v (JSVal.num K) JSVal.undefined)
        (subarray v (JSVal.num K) JSVal.undefined) (JSVal.num 0) [] (Or.inl rfl) hok).1
      have e : Deserializer.new (subarray v (JSVal.num K) JSVal.undefined) =
          ⟨subarray v (JSVal.num K) JSVal.undefined, JSVal.num 0⟩ := rfl
      rw [e, h]
      cases parseNameLoop f ⟨v⟩ ⟨subarray v (JSVal.num K) JSVal.undefined, JSVal.num 0⟩ [] <;>
        rfl

theorem parseLabel_beyond (k : Nat) :
    ∀ (d : Deserializer) (acc : JSString), BeyondTwo d.loc_ →
      BeyondTwo (parseLabel k d acc).2.loc_ := by
  induction k with
  | zero => intro d acc h; exact h
  | succ k ih =>
    intro d acc h
    simp only [parseLabel]
    exact ih _ _ (beyondTwo_add_one h)

theorem parseNameLoop_beyond (fuel : Nat) (mgr : RespLabelPtManager) :
    ∀ (d : Deserializer) (parts : List JSString) (r : JSString × Deserializer),
      parseNameLoop fuel mgr d parts = some r → BeyondTwo d.loc_ → BeyondTwo r.2.loc_ := by
  induction fuel with
  | zero => intro d parts r h; simp [parseNameLoop] at h
  | succ f ih =>
    intro d parts r h hd
    rw [parseNameLoop] at h
    simp only at h
    split at h
    · injection h with h
      rw [← h]
      exact beyondTwo_add_one hd
    · split at h
      · split at h
        · exact Option.noConfusion h
        · injection h with h
          rw [← h]
          exact beyondTwo_add_one (beyondTwo_add_one hd)
      · exact ih _ _ _ h (parseLabel_beyond _ _ _ (beyondTwo_add_one hd))

theorem parseName_agree {v v' : List Nat} (hs : SameFromTwo v v') (fuel : Nat)
    (d : Deserializer) (hv : d.view_ = v) (hl : BeyondTwo d.loc_)
    (hok : nameTargetsOk fuel ⟨v⟩ d = true) :
    parseName fuel ⟨v'⟩ ⟨v', d.loc_⟩ =
        (parseName fuel ⟨v⟩ d).map (fun x => (x.1, ⟨v', x.2.loc_⟩)) ∧
      ∀ x, parseName fuel ⟨v⟩ d = some x → x.2.view_ = v ∧ BeyondTwo x.2.loc_ := by
  obtain ⟨w, loc⟩ := d
  simp only at hv hl
  subst hv
  refine ⟨((name_agree hs fuel).1 w v' loc [] (Or.inr ⟨rfl, rfl, hl⟩) hok).1, fun x hx => ?_⟩
  exact ⟨parseNameLoop_view _ _ _ _ _ hx, parseNameLoop_beyond _ _ _ _ _ hx hl⟩

theorem parseName_same_view {v v' : List Nat} (hs : SameFromTwo v v') (fuel : Nat)
    (d : Deserializer) (hok : nameTargetsOk fuel ⟨v⟩ d = true) :
    (parseName fuel ⟨v'⟩ d).map Prod.fst = (parseName fuel ⟨v⟩ d).map Prod.fst := by
  obtain ⟨w, loc⟩ := d
  have h := ((name_agree hs fuel).1 w w loc [] (Or.inl rfl) hok).1
  simp only [parseName, h, Option.map_map]
  rfl

theorem getShort_agree_main {v v' : List Nat} (hs : SameFromTwo v v') (d : Deserializer)
    (hv : d.view_ = v) (hl : BeyondTwo d.loc_) :
    Deserializer.getShort ⟨v', d.loc_⟩ = (d.getShort.1, ⟨v', d.getShort.2.loc_⟩) ∧
      d.getShort.2.view_ = v ∧ BeyondTwo d.getShort.2.loc_ := by
  obtain ⟨w, loc⟩ := d
  simp only at hv hl
  subst hv
  exact ⟨(getShort_agree hs (Or.inr ⟨rfl, rfl, hl⟩)).1, rfl,
    beyondTwo_add_one (beyondTwo_add_one hl)⟩

theorem getLong_agree_main {v v' : List Nat} (hs : SameFromTwo v v') (d : Deserializer)
    (hv : d.view_ = v) (hl : BeyondTwo d.loc_) :
    Deserializer.getLong ⟨v', d.loc_⟩ = (d.getLong.1, ⟨v', d.getLong.2.loc_⟩) ∧
      d.getLong.2.view_ = v ∧ BeyondTwo d.getLong.2.loc_ := by
  obtain ⟨w, loc⟩ := d
  simp only at hv hl
  subst hv
  exact ⟨(getLong_agree hs (Or.inr ⟨rfl, rfl, hl⟩)).1, rfl,
    beyondTwo_add_one (beyondTwo_add_one (beyondTwo_add_one (beyondTwo_add_one hl)))⟩

theorem slice_agree_main {v v' : List Nat} (hs : SameFromTwo v v') (d : Deserializer)
    (hv : d.view_ = v) (hl : BeyondTwo d.loc_) (len : JSVal)
    (hlen : ∀ i : Int, len = JSVal.num i → 0 ≤ i) :
    Deserializer.slice ⟨v', d.loc_⟩ len = ((d.slice len).1, ⟨v', (d.slice len).2.loc_⟩) ∧
      (d.slice len).2.view_ = v ∧ BeyondTwo (d.slice len).2.loc_ := by
  obtain ⟨w, loc⟩ := d
  simp only at hv hl
  subst hv
  exact ⟨slice_same hs hl len, rfl, beyondTwo_add hl hlen⟩

theorem parseNibbles_manager (m : RespLabelPtManager) (n : Nat) :
    ∀ (d : Deserializer) (k : Nat) (txt : JSString) (r : DNSRecord),
      parseNibbles n d k txt (r.setLblPointManager m) =
        ((parseNibbles n d k txt r).1, (parseNibbles n d k txt r).2.1.setLblPointManager m,
          (parseNibbles n d k txt r).2.2) := by
  induction n with
  | zero => intro d k txt r; rfl
  | succ n ih =>
    intro d k txt r
    have e : ∀ t : JSString, (r.setLblPointManager m).setIp t =
        (r.setIp t).setLblPointManager m := fun _ => rfl
    simp only [parseNibbles]
    split
    · rfl
    · rw [e]
      exact ih _ _ _ _

theorem parseDataSection_agree {v v' : List Nat} (hs : SameFromTwo v v') (fuel : Nat)
    (ty : JSVal) (dt : List Nat) (r : DNSRecord)
    (hok : (if ty = JSVal.num RecordNumber.CNAME then
        nameTargetsOk fuel ⟨v⟩ (Deserializer.new dt)
      else if ty = JSVal.num RecordNumber.MX then
        nameTargetsOk fuel ⟨v⟩ (Deserializer.new dt).getShort.2
      else true) = true) :
    parseDataSection fuel ⟨v'⟩ ty dt (r.setLblPointManager ⟨v'⟩) =
      (parseDataSection fuel ⟨v⟩ ty dt r).map (fun x => x.setLblPointManager ⟨v'⟩) := by
  by_cases hA : ty = JSVal.num RecordNumber.A
  · simp only [parseDataSection, hA, if_true]
    rfl
  by_cases hAAAA : ty = JSVal.num RecordNumber.AAAA
  · simp only [parseDataSection, hA, hAAAA, if_true, if_false, parseNibbles_manager]
    rfl
  by_cases hC : ty = JSVal.num RecordNumber.CNAME
  · simp only [hC, if_true] at hok
    have h := parseName_same_view hs fuel _ hok
    simp only [parseDataSection, hA, hAAAA, hC, if_true, if_false]
    cases h1 : parseName fuel ⟨v⟩ (Deserializer.new dt) with
    | none =>
      rw [h1] at h
      cases h2 : parseName fuel ⟨v'⟩ (Deserializer.new dt) with
      | none => rfl
      | some x => rw [h2] at h; exact Option.noConfusion h
    | some x =>
      rw [h1] at h
      cases h2 : parseName fuel ⟨v'⟩ (Deserializer.new dt) with
      | none => rw [h2] at h; exact Option.noConfusion h
      | some y =>
        rw [h2] at h
        simp only [Option.map, Option.some.injEq] at h
        simp only [Option.map, h]
        rfl
  by_cases hT : ty = JSVal.num RecordNumber.TXT
  · simp only [parseDataSection, hA, hAAAA, hC, hT, if_true, if_false]
    rfl
  by_cases hM : ty = JSVal.num RecordNumber.MX
  · simp only [hC, hM, if_true, if_false] at hok
    have h := parseName_same_view hs fuel _ hok
    simp only [parseDataSection, hA, hAAAA, hC, hT, hM, if_true, if_false]
    cases h1 : parseName fuel ⟨v⟩ (Deserializer.new dt).getShort.2 with
    | none =>
      rw [h1] at h
      cases h2 : parseName fuel ⟨v'⟩ (Deserializer.new dt).getShort.2 with
      | none => rfl
      | some x => rw [h2] at h; exact Option.noConfusion h
    | some x =>
      rw [h1] at h
      cases h2 : parseName fuel ⟨v'⟩ (Deserializer.new dt).getShort.2 with
      | none => rw [h2] at h; exact Option.noConfusion h
      | some y =>
        rw [h2] at h
        simp only [Option.map, Option.some.injEq] at h
        simp only [Option.map, h]
        rfl
  · simp only [parseDataSection, hA, hAAAA, hC, hT, hM, if_false]
    rfl

theorem readQuestion_agree {v v' : List Nat} (hs : SameFromTwo v v') (fuel : Nat)
    (d : Deserializer) (hv : d.view_ = v) (hl : BeyondTwo d.loc_)
    (hok : nameTargetsOk fuel ⟨v⟩ d = true) :
    readQuestion fuel ⟨v'⟩ ⟨v', d.loc_⟩ =
        (readQuestion fuel ⟨v⟩ d).map
          (fun x => (x.1.setLblPointManager ⟨v'⟩, ⟨v', x.2.loc_⟩)) ∧
      ∀ x, readQuestion fuel ⟨v⟩ d = some x → x.2.view_ = v ∧ BeyondTwo x.2.loc_ := by
  have hn := parseName_agree hs fuel d hv hl hok
  simp only [readQuestion, hn.1]
  cases hp : parseName fuel ⟨v⟩ d with
  | none => exact ⟨rfl, fun x hx => Option.noConfusion hx⟩
  | some nd =>
    obtain ⟨name, d1⟩ := nd
    obtain ⟨hv1, hl1⟩ := hn.2 _ hp
    have a2 := getShort_agree_main hs d1 hv1 hl1
    have a3 := getShort_agree_main hs d1.getShort.2 a2.2.1 a2.2.2
    simp only [Option.map, a2.1, a3.1]
    refine ⟨rfl, fun x hx => ?_⟩
    simp only [Option.some.injEq] at hx
    rw [← hx]
    exact ⟨a3.2.1, a3.2.2⟩

theorem readRecord_agree {v v' : List Nat} (hs : SameFromTwo v v')
    (hb : ∀ b ∈ v.drop 2, b < 256) (fuel : Nat)
    (d : Deserializer) (hv : d.view_ = v) (hl : BeyondTwo d.loc_)
    (hok : recordTargetsOk fuel ⟨v⟩ d = true) :
    readRecord fuel ⟨v'⟩ ⟨v', d.loc_⟩ =
        (readRecord fuel ⟨v⟩ d).map
          (fun x => (x.1.setLblPointManager ⟨v'⟩, ⟨v', x.2.loc_⟩)) ∧
      ∀ x, readRecord fuel ⟨v⟩ d = some x → x.2.view_ = v ∧ BeyondTwo x.2.loc_ := by
  simp only [recordTargetsOk, Bool.and_eq_true] at hok
  obtain ⟨hokn, hokd⟩ := hok
  have hn := parseName_agree hs fuel d hv hl hokn
  simp only [readRecord, hn.1]
  cases hp : parseName fuel ⟨v⟩ d with
  | none => exact ⟨rfl, fun x hx => Option.noConfusion hx⟩
  | some nd =>
    obtain ⟨recName, d1⟩ := nd
    obtain ⟨hv1, hl1⟩ := hn.2 _ hp
    rw [hp] at hokd
    simp only at hokd
    have a2 := getShort_agree_main hs d1 hv1 hl1
    have a3 := getShort_agree_main hs d1.getShort.2 a2.2.1 a2.2.2
    have a4 := getLong_agree_main hs d1.getShort.2.getShort.2 a3.2.1 a3.2.2
    have a5 := getShort_agree_main hs d1.getShort.2.getShort.2.getLong.2 a4.2.1 a4.2.2
    have hlen : ∀ i : Int, d1.getShort.2.getShort.2.getLong.2.getShort.1 = JSVal.num i →
        0 ≤ i := by
      have hd4 : d1.getShort.2.getShort.2.getLong.2 =
          ⟨v, d1.getShort.2.getShort.2.getLong.2.loc_⟩ := by
        have := a4.2.1
        cases hx : d1.getShort.2.getShort.2.getLong.2 with
        | mk xv xl =>
          rw [hx] at this
          simp only at this
          rw [this]
      rw [hd4]
      exact getShort_nonneg hb a4.2.2
    have a6 := slice_agree_main hs d1.getShort.2.getShort.2.getLong.2.getShort.2 a5.2.1 a5.2.2
      d1.getShort.2.getShort.2.getLong.2.getShort.1 hlen
    have hpd := parseDataSection_agree hs fuel d1.getShort.1
      (d1.getShort.2.getShort.2.getLong.2.getShort.2.slice
        d1.getShort.2.getShort.2.getLong.2.getShort.1).1
      (((newRecordOfType d1.getShort.1 recName d1.getShort.2.getShort.1
        d1.getShort.2.getShort.2.getLong.1
        (d1.getShort.2.getShort.2.getLong.2.getShort.2.slice
          d1.getShort.2.getShort.2.getLong.2.getShort.1).1).setLblPointManager ⟨v⟩).setData
        (DataTxt.binary (d1.getShort.2.getShort.2.getLong.2.getShort.2.slice
          d1.getShort.2.getShort.2.getLong.2.getShort.1).1)) hokd
    have e : ∀ (x : DNSRecord) (y : DataTxt),
        (x.setLblPointManager ⟨v'⟩).setData y =
          ((x.setLblPointManager ⟨v⟩).setData y).setLblPointManager ⟨v'⟩ := fun _ _ => rfl
    simp only [Option.map, a2.1, a3.1, a4.1, a5.1, a6.1]
    rw [e, hpd]
    cases hr : parseDataSection fuel ⟨v⟩ d1.getShort.1
        (d1.getShort.2.getShort.2.getLong.2.getShort.2.slice
          d1.getShort.2.getShort.2.getLong.2.getShort.1).1
        (((newRecordOfType d1.getShort.1 recName d1.getShort.2.getShort.1
          d1.getShort.2.getShort.2.getLong.1
          (d1.getShort.2.getShort.2.getLong.2.getShort.2.slice
            d1.getShort.2.getShort.2.getLong.2.getShort.1).1).setLblPointManager ⟨v⟩).setData
          (DataTxt.binary (d1.getShort.2.getShort.2.getLong.2.getShort.2.slice
            d1.getShort.2.getShort.2.getLong.2.getShort.1).1)) with
    | none => exact ⟨rfl, fun x hx => Option.noConfusion hx⟩
    | some r3 =>
      refine ⟨rfl, fun x hx => ?_⟩
      simp only [Option.some.injEq] at hx
      rw [← hx]
      exact ⟨a6.2.1, a6.2.2⟩

theorem withManager_push (p : DNSPacket) (m : RespLabelPtManager) (sec : PacketSection)
    (r : DNSRecord) :
    (p.withManager m).push sec (r.setLblPointManager m) = (p.push sec r).withManager m := by
  cases sec <;> simp [DNSPacket.withManager, DNSPacket.push]

theorem recordLoop_agree {v v' : List Nat}
    (body body' : Deserializer → Option (DNSRecord × Deserializer)) (ok : Deserializer → Bool)
    (hbody : ∀ d : Deserializer, d.view_ = v → BeyondTwo d.loc_ → ok d = true →
      body' ⟨v', d.loc_⟩ =
          (body d).map (fun x => (x.1.setLblPointManager ⟨v'⟩, ⟨v', x.2.loc_⟩)) ∧
        ∀ x, body d = some x → x.2.view_ = v ∧ BeyondTwo x.2.loc_)
    (sec : PacketSection) (n : Nat) :
    ∀ (d : Deserializer) (p : DNSPacket), d.view_ = v → BeyondTwo d.loc_ →
      chainTargetsOk ok body n d = true →
      recordLoop body' sec n ⟨v', d.loc_⟩ (p.withManager ⟨v'⟩) =
          (recordLoop body sec n d p).map (fun x => (x.1.withManager ⟨v'⟩, ⟨v', x.2.loc_⟩)) ∧
        ∀ x, recordLoop body sec n d p = some x → x.2.view_ = v ∧ BeyondTwo x.2.loc_ := by
  induction n with
  | zero =>
    intro d p hv hl _
    refine ⟨rfl, fun x hx => ?_⟩
    simp only [recordLoop, Option.some.injEq] at hx
    rw [← hx]
    exact ⟨hv, hl⟩
  | succ n ih =>
    intro d p hv hl hok
    simp only [chainTargetsOk, Bool.and_eq_true] at hok
    obtain ⟨hok1, hok2⟩ := hok
    have hb := hbody d hv hl hok1
    simp only [recordLoop, hb.1]
    cases hr : body d with
    | none => exact ⟨rfl, fun x hx => Option.noConfusion hx⟩
    | some rd =>
      obtain ⟨r, d1⟩ := rd
      obtain ⟨hv1, hl1⟩ := hb.2 _ hr
      rw [hr] at hok2
      simp only at hok2
      have h := ih d1 (p.push sec r) hv1 hl1 hok2
      simp only [Option.map, withManager_push]
      exact h

theorem decodeResponse_agree {v v' : List Nat} (hs : SameFromTwo v v')
    (hb : ∀ b ∈ v.drop 2, b < 256) (fuel : Nat) (hok : packetTargetsOk fuel v = true) :
    decodeResponse fuel v' = (decodeResponse fuel v).map (fun p => p.withManager ⟨v'⟩) := by
  have e0 : (Deserializer.new v).getShort.2 = ⟨v, JSVal.num ((0 + 2 : Nat) : Int)⟩ :=
    getShort_loc v 0
  have e0' : (Deserializer.new v').getShort.2 = ⟨v', JSVal.num ((0 + 2 : Nat) : Int)⟩ :=
    getShort_loc v' 0
  have hl1 : BeyondTwo (Deserializer.new v).getShort.2.loc_ := by
    rw [e0]
    intro i hi
    simp only [JSVal.num.injEq] at hi
    omega
  have hv1 : (Deserializer.new v).getShort.2.view_ = v := by rw [e0]
  have e1 : (Deserializer.new v').getShort.2 = ⟨v', (Deserializer.new v).getShort.2.loc_⟩ := by
    rw [e0, e0']
  have a2 := getShort_agree_main hs _ hv1 hl1
  have a3 := getShort_agree_main hs _ a2.2.1 a2.2.2
  have a4 := getShort_agree_main hs _ a3.2.1 a3.2.2
  have a5 := getShort_agree_main hs _ a4.2.1 a4.2.2
  have a6 := getShort_agree_main hs _ a5.2.1 a5.2.2
  have hq := fun d hv hl h => readQuestion_agree hs fuel d hv hl h
  have hr := fun d hv hl h => readRecord_agree hs hb fuel d hv hl h
  have enew : ∀ flags : JSVal, (DNSPacket.new flags).withManager ⟨v'⟩ = DNSPacket.new flags :=
    fun _ => rfl
  simp only [packetTargetsOk, Bool.and_eq_true, questionLoop_eq, sectionLoop_eq] at hok
  simp only [decodeResponse, DNSPacketDeserializer.deserializePacket, DNSPacketDeserializer.new,
    questionLoop_eq, sectionLoop_eq, e1, a2.1, a3.1, a4.1, a5.1, a6.1]
  obtain ⟨hok1, hok2⟩ := hok
  have q1 := recordLoop_agree (readQuestion fuel ⟨v⟩) (readQuestion fuel ⟨v'⟩)
    (nameTargetsOk fuel ⟨v⟩) hq PacketSection.QUESTION _ _
    (DNSPacket.new (Deserializer.new v).getShort.2.getShort.1) a6.2.1 a6.2.2 hok1
  rw [enew] at q1
  rw [q1.1]
  cases h1 : recordLoop (readQuestion fuel ⟨v⟩) PacketSection.QUESTION
      (Deserializer.new v).getShort.2.getShort.2.getShort.1.iterations
      (Deserializer.new v).getShort.2.getShort.2.getShort.2.getShort.2.getShort.2.getShort.2
      (DNSPacket.new (Deserializer.new v).getShort.2.getShort.1) with
  | none => rfl
  | some x1 =>
    obtain ⟨p1, d7⟩ := x1
    obtain ⟨hv7, hl7⟩ := q1.2 _ h1
    rw [h1] at hok2
    simp only [Bool.and_eq_true] at hok2
    obtain ⟨hok3, hok4⟩ := hok2
    have q2 := recordLoop_agree (readRecord fuel ⟨v⟩) (readRecord fuel ⟨v'⟩)
      (recordTargetsOk fuel ⟨v⟩) hr PacketSection.ANSWER _ d7 p1 hv7 hl7 hok3
    simp only [Option.map]
    rw [q2.1]
    cases h2 : recordLoop (readRecord fuel ⟨v⟩) PacketSection.ANSWER
        (Deserializer.new v).getShort.2.getShort.2.getShort.2.getShort.1.iterations d7 p1 with
    | none => rfl
    | some x2 =>
      obtain ⟨p2, d8⟩ := x2
      obtain ⟨hv8, hl8⟩ := q2.2 _ h2
      rw [h2] at hok4
      simp only [Bool.and_eq_true] at hok4
      obtain ⟨hok5, hok6⟩ := hok4
      have q3 := recordLoop_agree (readRecord fuel ⟨v⟩) (readRecord fuel ⟨v'⟩)
        (recordTargetsOk fuel ⟨v⟩) hr PacketSection.AUTHORITY _ d8 p2 hv8 hl8 hok5
      simp only [Option.map]
      rw [q3.1]
      cases h3 : recordLoop (readRecord fuel ⟨v⟩) PacketSection.AUTHORITY
          (Deserializer.new v).getShort.2.getShort.2.getShort.2.getShort.2.getShort.1.iterations
          d8 p2 with
      | none => rfl
      | some x3 =>
        obtain ⟨p3, d9⟩ := x3
        obtain ⟨hv9, hl9⟩ := q3.2 _ h3
        rw [h3] at hok6
        simp only at hok6
        have q4 := recordLoop_agree (readRecord fuel ⟨v⟩) (readRecord fuel ⟨v'⟩)
          (recordTargetsOk fuel ⟨v⟩) hr PacketSection.ADDITIONAL _ d9 p3 hv9 hl9 hok6
        simp only [Option.map]
        rw [q4.1]
        cases h4 : recordLoop (readRecord fuel ⟨v⟩) PacketSection.ADDITIONAL
            (Deserializer.new
              v).getShort.2.getShort.2.getShort.2.getShort.2.getShort.2.getShort.1.iterations
            d9 p3 with
        | none => rfl
        | some x4 => rfl

theorem content_withManager (p : DNSPacket) (m : RespLabelPtManager) :
    (p.withManager m).content = p.content := by
  have e : (DNSRecord.content ∘ fun r : DNSRecord => r.setLblPointManager m) =
      DNSRecord.content := by
    funext r
    rfl
  simp only [DNSPacket.withManager, DNSPacket.content, List.map_map, e]

/-- C30: a non-zero value in the first two bytes is not fatal and does not
influence the decoded packet. For two byte buffers x0 x1 rest and y0 y1 rest
that differ in bytes 0 and 1 at most, if no compression pointer met while the
first is decoded targets offset 0 or 1 (every reference handed to
`getNameFromReference` is an offset of at least 2), then decoding the second
gives the same result: nothing for both, or packets with the same flags and
the same records in every section (their references to the label manager
object apart). -/
theorem first_two_bytes_ignored (fuel : Nat) (x0 x1 y0 y1 : Nat) (rest : List Nat)
    (hb : ∀ b ∈ rest, b < 256) (hok : packetTargetsOk fuel (x0 :: x1 :: rest) = true) :
    (decodeResponse fuel (y0 :: y1 :: rest)).map DNSPacket.content =
      (decodeResponse fuel (x0 :: x1 :: rest)).map DNSPacket.content := by
  have hs : SameFromTwo (x0 :: x1 :: rest) (y0 :: y1 :: rest) := ⟨rfl, rfl⟩
  rw [decodeResponse_agree hs hb fuel hok, Option.map_map]
  congr 1
  funext p
  exact content_withManager p _

set_option maxHeartbeats 4000000 in
/-- C30 on `pointerResponse`, whose answer name is a pointer to offset 12:
with the first two bytes replaced by 0xAB 0xCD the decoded packet is the same,
one question and one answer for the name 'a'. -/
theorem first_two_bytes_ignored_witness :
    (∀ b ∈ pointerResponse.drop 2, b < 256) ∧
    packetTargetsOk 10 (0 :: 0 :: pointerResponse.drop 2) = true ∧
    (decodeResponse 10 (0xab :: 0xcd :: pointerResponse.drop 2)).map DNSPacket.content =
      (decodeResponse 10 (0 :: 0 :: pointerResponse.drop 2)).map DNSPacket.content ∧
    (decodeResponse 10 (0 :: 0 :: pointerResponse.drop 2)).map
        (fun p => (p.qd.map DNSRecord.getName, p.an.map DNSRecord.getName)) =
      some ([str "a"], [str "a"]) :=
  have hb : ∀ b ∈ pointerResponse.drop 2, b < 256 := by decide
  have hok : packetTargetsOk 10 (0 :: 0 :: pointerResponse.drop 2) = true := by decide!
  ⟨hb, hok, first_two_bytes_ignored 10 0 0 0xab 0xcd (pointerResponse.drop 2) hb hok,
    by decide!⟩

/-- A pointer byte 0xC0 that is the last byte of the buffer has no offset
byte: the reference is `undefined`, the name is resolved at offset 0, and the
decoded question name depends on the first two bytes ('' for 0 0, 'a' for
1 'a'). `packetTargetsOk` is false on such a buffer. -/
theorem missing_offset_reads_offset_zero :
    (decodeResponse 10 [0, 0, 0, 0, 0, 1, 0, 0, 0, 0, 0, 0, 0xc0]).map
        (fun p => p.qd.map DNSRecord.getName) = some [[]] ∧
    (decodeResponse 10 [1, 97, 0, 0, 0, 1, 0, 0, 0, 0, 0, 0, 0xc0]).map
        (fun p => p.qd.map DNSRecord.getName) = some [str "a"] ∧
    packetTargetsOk 10 [0, 0, 0, 0, 0, 1, 0, 0, 0, 0, 0, 0, 0xc0] = false := by
  decide!

/-! ## The netblocks (C32) -/

theorem isGoogleIp4AddressLoop_iff (a : JSString) (netblocks : List JSString) :
    isGoogleIp4AddressLoop a netblocks = true ↔
      ∃ r ∈ netblocks, isIp4AddressInCidrBlock a r = true := by
  induction netblocks with
  | nil => simp [isGoogleIp4AddressLoop]
  | cons r rest ih =>
    rw [isGoogleIp4AddressLoop]
    by_cases h : isIp4AddressInCidrBlock a r = true
    · simp [h]
    · simp [h, ih]

/-- C32: for every address string, `isGoogleIp4Address` is true exactly when
`isIp4AddressInCidrBlock` holds for at least one of the ten ranges of
`googleIp4Netblock`; it is true for 173.194.1.1 and false for 8.8.8.8. -/
theorem isGoogleIp4Address_iff (a : JSString) :
    (isGoogleIp4Address a = true ↔
      ∃ r ∈ googleIp4Netblock, isIp4AddressInCidrBlock a r = true) ∧
    googleIp4Netblock.length = 10 ∧
    isGoogleIp4Address (str "173.194.1.1") = true ∧
    isGoogleIp4Address (str "8.8.8.8") = false := by
  refine ⟨isGoogleIp4AddressLoop_iff a googleIp4Netblock, rfl, ?_, ?_⟩
  · decide!
  · decide!

/-! ## Names that end without a pointer, and decreasing chains of pointers (C33) -/

theorem parseNameLoop_returns (mgr : RespLabelPtManager) (G : Nat) (k : Nat) :
    ∀ (d : Deserializer) (parts : List JSString) (fuel : Nat),
      d.remaining + 1 ≤ k → k + G ≤ fuel →
      (∀ ref, pointerOfName k d = some ref → ∃ s, getNameFromReference G mgr ref = some s) →
      ∃ r, parseNameLoop fuel mgr d parts = some r := by
  induction k with
  | zero => intro d parts fuel h; omega
  | succ k ih =>
    intro d parts fuel hk hfuel hptr
    obtain ⟨f, rfl⟩ : ∃ f, fuel = f + 1 := ⟨fuel - 1, by omega⟩
    rw [parseNameLoop]
    rw [pointerOfName] at hptr
    simp only at hptr ⊢
    split
    · exact ⟨_, rfl⟩
    · rename_i hc
      rw [if_neg hc] at hptr
      split
      · rename_i hp
        rw [if_pos hp] at hptr
        obtain ⟨s, hs⟩ := hptr _ rfl
        rw [getNameFromReference_mono (show G ≤ f by omega) hs]
        exact ⟨_, rfl⟩
      · rename_i hp
        rw [if_neg hp] at hptr
        cases hl : d.getByte.1 with
        | undefined => simp [hl, JSVal.truthy] at hc
        | nan => simp [hl, JSVal.truthy] at hc
        | num b =>
          obtain ⟨i, hloc, hlt, hd1⟩ := getByte_number hl
          rw [hl] at hptr
          refine ih _ _ f ?_ (by omega) hptr
          obtain ⟨view, loc⟩ := d
          simp only at hloc hlt hd1
          subst hloc
          rw [hd1, parseLabel_loc, remaining_num]
          rw [remaining_num] at hk
          omega

theorem parseName_without_pointer (mgr : RespLabelPtManager) (d : Deserializer)
    (hfree : namePointer d = none) {fuel : Nat} (hfuel : d.remaining + 1 ≤ fuel) :
    ∃ r, parseName fuel mgr d = some r :=
  parseNameLoop_returns mgr 0 (d.remaining + 1) d [] fuel (Nat.le_refl _) hfuel
    (fun ref h => by
      rw [namePointer] at hfree
      rw [hfree] at h
      exact Option.noConfusion h)

theorem subarray_targetOffset (view : List Nat) (ref : JSVal) :
    subarray view ref JSVal.undefined = view.drop (targetOffset view ref) := by
  simp only [subarray, targetOffset]
  exact List.take_of_length_le (by simp)

theorem getNameFromReference_decreasing (view : List Nat) (m : Nat) :
    ∀ K : JSVal, targetOffset view K = m → (∀ n, decreasingChain view n K = true) →
      ∃ s, getNameFromReference ((m + 1) * (view.length + 2)) ⟨view⟩ K = some s := by
  induction m using Nat.strong_induction_on with
  | _ m ih =>
    intro K hK hdec
    have e : (m + 1) * (view.length + 2) = (m * (view.length + 2) + view.length + 1) + 1 := by
      ring
    rw [e, getNameFromReference]
    simp only
    have hrem : (Deserializer.new (subarray view K JSVal.undefined)).remaining ≤
        view.length := by
      have h1 := remaining_le (Deserializer.new (subarray view K JSVal.undefined))
      have h2 := subarray_length_le view K JSVal.undefined
      exact Nat.le_trans h1 h2
    obtain ⟨r, hr⟩ := parseNameLoop_returns ⟨view⟩ (m * (view.length + 2))
      ((Deserializer.new (subarray view K JSVal.undefined)).remaining + 1)
      (Deserializer.new (subarray view K JSVal.undefined)) []
      (m * (view.length + 2) + view.length + 1) (Nat.le_refl _) (by omega)
      (fun ref href => by
        have h1 := hdec 1
        have hnext : nextTarget view K = some ref := href
        simp only [decreasingChain, hnext, Bool.and_true, decide_eq_true_eq] at h1
        rw [hK] at h1
        obtain ⟨s, hs⟩ := ih (targetOffset view ref) h1 ref rfl (fun n => by
          have h2 := hdec (n + 1)
          simp only [decreasingChain, hnext, Bool.and_eq_true] at h2
          exact h2.2)
        refine ⟨s, getNameFromReference_mono ?_ hs⟩
        calc (targetOffset view ref + 1) * (view.length + 2)
            ≤ m * (view.length + 2) := Nat.mul_le_mul_right _ h1)
    rw [hr]
    exact ⟨_, rfl⟩

/-- C33: `getNameFromReference(K)` returns whenever, along the chain of
targets that it follows from K, each pointer refers to a strictly smaller
offset than the target whose name it ends (fuel for the offset of K plus one
times the length of the buffer plus two is enough, for a buffer of any
length); and `parseName` returns on every name, in every view and at every
cursor, that does not end in a pointer (no length byte 0xC0 is met), with fuel
for one step more than there are bytes left in the view. -/
theorem name_resolution_terminates (view : List Nat) (K : JSVal) (mgr : RespLabelPtManager)
    (d : Deserializer) (hdec : ∀ n, decreasingChain view n K = true)
    (hfree : namePointer d = none) :
    (∀ fuel : Nat, (targetOffset view K + 1) * (view.length + 2) ≤ fuel →
      ∃ s, getNameFromReference fuel ⟨view⟩ K = some s) ∧
    (∀ fuel : Nat, d.remaining + 1 ≤ fuel → ∃ r, parseName fuel mgr d = some r) := by
  refine ⟨fun fuel hfuel => ?_, fun fuel hfuel => parseName_without_pointer mgr d hfree hfuel⟩
  obtain ⟨s, hs⟩ := getNameFromReference_decreasing view _ K rfl hdec
  exact ⟨s, getNameFromReference_mono hfuel hs⟩

theorem cnameResponse_chain : ∀ n, decreasingChain cnameResponse n (JSVal.num 33) = true := by
  intro n
  rcases n with _ | _ | n
  · rfl
  · decide!
  · have h1 : nextTarget cnameResponse (JSVal.num 33) = some (JSVal.num 14) := by decide!
    have h2 : nextTarget cnameResponse (JSVal.num 14) = none := by decide!
    simp only [decreasingChain, h1, h2]
    decide!

/-- C33 on `cnameResponse`: the name at offset 33 ends in a pointer to offset
14, where the name ends with a zero byte; the reference 33 is resolved within
(33 + 1) * (37 + 2) steps, to 'x.b'. And the name in `longLabelName` has no
pointer: it is parsed within 196 steps. -/
theorem name_resolution_terminates_witness :
    (∀ n, decreasingChain cnameResponse n (JSVal.num 33) = true) ∧
    namePointer (Deserializer.new longLabelName) = none ∧
    (∃ s, getNameFromReference ((33 + 1) * (37 + 2)) ⟨cnameResponse⟩ (JSVal.num 33) = some s) ∧
    (∃ r, parseName 196 ⟨[]⟩ (Deserializer.new longLabelName) = some r) :=
  have hfree : namePointer (Deserializer.new longLabelName) = none := by decide!
  have h := name_resolution_terminates cnameResponse (JSVal.num 33) ⟨[]⟩
    (Deserializer.new longLabelName) cnameResponse_chain hfree
  ⟨cnameResponse_chain, hfree, h.1 _ (by decide!), h.2 196 (by decide!)⟩

/-! ## Decoding without pointers and short buffers (C34) -/

theorem isNone_eq_none {α : Type} {o : Option α} (h : o.isNone = true) : o = none := by
  cases o with
  | none => rfl
  | some x => exact absurd h (by simp)

theorem readQuestion_pointerFree {fuel : Nat} {mgr : RespLabelPtManager} (d : Deserializer)
    (hfuel : d.view_.length + 1 ≤ fuel) (hok : (namePointer d).isNone = true) :
    ∃ r d', readQuestion fuel mgr d = some (r, d') ∧ d'.view_ = d.view_ := by
  obtain ⟨nd, hp⟩ := parseName_without_pointer mgr d (isNone_eq_none hok)
    (show d.remaining + 1 ≤ fuel by have := remaining_le d; omega)
  have hv := parseNameLoop_view _ _ _ _ _ hp
  simp only [readQuestion, hp]
  exact ⟨_, _, rfl, by rw [getShort_view, getShort_view, hv]⟩

theorem parseDataSection_pointerFree {fuel : Nat} {mgr : RespLabelPtManager} (ty : JSVal)
    (dt : List Nat) (r : DNSRecord) (hfuel : dt.length + 1 ≤ fuel)
    (hok : (if ty = JSVal.num RecordNumber.CNAME then
        (namePointer (Deserializer.new dt)).isNone
      else if ty = JSVal.num RecordNumber.MX then
        (namePointer (Deserializer.new dt).getShort.2).isNone
      else true) = true) :
    ∃ r', parseDataSection fuel mgr ty dt r = some r' := by
  by_cases hA : ty = JSVal.num RecordNumber.A
  · simp only [parseDataSection, hA, if_true]
    exact ⟨_, rfl⟩
  by_cases hAAAA : ty = JSVal.num RecordNumber.AAAA
  · simp only [parseDataSection, hA, hAAAA, if_true, if_false]
    exact ⟨_, rfl⟩
  by_cases hC : ty = JSVal.num RecordNumber.CNAME
  · simp only [hC, if_true] at hok
    obtain ⟨nd, hp⟩ := parseName_without_pointer mgr (Deserializer.new dt) (isNone_eq_none hok)
      (show (Deserializer.new dt).remaining + 1 ≤ fuel by
        have := remaining_le (Deserializer.new dt)
        simp only [Deserializer.new] at this ⊢
        omega)
    simp only [parseDataSection, hA, hAAAA, hC, if_true, if_false, hp]
    exact ⟨_, rfl⟩
  by_cases hT : ty = JSVal.num RecordNumber.TXT
  · simp only [parseDataSection, hA, hAAAA, hC, hT, if_true, if_false]
    exact ⟨_, rfl⟩
  by_cases hM : ty = JSVal.num RecordNumber.MX
  · simp only [hC, hM, if_true, if_false] at hok
    obtain ⟨nd, hp⟩ := parseName_without_pointer mgr (Deserializer.new dt).getShort.2
      (isNone_eq_none hok)
      (show (Deserializer.new dt).getShort.2.remaining + 1 ≤ fuel by
        have := remaining_le (Deserializer.new dt).getShort.2
        rw [getShort_view] at this
        simp only [Deserializer.new] at this ⊢
        omega)
    simp only [parseDataSection, hA, hAAAA, hC, hT, hM, if_true, if_false, hp]
    exact ⟨_, rfl⟩
  · simp only [parseDataSection, hA, hAAAA, hC, hT, hM, if_false]
    exact ⟨_, rfl⟩

theorem readRecord_pointerFree {fuel : Nat} {mgr : RespLabelPtManager} (d : Deserializer)
    (hfuel : d.view_.length + 1 ≤ fuel) (hok : recordPointerFree fuel mgr d = true) :
    ∃ r d', readRecord fuel mgr d = some (r, d') ∧ d'.view_ = d.view_ := by
  simp only [recordPointerFree, Bool.and_eq_true] at hok
  obtain ⟨hn, hd⟩ := hok
  obtain ⟨nd, hp⟩ := parseName_without_pointer mgr d (isNone_eq_none hn)
    (show d.remaining + 1 ≤ fuel by have := remaining_le d; omega)
  obtain ⟨recName, d1⟩ := nd
  have hv : d1.view_ = d.view_ := parseNameLoop_view _ _ _ _ _ hp
  rw [hp] at hd
  simp only at hd
  simp only [readRecord, hp]
  have hlen : (d1.getShort.2.getShort.2.getLong.2.getShort.2.slice
      d1.getShort.2.getShort.2.getLong.2.getShort.1).1.length ≤ d.view_.length := by
    have := slice_length_le d1.getShort.2.getShort.2.getLong.2.getShort.2
      d1.getShort.2.getShort.2.getLong.2.getShort.1
    simpa [getShort_view, getLong_view, hv] using this
  obtain ⟨r', hr'⟩ := @parseDataSection_pointerFree fuel mgr d1.getShort.1
    (d1.getShort.2.getShort.2.getLong.2.getShort.2.slice
      d1.getShort.2.getShort.2.getLong.2.getShort.1).1
    (((newRecordOfType d1.getShort.1 recName d1.getShort.2.getShort.1
      d1.getShort.2.getShort.2.getLong.1
      (d1.getShort.2.getShort.2.getLong.2.getShort.2.slice
        d1.getShort.2.getShort.2.getLong.2.getShort.1).1).setLblPointManager mgr).setData
      (DataTxt.binary (d1.getShort.2.getShort.2.getLong.2.getShort.2.slice
        d1.getShort.2.getShort.2.getLong.2.getShort.1).1))
    (by omega) hd
  rw [hr']
  exact ⟨_, _, rfl, by simp [slice_view, getShort_view, getLong_view, hv]⟩

theorem recordLoop_checked (body : Deserializer → Option (DNSRecord × Deserializer))
    (ok : Deserializer → Bool) (sec : PacketSection) (view : List Nat)
    (hbody : ∀ d : Deserializer, d.view_ = view → ok d = true →
      ∃ r d', body d = some (r, d') ∧ d'.view_ = view) (n : Nat) :
    ∀ (d : Deserializer) (p : DNSPacket), d.view_ = view →
      chainTargetsOk ok body n d = true →
      ∃ p' d', recordLoop body sec n d p = some (p', d') ∧ d'.view_ = view := by
  induction n with
  | zero => intro d p hd _; exact ⟨p, d, rfl, hd⟩
  | succ n ih =>
    intro d p hd hok
    simp only [chainTargetsOk, Bool.and_eq_true] at hok
    obtain ⟨r, d1, hb, hd1⟩ := hbody d hd hok.1
    have hok2 := hok.2
    rw [hb] at hok2
    obtain ⟨p', d', hl, hd'⟩ := ih d1 (p.push sec r) hd1 hok2
    exact ⟨p', d', by simp only [recordLoop, hb, hl], hd'⟩

theorem deserializePacket_checked (okQ okR : Deserializer → Bool) (fuel : Nat)
    (data : List Nat)
    (hq : ∀ d : Deserializer, d.view_ = data → okQ d = true →
      ∃ r d', readQuestion fuel ⟨data⟩ d = some (r, d') ∧ d'.view_ = data)
    (hr : ∀ d : Deserializer, d.view_ = data → okR d = true →
      ∃ r d', readRecord fuel ⟨data⟩ d = some (r, d') ∧ d'.view_ = data)
    (hok : packetChecks okQ okR fuel data = true) :
    ∃ pd, (DNSPacketDeserializer.new data ⟨data⟩).deserializePacket fuel = some pd := by
  simp only [packetChecks, Bool.and_eq_true, questionLoop_eq, sectionLoop_eq] at hok
  simp only [DNSPacketDeserializer.deserializePacket, DNSPacketDeserializer.new,
    questionLoop_eq, sectionLoop_eq]
  obtain ⟨hok1, hok2⟩ := hok
  obtain ⟨p1, d7, h1, v1⟩ := recordLoop_checked (readQuestion fuel ⟨data⟩) okQ
    PacketSection.QUESTION data hq _ _
    (DNSPacket.new (Deserializer.new data).getShort.2.getShort.1) rfl hok1
  rw [h1] at hok2 ⊢
  simp only [Bool.and_eq_true] at hok2 ⊢
  obtain ⟨hok3, hok4⟩ := hok2
  obtain ⟨p2, d8, h2, v2⟩ := recordLoop_checked (readRecord fuel ⟨data⟩) okR
    PacketSection.ANSWER data hr _ d7 p1 v1 hok3
  rw [h2] at hok4 ⊢
  simp only [Bool.and_eq_true] at hok4 ⊢
  obtain ⟨hok5, hok6⟩ := hok4
  obtain ⟨p3, d9, h3, v3⟩ := recordLoop_checked (readRecord fuel ⟨data⟩) okR
    PacketSection.AUTHORITY data hr _ d8 p2 v2 hok5
  rw [h3] at hok6 ⊢
  simp only at hok6 ⊢
  obtain ⟨p4, d10, h4, _⟩ := recordLoop_checked (readRecord fuel ⟨data⟩) okR
    PacketSection.ADDITIONAL data hr _ d9 p3 v3 hok6
  rw [h4]
  exact ⟨_, rfl⟩

theorem decodeResponse_short (fuel : Nat) (short : List Nat) (h : short.length < 6) :
    (decodeResponse fuel short).map (fun p => (p.qd, p.an, p.ns, p.ar)) =
      some ([], [], [], []) := by
  rcases short with _ | ⟨b0, _ | ⟨b1, _ | ⟨b2, _ | ⟨b3, _ | ⟨b4, _ | ⟨b5, rest⟩⟩⟩⟩⟩⟩
  · rfl
  · rfl
  · rfl
  · rfl
  · rfl
  · rfl
  · simp only [List.length_cons] at h
    omega

/-- C34: for every buffer of at least twelve bytes (each below 256) in which
no name that the decode parses ends in a compression pointer,
`deserializePacket` returns (with fuel for one step more than the buffer has
bytes) a packet whose QUESTION, ANSWER, AUTHORITY and ADDITIONAL sections hold
exactly the numbers of records of header bytes 4-5, 6-7, 8-9 and 10-11, also
when the buffer ends before these records; and for every buffer of fewer than
six bytes it returns, with any fuel, a packet with no record in any section. -/
theorem decode_without_pointer (a0 a1 f0 f1 q0 q1 n0 n1 s0 s1 r0 r1 : Nat)
    (rest data short : List Nat) (fuel : Nat)
    (hdata : data = a0 :: a1 :: f0 :: f1 :: q0 :: q1 :: n0 :: n1 :: s0 :: s1 :: r0 :: r1 :: rest)
    (hbytes : ∀ b ∈ data, b < 256)
    (hfree : packetPointerFree fuel data = true) (hfuel : data.length + 1 ≤ fuel)
    (hshort : short.length < 6) :
    (∃ (pd : DNSPacketDeserializer) (p : DNSPacket),
      (DNSPacketDeserializer.new data ⟨data⟩).deserializePacket fuel = some pd ∧
      pd.getDeserializedPacket = some p ∧
      p.qd.length = q0 * 256 + q1 ∧ p.an.length = n0 * 256 + n1 ∧
      p.ns.length = s0 * 256 + s1 ∧ p.ar.length = r0 * 256 + r1) ∧
    (∀ fuel' : Nat, ∃ p, decodeResponse fuel' short = some p ∧
      p.qd = [] ∧ p.an = [] ∧ p.ns = [] ∧ p.ar = []) := by
  constructor
  · have hq : q0 < 256 := hbytes q0 (by simp [hdata])
    have hn : n0 < 256 := hbytes n0 (by simp [hdata])
    have hs : s0 < 256 := hbytes s0 (by simp [hdata])
    have hr : r0 < 256 := hbytes r0 (by simp [hdata])
    obtain ⟨pd, hpd⟩ := deserializePacket_checked _ _ fuel data
      (fun d hd hok => by
        obtain ⟨r, d', h1, h2⟩ := @readQuestion_pointerFree fuel ⟨data⟩ d
          (by rw [hd]; exact hfuel) hok
        exact ⟨r, d', h1, h2.trans hd⟩)
      (fun d hd hok => by
        obtain ⟨r, d', h1, h2⟩ := @readRecord_pointerFree fuel ⟨data⟩ d
          (by rw [hd]; exact hfuel) hok
        exact ⟨r, d', h1, h2.trans hd⟩) hfree
    have hpd' := hpd
    subst hdata
    obtain ⟨p', d1, d2, d3, d4, e, c1, c2, c3, c4, _⟩ :=
      deserializePacket_shape fuel _ a0 a1 f0 f1 q0 q1 n0 n1 s0 s1 r0 r1 rest hq hn hs hr pd hpd
    exact ⟨pd, p', hpd', by rw [e]; rfl, c1, c2, c3, c4⟩
  · intro fuel'
    have h := decodeResponse_short fuel' short hshort
    cases hd : decodeResponse fuel' short with
    | none => rw [hd] at h; exact Option.noConfusion h
    | some p =>
      rw [hd] at h
      simp only [Option.map, Option.some.injEq, Prod.mk.injEq] at h
      exact ⟨p, rfl, h.1, h.2.1, h.2.2.1, h.2.2.2⟩

set_option maxHeartbeats 4000000 in
/-- C34 on `cutResponse`, which announces one question and one answer and ends
inside the data section of the answer (its last bytes are the data bytes 192
and 0), and on the buffer of the five bytes 0 0 1 0 0. -/
theorem decode_without_pointer_witness :
    (∀ b ∈ cutResponse, b < 256) ∧ packetPointerFree 35 cutResponse = true ∧
    (∃ (pd : DNSPacketDeserializer) (p : DNSPacket),
      (DNSPacketDeserializer.new cutResponse ⟨cutResponse⟩).deserializePacket 35 = some pd ∧
      pd.getDeserializedPacket = some p ∧
      p.qd.length = 0 * 256 + 1 ∧ p.an.length = 0 * 256 + 1 ∧
      p.ns.length = 0 * 256 + 0 ∧ p.ar.length = 0 * 256 + 0) ∧
    (∃ p, decodeResponse 0 [0, 0, 1, 0, 0] = some p ∧
      p.qd = [] ∧ p.an = [] ∧ p.ns = [] ∧ p.ar = []) :=
  have hb : ∀ b ∈ cutResponse, b < 256 := by decide
  have hf : packetPointerFree 35 cutResponse = true := by decide!
  have h := decode_without_pointer 0 0 0x81 0x80 0 1 0 1 0 0 0 0
    [1, 97, 0, 0, 1, 0, 1, 1, 97, 0, 0, 1, 0, 1, 0, 0, 0, 60, 0, 4, 192, 0]
    cutResponse [0, 0, 1, 0, 0] 35 rfl hb hf (by decide) (by decide)
  ⟨hb, hf, h.1, h.2 0⟩

/-! ## The class of a decoded record (C35) -/

theorem parseNibbles_cl (n : Nat) :
    ∀ (d : Deserializer) (k : Nat) (txt : JSString) (r : DNSRecord),
      (parseNibbles n d k txt r).2.1.cl_ = r.cl_ ∧
      (parseNibbles n d k txt r).2.1.type_ = r.type_ := by
  induction n with
  | zero => intro d k txt r; exact ⟨rfl, rfl⟩
  | succ n ih =>
    intro d k txt r
    simp only [parseNibbles]
    split
    · exact ⟨rfl, rfl⟩
    · rw [(ih _ _ _ _).1, (ih _ _ _ _).2]
      exact ⟨rfl, rfl⟩

theorem parseDataSection_cl {fuel : Nat} {mgr : RespLabelPtManager} {ty : JSVal}
    {data : List Nat} {r r' : DNSRecord}
    (h : parseDataSection fuel mgr ty data r = some r') :
    r'.cl_ = r.cl_ ∧ r'.type_ = r.type_ := by
  unfold parseDataSection at h
  simp only at h
  split_ifs at h
  · injection h with h
    rw [← h]
    exact ⟨rfl, rfl⟩
  · injection h with h
    rw [← h]
    exact parseNibbles_cl _ _ _ _ _
  · split at h
    · exact Option.noConfusion h
    · injection h with h
      rw [← h]
      exact ⟨rfl, rfl⟩
  · injection h with h
    rw [← h]
    exact ⟨rfl, rfl⟩
  · split at h
    · exact Option.noConfusion h
    · injection h with h
      rw [← h]
      exact ⟨rfl, rfl⟩
  · injection h with h
    rw [← h]
    exact ⟨rfl, rfl⟩

theorem newRecordOfType_cl (ty : Int) (recName : JSString) (recClass recTTL : JSVal)
    (data : List Nat) :
    (newRecordOfType (JSVal.num ty) recName recClass recTTL data).cl_ =
      (if ty = 1 ∨ ty = 5 ∨ ty = 15 ∨ ty = 16 ∨ ty = 28 then JSVal.num 1 else recClass) ∧
    (newRecordOfType (JSVal.num ty) recName recClass recTTL data).type_ = JSVal.num ty := by
  by_cases h1 : ty = 1
  · subst h1; exact ⟨rfl, rfl⟩
  by_cases h5 : ty = 5
  · subst h5; exact ⟨rfl, rfl⟩
  by_cases h15 : ty = 15
  · subst h15; exact ⟨rfl, rfl⟩
  by_cases h16 : ty = 16
  · subst h16; exact ⟨rfl, rfl⟩
  by_cases h28 : ty = 28
  · subst h28; exact ⟨rfl, rfl⟩
  rw [newRecordOfType_other _ _ _ _ _ h1 h5 h15 h16 h28]
  simp [h1, h5, h15, h16, h28, DNSRecord.newGeneric, DNSRecord.newQuestion]

/-- C35: for every non-question record that lies inside the buffer, with the
type bytes ty0 ty1 and the class bytes c0 c1 on the wire: whenever the record
is decoded, `getCl()` is 1 when the type is 1, 5, 15, 16 or 28, whatever c0 and
c1 are, and the wire class c0*256 + c1 for every other type (a plain
`DNSRecord`); the record is decoded as soon as name resolution ends within `F`
steps from every offset; and a question read at the same place reports the
wire class, whatever its type. -/
theorem decoded_class (fuel : Nat) (mgr : RespLabelPtManager) (d : Deserializer)
    (recName : JSString) (view : List Nat) (n ty0 ty1 c0 c1 t0 t1 t2 t3 l0 l1 : Nat)
    (data rest : List Nat) (hview : ∀ b ∈ view, b < 256)
    (hname : parseName fuel mgr d = some (recName, ⟨view, JSVal.num n⟩))
    (hwire : view.drop n = [ty0, ty1, c0, c1, t0, t1, t2, t3, l0, l1] ++ (data ++ rest))
    (hlen : data.length = l0 * 256 + l1) :
    (∀ (r : DNSRecord) (d' : Deserializer), readRecord fuel mgr d = some (r, d') →
      r.getType = JSVal.num ((ty0 * 256 + ty1 : Nat) : Int) ∧
      ((ty0 * 256 + ty1 = 1 ∨ ty0 * 256 + ty1 = 5 ∨ ty0 * 256 + ty1 = 15 ∨
          ty0 * 256 + ty1 = 16 ∨ ty0 * 256 + ty1 = 28) → r.getCl = JSVal.num 1) ∧
      ((ty0 * 256 + ty1 ≠ 1 ∧ ty0 * 256 + ty1 ≠ 5 ∧ ty0 * 256 + ty1 ≠ 15 ∧
          ty0 * 256 + ty1 ≠ 16 ∧ ty0 * 256 + ty1 ≠ 28) →
        r.getCl = JSVal.num ((c0 * 256 + c1 : Nat) : Int))) ∧
    (∀ F : Nat, ResolvesWithin F mgr → data.length + F + 2 ≤ fuel →
      ∃ (r : DNSRecord) (d' : Deserializer), readRecord fuel mgr d = some (r, d')) ∧
    (∃ (q : DNSRecord) (d' : Deserializer), readQuestion fuel mgr d = some (q, d') ∧
      q.getType = JSVal.num ((ty0 * 256 + ty1 : Nat) : Int) ∧
      q.getCl = JSVal.num ((c0 * 256 + c1 : Nat) : Int)) := by
  have hty0 : ty0 < 256 := byte_of_drop hview hwire (by simp)
  have hc0 : c0 < 256 := byte_of_drop hview hwire (by simp)
  have hl0 : l0 < 256 := byte_of_drop hview hwire (by simp)
  have hrec := readRecord_of_wire ty0 ty1 c0 c1 t0 t1 t2 t3 l0 l1 data rest
    hname hwire hty0 hc0 hl0 hlen
  refine ⟨fun r d' h => ?_, fun F hterm hfuel => ?_, ?_⟩
  · rw [hrec] at h
    split at h
    · exact Option.noConfusion h
    · rename_i r3 hr3
      simp only [Option.some.injEq, Prod.mk.injEq] at h
      obtain ⟨h, _⟩ := h
      subst h
      obtain ⟨ecl, ety⟩ := parseDataSection_cl hr3
      obtain ⟨ncl, nty⟩ := newRecordOfType_cl ((ty0 * 256 + ty1 : Nat) : Int) recName
        (JSVal.num ((c0 * 256 + c1 : Nat) : Int))
        (Deserializer.getLong ⟨view, JSVal.num ((n + 4 : Nat) : Int)⟩).1 data
      simp only [DNSRecord.setData, DNSRecord.setLblPointManager] at ecl ety
      rw [ncl] at ecl
      rw [nty] at ety
      refine ⟨ety, fun hty => ?_, fun hty => ?_⟩
      · rw [DNSRecord.getCl, ecl, if_pos (by omega)]
      · rw [DNSRecord.getCl, ecl, if_neg (by omega)]
  · obtain ⟨r', hr'⟩ := @parseDataSection_total F mgr hterm fuel
      (JSVal.num ((ty0 * 256 + ty1 : Nat) : Int)) data
      (((newRecordOfType (JSVal.num ((ty0 * 256 + ty1 : Nat) : Int)) recName
        (JSVal.num ((c0 * 256 + c1 : Nat) : Int))
        (Deserializer.getLong ⟨view, JSVal.num ((n + 4 : Nat) : Int)⟩).1
        data).setLblPointManager mgr).setData (DataTxt.binary data)) hfuel
    rw [hrec, hr']
    exact ⟨r', _, rfl⟩
  · have h2 : view.drop (n + 2) = [c0, c1, t0, t1, t2, t3, l0, l1] ++ (data ++ rest) :=
      drop_succ_of_drop (drop_succ_of_drop hwire)
    have eType := getShort_of_drop hwire hty0
    have eClass := getShort_of_drop h2 hc0
    exact ⟨(DNSRecord.newQuestion recName (JSVal.num ((ty0 * 256 + ty1 : Nat) : Int))
        (JSVal.num ((c0 * 256 + c1 : Nat) : Int))).setLblPointManager mgr,
      ⟨view, JSVal.num ((n + 2 + 2 : Nat) : Int)⟩,
      by simp only [readQuestion, hname, eType, eClass], rfl, rfl⟩

/-- C35 on the answer of `classThreeResponse`, an address record with the
class bytes 0 3: the decoded record reports class 1, and a question read at
the same place reports class 3. -/
theorem decoded_class_witness :
    (∀ b ∈ classThreeResponse, b < 256) ∧
    parseName 12 ⟨classThreeResponse⟩ ⟨classThreeResponse, JSVal.num 19⟩ =
      some (str "a", ⟨classThreeResponse, JSVal.num (21 : Nat)⟩) ∧
    ResolvesWithin 6 ⟨classThreeResponse⟩ ∧
    (∃ r d', readRecord 12 ⟨classThreeResponse⟩ ⟨classThreeResponse, JSVal.num 19⟩ =
        some (r, d') ∧ r.getCl = JSVal.num 1) ∧
    (∃ q d', readQuestion 12 ⟨classThreeResponse⟩ ⟨classThreeResponse, JSVal.num 19⟩ =
        some (q, d') ∧ q.getCl = JSVal.num 3) :=
  have hv : ∀ b ∈ classThreeResponse, b < 256 := by decide
  have hn : parseName 12 ⟨classThreeResponse⟩ ⟨classThreeResponse, JSVal.num 19⟩ =
      some (str "a", ⟨classThreeResponse, JSVal.num (21 : Nat)⟩) := by decide!
  have ht : ResolvesWithin 6 ⟨classThreeResponse⟩ := by decide!
  have h := decoded_class 12 ⟨classThreeResponse⟩ ⟨classThreeResponse, JSVal.num 19⟩ (str "a")
    classThreeResponse 21 0 1 0 3 0 0 0 60 0 4 [1, 2, 3, 4] [] hv hn (by decide) (by decide)
  ⟨hv, hn, ht,
    (h.2.1 6 ht (by decide)).elim fun r hr => hr.elim fun d' hd =>
      ⟨r, d', hd, (h.1 r d' hd).2.1 (by decide)⟩,
    h.2.2.elim fun q hq => hq.elim fun d' hd => ⟨q, d', hd.1, hd.2.2⟩⟩

/-! ## A hostname with a trailing dot (C36) -/

theorem splitDot_trailing_dot (h0 : JSString) : splitDot (h0 ++ [46]) = splitDot h0 ++ [[]] := by
  induction h0 with
  | nil => simp [splitDot]
  | cons c cs ih =>
    rw [List.cons_append, splitDot, splitDot, ih]
    by_cases hc : c = 46
    · simp [hc]
    · simp only [hc, if_false]
      cases hs : splitDot cs with
      | nil => exact absurd hs (splitDot_ne_nil cs)
      | cons part parts => rfl

theorem labels_append (a b : List JSString) :
    WireSpec.labels (a ++ b) = WireSpec.labels a ++ WireSpec.labels b := by
  induction a with
  | nil => rfl
  | cons l ls ih => simp [WireSpec.labels, ih]

theorem name_trailing_dot (h0 : JSString) :
    WireSpec.name (h0 ++ [46]) = WireSpec.labels (splitDot h0) ++ [0, 0] := by
  simp [WireSpec.name, splitDot_trailing_dot, labels_append, WireSpec.labels]

theorem nameFits_trailing_dot {h0 : JSString} (h : WireSpec.NameFits h0) :
    WireSpec.NameFits (h0 ++ [46]) := by
  intro part hp
  rw [splitDot_trailing_dot, List.mem_append, List.mem_singleton] at hp
  rcases hp with hp | hp
  · exact h part hp
  · subst hp
    exact ⟨by simp, by simp⟩

/-- C36: for every hostname h0 followed by a '.', `serializeName` writes the
labels of h0, then the length byte 0 of an empty label, then the terminator 0;
and when h0 is well formed (non-empty labels of at most 63 characters with
codes below 256, at most 252 characters in all), decoding the serialized
question for h0 + '.' with type t and class c gives one question whose name is
h0, without the trailing dot, whose type is the byte pair read one byte early,
0 and the high byte of t, and whose class is the low byte of t followed by
the high byte of c. -/
theorem trailing_dot_not_restored (f : JSVal) (h0 : JSString) (t c fuel : Nat)
    (hlabels : ∀ l ∈ splitDot h0, l ≠ [] ∧ l.length ≤ 63 ∧ ∀ ch ∈ l, ch < 256)
    (hlen : h0.length ≤ 252) (ht : t < 65536) (hc : c < 65536)
    (hfuel : (splitDot h0).length + 1 ≤ fuel) :
    (∀ (s : Serializer) (bs : List Nat), s.Wrote bs →
      (serializeName (h0 ++ [46]) s JSVal.undefined).Wrote
        (bs ++ (WireSpec.labels (splitDot h0) ++ [0, 0]))) ∧
    ∃ bytes p r,
      serialize ((DNSPacket.new f).push PacketSection.QUESTION
        (DNSRecord.newQuestion (h0 ++ [46]) (JSVal.num t) (JSVal.num c))) = some bytes ∧
      decodeResponse fuel bytes = some p ∧
      p.qd = [r] ∧ p.an = [] ∧ p.ns = [] ∧ p.ar = [] ∧
      r.getName = h0 ∧ r.getName ≠ h0 ++ [46] ∧
      r.getType = JSVal.num ((0 * 256 + t / 256 : Nat) : Int) ∧
      r.getCl = JSVal.num ((t % 256 * 256 + c / 256 : Nat) : Int) := by
  have hfit0 : WireSpec.NameFits h0 :=
    fun l hl => ⟨by have := (hlabels l hl).2.1; omega, (hlabels l hl).2.2⟩
  have hfit := nameFits_trailing_dot hfit0
  constructor
  · intro s bs hs
    have := Serializer.wrote_name hs hfit
    rwa [name_trailing_dot] at this
  obtain ⟨x, y, hser⟩ := serialize_question_only f (h0 ++ [46]) t c hfit ht hc
  have hlab := labels_splitDot_length h0
  rw [splitDot_trailing_dot, labels_append] at hser
  rw [List.take_of_length_le (by simp [WireSpec.labels]; omega)] at hser
  generalize hrest : (WireSpec.labels (splitDot h0) ++ WireSpec.labels [[]]) ++
    0 :: (t / 256) :: (t % 256) :: (c / 256) :: (c % 256) :: [] = rest at hser
  generalize hview : 0 :: 0 :: x :: y :: 0 :: 1 :: 0 :: 0 :: 0 :: 0 :: 0 :: 0 :: rest = view
    at hser
  have hdrop : view.drop 12 = WireSpec.labels (splitDot h0) ++
      0 :: 0 :: (t / 256) :: (t % 256) :: (c / 256) :: [c % 256] := by
    rw [← hview, ← hrest]
    simp [WireSpec.labels]
  have hq := @readQuestion_of_wire fuel ⟨view⟩ view 12 0 (t / 256) (t % 256) (c / 256)
    (splitDot h0) [c % 256] (fun l hl => labelOk_of_short (hlabels l hl)) hdrop
    (by omega) (by omega) hfuel
  rw [joinDot_splitDot] at hq
  have hdec := deserializePacket_header fuel ⟨view⟩ 0 0 x y 0 1 0 0 0 0 0 0 rest
    (by omega) (by omega) (by omega) (by omega)
  rw [hview] at hdec
  have hloop : ∀ p0 : DNSPacket, questionLoop fuel ⟨view⟩ (0 * 256 + 1)
      ⟨view, JSVal.num ((12 : Nat) : Int)⟩ p0 =
      some (p0.push PacketSection.QUESTION
        ((DNSRecord.newQuestion h0 (JSVal.num ((0 * 256 + t / 256 : Nat) : Int))
          (JSVal.num ((t % 256 * 256 + c / 256 : Nat) : Int))).setLblPointManager ⟨view⟩),
        ⟨view, JSVal.num ((12 + (WireSpec.labels (splitDot h0)).length + 5 : Nat) : Int)⟩) := by
    intro p0
    show (match readQuestion fuel ⟨view⟩ ⟨view, JSVal.num ((12 : Nat) : Int)⟩ with
      | none => none
      | some (dnsRecord, d1) =>
        questionLoop fuel ⟨view⟩ 0 d1 (p0.push PacketSection.QUESTION dnsRecord)) = _
    rw [hq]
    rfl
  have hsec : ∀ (sec : PacketSection) (d : Deserializer) (p0 : DNSPacket),
      sectionLoop fuel ⟨view⟩ sec (0 * 256 + 0) d p0 = some (p0, d) := fun _ _ _ => rfl
  simp only [hloop, hsec] at hdec
  refine ⟨view,
    (DNSPacket.new (Deserializer.getShort ⟨view, JSVal.num ((2 : Nat) : Int)⟩).1).push
      PacketSection.QUESTION
      ((DNSRecord.newQuestion h0 (JSVal.num ((0 * 256 + t / 256 : Nat) : Int))
          (JSVal.num ((t % 256 * 256 + c / 256 : Nat) : Int))).setLblPointManager ⟨view⟩),
    (DNSRecord.newQuestion h0 (JSVal.num ((0 * 256 + t / 256 : Nat) : Int))
          (JSVal.num ((t % 256 * 256 + c / 256 : Nat) : Int))).setLblPointManager ⟨view⟩,
    hser, ?_, ?_⟩
  · simp only [decodeResponse, hdec, DNSPacketDeserializer.getDeserializedPacket]
  · refine ⟨?_, ?_, ?_, ?_, ?_, ?_, ?_, ?_⟩
    · simp [DNSPacket.push, DNSPacket.new]
    · simp [DNSPacket.push, DNSPacket.new]
    · simp [DNSPacket.push, DNSPacket.new]
    · simp [DNSPacket.push, DNSPacket.new]
    · rfl
    · intro e
      have := congrArg List.length e
      simp [DNSRecord.getName, DNSRecord.newQuestion, DNSRecord.setLblPointManager] at this
    · rfl
    · rfl

/-- C36 on 'google.com.' with type 1 and class 1: the decoded question has the
name 'google.com', the type 0 and the class 256. -/
theorem trailing_dot_not_restored_witness :
    (∀ l ∈ splitDot (str "google.com"), l ≠ [] ∧ l.length ≤ 63 ∧ ∀ ch ∈ l, ch < 256) ∧
    (serializeName (str "google.com" ++ [46]) Serializer.new JSVal.undefined).Wrote
      ([] ++ (WireSpec.labels (splitDot (str "google.com")) ++ [0, 0])) ∧
    ∃ bytes p r,
      serialize ((DNSPacket.new (JSVal.num 0x100)).push PacketSection.QUESTION
        (DNSRecord.newQuestion (str "google.com" ++ [46]) (JSVal.num (1 : Nat))
          (JSVal.num (1 : Nat)))) = some bytes ∧
      decodeResponse 3 bytes = some p ∧
      p.qd = [r] ∧ p.an = [] ∧ p.ns = [] ∧ p.ar = [] ∧
      r.getName = str "google.com" ∧ r.getName ≠ str "google.com" ++ [46] ∧
      r.getType = JSVal.num ((0 * 256 + 1 / 256 : Nat) : Int) ∧
      r.getCl = JSVal.num ((1 % 256 * 256 + 1 / 256 : Nat) : Int) :=
  have hl : ∀ l ∈ splitDot (str "google.com"), l ≠ [] ∧ l.length ≤ 63 ∧ ∀ ch ∈ l, ch < 256 := by
    decide
  have h := trailing_dot_not_restored (JSVal.num 0x100) (str "google.com") 1 1 3 hl
    (by decide) (by decide) (by decide) (by decide)
  ⟨hl, h.1 Serializer.new [] Serializer.wrote_new, h.2⟩

/-! ## Decoding a serialized packet of questions (C37) -/

theorem parseNameLoop_length_byte {view : List Nat} {n k : Nat} {rest : List Nat}
    (h : view.drop n = k :: rest) (h0 : k ≠ 0) (h192 : k ≠ 192) (fuel : Nat)
    (mgr : RespLabelPtManager) (parts : List JSString) :
    parseNameLoop (fuel + 1) mgr ⟨view, JSVal.num n⟩ parts =
      parseNameLoop fuel mgr ⟨view, JSVal.num ((n + 1 + k : Nat) : Int)⟩
        (parts ++ [(parseLabel k ⟨view, JSVal.num ((n + 1 : Nat) : Int)⟩ []).1]) := by
  have e1 : JSVal.num (k : Int) ≠ JSVal.num 192 := by
    intro e
    injection e with e
    omega
  have e2 : (k : Int) ≠ 0 := by omega
  have e3 : (parseLabel k ⟨view, JSVal.num ((n + 1 : Nat) : Int)⟩ []) =
      ((parseLabel k ⟨view, JSVal.num ((n + 1 : Nat) : Int)⟩ []).1,
        ⟨view, JSVal.num ((n + 1 + k : Nat) : Int)⟩) :=
    Prod.ext rfl (parseLabel_loc k view (n + 1) [])
  rw [parseNameLoop]
  simp only [getByte_of_drop h, JSVal.truthy, JSVal.iterations, Int.toNat_ofNat]
  rw [e3]
  simp [e1, e2]

theorem drop_prefix_step {view : List Nat} {n : Nat} {W : List Nat} (k : Nat)
    (h : view.drop n <+: W) : view.drop (n + k) <+: W.drop k := by
  have := h.drop k
  rwa [List.drop_drop] at this

theorem parseNameLoop_prefix (mgr : RespLabelPtManager) (view : List Nat) (W : List Nat)
    (ls : List JSString) :
    ∀ (n : Nat) (parts : List JSString) (fuel : Nat),
      (∀ l ∈ ls, WireSpec.LabelOk l) → view.drop n <+: WireSpec.labels ls ++ 0 :: W →
      ls.length + 1 ≤ fuel →
      ∃ (s : JSString) (n' : Nat),
        parseNameLoop fuel mgr ⟨view, JSVal.num n⟩ parts =
          some (s, ⟨view, JSVal.num (n' : Int)⟩) ∧ view.drop n' <+: W := by
  induction ls with
  | nil =>
    intro n parts fuel _ hpre hfuel
    obtain ⟨f, rfl⟩ : ∃ f, fuel = f + 1 := ⟨fuel - 1, by simp at hfuel; omega⟩
    simp only [WireSpec.labels, List.nil_append] at hpre
    cases hd : view.drop n with
    | nil =>
      have hle : view.length ≤ n := List.drop_eq_nil_iff.mp hd
      refine ⟨_, n + 1, parseNameLoop_past_end hle f mgr parts, ?_⟩
      rw [List.drop_eq_nil_iff.mpr (by omega)]
      exact List.nil_prefix
    | cons x rest =>
      rw [hd] at hpre
      obtain ⟨hx, hrest⟩ := List.cons_prefix_cons.mp hpre
      subst hx
      refine ⟨_, n + 1, parseNameLoop_end hd f mgr parts, ?_⟩
      rw [drop_succ_of_drop hd]
      exact hrest
  | cons l ls ih =>
    intro n parts fuel hl hpre hfuel
    obtain ⟨f, rfl⟩ : ∃ f, fuel = f + 1 := ⟨fuel - 1, by simp at hfuel; omega⟩
    cases hd : view.drop n with
    | nil =>
      have hle : view.length ≤ n := List.drop_eq_nil_iff.mp hd
      refine ⟨_, n + 1, parseNameLoop_past_end hle f mgr parts, ?_⟩
      rw [List.drop_eq_nil_iff.mpr (by omega)]
      exact List.nil_prefix
    | cons x rest =>
      have hpre' : view.drop n <+:
          l.length :: (l ++ (WireSpec.labels ls ++ 0 :: W)) := by
        simpa [WireSpec.labels, List.append_assoc] using hpre
      have hx : x = l.length := by
        rw [hd] at hpre'
        exact (List.cons_prefix_cons.mp hpre').1
      subst hx
      obtain ⟨hne, h192, _, _⟩ := hl l (List.mem_cons_self _ _)
      have hpos : l.length ≠ 0 := fun e => hne (List.length_eq_zero.mp e)
      have hnext : view.drop (n + 1 + l.length) <+: WireSpec.labels ls ++ 0 :: W := by
        have h1 := drop_prefix_step (1 + l.length) hpre'
        rw [← Nat.add_assoc] at h1
        have e : (l.length :: (l ++ (WireSpec.labels ls ++ 0 :: W))).drop (1 + l.length) =
            WireSpec.labels ls ++ 0 :: W := by
          rw [Nat.add_comm, List.drop_succ_cons, List.drop_left]
        rwa [e] at h1
      obtain ⟨s, n', hs, hn'⟩ := ih (n + 1 + l.length)
        (parts ++ [(parseLabel l.length ⟨view, JSVal.num ((n + 1 : Nat) : Int)⟩ []).1]) f
        (fun q hq => hl q (List.mem_cons_of_mem _ hq)) hnext
        (by simp only [List.length_cons] at hfuel; omega)
      exact ⟨s, n', by rw [parseNameLoop_length_byte hd hpos h192, hs], hn'⟩

theorem readQuestion_prefix (mgr : RespLabelPtManager) (view : List Nat) (W : List Nat)
    (q : DNSRecord) (n fuel : Nat)
    (hl : ∀ l ∈ splitDot q.name_, WireSpec.LabelOk l)
    (hpre : view.drop n <+: WireSpec.record q ++ W)
    (hfuel : (splitDot q.name_).length + 1 ≤ fuel) :
    ∃ (r : DNSRecord) (n' : Nat),
      readQuestion fuel mgr ⟨view, JSVal.num n⟩ = some (r, ⟨view, JSVal.num (n' : Int)⟩) ∧
      view.drop n' <+: W := by
  have hpre' : view.drop n <+: WireSpec.labels (splitDot q.name_) ++
      0 :: (WireSpec.be16 q.type_.toInteger.toNat ++ WireSpec.be16 q.cl_.toInteger.toNat ++
        W) := by
    simpa [WireSpec.record, WireSpec.name, List.append_assoc] using hpre
  obtain ⟨s, n1, hs, hn1⟩ := parseNameLoop_prefix mgr view _ (splitDot q.name_) n [] fuel hl
    hpre' hfuel
  have h4 := drop_prefix_step 4 hn1
  have e : (WireSpec.be16 q.type_.toInteger.toNat ++ WireSpec.be16 q.cl_.toInteger.toNat ++
      W).drop 4 = W := by
    simp [WireSpec.be16]
  rw [e] at h4
  have g1 := getShort_loc view n1
  have g2 := getShort_loc view (n1 + 2)
  have hr : readQuestion fuel mgr ⟨view, JSVal.num n⟩ =
      some ((DNSRecord.newQuestion s (Deserializer.getShort ⟨view, JSVal.num (n1 : Int)⟩).1
          (Deserializer.getShort ⟨view, JSVal.num ((n1 + 2 : Nat) : Int)⟩).1).setLblPointManager
          mgr, ⟨view, JSVal.num ((n1 + 2 + 2 : Nat) : Int)⟩) := by
    simp only [readQuestion, parseName, hs]
    rw [show (Deserializer.getShort ⟨view, JSVal.num (n1 : Int)⟩) =
      ((Deserializer.getShort ⟨view, JSVal.num (n1 : Int)⟩).1,
        ⟨view, JSVal.num ((n1 + 2 : Nat) : Int)⟩) from Prod.ext rfl g1]
    simp only
    rw [show (Deserializer.getShort ⟨view, JSVal.num ((n1 + 2 : Nat) : Int)⟩) =
      ((Deserializer.getShort ⟨view, JSVal.num ((n1 + 2 : Nat) : Int)⟩).1,
        ⟨view, JSVal.num ((n1 + 2 + 2 : Nat) : Int)⟩) from Prod.ext rfl g2]
  exact ⟨_, n1 + 2 + 2, hr, h4⟩

theorem questionLoop_prefix (mgr : RespLabelPtManager) (view : List Nat) (W : List Nat)
    (fuel : Nat) (qs : List DNSRecord) :
    ∀ (n : Nat) (p : DNSPacket),
      (∀ q ∈ qs, (∀ l ∈ splitDot q.name_, WireSpec.LabelOk l) ∧
        (splitDot q.name_).length + 1 ≤ fuel) →
      view.drop n <+: WireSpec.records qs ++ W →
      ∃ (p' : DNSPacket) (n' : Nat),
        questionLoop fuel mgr qs.length ⟨view, JSVal.num n⟩ p =
          some (p', ⟨view, JSVal.num (n' : Int)⟩) ∧
        view.drop n' <+: W ∧ p'.flags_ = p.flags_ ∧
        p'.qd.length = p.qd.length + qs.length ∧ p'.an = p.an ∧ p'.ns = p.ns ∧
        p'.ar = p.ar := by
  induction qs with
  | nil =>
    intro n p _ hpre
    exact ⟨p, n, rfl, by simpa [WireSpec.records] using hpre, rfl, rfl, rfl, rfl, rfl⟩
  | cons q qs ih =>
    intro n p hq hpre
    have hpre' : view.drop n <+: WireSpec.record q ++ (WireSpec.records qs ++ W) := by
      simpa [WireSpec.records, List.append_assoc] using hpre
    obtain ⟨r, n1, hr, hn1⟩ := readQuestion_prefix mgr view _ q n fuel
      (hq q (List.mem_cons_self _ _)).1 hpre' (hq q (List.mem_cons_self _ _)).2
    obtain ⟨p', n', hp', hn', hf, hqd, han, hns, har⟩ := ih n1
      (p.push PacketSection.QUESTION r) (fun x hx => hq x (List.mem_cons_of_mem _ hx)) hn1
    refine ⟨p', n', ?_, hn', ?_, ?_, ?_, ?_, ?_⟩
    · simp only [List.length_cons, questionLoop, hr, hp']
    · rw [hf]; rfl
    · rw [hqd]
      simp only [DNSPacket.push, List.length_append, List.length_cons, List.length_nil]
      omega
    · rw [han]; rfl
    · rw [hns]; rfl
    · rw [har]; rfl

/-- C37: for every packet that holds only questions (fewer than 65536), with
flags f in 0..65535, whose hostnames are made of non-empty labels of at most 63
characters with codes below 256 and whose types and classes are 16-bit values:
`serialize` returns bytes, and `deserializePacket` on these bytes returns (with
fuel for one step per label and one more) a packet whose `getFlags()` is f,
whose QUESTION section has as many records as the original, whose ANSWER,
AUTHORITY and ADDITIONAL sections are empty, and the cursor is at or past the
end of the bytes: `isEOF` holds. -/
theorem question_packet_decodes (f : Nat) (qs : List DNSRecord) (fuel : Nat)
    (hf : f < 65536) (hn : qs.length < 65536)
    (hq : ∀ q ∈ qs, (∀ l ∈ splitDot q.name_, l ≠ [] ∧ l.length ≤ 63 ∧ ∀ ch ∈ l, ch < 256) ∧
      WireSpec.IsU16 q.type_ ∧ WireSpec.IsU16 q.cl_)
    (hfuel : ∀ q ∈ qs, (splitDot q.name_).length + 1 ≤ fuel) :
    ∃ (bytes : List Nat) (pd : DNSPacketDeserializer) (p : DNSPacket),
      serialize ⟨JSVal.num f, qs, [], [], []⟩ = some bytes ∧
      (DNSPacketDeserializer.new bytes ⟨bytes⟩).deserializePacket fuel = some pd ∧
      pd.getDeserializedPacket = some p ∧
      p.getFlags = JSVal.num f ∧ p.qd.length = qs.length ∧
      p.an = [] ∧ p.ns = [] ∧ p.ar = [] ∧ pd.dataDeserializer_.isEOF = true := by
  have hfits : WireSpec.PacketFits ⟨JSVal.num f, qs, [], [], []⟩ := by
    refine ⟨⟨f, hf, rfl⟩, ⟨hn, by simp, by simp, by simp⟩, ?_⟩
    intro r hr
    simp only [List.append_nil] at hr
    obtain ⟨hl, ht, hc⟩ := hq r hr
    exact ⟨fun l hl' => ⟨by have := (hl l hl').2.1; omega, (hl l hl').2.2⟩, ht, hc⟩
  have hser := serialize_eq_take _ hfits
  have hview : (WireSpec.packet ⟨JSVal.num f, qs, [], [], []⟩).take 512 =
      0 :: 0 :: (f / 256) :: (f % 256) :: (qs.length / 256) :: (qs.length % 256) ::
        0 :: 0 :: 0 :: 0 :: 0 :: 0 :: (WireSpec.records qs).take 500 := by
    simp [WireSpec.packet, WireSpec.be16, WireSpec.records, JSVal.toInteger]
  rw [hview] at hser
  generalize hv : 0 :: 0 :: (f / 256) :: (f % 256) :: (qs.length / 256) :: (qs.length % 256) ::
        0 :: 0 :: 0 :: 0 :: 0 :: 0 :: (WireSpec.records qs).take 500 = view at hser
  have hdrop : view.drop 12 <+: WireSpec.records qs ++ [] := by
    rw [← hv, List.append_nil]
    exact List.take_prefix _ _
  have hdec := deserializePacket_header fuel ⟨view⟩ 0 0 (f / 256) (f % 256) (qs.length / 256)
    (qs.length % 256) 0 0 0 0 0 0 ((WireSpec.records qs).take 500)
    (by omega) (by omega) (by omega) (by omega)
  rw [hv] at hdec
  have hflags : (Deserializer.getShort ⟨view, JSVal.num ((2 : Nat) : Int)⟩).1 =
      JSVal.num ((f / 256 * 256 + f % 256 : Nat) : Int) := by
    have h2 : view.drop 2 = (f / 256) :: (f % 256) :: (qs.length / 256) ::
        (qs.length % 256) :: 0 :: 0 :: 0 :: 0 :: 0 :: 0 :: (WireSpec.records qs).take 500 := by
      rw [← hv]
      rfl
    rw [getShort_of_drop h2 (by omega)]
  obtain ⟨p1, n', hloop, hn', hfl, hqd, han, hns, har⟩ := questionLoop_prefix ⟨view⟩ view []
    fuel qs 12 (DNSPacket.new (Deserializer.getShort ⟨view, JSVal.num ((2 : Nat) : Int)⟩).1)
    (fun q hq' => ⟨fun l hl => labelOk_of_short ((hq q hq').1 l hl), hfuel q hq'⟩) hdrop
  rw [show qs.length / 256 * 256 + qs.length % 256 = qs.length by omega, hloop] at hdec
  have hsec : ∀ (sec : PacketSection) (d : Deserializer) (p0 : DNSPacket),
      sectionLoop fuel ⟨view⟩ sec (0 * 256 + 0) d p0 = some (p0, d) := fun _ _ _ => rfl
  simp only [hsec] at hdec
  refine ⟨view, _, p1, hser, hdec, rfl, ?_, ?_, ?_, ?_, ?_, ?_⟩
  · rw [DNSPacket.getFlags, hfl, hflags, show f / 256 * 256 + f % 256 = f by omega]
    by_cases h0 : f = 0
    · subst h0
      rfl
    · have : (JSVal.num (f : Int)).truthy = true := by
        simp [JSVal.truthy, h0]
      simp [DNSPacket.new, this]
  · rw [hqd]
    simp [DNSPacket.new]
  · rw [han]; rfl
  · rw [hns]; rfl
  · rw [har]; rfl
  · have hnil : view.drop n' = [] := List.prefix_nil.mp hn'
    have hle : view.length ≤ n' := List.drop_eq_nil_iff.mp hnil
    simp only [Deserializer.isEOF, JSVal.ge, decide_eq_true_eq]
    exact_mod_cast hle

/-- C37 on the packet of `twoQuestions` with the flags 0x100. -/
theorem question_packet_decodes_witness :
    (∀ q ∈ twoQuestions,
      (∀ l ∈ splitDot q.name_, l ≠ [] ∧ l.length ≤ 63 ∧ ∀ ch ∈ l, ch < 256) ∧
      WireSpec.IsU16 q.type_ ∧ WireSpec.IsU16 q.cl_) ∧
    ∃ (bytes : List Nat) (pd : DNSPacketDeserializer) (p : DNSPacket),
      serialize ⟨JSVal.num (256 : Nat), twoQuestions, [], [], []⟩ = some bytes ∧
      (DNSPacketDeserializer.new bytes ⟨bytes⟩).deserializePacket 3 = some pd ∧
      pd.getDeserializedPacket = some p ∧
      p.getFlags = JSVal.num (256 : Nat) ∧ p.qd.length = twoQuestions.length ∧
      p.an = [] ∧ p.ns = [] ∧ p.ar = [] ∧ pd.dataDeserializer_.isEOF = true :=
  have hq : ∀ q ∈ twoQuestions,
      (∀ l ∈ splitDot q.name_, l ≠ [] ∧ l.length ≤ 63 ∧ ∀ ch ∈ l, ch < 256) ∧
      WireSpec.IsU16 q.type_ ∧ WireSpec.IsU16 q.cl_ := by
    intro q hq
    simp only [twoQuestions, List.mem_cons, List.mem_singleton, List.not_mem_nil,
      or_false] at hq
    rcases hq with rfl | rfl
    · exact ⟨by decide, ⟨1, by decide, rfl⟩, ⟨1, by decide, rfl⟩⟩
    · exact ⟨by decide, ⟨28, by decide, rfl⟩, ⟨1, by decide, rfl⟩⟩
  ⟨hq, question_packet_decodes 256 twoQuestions 3 (by decide) (by decide) hq (by decide)⟩

/-! ## Decoding a buffer followed by trailing data (C31) -/

theorem elementGet_append (w t : List Nat) {loc : JSVal}
    (h : ∀ i : Int, loc = JSVal.num i → i < w.length) :
    elementGet (w ++ t) loc = elementGet w loc := by
  cases loc with
  | undefined => rfl
  | nan => rfl
  | num i =>
    have hi := h i rfl
    simp only [elementGet]
    by_cases h0 : 0 ≤ i
    · simp only [h0, if_true]
      rw [List.getElem?_append_left (by omega)]
    · simp only [h0, if_false]

theorem elementGet_nonneg (v : List Nat) (loc : JSVal) :
    ∀ i : Int, elementGet v loc = JSVal.num i → 0 ≤ i := by
  intro i hi
  cases loc with
  | undefined => simp [elementGet] at hi
  | nan => simp [elementGet] at hi
  | num n =>
    simp only [elementGet] at hi
    split at hi
    · split at hi
      · injection hi with hi
        omega
      · exact JSVal.noConfusion hi
    · exact JSVal.noConfusion hi

theorem inside_iff (w : List Nat) (loc : JSVal) :
    Deserializer.inside ⟨w, loc⟩ = true ↔ ∃ i : Int, loc = JSVal.num i ∧ i ≤ w.length := by
  cases loc with
  | undefined => simp [Deserializer.inside, JSVal.ge]
  | nan => simp [Deserializer.inside, JSVal.ge]
  | num n => simp [Deserializer.inside, JSVal.ge]

theorem inside_of_add_one {w : List Nat} {loc : JSVal}
    (h : Deserializer.inside ⟨w, loc.add (JSVal.num 1)⟩ = true) :
    Deserializer.inside ⟨w, loc⟩ = true := by
  rw [inside_iff] at h ⊢
  obtain ⟨i, hi, hle⟩ := h
  cases loc with
  | undefined => simp [JSVal.add] at hi
  | nan => simp [JSVal.add] at hi
  | num n =>
    simp only [JSVal.add, JSVal.num.injEq] at hi
    exact ⟨n, rfl, by omega⟩

theorem getByte_ext (w t : List Nat) (loc : JSVal)
    (h : t = [] ∨ (Deserializer.getByte ⟨w, loc⟩).2.inside = true) :
    Deserializer.getByte ⟨w ++ t, loc⟩ =
      ((Deserializer.getByte ⟨w, loc⟩).1, ⟨w ++ t, (Deserializer.getByte ⟨w, loc⟩).2.loc_⟩) := by
  rcases h with h | h
  · subst h
    rw [List.append_nil]
    rfl
  · simp only [Deserializer.getByte] at h ⊢
    refine Prod.ext ?_ rfl
    simp only
    apply elementGet_append
    intro i hi
    rw [inside_iff] at h
    obtain ⟨j, hj, hle⟩ := h
    cases loc with
    | undefined => simp [JSVal.add, JSVal.sub] at hi
    | nan => simp [JSVal.add, JSVal.sub] at hi
    | num n =>
      simp only [JSVal.add, JSVal.sub, JSVal.num.injEq] at hi hj
      omega

theorem getShort_ext (w t : List Nat) (loc : JSVal)
    (h : t = [] ∨ (Deserializer.getShort ⟨w, loc⟩).2.inside = true) :
    Deserializer.getShort ⟨w ++ t, loc⟩ =
      ((Deserializer.getShort ⟨w, loc⟩).1,
        ⟨w ++ t, (Deserializer.getShort ⟨w, loc⟩).2.loc_⟩) := by
  have h2 : t = [] ∨ (Deserializer.getByte (Deserializer.getByte ⟨w, loc⟩).2).2.inside = true := h
  have h1 : t = [] ∨ (Deserializer.getByte ⟨w, loc⟩).2.inside = true :=
    h.imp id (fun hh => inside_of_add_one hh)
  simp only [Deserializer.getShort]
  rw [getByte_ext w t loc h1]
  have e : (⟨w, (Deserializer.getByte ⟨w, loc⟩).2.loc_⟩ : Deserializer) =
      (Deserializer.getByte ⟨w, loc⟩).2 := rfl
  have := getByte_ext w t (Deserializer.getByte ⟨w, loc⟩).2.loc_ (by rw [e]; exact h2)
  rw [e] at this
  simp only [this]

theorem getLong_ext (w t : List Nat) (loc : JSVal)
    (h : t = [] ∨ (Deserializer.getLong ⟨w, loc⟩).2.inside = true) :
    Deserializer.getLong ⟨w ++ t, loc⟩ =
      ((Deserializer.getLong ⟨w, loc⟩).1,
        ⟨w ++ t, (Deserializer.getLong ⟨w, loc⟩).2.loc_⟩) := by
  have h2 : t = [] ∨
      (Deserializer.getShort (Deserializer.getShort ⟨w, loc⟩).2).2.inside = true := h
  have h1 : t = [] ∨ (Deserializer.getShort ⟨w, loc⟩).2.inside = true :=
    h.imp id (fun hh => inside_of_add_one (inside_of_add_one hh))
  simp only [Deserializer.getLong]
  rw [getShort_ext w t loc h1]
  have e : (⟨w, (Deserializer.getShort ⟨w, loc⟩).2.loc_⟩ : Deserializer) =
      (Deserializer.getShort ⟨w, loc⟩).2 := rfl
  have := getShort_ext w t (Deserializer.getShort ⟨w, loc⟩).2.loc_ (by rw [e]; exact h2)
  rw [e] at this
  simp only [this]

theorem parseLabel_inside (w : List Nat) (k : Nat) :
    ∀ (loc : JSVal) (acc : JSString), (parseLabel k ⟨w, loc⟩ acc).2.inside = true →
      Deserializer.inside ⟨w, loc⟩ = true := by
  induction k with
  | zero => intro loc acc h; exact h
  | succ k ih =>
    intro loc acc h
    simp only [parseLabel] at h
    exact inside_of_add_one (ih _ _ h)

theorem parseLabel_ext (w t : List Nat) (k : Nat) :
    ∀ (loc : JSVal) (acc : JSString),
      (t = [] ∨ (parseLabel k ⟨w, loc⟩ acc).2.inside = true) →
      parseLabel k ⟨w ++ t, loc⟩ acc =
        ((parseLabel k ⟨w, loc⟩ acc).1, ⟨w ++ t, (parseLabel k ⟨w, loc⟩ acc).2.loc_⟩) := by
  induction k with
  | zero => intro loc acc _; rfl
  | succ k ih =>
    intro loc acc h
    have e : (⟨w, (Deserializer.getByte ⟨w, loc⟩).2.loc_⟩ : Deserializer) =
        (Deserializer.getByte ⟨w, loc⟩).2 := rfl
    have h1 : t = [] ∨ (Deserializer.getByte ⟨w, loc⟩).2.inside = true := by
      rcases h with h | h
      · exact Or.inl h
      · simp only [parseLabel] at h
        rw [← e] at h
        exact Or.inr (parseLabel_inside w k _ _ h)
    have h2 := ih (Deserializer.getByte ⟨w, loc⟩).2.loc_
      (acc ++ fromCharCode (Deserializer.getByte ⟨w, loc⟩).1) (by
        rcases h with h | h
        · exact Or.inl h
        · exact Or.inr h)
    rw [e] at h2
    simp only [parseLabel]
    rw [getByte_ext w t loc h1]
    exact h2

theorem subarray_ext (w t : List Nat) {i l : Int} (hi : 0 ≤ i) (hl : 0 ≤ l)
    (hle : i + l ≤ w.length) :
    subarray (w ++ t) (JSVal.num i) (JSVal.num (i + l)) =
      subarray w (JSVal.num i) (JSVal.num (i + l)) := by
  obtain ⟨a, rfl⟩ : ∃ a : Nat, i = (a : Int) := ⟨i.toNat, by omega⟩
  obtain ⟨c, rfl⟩ : ∃ c : Nat, l = (c : Int) := ⟨l.toNat, by omega⟩
  have hac : a + c ≤ w.length := by exact_mod_cast hle
  have e : ((a : Int) + (c : Int)) = ((a + c : Nat) : Int) := by push_cast; rfl
  simp only [subarray, JSVal.toInteger, e, clampIndex_nat, List.length_append]
  rw [Nat.min_eq_left (by omega), Nat.min_eq_left (by omega), Nat.min_eq_left (by omega),
    Nat.min_eq_left (by omega), List.drop_append_of_le_length (by omega),
    List.take_append_of_le_length (by simp; omega)]

theorem slice_ext (w t : List Nat) {loc len : JSVal}
    (hloc : ∀ i : Int, loc = JSVal.num i → 0 ≤ i) (hlen : ∀ i : Int, len = JSVal.num i → 0 ≤ i)
    (h : t = [] ∨ (Deserializer.slice ⟨w, loc⟩ len).2.inside = true) :
    Deserializer.slice ⟨w ++ t, loc⟩ len =
      ((Deserializer.slice ⟨w, loc⟩ len).1,
        ⟨w ++ t, (Deserializer.slice ⟨w, loc⟩ len).2.loc_⟩) := by
  rcases h with h | h
  · subst h
    rw [List.append_nil]
    rfl
  · simp only [Deserializer.slice] at h ⊢
    refine Prod.ext ?_ rfl
    rw [inside_iff] at h
    obtain ⟨j, hj, hle⟩ := h
    cases loc with
    | undefined => simp [JSVal.add] at hj
    | nan => simp [JSVal.add] at hj
    | num i =>
      cases len with
      | undefined => simp [JSVal.add] at hj
      | nan => simp [JSVal.add] at hj
      | num l =>
        simp only [JSVal.add, JSVal.num.injEq] at hj
        subst hj
        exact subarray_ext w t (hloc i rfl) (hlen l rfl) hle

theorem ext_of_flag {toEnd : Bool} {t : List Nat} {d : Deserializer}
    (ht : toEnd = false → t = []) (h : (!toEnd || d.inside) = true) :
    t = [] ∨ d.inside = true := by
  cases toEnd with
  | false => exact Or.inl (ht rfl)
  | true => exact Or.inr (by simpa using h)

theorem parseLabel_eta (k : Nat) (w : List Nat) (loc : JSVal) (acc : JSString) :
    (parseLabel k ⟨w, loc⟩ acc).2 = ⟨w, (parseLabel k ⟨w, loc⟩ acc).2.loc_⟩ := by
  have hv := parseLabel_view k ⟨w, loc⟩ acc
  cases hx : (parseLabel k ⟨w, loc⟩ acc).2 with
  | mk xv xl =>
    rw [hx] at hv
    simp only at hv
    rw [hv]

theorem name_ext (b e : List Nat) (fuel : Nat) :
    (∀ (toEnd : Bool) (w t : List Nat) (loc : JSVal) (parts : List JSString),
      (toEnd = false → t = []) → nameInside fuel toEnd ⟨b⟩ ⟨w, loc⟩ = true →
      parseNameLoop fuel ⟨b ++ e⟩ ⟨w ++ t, loc⟩ parts =
        (parseNameLoop fuel ⟨b⟩ ⟨w, loc⟩ parts).map (fun x => (x.1, ⟨w ++ t, x.2.loc_⟩))) ∧
    (∀ ref : JSVal, (∀ i : Int, ref = JSVal.num i → 0 ≤ i) →
      referenceInside fuel ⟨b⟩ ref = true →
      getNameFromReference fuel ⟨b ++ e⟩ ref = getNameFromReference fuel ⟨b⟩ ref) := by
  induction fuel with
  | zero =>
    refine ⟨fun toEnd w t loc parts _ _ => ?_, fun ref _ _ => ?_⟩
    · rw [parseNameLoop, parseNameLoop]
      rfl
    · rw [getNameFromReference, getNameFromReference]
  | succ f ih =>
    refine ⟨fun toEnd w t loc parts ht hok => ?_, fun ref hnn hok => ?_⟩
    · have e1 : (⟨w, (Deserializer.getByte ⟨w, loc⟩).2.loc_⟩ : Deserializer) =
          (Deserializer.getByte ⟨w, loc⟩).2 := rfl
      rw [nameInside] at hok
      simp only [Bool.and_eq_true] at hok
      obtain ⟨hin1, hok⟩ := hok
      have h1 := getByte_ext w t loc (ext_of_flag ht hin1)
      rw [parseNameLoop, parseNameLoop]
      simp only [h1]
      by_cases hz : (Deserializer.getByte ⟨w, loc⟩).1.truthy = true
      · simp only [hz, Bool.not_true, Bool.false_eq_true, if_false] at hok ⊢
        by_cases hc : (Deserializer.getByte ⟨w, loc⟩).1 = JSVal.num 0xc0
        · simp only [hc, if_true, Bool.and_eq_true] at hok ⊢
          obtain ⟨hin2, hokr⟩ := hok
          have h2 := getByte_ext w t (Deserializer.getByte ⟨w, loc⟩).2.loc_
            (by rw [e1]; exact ext_of_flag ht hin2)
          rw [e1] at h2
          simp only [h2]
          have hnn : ∀ i : Int,
              (Deserializer.getByte (Deserializer.getByte ⟨w, loc⟩).2).1 = JSVal.num i → 0 ≤ i :=
            elementGet_nonneg _ _
          rw [ih.2 (Deserializer.getByte (Deserializer.getByte ⟨w, loc⟩).2).1 hnn hokr]
          cases hres : getNameFromReference f ⟨b⟩
              (Deserializer.getByte (Deserializer.getByte ⟨w, loc⟩).2).1 with
          | none => rfl
          | some s => rfl
        · simp only [hc, if_false, Bool.and_eq_true] at hok ⊢
          obtain ⟨hin2, hokn⟩ := hok
          have e3 := parseLabel_eta (Deserializer.getByte ⟨w, loc⟩).1.iterations w
            (Deserializer.getByte ⟨w, loc⟩).2.loc_ []
          rw [e1] at e3
          have h3 := parseLabel_ext w t (Deserializer.getByte ⟨w, loc⟩).1.iterations
            (Deserializer.getByte ⟨w, loc⟩).2.loc_ [] (by rw [e1]; exact ext_of_flag ht hin2)
          rw [e1] at h3
          rw [e3] at hokn
          have h4 := ih.1 toEnd w t _ (parts ++ [(parseLabel
            (Deserializer.getByte ⟨w, loc⟩).1.iterations
            (Deserializer.getByte ⟨w, loc⟩).2 []).1]) ht hokn
          rw [h3]
          simp only
          rw [h4, ← e3]
      · simp only [hz, Bool.not_false, if_true]
        rfl
    · rw [referenceInside] at hok
      rw [getNameFromReference, getNameFromReference]
      simp only at hok ⊢
      have hsub : subarray b ref JSVal.undefined = b.drop (targetOffset b ref) :=
        subarray_targetOffset b ref
      by_cases hle : ref.toInteger.toNat ≤ b.length
      · have hoff : targetOffset b ref = ref.toInteger.toNat := by
          have h0 : 0 ≤ ref.toInteger := by
            cases ref with
            | undefined => simp [JSVal.toInteger]
            | nan => simp [JSVal.toInteger]
            | num i => exact hnn i rfl
          simp only [targetOffset, clampIndex]
          rw [if_neg (by omega), Nat.min_eq_left hle]
        have hoff' : targetOffset (b ++ e) ref = ref.toInteger.toNat := by
          have h0 : 0 ≤ ref.toInteger := by
            cases ref with
            | undefined => simp [JSVal.toInteger]
            | nan => simp [JSVal.toInteger]
            | num i => exact hnn i rfl
          simp only [targetOffset, clampIndex, List.length_append]
          rw [if_neg (by omega), Nat.min_eq_left (by omega)]
        have hsub' : subarray (b ++ e) ref JSVal.undefined =
            b.drop (targetOffset b ref) ++ e := by
          rw [subarray_targetOffset, hoff', hoff, List.drop_append_of_le_length hle]
        rw [hsub'] at *
        rw [hsub] at hok ⊢
        have h := ih.1 true (b.drop (targetOffset b ref)) e (JSVal.num 0) []
          (fun h => Bool.noConfusion h) hok
        have en : ∀ v : List Nat, Deserializer.new v = ⟨v, JSVal.num 0⟩ := fun _ => rfl
        rw [en, en, h]
        cases parseNameLoop f ⟨b⟩ ⟨b.drop (targetOffset b ref), JSVal.num 0⟩ [] <;> rfl
      · have hoff : targetOffset b ref = b.length := by
          have h0 : 0 ≤ ref.toInteger := by
            cases ref with
            | undefined => simp [JSVal.toInteger]
            | nan => simp [JSVal.toInteger]
            | num i => exact hnn i rfl
          simp only [targetOffset, clampIndex]
          rw [if_neg (by omega), Nat.min_eq_right (by omega)]
        rw [hsub, hoff, List.drop_length] at hok
        cases f with
        | zero =>
          rw [parseNameLoop, parseNameLoop]
        | succ f' =>
          exfalso
          rw [nameInside] at hok
          simp [Deserializer.new, Deserializer.getByte, Deserializer.inside, JSVal.add,
            JSVal.ge] at hok

theorem getShort_inside (d : Deserializer) (h : d.getShort.2.inside = true) :
    d.inside = true := by
  obtain ⟨w, loc⟩ := d
  exact inside_of_add_one (inside_of_add_one h)

theorem getLong_inside (d : Deserializer) (h : d.getLong.2.inside = true) :
    d.inside = true :=
  getShort_inside d (getShort_inside d.getShort.2 h)

theorem nonneg_of_beyondTwo {loc : JSVal} (h : BeyondTwo loc) :
    ∀ i : Int, loc = JSVal.num i → 0 ≤ i := by
  intro i hi
  have := h i hi
  omega

theorem parseName_ext (b e : List Nat) (fuel : Nat) (d : Deserializer) (hv : d.view_ = b)
    (hl : BeyondTwo d.loc_) (hok : nameInside fuel true ⟨b⟩ d = true) :
    parseName fuel ⟨b ++ e⟩ ⟨b ++ e, d.loc_⟩ =
        (parseName fuel ⟨b⟩ d).map (fun x => (x.1, ⟨b ++ e, x.2.loc_⟩)) ∧
      ∀ x, parseName fuel ⟨b⟩ d = some x → x.2.view_ = b ∧ BeyondTwo x.2.loc_ := by
  obtain ⟨w, loc⟩ := d
  simp only at hv hl
  subst hv
  refine ⟨(name_ext w e fuel).1 true w e loc [] (fun h => Bool.noConfusion h) hok,
    fun x hx => ?_⟩
  exact ⟨parseNameLoop_view _ _ _ _ _ hx, parseNameLoop_beyond _ _ _ _ _ hx hl⟩

theorem parseName_ext_section (b e : List Nat) (fuel : Nat) (d : Deserializer)
    (hok : nameInside fuel false ⟨b⟩ d = true) :
    (parseName fuel ⟨b ++ e⟩ d).map Prod.fst = (parseName fuel ⟨b⟩ d).map Prod.fst := by
  obtain ⟨w, loc⟩ := d
  have h := (name_ext b e fuel).1 false w [] loc [] (fun _ => rfl) hok
  rw [List.append_nil] at h
  simp only [parseName, h, Option.map_map]
  rfl

theorem parseDataSection_managers (m m' : RespLabelPtManager) (fuel : Nat) (ty : JSVal)
    (dt : List Nat) (r : DNSRecord)
    (hC : ty = JSVal.num RecordNumber.CNAME →
      (parseName fuel m' (Deserializer.new dt)).map Prod.fst =
        (parseName fuel m (Deserializer.new dt)).map Prod.fst)
    (hM : ty = JSVal.num RecordNumber.MX →
      (parseName fuel m' (Deserializer.new dt).getShort.2).map Prod.fst =
        (parseName fuel m (Deserializer.new dt).getShort.2).map Prod.fst) :
    parseDataSection fuel m' ty dt (r.setLblPointManager m') =
      (parseDataSection fuel m ty dt r).map (fun x => x.setLblPointManager m') := by
  by_cases hA : ty = JSVal.num RecordNumber.A
  · simp only [parseDataSection, hA, if_true]
    rfl
  by_cases hAAAA : ty = JSVal.num RecordNumber.AAAA
  · simp only [parseDataSection, hA, hAAAA, if_true, if_false, parseNibbles_manager]
    rfl
  by_cases hCN : ty = JSVal.num RecordNumber.CNAME
  · have h := hC hCN
    simp only [parseDataSection, hA, hAAAA, hCN, if_true, if_false]
    cases h1 : parseName fuel m (Deserializer.new dt) with
    | none =>
      rw [h1] at h
      cases h2 : parseName fuel m' (Deserializer.new dt) with
      | none => rfl
      | some x => rw [h2] at h; exact Option.noConfusion h
    | some x =>
      rw [h1] at h
      cases h2 : parseName fuel m' (Deserializer.new dt) with
      | none => rw [h2] at h; exact Option.noConfusion h
      | some y =>
        rw [h2] at h
        simp only [Option.map, Option.some.injEq] at h
        simp only [Option.map, h]
        rfl
  by_cases hT : ty = JSVal.num RecordNumber.TXT
  · simp only [parseDataSection, hA, hAAAA, hCN, hT, if_true, if_false]
    rfl
  by_cases hMX : ty = JSVal.num RecordNumber.MX
  · have h := hM hMX
    simp only [parseDataSection, hA, hAAAA, hCN, hT, hMX, if_true, if_false]
    cases h1 : parseName fuel m (Deserializer.new dt).getShort.2 with
    | none =>
      rw [h1] at h
      cases h2 : parseName fuel m' (Deserializer.new dt).getShort.2 with
      | none => rfl
      | some x => rw [h2] at h; exact Option.noConfusion h
    | some x =>
      rw [h1] at h
      cases h2 : parseName fuel m' (Deserializer.new dt).getShort.2 with
      | none => rw [h2] at h; exact Option.noConfusion h
      | some y =>
        rw [h2] at h
        simp only [Option.map, Option.some.injEq] at h
        simp only [Option.map, h]
        rfl
  · simp only [parseDataSection, hA, hAAAA, hCN, hT, hMX, if_false]
    rfl

theorem getShort_ext_main (b e : List Nat) (d : Deserializer) (hv : d.view_ = b)
    (hl : BeyondTwo d.loc_) (hin : d.getShort.2.inside = true) :
    Deserializer.getShort ⟨b ++ e, d.loc_⟩ = (d.getShort.1, ⟨b ++ e, d.getShort.2.loc_⟩) ∧
      d.getShort.2.view_ = b ∧ BeyondTwo d.getShort.2.loc_ := by
  obtain ⟨w, loc⟩ := d
  simp only at hv hl
  subst hv
  exact ⟨getShort_ext w e loc (Or.inr hin), rfl, beyondTwo_add_one (beyondTwo_add_one hl)⟩

theorem getLong_ext_main (b e : List Nat) (d : Deserializer) (hv : d.view_ = b)
    (hl : BeyondTwo d.loc_) (hin : d.getLong.2.inside = true) :
    Deserializer.getLong ⟨b ++ e, d.loc_⟩ = (d.getLong.1, ⟨b ++ e, d.getLong.2.loc_⟩) ∧
      d.getLong.2.view_ = b ∧ BeyondTwo d.getLong.2.loc_ := by
  obtain ⟨w, loc⟩ := d
  simp only at hv hl
  subst hv
  exact ⟨getLong_ext w e loc (Or.inr hin), rfl,
    beyondTwo_add_one (beyondTwo_add_one (beyondTwo_add_one (beyondTwo_add_one hl)))⟩

theorem slice_ext_main (b e : List Nat) (d : Deserializer) (hv : d.view_ = b)
    (hl : BeyondTwo d.loc_) (len : JSVal) (hlen : ∀ i : Int, len = JSVal.num i → 0 ≤ i)
    (hin : (d.slice len).2.inside = true) :
    Deserializer.slice ⟨b ++ e, d.loc_⟩ len = ((d.slice len).1, ⟨b ++ e, (d.slice len).2.loc_⟩) ∧
      (d.slice len).2.view_ = b ∧ BeyondTwo (d.slice len).2.loc_ := by
  obtain ⟨w, loc⟩ := d
  simp only at hv hl
  subst hv
  exact ⟨slice_ext w e (nonneg_of_beyondTwo hl) hlen (Or.inr hin), rfl, beyondTwo_add hl hlen⟩

theorem readQuestion_ext (b e : List Nat) (fuel : Nat) (d : Deserializer) (hv : d.view_ = b)
    (hl : BeyondTwo d.loc_) (hok : questionInside fuel ⟨b⟩ d = true) :
    readQuestion fuel ⟨b ++ e⟩ ⟨b ++ e, d.loc_⟩ =
        (readQuestion fuel ⟨b⟩ d).map
          (fun x => (x.1.setLblPointManager ⟨b ++ e⟩, ⟨b ++ e, x.2.loc_⟩)) ∧
      ∀ x, readQuestion fuel ⟨b⟩ d = some x → x.2.view_ = b ∧ BeyondTwo x.2.loc_ := by
  simp only [questionInside, Bool.and_eq_true] at hok
  obtain ⟨hokn, hokd⟩ := hok
  have hn := parseName_ext b e fuel d hv hl hokn
  simp only [readQuestion, hn.1]
  cases hp : parseName fuel ⟨b⟩ d with
  | none => exact ⟨rfl, fun x hx => Option.noConfusion hx⟩
  | some nd =>
    obtain ⟨name, d1⟩ := nd
    obtain ⟨hv1, hl1⟩ := hn.2 _ hp
    rw [hp] at hokd
    simp only at hokd
    have a2 := getShort_ext_main b e d1 hv1 hl1 (getShort_inside _ hokd)
    have a3 := getShort_ext_main b e d1.getShort.2 a2.2.1 a2.2.2 hokd
    simp only [Option.map, a2.1, a3.1]
    refine ⟨rfl, fun x hx => ?_⟩
    simp only [Option.some.injEq] at hx
    rw [← hx]
    exact ⟨a3.2.1, a3.2.2⟩

theorem readRecord_ext (b e : List Nat) (hb : ∀ x ∈ b.drop 2, x < 256) (fuel : Nat)
    (d : Deserializer) (hv : d.view_ = b) (hl : BeyondTwo d.loc_)
    (hok : recordInside fuel ⟨b⟩ d = true) :
    readRecord fuel ⟨b ++ e⟩ ⟨b ++ e, d.loc_⟩ =
        (readRecord fuel ⟨b⟩ d).map
          (fun x => (x.1.setLblPointManager ⟨b ++ e⟩, ⟨b ++ e, x.2.loc_⟩)) ∧
      ∀ x, readRecord fuel ⟨b⟩ d = some x → x.2.view_ = b ∧ BeyondTwo x.2.loc_ := by
  simp only [recordInside, Bool.and_eq_true] at hok
  obtain ⟨hokn, hokd⟩ := hok
  have hn := parseName_ext b e fuel d hv hl hokn
  simp only [readRecord, hn.1]
  cases hp : parseName fuel ⟨b⟩ d with
  | none => exact ⟨rfl, fun x hx => Option.noConfusion hx⟩
  | some nd =>
    obtain ⟨recName, d1⟩ := nd
    obtain ⟨hv1, hl1⟩ := hn.2 _ hp
    rw [hp] at hokd
    simp only [Bool.and_eq_true] at hokd
    obtain ⟨⟨hin5, hin6⟩, hsec⟩ := hokd
    have hin4 := getShort_inside _ hin5
    have hin3 := getLong_inside _ hin4
    have hin2 := getShort_inside _ hin3
    have a2 := getShort_ext_main b e d1 hv1 hl1 hin2
    have a3 := getShort_ext_main b e d1.getShort.2 a2.2.1 a2.2.2 hin3
    have a4 := getLong_ext_main b e d1.getShort.2.getShort.2 a3.2.1 a3.2.2 hin4
    have a5 := getShort_ext_main b e d1.getShort.2.getShort.2.getLong.2 a4.2.1 a4.2.2 hin5
    have hlen : ∀ i : Int, d1.getShort.2.getShort.2.getLong.2.getShort.1 = JSVal.num i →
        0 ≤ i := by
      have hd4 : d1.getShort.2.getShort.2.getLong.2 =
          ⟨b, d1.getShort.2.getShort.2.getLong.2.loc_⟩ := by
        have := a4.2.1
        cases hx : d1.getShort.2.getShort.2.getLong.2 with
        | mk xv xl =>
          rw [hx] at this
          simp only at this
          rw [this]
      rw [hd4]
      exact getShort_nonneg hb a4.2.2
    have a6 := slice_ext_main b e d1.getShort.2.getShort.2.getLong.2.getShort.2 a5.2.1 a5.2.2
      d1.getShort.2.getShort.2.getLong.2.getShort.1 hlen hin6
    have hpd := parseDataSection_managers ⟨b⟩ ⟨b ++ e⟩ fuel d1.getShort.1
      (d1.getShort.2.getShort.2.getLong.2.getShort.2.slice
        d1.getShort.2.getShort.2.getLong.2.getShort.1).1
      (((newRecordOfType d1.getShort.1 recName d1.getShort.2.getShort.1
        d1.getShort.2.getShort.2.getLong.1
        (d1.getShort.2.getShort.2.getLong.2.getShort.2.slice
          d1.getShort.2.getShort.2.getLong.2.getShort.1).1).setLblPointManager ⟨b⟩).setData
        (DataTxt.binary (d1.getShort.2.getShort.2.getLong.2.getShort.2.slice
          d1.getShort.2.getShort.2.getLong.2.getShort.1).1))
      (fun hC => by
        rw [if_pos hC] at hsec
        exact parseName_ext_section b e fuel _ hsec)
      (fun hM => by
        have hC : ¬ d1.getShort.1 = JSVal.num RecordNumber.CNAME := by
          rw [hM]
          decide
        rw [if_neg hC, if_pos hM] at hsec
        exact parseName_ext_section b e fuel _ hsec)
    have e' : ∀ (x : DNSRecord) (y : DataTxt),
        (x.setLblPointManager ⟨b ++ e⟩).setData y =
          ((x.setLblPointManager ⟨b⟩).setData y).setLblPointManager ⟨b ++ e⟩ := fun _ _ => rfl
    simp only [Option.map, a2.1, a3.1, a4.1, a5.1, a6.1]
    rw [e', hpd]
    cases hr : parseDataSection fuel ⟨b⟩ d1.getShort.1
        (d1.getShort.2.getShort.2.getLong.2.getShort.2.slice
          d1.getShort.2.getShort.2.getLong.2.getShort.1).1
        (((newRecordOfType d1.getShort.1 recName d1.getShort.2.getShort.1
          d1.getShort.2.getShort.2.getLong.1
          (d1.getShort.2.getShort.2.getLong.2.getShort.2.slice
            d1.getShort.2.getShort.2.getLong.2.getShort.1).1).setLblPointManager ⟨b⟩).setData
          (DataTxt.binary (d1.getShort.2.getShort.2.getLong.2.getShort.2.slice
            d1.getShort.2.getShort.2.getLong.2.getShort.1).1)) with
    | none => exact ⟨rfl, fun x hx => Option.noConfusion hx⟩
    | some r3 =>
      refine ⟨rfl, fun x hx => ?_⟩
      simp only [Option.some.injEq] at hx
      rw [← hx]
      exact ⟨a6.2.1, a6.2.2⟩

theorem decodeResponse_ext (b e : List Nat) (hb : ∀ x ∈ b.drop 2, x < 256) (fuel : Nat)
    (hok : packetInside fuel b = true) :
    decodeResponse fuel (b ++ e) =
      (decodeResponse fuel b).map (fun p => p.withManager ⟨b ++ e⟩) := by
  simp only [packetInside, Bool.and_eq_true, decide_eq_true_eq] at hok
  obtain ⟨h12, hok⟩ := hok
  have e0 : (Deserializer.new b).getShort.2 = ⟨b, JSVal.num ((0 + 2 : Nat) : Int)⟩ :=
    getShort_loc b 0
  have e0' : (Deserializer.new (b ++ e)).getShort.2 =
      ⟨b ++ e, JSVal.num ((0 + 2 : Nat) : Int)⟩ := getShort_loc (b ++ e) 0
  have hl1 : BeyondTwo (Deserializer.new b).getShort.2.loc_ := by
    rw [e0]
    intro i hi
    simp only [JSVal.num.injEq] at hi
    omega
  have hv1 : (Deserializer.new b).getShort.2.view_ = b := by rw [e0]
  have e1 : (Deserializer.new (b ++ e)).getShort.2 =
      ⟨b ++ e, (Deserializer.new b).getShort.2.loc_⟩ := by
    rw [e0, e0']
  have hin6 : (Deserializer.new
      b).getShort.2.getShort.2.getShort.2.getShort.2.getShort.2.getShort.2.inside = true := by
    simp only [Deserializer.new_eq, getShort_loc, Deserializer.inside, JSVal.ge,
      decide_eq_true_eq]
    exact_mod_cast h12
  have hin5 := getShort_inside _ hin6
  have hin4 := getShort_inside _ hin5
  have hin3 := getShort_inside _ hin4
  have hin2 := getShort_inside _ hin3
  have a2 := getShort_ext_main b e _ hv1 hl1 hin2
  have a3 := getShort_ext_main b e _ a2.2.1 a2.2.2 hin3
  have a4 := getShort_ext_main b e _ a3.2.1 a3.2.2 hin4
  have a5 := getShort_ext_main b e _ a4.2.1 a4.2.2 hin5
  have a6 := getShort_ext_main b e _ a5.2.1 a5.2.2 hin6
  have hq := fun d hv hl h => readQuestion_ext b e fuel d hv hl h
  have hr := fun d hv hl h => readRecord_ext b e hb fuel d hv hl h
  have enew : ∀ flags : JSVal,
      (DNSPacket.new flags).withManager ⟨b ++ e⟩ = DNSPacket.new flags := fun _ => rfl
  simp only [packetChecks, Bool.and_eq_true, questionLoop_eq, sectionLoop_eq] at hok
  simp only [decodeResponse, DNSPacketDeserializer.deserializePacket, DNSPacketDeserializer.new,
    questionLoop_eq, sectionLoop_eq, e1, a2.1, a3.1, a4.1, a5.1, a6.1]
  obtain ⟨hok1, hok2⟩ := hok
  have q1 := recordLoop_agree (readQuestion fuel ⟨b⟩) (readQuestion fuel ⟨b ++ e⟩)
    (questionInside fuel ⟨b⟩) hq PacketSection.QUESTION _ _
    (DNSPacket.new (Deserializer.new b).getShort.2.getShort.1) a6.2.1 a6.2.2 hok1
  rw [enew] at q1
  rw [q1.1]
  cases h1 : recordLoop (readQuestion fuel ⟨b⟩) PacketSection.QUESTION
      (Deserializer.new b).getShort.2.getShort.2.getShort.1.iterations
      (Deserializer.new b).getShort.2.getShort.2.getShort.2.getShort.2.getShort.2.getShort.2
      (DNSPacket.new (Deserializer.new b).getShort.2.getShort.1) with
  | none => rfl
  | some x1 =>
    obtain ⟨p1, d7⟩ := x1
    obtain ⟨hv7, hl7⟩ := q1.2 _ h1
    rw [h1] at hok2
    simp only [Bool.and_eq_true] at hok2
    obtain ⟨hok3, hok4⟩ := hok2
    have q2 := recordLoop_agree (readRecord fuel ⟨b⟩) (readRecord fuel ⟨b ++ e⟩)
      (recordInside fuel ⟨b⟩) hr PacketSection.ANSWER _ d7 p1 hv7 hl7 hok3
    simp only [Option.map]
    rw [q2.1]
    cases h2 : recordLoop (readRecord fuel ⟨b⟩) PacketSection.ANSWER
        (Deserializer.new b).getShort.2.getShort.2.getShort.2.getShort.1.iterations d7 p1 with
    | none => rfl
    | some x2 =>
      obtain ⟨p2, d8⟩ := x2
      obtain ⟨hv8, hl8⟩ := q2.2 _ h2
      rw [h2] at hok4
      simp only [Bool.and_eq_true] at hok4
      obtain ⟨hok5, hok6⟩ := hok4
      have q3 := recordLoop_agree (readRecord fuel ⟨b⟩) (readRecord fuel ⟨b ++ e⟩)
        (recordInside fuel ⟨b⟩) hr PacketSection.AUTHORITY _ d8 p2 hv8 hl8 hok5
      simp only [Option.map]
      rw [q3.1]
      cases h3 : recordLoop (readRecord fuel ⟨b⟩) PacketSection.AUTHORITY
          (Deserializer.new b).getShort.2.getShort.2.getShort.2.getShort.2.getShort.1.iterations
          d8 p2 with
      | none => rfl
      | some x3 =>
        obtain ⟨p3, d9⟩ := x3
        obtain ⟨hv9, hl9⟩ := q3.2 _ h3
        rw [h3] at hok6
        simp only at hok6
        have q4 := recordLoop_agree (readRecord fuel ⟨b⟩) (readRecord fuel ⟨b ++ e⟩)
          (recordInside fuel ⟨b⟩) hr PacketSection.ADDITIONAL _ d9 p3 hv9 hl9 hok6
        simp only [Option.map]
        rw [q4.1]
        cases h4 : recordLoop (readRecord fuel ⟨b⟩) PacketSection.ADDITIONAL
            (Deserializer.new
              b).getShort.2.getShort.2.getShort.2.getShort.2.getShort.2.getShort.1.iterations
            d9 p3 with
        | none => rfl
        | some x4 => rfl

/-- C31: trailing data is not fatal and does not influence the result. For
every byte buffer b whose decode reads no byte past the end of b (the header,
the names with the names that they refer to, the fixed fields and the data
sections all lie inside b) and every byte sequence e, decoding b followed by e
gives the same result as decoding b: nothing for both, or packets with the
same flags and the same records in every section (their references to the
label manager object apart); and the decode of b followed by e returns as
soon as name resolution in b ends within `F` steps from every offset. -/
theorem trailing_data_ignored (fuel : Nat) (b e : List Nat) (hb : ∀ x ∈ b, x < 256)
    (hin : packetInside fuel b = true) :
    (decodeResponse fuel (b ++ e)).map DNSPacket.content =
      (decodeResponse fuel b).map DNSPacket.content ∧
    (∀ F : Nat, ResolvesWithin F ⟨b⟩ → b.length + F + 2 ≤ fuel →
      ∃ p, decodeResponse fuel (b ++ e) = some p) := by
  have hmain := decodeResponse_ext b e (fun x hx => hb x (List.mem_of_mem_drop hx)) fuel hin
  constructor
  · rw [hmain, Option.map_map]
    congr 1
    funext p
    exact content_withManager p _
  · intro F hterm hfuel
    obtain ⟨pd, hpd⟩ := deserializePacket_total b hterm hfuel
    have hshape : ∃ p, pd.deserializedPacket_ = some p := by
      simp only [DNSPacketDeserializer.deserializePacket] at hpd
      split at hpd
      · exact Option.noConfusion hpd
      · split at hpd
        · exact Option.noConfusion hpd
        · split at hpd
          · exact Option.noConfusion hpd
          · split at hpd
            · exact Option.noConfusion hpd
            · injection hpd with hpd
              rw [← hpd]
              exact ⟨_, rfl⟩
    obtain ⟨p, hp⟩ := hshape
    have hdec : decodeResponse fuel b = some p := by
      simp only [decodeResponse, hpd, DNSPacketDeserializer.getDeserializedPacket, hp]
    rw [hmain, hdec]
    exact ⟨_, rfl⟩

set_option maxHeartbeats 4000000 in
/-- C31 on `aResponse`, whose answer name is a pointer to offset 12, followed
by the three bytes 9 9 9: the decoded packet is the same, one question and one
answer for the name 'a'. -/
theorem trailing_data_ignored_witness :
    (∀ x ∈ aResponse, x < 256) ∧ packetInside 10 aResponse = true ∧
    (decodeResponse 10 (aResponse ++ [9, 9, 9])).map DNSPacket.content =
      (decodeResponse 10 aResponse).map DNSPacket.content ∧
    (decodeResponse 10 (aResponse ++ [9, 9, 9])).map
        (fun p => (p.qd.map DNSRecord.getName, p.an.map DNSRecord.getName)) =
      some ([str "a"], [str "a"]) :=
  have hb : ∀ x ∈ aResponse, x < 256 := by decide
  have hok : packetInside 10 aResponse = true := by decide!
  ⟨hb, hok, (trailing_data_ignored 10 aResponse [9, 9, 9] hb hok).1, by decide!⟩

/-- A data section that is announced longer than the buffer is a read past the
end: `cutResponse` announces four data bytes and holds two (192 and 0), so
`packetInside` is false on it, and with the two bytes 2 1 appended the decoded
address is another one. -/
theorem cut_data_section_depends_on_trailing_data :
    packetInside 35 cutResponse = false ∧
    (decodeResponse 35 cutResponse).map (fun p => p.an.map DNSRecord.getIp) =
      some [some (str "192.0")] ∧
    (decodeResponse 35 (cutResponse ++ [2, 1])).map (fun p => p.an.map DNSRecord.getIp) =
      some [some (str "192.0.2.1")] := by
  decide!

end ndebug
